import Mathlib

/-!
# Ship-field engine and judge of itmournament

Shallow embedding of `internal/game/field/ship_field.go` and `field.go`, and of the judge:
`internal/judge/judge.go`, `match.go`, `mock.go` with the parts of `internal/game/player.go`
and `player_ext.go` they use, of the docker player (`internal/docker/player.go` with the
error types of `runner.go`), of the stdout reader of `internal/docker/utils.go` and of the
stopwatch of `internal/utils/stopwatch.go`.

* Go `int64` values are modelled as `Int`; every `int64` operation that can leave the
  64-bit range is followed by `wrap64` (two's complement truncation), every `int8`
  conversion by `wrap8`.
* `shipData` (Go `uint8`) is `Fin 256`.
* The swiss map `ships` is an association list; `Put` overwrites the value of a key that is
  present and appends a new entry otherwise.
* A call that does not return normally (a runtime panic on a negative shift count, or a scan
  loop that never exits) is `none`.
* A Go `error` is a tree of causes (`GoError`), `errors.Is` a search in that tree; the nil
  error is `none`.
* A player is a function from the commands sent so far to the reply and error of the last
  one; the functions of package `fmt` are a parameter (`Fmt`) of the round.
* A run of the judge ends as `Run.done` with its value, as `Run.crash` for a panic, or as
  `Run.fuelOut` when the shot loop of a round has not ended within the given number of shots.
* A container is given by the results of its `Write`, `Scan` and `ReadFile` calls after the
  commands sent so far; `ParseShips` works on the lines of the dump, the scan of one line
  by `fmt.Sscanf` being a parameter.
* The two scans whose accepted texts matter, `fmt.Sscanf(resp, "%d", &v)` of `SendScanf` and
  `fmt.Sscanf(line, "%d %c %d %d", ...)` of `ParseShips`, are modelled after `fmt/scan.go`
  of the Go standard library, on the runes of the text (`SscanfInt`, `SscanfShip`): they
  stand for the parameters above in the statements about the replies and the lines that
  are accepted. A text is a list of runes, and every error of a scan is `none`.
* The stream the stdout reader reads from is a list of runs of bytes, a run being what one
  `Read` of the buffered reader finds available.
* The stopwatch is a state machine over an explicit clock: a call and the reaction of the
  worker goroutine to it are one step, and the worker acts on an expired timer before the
  next call; which of two events at the same instant wins is a parameter (`tie`).
-/

namespace Field

/-! ## Machine integers -/

/-- Truncation of an integer to Go `int64` (two's complement). -/
def wrap64 (n : Int) : Int :=
  (n + 9223372036854775808) % 18446744073709551616 - 9223372036854775808

/-- Truncation of an integer to Go `int8` (two's complement). -/
def wrap8 (n : Int) : Int :=
  (n + 128) % 256 - 128

/-- The value is representable as a Go `int64`. -/
def IsInt64 (n : Int) : Prop :=
  -9223372036854775808 ≤ n ∧ n < 9223372036854775808

instance (n : Int) : Decidable (IsInt64 n) := by
  unfold IsInt64; infer_instance

/-- The integers `lo, lo+1, ..., hi` visited by `for v := lo; v <= hi; v++` (empty when
`hi < lo`). Every loop of this shape in the field engine has `hi` below the largest
`int64`, so `v++` never wraps. -/
def intRange (lo hi : Int) : List Int :=
  (List.range (hi + 1 - lo).toNat).map (fun (k : Nat) => lo + (k : Int))

/-! ## Data model (`field.go`) -/

/-- Go `type ShootResult int` with constants `Miss`, `Hit`, `Kill`. -/
inductive ShootResult where
  | Miss
  | Hit
  | Kill
  deriving DecidableEq, Repr

/-- Go `[4]int64`: entry `i` is the number of ships of length `i+1`. -/
structure SizeCounts where
  c0 : Int
  c1 : Int
  c2 : Int
  c3 : Int
  deriving DecidableEq, Repr

/-- Array read `a[i]`; the engine only uses indices `0..3`. -/
def SizeCounts.get (a : SizeCounts) (i : Int) : Int :=
  if i = 0 then a.c0 else if i = 1 then a.c1 else if i = 2 then a.c2 else a.c3

/-- Array write `a[i] = v`; the engine only uses indices `0..3`. -/
def SizeCounts.set (a : SizeCounts) (i : Int) (v : Int) : SizeCounts :=
  if i = 0 then { a with c0 := v }
  else if i = 1 then { a with c1 := v }
  else if i = 2 then { a with c2 := v }
  else { a with c3 := v }

/-- Go `type Configuration struct { W, H int64; Sizes [4]int64 }`. -/
structure Configuration where
  W : Int
  H : Int
  Sizes : SizeCounts
  deriving DecidableEq, Repr

/-- Go `type Ship struct { X, Y int64; Size int8; IsVert bool }`. -/
structure Ship where
  X : Int
  Y : Int
  Size : Int
  IsVert : Bool
  deriving DecidableEq, Repr

/-! ## Compact ship descriptor (`ship_field.go`) -/

/-- Go `type shipData uint8`, laid out as `1:IsVert:Size:Cells`. -/
abbrev shipData := Fin 256

/-- Go `newShipData(isVert, size)`. `Load` and `ResetShots` only pass sizes `1..4`. -/
def newShipData (isVert : Bool) (size : Int) : shipData :=
  let bits : Nat := ((((size % 256).toNat + 255) % 256) <<< 4) % 256
  let bits : Nat := bits ||| (((15 <<< size.toNat) % 256) &&& 15)
  if isVert then ⟨(192 ||| bits) % 256, Nat.mod_lt _ (by decide)⟩
  else ⟨(128 ||| bits) % 256, Nat.mod_lt _ (by decide)⟩

/-- Go `shipData.IsVert`. -/
def IsVert (c : shipData) : Bool :=
  decide (((c.val >>> 6) &&& 1) ≠ 0)

/-- Go `shipData.IsHor`. -/
def IsHor (c : shipData) : Bool :=
  !(IsVert c)

/-- Go `shipData.Size`. -/
def Size (c : shipData) : Int :=
  (((c.val >>> 4) &&& 3 : Nat) : Int) + 1

/-- Go `shipData.MarkHit(idx)`: `*c |= (1 << idx)`. A negative shift count is a runtime
panic (`none`); a count of 8 or more shifts the bit out of the byte. -/
def MarkHit (c : shipData) (idx : Int) : Option shipData :=
  if idx < 0 then none
  else some ⟨(c.val ||| ((1 <<< idx.toNat) % 256)) % 256, Nat.mod_lt _ (by decide)⟩

/-- Go `shipData.IsDead`. -/
def IsDead (c : shipData) : Bool :=
  decide ((c.val &&& 15) = 15)

/-! ## The origin map -/

/-- Go `ships.Get(pos)`. -/
def Get : List (Int × shipData) → Int → Option shipData
  | [], _ => none
  | (k, v) :: m, pos => if k = pos then some v else Get m pos

/-- Go `ships.Has(pos)`. -/
def Has (m : List (Int × shipData)) (pos : Int) : Bool :=
  (Get m pos).isSome

/-- Go `ships.Put(pos, v)`. -/
def Put : List (Int × shipData) → Int → shipData → List (Int × shipData)
  | [], pos, v => [(pos, v)]
  | (k, w) :: m, pos, v => if k = pos then (k, v) :: m else (k, w) :: Put m pos v

/-- Go `type intersection struct`. -/
structure intersection where
  shipPos : Int
  shipData : shipData
  deck : Int
  deriving DecidableEq

/-- Go `type ShipField struct`. -/
structure ShipField where
  ships : List (Int × shipData)
  conf : Configuration
  currConfig : Configuration
  deriving DecidableEq

/-- Go `NewShipField`: an empty map and zero-valued configurations. -/
def NewShipField : ShipField :=
  { ships := [], conf := ⟨0, 0, ⟨0, 0, 0, 0⟩⟩, currConfig := ⟨0, 0, ⟨0, 0, 0, 0⟩⟩ }

/-- Go `makePos`: `packedPos(x*f.conf.H + y)` in `int64` arithmetic. -/
def makePos (f : ShipField) (x y : Int) : Int :=
  wrap64 (wrap64 (x * f.conf.H) + y)

/-- Go `hitShip`. -/
def hitShip (f : ShipField) (ship : shipData) (pos : Int) (idx : Int) :
    Option (ShipField × ShootResult) :=
  if IsDead ship then some (f, ShootResult.Kill)
  else
    match MarkHit ship idx with
    | none => none
    | some ship1 =>
      let f1 : ShipField := { f with ships := Put f.ships pos ship1 }
      if IsDead ship1 then
        some ({ f1 with
                currConfig := { f1.currConfig with
                  Sizes := f1.currConfig.Sizes.set (Size ship1 - 1)
                    (wrap64 (f1.currConfig.Sizes.get (Size ship1 - 1) - 1)) } },
              ShootResult.Kill)
      else some (f1, ShootResult.Hit)

/-- Body of the loop of Go `scanIntersectionsLeft`, `i` being the `int8` loop variable and
`bound` the value `int8(min(3, x))`. The map is not modified by the loop, so a loop that has
not exited after 256 iterations has seen every value of `i` and never exits: `none`. -/
def scanLeftLoop (f : ShipField) (x y bound : Int) : Nat → Int → Option (Option intersection)
  | 0, _ => none
  | fuel + 1, i =>
    if i ≤ bound then
      let pos := makePos f (wrap64 (x - i)) y
      match Get f.ships pos with
      | some ship =>
        if IsHor ship then
          if Size ship ≤ i then scanLeftLoop f x y bound fuel (wrap8 (i + 1))
          else some (some ⟨pos, ship, i⟩)
        else scanLeftLoop f x y bound fuel (wrap8 (i + 1))
      | none => scanLeftLoop f x y bound fuel (wrap8 (i + 1))
    else some none

/-- Go `scanIntersectionsLeft`. -/
def scanIntersectionsLeft (f : ShipField) (x y : Int) : Option (Option intersection) :=
  scanLeftLoop f x y (wrap8 (min 3 x)) 256 1

/-- Body of the loop of Go `scanIntersectionsUp` (see `scanLeftLoop`). -/
def scanUpLoop (f : ShipField) (x y bound : Int) : Nat → Int → Option (Option intersection)
  | 0, _ => none
  | fuel + 1, i =>
    if i ≤ bound then
      let pos := makePos f x (wrap64 (y - i))
      match Get f.ships pos with
      | some ship =>
        if IsVert ship then
          if Size ship ≤ i then scanUpLoop f x y bound fuel (wrap8 (i + 1))
          else some (some ⟨pos, ship, i⟩)
        else scanUpLoop f x y bound fuel (wrap8 (i + 1))
      | none => scanUpLoop f x y bound fuel (wrap8 (i + 1))
    else some none

/-- Go `scanIntersectionsUp`. -/
def scanIntersectionsUp (f : ShipField) (x y : Int) : Option (Option intersection) :=
  scanUpLoop f x y (wrap8 (min 3 y)) 256 1

/-- The `found` result of a scan, as the overlap checks read it. The checks call the scans
with a non-negative scanned coordinate, for which the scan always returns. -/
def scanFound (r : Option (Option intersection)) : Bool :=
  match r with
  | some (some _) => true
  | _ => false

/-- Go `checkInnerOverlaps`. -/
def checkInnerOverlaps (f : ShipField) (ship : Ship) : Bool :=
  let minX := max 0 (wrap64 (ship.X - 1))
  let minY := max 0 (wrap64 (ship.Y - 1))
  let maxX :=
    if ship.IsVert then min (wrap64 (f.conf.W - 1)) (wrap64 (ship.X + 1))
    else min (wrap64 (f.conf.W - 1)) (wrap64 (ship.X + ship.Size))
  let maxY :=
    if ship.IsVert then min (wrap64 (f.conf.H - 1)) (wrap64 (ship.Y + ship.Size))
    else min (wrap64 (f.conf.H - 1)) (wrap64 (ship.Y + 1))
  (intRange minX maxX).any (fun x =>
    (intRange minY maxY).any (fun y => Has f.ships (makePos f x y)))

/-- Go `checkOuterLeftOverlaps`. -/
def checkOuterLeftOverlaps (f : ShipField) (ship : Ship) : Bool :=
  let x := max 0 (wrap64 (ship.X - 1))
  let minY := max 0 (wrap64 (ship.Y - 1))
  let maxY :=
    if ship.IsVert then min (wrap64 (f.conf.H - 1)) (wrap64 (ship.Y + ship.Size))
    else min (wrap64 (f.conf.H - 1)) (wrap64 (ship.Y + 1))
  (intRange minY maxY).any (fun y => scanFound (scanIntersectionsLeft f x y))

/-- Go `checkOuterUpOverlaps`. -/
def checkOuterUpOverlaps (f : ShipField) (ship : Ship) : Bool :=
  let y := max 0 (wrap64 (ship.Y - 1))
  let minX := max 0 (wrap64 (ship.X - 1))
  let maxX :=
    if ship.IsVert then min (wrap64 (f.conf.W - 1)) (wrap64 (ship.X + 1))
    else min (wrap64 (f.conf.W - 1)) (wrap64 (ship.X + ship.Size))
  (intRange minX maxX).any (fun x => scanFound (scanIntersectionsUp f x y))

/-- The errors `Load` can return, one per `errors.New` in the source. -/
inductive LoadError where
  | invalidFieldSize
  | invalidShipSize
  | outOfBounds
  | shipsOverlap
  | countMismatch
  deriving DecidableEq, Repr

/-- The bounds test of Go `Load` for one ship (`true` means "ship out of bounds"). -/
def outOfBounds (conf : Configuration) (ship : Ship) : Bool :=
  if ship.IsVert then
    decide (ship.X ≥ conf.W) || decide (wrap64 (ship.Y + ship.Size) > conf.H)
  else
    decide (ship.Y ≥ conf.H) || decide (wrap64 (ship.X + ship.Size) > conf.W)

/-- The `for ship := range ships` loop of Go `Load`, carrying the field and `cellCounts`.
`cellCounts[...]++` is exact: wrapping it would take 2^63 ships. -/
def loadShips (conf : Configuration) :
    ShipField → SizeCounts → List Ship → ShipField × SizeCounts × Option LoadError
  | f, cellCounts, [] => (f, cellCounts, none)
  | f, cellCounts, ship :: rest =>
    if ship.Size ≤ 0 ∨ ship.Size > 4 then (f, cellCounts, some LoadError.invalidShipSize)
    else if outOfBounds conf ship then (f, cellCounts, some LoadError.outOfBounds)
    else if checkInnerOverlaps f ship || checkOuterLeftOverlaps f ship
        || checkOuterUpOverlaps f ship then
      (f, cellCounts, some LoadError.shipsOverlap)
    else
      loadShips conf
        { f with ships := Put f.ships (makePos f ship.X ship.Y)
                            (newShipData ship.IsVert ship.Size) }
        (cellCounts.set (ship.Size - 1) (cellCounts.get (ship.Size - 1) + 1))
        rest

/-- Go `ShipField.Load`: the receiver after the call and the returned error. -/
def Load (f : ShipField) (conf : Configuration) (ships : List Ship) :
    ShipField × Option LoadError :=
  let f1 : ShipField := { f with currConfig := conf, conf := conf }
  if conf.W = 0 ∨ conf.H = 0 then (f1, some LoadError.invalidFieldSize)
  else
    match loadShips conf f1 ⟨0, 0, 0, 0⟩ ships with
    | (f2, _, some e) => (f2, some e)
    | (f2, cellCounts, none) =>
      if cellCounts.c0 ≠ conf.Sizes.c0 ∨ cellCounts.c1 ≠ conf.Sizes.c1
          ∨ cellCounts.c2 ≠ conf.Sizes.c2 ∨ cellCounts.c3 ≠ conf.Sizes.c3 then
        (f2, some LoadError.countMismatch)
      else (f2, none)

/-- Go `ShipField.Shoot`: the receiver after the call and the result, `none` when the call
does not return normally. -/
def Shoot (f : ShipField) (x y : Int) : Option (ShipField × ShootResult) :=
  if x ≥ f.conf.W ∨ y ≥ f.conf.H then some (f, ShootResult.Miss)
  else
    let pos := makePos f x y
    match Get f.ships pos with
    | some ship => hitShip f ship pos 0
    | none =>
      match scanIntersectionsLeft f x y with
      | none => none
      | some (some intr) => hitShip f intr.shipData intr.shipPos intr.deck
      | some none =>
        match scanIntersectionsUp f x y with
        | none => none
        | some (some intr) => hitShip f intr.shipData intr.shipPos intr.deck
        | some none => some (f, ShootResult.Miss)

/-- Go `ShipField.ResetShots`: `Iter` visits every entry once and overwrites its value. -/
def ResetShots (f : ShipField) : ShipField :=
  { f with
    currConfig := f.conf
    ships := f.ships.foldl
      (fun m e => Put m e.1 (newShipData (IsVert e.2) (Size e.2))) f.ships }

/-- Go `ShipField.AllDead`. -/
def AllDead (f : ShipField) : Bool :=
  decide (f.currConfig.Sizes.c0 = 0) && decide (f.currConfig.Sizes.c1 = 0)
    && decide (f.currConfig.Sizes.c2 = 0) && decide (f.currConfig.Sizes.c3 = 0)

/-! ## Call sequences -/

/-- A call made on a loaded field. -/
inductive FieldOp where
  | shoot (x y : Int)
  | reset
  deriving DecidableEq

/-- Runs a sequence of calls, collecting the results of the shots; `none` when one of the
calls does not return normally. -/
def runOps : ShipField → List FieldOp → Option (ShipField × List ShootResult)
  | f, [] => some (f, [])
  | f, FieldOp.shoot x y :: ops =>
    match Shoot f x y with
    | none => none
    | some (f1, r) =>
      match runOps f1 ops with
      | none => none
      | some (f2, rs) => some (f2, r :: rs)
  | f, FieldOp.reset :: ops => runOps (ResetShots f) ops

/-- Runs a sequence of shots. -/
def shootAll (f : ShipField) (shots : List (Int × Int)) :
    Option (ShipField × List ShootResult) :=
  runOps f (shots.map (fun p => FieldOp.shoot p.1 p.2))

/-! ## Specification vocabulary -/

/-- Cell number `k` of a ship: `(x, y+k)` when vertical, else `(x+k, y)`. -/
def Ship.cellAt (s : Ship) (k : Int) : Int × Int :=
  if s.IsVert then (s.X, s.Y + k) else (s.X + k, s.Y)

/-- The cells a ship occupies, indexed `0..size-1` along its axis. -/
def Ship.cells (s : Ship) : List (Int × Int) :=
  (List.range s.Size.toNat).map (fun (k : Nat) => s.cellAt (k : Int))

/-- The cell lies in `[0,W) x [0,H)`. -/
def CellInField (conf : Configuration) (c : Int × Int) : Prop :=
  0 ≤ c.1 ∧ c.1 < conf.W ∧ 0 ≤ c.2 ∧ c.2 < conf.H

instance (conf : Configuration) (c : Int × Int) : Decidable (CellInField conf c) := by
  unfold CellInField; infer_instance

/-- The ship has a size in `1..4` and lies entirely within `[0,W) x [0,H)`. -/
def InField (conf : Configuration) (s : Ship) : Prop :=
  1 ≤ s.Size ∧ s.Size ≤ 4 ∧ ∀ c ∈ s.cells, CellInField conf c

instance (conf : Configuration) (s : Ship) : Decidable (InField conf s) := by
  unfold InField; infer_instance

/-- The cell lies in the bounding rectangle of the ship inflated by one cell on every
side. -/
def Ship.Inflated (s : Ship) (c : Int × Int) : Prop :=
  s.X - 1 ≤ c.1 ∧ c.1 ≤ s.X + (if s.IsVert then 1 else s.Size)
    ∧ s.Y - 1 ≤ c.2 ∧ c.2 ≤ s.Y + (if s.IsVert then s.Size else 1)

instance (s : Ship) (c : Int × Int) : Decidable (s.Inflated c) := by
  unfold Ship.Inflated; infer_instance

/-- Ship `p` has a cell inside the inflated rectangle of ship `s`. -/
def Touches (p s : Ship) : Prop :=
  ∃ c ∈ p.cells, s.Inflated c

instance (p s : Ship) : Decidable (Touches p s) := by
  unfold Touches; infer_instance

/-- No ship of the list has a cell inside the inflated rectangle of a later one. -/
def Separated (ships : List Ship) : Prop :=
  ships.Pairwise (fun p s => ¬ Touches p s)

/-- Every field of the configuration is a Go `int64` value. -/
def Configuration.IsGo (conf : Configuration) : Prop :=
  IsInt64 conf.W ∧ IsInt64 conf.H ∧ IsInt64 conf.Sizes.c0 ∧ IsInt64 conf.Sizes.c1
    ∧ IsInt64 conf.Sizes.c2 ∧ IsInt64 conf.Sizes.c3

instance (conf : Configuration) : Decidable conf.IsGo := by
  unfold Configuration.IsGo; infer_instance

/-- A configuration of positive dimensions whose packed positions `x*H + y` are pairwise
distinct in 64-bit arithmetic: `W*H ≤ 2^64`. -/
def Packable (conf : Configuration) : Prop :=
  conf.IsGo ∧ 0 < conf.W ∧ 0 < conf.H ∧ conf.W * conf.H ≤ 18446744073709551616

instance (conf : Configuration) : Decidable (Packable conf) := by
  unfold Packable; infer_instance

/-- Number of ships of the given size in a list. -/
def countSize (ships : List Ship) (size : Int) : Int :=
  ((ships.filter (fun s => decide (s.Size = size))).length : Int)

/-- The descriptor `c` with hit bit `k` set (`MarkHit` for a non-negative index). -/
def markBit (c : shipData) (k : Nat) : shipData :=
  ⟨(c.val ||| ((1 <<< k) % 256)) % 256, Nat.mod_lt _ (by decide)⟩

/-- The descriptor a ship gets back from `ResetShots`. -/
def resetData (c : shipData) : shipData :=
  newShipData (IsVert c) (Size c)

/-- Some cell `k < size` of the stored ship has its hit bit clear. -/
def hasUnshotCell (c : shipData) : Bool :=
  (List.range (Size c).toNat).any (fun k => !(c.val.testBit k))

/-- Every ship of the list passes the size, bounds and separation checks of `Load`: the
loop over the ships of a fresh field ends without an error. -/
def ShipChecksPass (conf : Configuration) (ships : List Ship) : Prop :=
  (loadShips conf { NewShipField with currConfig := conf, conf := conf } ⟨0, 0, 0, 0⟩
    ships).2.2 = none

instance (conf : Configuration) (ships : List Ship) : Decidable (ShipChecksPass conf ships) := by
  unfold ShipChecksPass; infer_instance

/-- The padding hit bits `size..3` of the descriptor are set. -/
def Padded (c : shipData) : Prop :=
  ∀ k : Nat, k < 4 → Size c ≤ (k : Int) → c.val.testBit k = true

/-- Number of stored ships of the given size. -/
def storedOfSize (f : ShipField) (size : Int) : Int :=
  ((f.ships.filter (fun e => decide (Size e.2 = size))).length : Int)

/-- The entry the loader stores for a ship. -/
def freshEntry (f : ShipField) (s : Ship) : Int × shipData :=
  (makePos f s.X s.Y, newShipData s.IsVert s.Size)

/-- Number of stored ships of the given size that still have an unshot cell. -/
def liveShips (f : ShipField) (size : Int) : Int :=
  ((f.ships.filter (fun e => decide (Size e.2 = size) && hasUnshotCell e.2)).length : Int)

/-- The stored entry `e` is the ship `s`: keyed by its packed origin, with its orientation
and size, and with hit bit `k` set exactly for the padding cells `k ≥ size` and for the cells
of `s` that occur in the shot history `hist`. -/
def EntryFor (f : ShipField) (hist : List (Int × Int)) (e : Int × shipData) (s : Ship) :
    Prop :=
  e.1 = makePos f s.X s.Y ∧ IsVert e.2 = s.IsVert ∧ Size e.2 = s.Size
    ∧ ∀ k : Nat, k < 4 →
        (e.2.val.testBit k = true ↔ (s.Size ≤ (k : Int) ∨ s.cellAt (k : Int) ∈ hist))

/-- The map of `f` stores exactly the ships of the list, in order, with the hits of
`hist`. -/
def Stored (f : ShipField) (hist : List (Int × Int)) (ships : List Ship) : Prop :=
  List.Forall₂ (EntryFor f hist) f.ships ships

/-- Number of clear hit bits of a descriptor. -/
def clearBits (c : shipData) : Int :=
  (((List.range 4).filter (fun k => !(c.val.testBit k))).length : Int)

/-- Total number of clear hit bits in the map: the cells of ships not yet struck. -/
def unshotCells (f : ShipField) : Int :=
  (f.ships.map (fun e => clearBits e.2)).sum

/-- Number of stored ships that are not dead. -/
def aliveShips (f : ShipField) : Int :=
  ((f.ships.filter (fun e => !(IsDead e.2))).length : Int)

/-- Number of occurrences of a result in a list of shot results. -/
def countResult (r : ShootResult) (rs : List ShootResult) : Int :=
  ((rs.filter (fun a => decide (a = r))).length : Int)

/-- Every cell of `[0,W) x [0,H)`, column by column. -/
def allCells (conf : Configuration) : List (Int × Int) :=
  (intRange 0 (conf.W - 1)).flatMap (fun x => (intRange 0 (conf.H - 1)).map (fun y => (x, y)))

/-- A configuration whose packed positions collide: `W = 2^32 + 1`, `H = 2^32`, one ship of
size 1. The cells `(0, 0)` and `(2^32, 0)` both have packed position `0`. -/
def collidingConf : Configuration :=
  ⟨4294967297, 4294967296, ⟨1, 0, 0, 0⟩⟩

/-- The field `Load` produces for `collidingConf` and the single one-cell ship at `(0, 0)`. -/
def collidingLoaded : ShipField :=
  ⟨[(0, 142)], collidingConf, collidingConf⟩

/-- The field `collidingLoaded` after its ship has been killed. -/
def collidingKilled : ShipField :=
  ⟨[(0, 143)], collidingConf, ⟨4294967297, 4294967296, ⟨0, 0, 0, 0⟩⟩⟩

/-- The counters of `f` agree with its map: every descriptor has its padding bits set,
`conf.Sizes` counts the stored ships of each size and `currConfig.Sizes` counts those that
still have an unshot cell. -/
def CountsTrack (f : ShipField) : Prop :=
  (f.ships.map Prod.fst).Nodup ∧ f.conf.IsGo ∧ (∀ e ∈ f.ships, Padded e.2)
    ∧ (∀ s : Int, 1 ≤ s → s ≤ 4 → f.conf.Sizes.get (s - 1) = storedOfSize f s)
    ∧ (∀ s : Int, 1 ≤ s → s ≤ 4 → f.currConfig.Sizes.get (s - 1) = liveShips f s)

/-- The field `f` over the packable configuration `conf` stores the layout `ships`, whose
ships lie in the field and are separated, with the hits of the shot history `hist`. -/
structure Tracks (conf : Configuration) (f : ShipField) (hist : List (Int × Int))
    (ships : List Ship) : Prop where
  conf_eq : f.conf = conf
  packable : Packable conf
  inField : ∀ s ∈ ships, InField conf s
  separated : Separated ships
  stored : Stored f hist ships

/-! ## Roles, errors and verdicts (`player.go`, `judge.go`) -/

/-- Go `game.Role`. -/
inductive Role where
  | RoleMaster
  | RoleSlave
  deriving DecidableEq, Repr

/-- Go `Role.Other`. -/
def Role.Other (r : Role) : Role :=
  if r = Role.RoleMaster then Role.RoleSlave else Role.RoleMaster

/-- Go `Role.String`. -/
def Role.String (r : Role) : String :=
  if r = Role.RoleMaster then "master" else "slave"

/-- Go `game.TerminationReason`. -/
inductive TerminationReason where
  | ReasonNormal
  | ReasonRuntimeError
  | ReasonMemoryLimit
  | ReasonTimeLimit
  deriving DecidableEq, Repr

/-- A non-nil Go `error` value, as a tree of causes. The first four constructors are the
sentinels `errPlayerWon` (`match.go`) and `errTimeoutGlobal`, `errTimeoutMaster`,
`errTimeoutSlave` (`judge.go`); `ErrorTerminated` is `*game.ErrorTerminated`; `plain` is any
error without a cause (`errors.New`, `fmt.Errorf` without `%w`, an error of `fmt.Sscanf`);
`wrap text cause` is `fmt.Errorf(text + "%w", cause)` or any other error whose `Unwrap`
gives `cause`; `join` is an error with two causes (`errors.Join`), which the judge never
builds itself but a player may return. -/
inductive GoError where
  | errPlayerWon
  | errTimeoutGlobal
  | errTimeoutMaster
  | errTimeoutSlave
  | ErrorTerminated (Reason : TerminationReason)
  | plain (text : String)
  | wrap (text : String) (cause : GoError)
  | join (first second : GoError)
  deriving DecidableEq, Repr

/-- Go `game.ErrTerminatedMemoryLimit`. -/
def ErrTerminatedMemoryLimit : GoError :=
  GoError.ErrorTerminated TerminationReason.ReasonMemoryLimit

/-- Go `errors.Is(err, target)` for a non-nil `err`: some error of the tree equals the
target. For the sentinels equality is identity; for `*ErrorTerminated` it is the method
`ErrorTerminated.Is`, which compares the reasons. The judge uses no other target. -/
def GoError.Is : GoError → GoError → Bool
  | GoError.wrap text cause, target =>
    decide (GoError.wrap text cause = target) || cause.Is target
  | GoError.join first second, target =>
    decide (GoError.join first second = target) || first.Is target || second.Is target
  | e, target => decide (e = target)

/-- Go `errors.Is(err, target)`; `none` is the nil error. -/
def errorsIs (err : Option GoError) (target : GoError) : Bool :=
  match err with
  | none => false
  | some e => e.Is target

/-- Go `err.Error()`. -/
def GoError.Error : GoError → String
  | GoError.errPlayerWon => "player won"
  | GoError.errTimeoutGlobal => "global timeout"
  | GoError.errTimeoutMaster => "master timeout"
  | GoError.errTimeoutSlave => "slave timeout"
  | GoError.ErrorTerminated TerminationReason.ReasonNormal => "player terminated normally"
  | GoError.ErrorTerminated TerminationReason.ReasonRuntimeError =>
    "player terminated due to runtime error"
  | GoError.ErrorTerminated TerminationReason.ReasonMemoryLimit =>
    "player terminated due to memory limit"
  | GoError.ErrorTerminated TerminationReason.ReasonTimeLimit =>
    "player terminated due to time limit"
  | GoError.plain text => text
  | GoError.wrap text cause => text ++ cause.Error
  | GoError.join first second =>
    first.Error ++ String.singleton (Char.ofNat 10) ++ second.Error

/-- Go `judge.Result`. -/
inductive Result where
  | Tie
  | MasterWon
  | SlaveWon
  deriving DecidableEq, Repr

/-- Go `Result.String`. -/
def Result.String : Result → String
  | Result.Tie => "tie"
  | Result.MasterWon => "master"
  | Result.SlaveWon => "slave"

/-- Go `ResultFromWinner`. -/
def ResultFromWinner (role : Role) : Result :=
  if role = Role.RoleMaster then Result.MasterWon else Result.SlaveWon

/-- Go `judge.Reason`. -/
inductive Reason where
  | Ok
  | RuntimeError
  | MemoryLimit
  | Timeout
  | GlobalTimeout
  deriving DecidableEq, Repr

/-- Go `Reason.String`. -/
def Reason.String : Reason → String
  | Reason.Ok => "OK"
  | Reason.RuntimeError => "RE"
  | Reason.MemoryLimit => "ML"
  | Reason.Timeout => "TL"
  | Reason.GlobalTimeout => "GTL"

/-- Go `judge.Verdict`. -/
structure Verdict where
  Winner : Result
  Reason : Reason
  Details : String
  deriving DecidableEq, Repr

/-- Go `judge.roleError`. -/
structure roleError where
  Role : Role
  Err : GoError
  deriving DecidableEq, Repr

/-- Go `failedAs`. -/
def failedAs (role : Role) (err : GoError) : roleError :=
  ⟨role, err⟩

/-- Go `wonAs`. -/
def wonAs (role : Role) : roleError :=
  ⟨role, GoError.errPlayerWon⟩

/-- How a run of judge code ends: it returns a value, it panics (or a call into the field
engine does not return), or the shot loop of a round has not ended within the number of shots
the run was given. -/
inductive Run (α : Type) where
  | done (a : α)
  | crash
  | fuelOut
  deriving DecidableEq, Repr

/-! ## Text formatting (`fmt`) -/

/-- The functions of Go package `fmt` as the judge uses them. `Sprint v` is the text of an
`int64` under `%d` and `fmt.Sprint`; `Quote s` the text of a string under `%q`; `Sscan1 s`
is `fmt.Sscanf(s, "%d", &v)` as `SendScanf` reads it: the scanned value, or the text of the
error `SendScanf` returns; `Sscan2 s` likewise for `"%d %d"`; `SscanShot cmd` is
`fmt.Sscanf(cmd, "shot %d %d", &x, &y)` of the mock, whose error is ignored: the values left
in `x` and `y`. -/
structure Fmt where
  Sprint : Int → String
  Quote : String → String
  Sscan1 : String → Except String Int
  Sscan2 : String → Except String (Int × Int)
  SscanShot : String → Int × Int

/-- Go `ShootResult.FromString`. -/
def ShootResult.FromString (str : String) : Except GoError ShootResult :=
  if str = "miss" then Except.ok ShootResult.Miss
  else if str = "hit" then Except.ok ShootResult.Hit
  else if str = "kill" then Except.ok ShootResult.Kill
  else Except.error (GoError.plain "invalid shoot result")

/-- Go `ShootResult.String`. -/
def ShootResult.String : ShootResult → String
  | ShootResult.Miss => "miss"
  | ShootResult.Hit => "hit"
  | ShootResult.Kill => "kill"

/-- The integer value of a Go `ShootResult`. -/
def ShootResult.toInt : ShootResult → Int
  | ShootResult.Miss => 0
  | ShootResult.Hit => 1
  | ShootResult.Kill => 2

/-- Go `Configuration.IsValid`; the sum of the counts is taken in `int64` arithmetic. -/
def Configuration.IsValid (fm : Fmt) (c : Configuration) : Option GoError :=
  if c.W ≤ 0 ∨ c.H ≤ 0 then
    some (GoError.plain ("non-positive field size: [" ++ fm.Sprint c.W ++ " "
      ++ fm.Sprint c.H ++ "]"))
  else if c.Sizes.c0 < 0 ∨ c.Sizes.c1 < 0 ∨ c.Sizes.c2 < 0 ∨ c.Sizes.c3 < 0 then
    some (GoError.plain ("negative ship amount: [" ++ fm.Sprint c.Sizes.c0 ++ " "
      ++ fm.Sprint c.Sizes.c1 ++ " " ++ fm.Sprint c.Sizes.c2 ++ " "
      ++ fm.Sprint c.Sizes.c3 ++ "]"))
  else if wrap64 (wrap64 (wrap64 (c.Sizes.c0 + c.Sizes.c1) + c.Sizes.c2) + c.Sizes.c3) ≤ 0
  then
    some (GoError.plain ("summary ship count is non-positive: [" ++ fm.Sprint c.Sizes.c0
      ++ " " ++ fm.Sprint c.Sizes.c1 ++ " " ++ fm.Sprint c.Sizes.c2 ++ " "
      ++ fm.Sprint c.Sizes.c3 ++ "]"))
  else none

/-! ## Players (`player.go`, `mock.go`) -/

/-- A player behind the Go interface `game.Player` (a container, possibly wrapped in a
`StopwatchPlayer`, which only adds time accounting): `SendCommand cmds` is the reply and
error to the last command of `cmds`, the list of all commands sent to the player so far,
oldest first; `RetrieveField cmds conf` is the result of `RetrieveField(conf)` after the
commands `cmds`. A time-out of the player or of the match shows as an error carrying the
corresponding sentinel. The implementations of the repository return a field exactly when
they return no error. -/
structure Behaviour where
  SendCommand : List String → String × Option GoError
  RetrieveField : List String → Configuration → Except GoError ShipField

/-- Go `judge.mockPlayer`. The field object it holds may be shared with the round, see
`FieldRef`. -/
structure mockPlayer where
  conf : Configuration
  field : ShipField
  x : Int
  y : Int

/-- Go `newMockMaster`. -/
def newMockMaster (field : ShipField) (conf : Configuration) : mockPlayer :=
  { conf := conf, field := field, x := 0, y := 0 }

/-- Go `mockPlayer.SendCommand`: the mock after the call, the reply and the error (always
nil); `none` when the call into the field engine does not return. -/
def mockPlayer.SendCommand (fm : Fmt) (p : mockPlayer) (cmd : String) :
    Option (mockPlayer × String × Option GoError) :=
  if cmd = "get count 1" then some (p, fm.Sprint p.conf.Sizes.c0, none)
  else if cmd = "get count 2" then some (p, fm.Sprint p.conf.Sizes.c1, none)
  else if cmd = "get count 3" then some (p, fm.Sprint p.conf.Sizes.c2, none)
  else if cmd = "get count 4" then some (p, fm.Sprint p.conf.Sizes.c3, none)
  else if cmd = "get width" then some (p, fm.Sprint p.conf.W, none)
  else if cmd = "get height" then some (p, fm.Sprint p.conf.H, none)
  else if cmd = "win" then some (p, "no", none)
  else if cmd = "shot" then some (p, fm.Sprint p.x ++ " " ++ fm.Sprint p.y, none)
  else if "shot ".data.isPrefixOf cmd.data then
    match Shoot p.field (fm.SscanShot cmd).1 (fm.SscanShot cmd).2 with
    | none => none
    | some (f1, result) => some ({ p with field := f1 }, result.String, none)
  else if cmd = "set result miss" then some (p, "ok", none)
  else if cmd = "set result hit" ∨ cmd = "Set result kill" then
    let x1 := wrap64 (p.x + 1)
    let x2 := if x1 = p.conf.W then 0 else x1
    let y2 := if x1 = p.conf.W then wrap64 (p.y + 1) else p.y
    let y3 := if y2 = p.conf.H then 0 else y2
    some ({ p with x := x2, y := y3 }, "ok", none)
  else some (p, "ok", none)

/-- A value of the Go interface `game.Player` held by a round: a player given by its
behaviour together with the commands sent to it so far, or a mock. -/
inductive Player where
  | real (b : Behaviour) (sent : List String)
  | mock (p : mockPlayer)

/-- Go `Player.SendCommand`: the player after the call, the reply and the error. -/
def Player.SendCommand (fm : Fmt) (p : Player) (cmd : String) :
    Option (Player × String × Option GoError) :=
  match p with
  | Player.real b sent =>
    some (Player.real b (sent ++ [cmd]), (b.SendCommand (sent ++ [cmd])).1,
      (b.SendCommand (sent ++ [cmd])).2)
  | Player.mock m =>
    match m.SendCommand fm cmd with
    | none => none
    | some (m1, resp, err) => some (Player.mock m1, resp, err)

/-- A non-nil `field.Field` held by a round: a field object of its own (`own`), or the very
object held by the mock playing that role (`shared`), as `mockPlayer.RetrieveField` returns
its own `p.field`. -/
inductive FieldRef where
  | own (f : ShipField)
  | shared

/-- Go `Player.RetrieveField`. -/
def Player.RetrieveField (p : Player) (conf : Configuration) : Except GoError FieldRef :=
  match p with
  | Player.real b sent =>
    match b.RetrieveField sent conf with
    | Except.ok f => Except.ok (FieldRef.own f)
    | Except.error e => Except.error e
  | Player.mock _ => Except.ok FieldRef.shared

/-- Go `game.PlayerFactory`: `factory n` is the player the `n`-th call of `NewPlayer`
returns, counting from 0. -/
abbrev PlayerFactory := Nat → Behaviour

/-! ## The round (`match.go`) -/

/-- Go `judge.round`; `none` is a nil field. -/
structure round where
  master : Player
  slave : Player
  masterField : Option FieldRef
  slaveField : Option FieldRef
  conf : Configuration

/-- Go `newRound`. -/
def newRound (master slave : Player) : round :=
  { master := master, slave := slave, masterField := none, slaveField := none,
    conf := ⟨0, 0, ⟨0, 0, 0, 0⟩⟩ }

/-- Go `round.playerByRole`. -/
def round.playerByRole (r : round) (role : Role) : Player :=
  if role = Role.RoleMaster then r.master else r.slave

/-- Stores the player of the given role back after a call on it. -/
def round.setPlayer (r : round) (role : Role) (p : Player) : round :=
  if role = Role.RoleMaster then { r with master := p } else { r with slave := p }

/-- Go `round.fieldByRole`, followed to the field object; `none` for a nil field. -/
def round.fieldByRole (r : round) (role : Role) : Option ShipField :=
  match (if role = Role.RoleMaster then r.masterField else r.slaveField),
      r.playerByRole role with
  | some (FieldRef.own f), _ => some f
  | some FieldRef.shared, Player.mock m => some m.field
  | _, _ => none

/-- Stores the state of the field object of the given role after a call on it. -/
def round.setField (r : round) (role : Role) (f : ShipField) : round :=
  match (if role = Role.RoleMaster then r.masterField else r.slaveField),
      r.playerByRole role with
  | some FieldRef.shared, Player.mock m => r.setPlayer role (Player.mock { m with field := f })
  | _, _ =>
    if role = Role.RoleMaster then { r with masterField := some (FieldRef.own f) }
    else { r with slaveField := some (FieldRef.own f) }

/-- A `SendCommand` to the player of the given role: the round after the call, the reply and
the error. -/
def round.SendCommand (fm : Fmt) (r : round) (role : Role) (cmd : String) :
    Run (round × String × Option GoError) :=
  match (r.playerByRole role).SendCommand fm cmd with
  | none => Run.crash
  | some (p1, resp, err) => Run.done (r.setPlayer role p1, resp, err)

/-- Go `round.InitPlayer`. -/
def round.InitPlayer (fm : Fmt) (r : round) (role : Role) : Run (round × Option roleError) :=
  match r.SendCommand fm role ("create " ++ role.String) with
  | Run.crash => Run.crash
  | Run.fuelOut => Run.fuelOut
  | Run.done (r1, _, some err) =>
    Run.done (r1, some (failedAs role (GoError.wrap "failed to create role: " err)))
  | Run.done (r1, resp, none) =>
    if resp ≠ "ok" then
      Run.done (r1, some (failedAs role
        (GoError.plain ("failed to create role, returned: " ++ fm.Quote resp))))
    else
      match r1.SendCommand fm role "set strategy custom" with
      | Run.crash => Run.crash
      | Run.fuelOut => Run.fuelOut
      | Run.done (r2, _, some err) =>
        Run.done (r2, some (failedAs role (GoError.wrap "failed to set strategy: " err)))
      | Run.done (r2, resp2, none) =>
        if resp2 ≠ "ok" then
          Run.done (r2, some (failedAs role
            (GoError.plain ("failed to set strategy, returned: " ++ fm.Quote resp2))))
        else Run.done (r2, none)

/-- Go `round.confParams`: the name of each parameter with the field of `conf` it stands
for, as a setter and a getter. -/
def confParams : List (String × (Configuration → Int → Configuration)
    × (Configuration → Int)) :=
  [("width", fun c v => { c with W := v }, fun c => c.W),
   ("height", fun c v => { c with H := v }, fun c => c.H),
   ("count 1", fun c v => { c with Sizes := { c.Sizes with c0 := v } }, fun c => c.Sizes.c0),
   ("count 2", fun c v => { c with Sizes := { c.Sizes with c1 := v } }, fun c => c.Sizes.c1),
   ("count 3", fun c v => { c with Sizes := { c.Sizes with c2 := v } }, fun c => c.Sizes.c2),
   ("count 4", fun c v => { c with Sizes := { c.Sizes with c3 := v } }, fun c => c.Sizes.c3)]

/-- The loop of Go `round.RequestConfiguration` over the remaining parameters. -/
def round.requestLoop (fm : Fmt) :
    round → List (String × (Configuration → Int → Configuration) × (Configuration → Int)) →
      Run (round × Option roleError)
  | r, [] => Run.done (r, none)
  | r, arg :: rest =>
    match r.SendCommand fm Role.RoleMaster ("get " ++ arg.1) with
    | Run.crash => Run.crash
    | Run.fuelOut => Run.fuelOut
    | Run.done (r1, _, some err) =>
      Run.done (r1, some (failedAs Role.RoleMaster
        (GoError.wrap "failed to get configuration: " err)))
    | Run.done (r1, resp, none) =>
      match fm.Sscan1 resp with
      | Except.error text =>
        Run.done (r1, some (failedAs Role.RoleMaster
          (GoError.wrap "failed to get configuration: " (GoError.plain text))))
      | Except.ok v => round.requestLoop fm { r1 with conf := arg.2.1 r1.conf v } rest

/-- Go `round.RequestConfiguration`. -/
def round.RequestConfiguration (fm : Fmt) (r : round) : Run (round × Option roleError) :=
  match r.requestLoop fm confParams with
  | Run.crash => Run.crash
  | Run.fuelOut => Run.fuelOut
  | Run.done (r1, some e) => Run.done (r1, some e)
  | Run.done (r1, none) =>
    match r1.conf.IsValid fm with
    | some err =>
      Run.done (r1, some (failedAs Role.RoleMaster
        (GoError.wrap "invalid configuration: " err)))
    | none => Run.done (r1, none)

/-- The loop of Go `round.TransferConfiguration` over the remaining parameters. -/
def round.transferLoop (fm : Fmt) :
    round → List (String × (Configuration → Int → Configuration) × (Configuration → Int)) →
      Run (round × Option roleError)
  | r, [] => Run.done (r, none)
  | r, arg :: rest =>
    match r.SendCommand fm Role.RoleSlave
        ("set " ++ arg.1 ++ " " ++ fm.Sprint (arg.2.2 r.conf)) with
    | Run.crash => Run.crash
    | Run.fuelOut => Run.fuelOut
    | Run.done (r1, _, some err) =>
      Run.done (r1, some (failedAs Role.RoleSlave
        (GoError.wrap "failed to set configuration: " err)))
    | Run.done (r1, resp, none) =>
      if resp ≠ "ok" then
        Run.done (r1, some (failedAs Role.RoleSlave
          (GoError.plain ("failed to set configuration, returned: " ++ fm.Quote resp))))
      else round.transferLoop fm r1 rest

/-- Go `round.TransferConfiguration`. -/
def round.TransferConfiguration (fm : Fmt) (r : round) : Run (round × Option roleError) :=
  r.transferLoop fm confParams

/-- Go `PlayerExt.RequestAndGetField` on the player of the given role: the round after the
call and the returned field and error. -/
def round.RequestAndGetField (fm : Fmt) (r : round) (role : Role) :
    Run (round × Option FieldRef × Option GoError) :=
  match r.SendCommand fm role "dump /tmp/field.txt" with
  | Run.crash => Run.crash
  | Run.fuelOut => Run.fuelOut
  | Run.done (r1, _, some err) => Run.done (r1, none, some err)
  | Run.done (r1, resp, none) =>
    if resp ≠ "ok" then Run.done (r1, none, some (GoError.plain "did not dump field"))
    else
      match (r1.playerByRole role).RetrieveField r1.conf with
      | Except.ok ref => Run.done (r1, some ref, none)
      | Except.error err => Run.done (r1, none, some err)

/-- Go `round.StartPlayer`. -/
def round.StartPlayer (fm : Fmt) (r : round) (role : Role) : Run (round × Option roleError) :=
  match r.SendCommand fm role "start" with
  | Run.crash => Run.crash
  | Run.fuelOut => Run.fuelOut
  | Run.done (r1, _, some err) =>
    Run.done (r1, some (failedAs role (GoError.wrap "failed to start: " err)))
  | Run.done (r1, resp, none) =>
    if resp ≠ "ok" then
      Run.done (r1, some (failedAs role
        (GoError.plain ("failed to start, returned: " ++ fm.Quote resp))))
    else
      match r1.RequestAndGetField fm role with
      | Run.crash => Run.crash
      | Run.fuelOut => Run.fuelOut
      | Run.done (r2, ref, err) =>
        let r3 : round :=
          if role = Role.RoleMaster then { r2 with masterField := ref }
          else { r2 with slaveField := ref }
        match err with
        | some e => Run.done (r3, some (failedAs role (GoError.wrap "failed to get field: " e)))
        | none => Run.done (r3, none)

/-- Go `round.isValidShot`. -/
def round.isValidShot (r : round) (x y : Int) : Bool :=
  decide (x ≥ 0) && decide (y ≥ 0) && decide (x < r.conf.W) && decide (y < r.conf.H)

/-- Go `round.Shoot`: the round after the call, the returned `bool` and the returned
`*roleError`. -/
def round.Shoot (fm : Fmt) (r : round) (shooterRole : Role) :
    Run (round × Bool × Option roleError) :=
  match r.SendCommand fm shooterRole "shot" with
  | Run.crash => Run.crash
  | Run.fuelOut => Run.fuelOut
  | Run.done (r1, _, some err) =>
    Run.done (r1, false, some (failedAs shooterRole
      (GoError.wrap "failed to request shoot coordinaes: " err)))
  | Run.done (r1, resp, none) =>
    match fm.Sscan2 resp with
    | Except.error text =>
      Run.done (r1, false, some (failedAs shooterRole
        (GoError.wrap "failed to request shoot coordinaes: " (GoError.plain text))))
    | Except.ok (x, y) =>
      if ¬ r1.isValidShot x y then
        Run.done (r1, false, some (failedAs shooterRole
          (GoError.plain ("invalid shoot position " ++ fm.Sprint x ++ " " ++ fm.Sprint y))))
      else
        match r1.SendCommand fm shooterRole.Other
            ("shot " ++ fm.Sprint x ++ " " ++ fm.Sprint y) with
        | Run.crash => Run.crash
        | Run.fuelOut => Run.fuelOut
        | Run.done (r2, _, some err) =>
          Run.done (r2, false, some (failedAs shooterRole.Other
            (GoError.wrap "failed to shoot: " err)))
        | Run.done (r2, resp2, none) =>
          match ShootResult.FromString resp2 with
          | Except.error err => Run.done (r2, false, some (failedAs shooterRole.Other err))
          | Except.ok result =>
            match r2.fieldByRole shooterRole.Other with
            | none => Run.crash
            | some victimField =>
              match Field.Shoot victimField x y with
              | none => Run.crash
              | some (victimField1, expectedResult) =>
                if result ≠ expectedResult then
                  Run.done (r2.setField shooterRole.Other victimField1, false,
                    some (failedAs shooterRole.Other
                      (GoError.plain ("victim returned invalid shoot result: "
                        ++ fm.Sprint result.toInt))))
                else
                  match (r2.setField shooterRole.Other victimField1).SendCommand fm
                      shooterRole ("set result " ++ resp2) with
                  | Run.crash => Run.crash
                  | Run.fuelOut => Run.fuelOut
                  | Run.done (r4, _, some err) =>
                    Run.done (r4, false, some (failedAs shooterRole
                      (GoError.wrap "failed to set shoot result: " err)))
                  | Run.done (r4, resp4, none) =>
                    if resp4 ≠ "ok" then
                      Run.done (r4, false, some (failedAs shooterRole
                        (GoError.plain ("failed to set shoot result, returned: "
                          ++ fm.Quote resp4))))
                    else
                      match r4.fieldByRole shooterRole.Other with
                      | none => Run.crash
                      | some victimField2 =>
                        if ¬ AllDead victimField2 then
                          Run.done (r4, decide (result ≠ ShootResult.Miss), none)
                        else Run.done (r4, true, some (wonAs shooterRole))

/-- The `for` loop of Go `round.Judge`; `fuel` bounds the number of calls of `Shoot`. -/
def round.shootLoop (fm : Fmt) : Nat → round → Role → Run (round × roleError)
  | 0, _, _ => Run.fuelOut
  | fuel + 1, r, currentPlayer =>
    match r.Shoot fm currentPlayer with
    | Run.crash => Run.crash
    | Run.fuelOut => Run.fuelOut
    | Run.done (r1, _, some err) => Run.done (r1, err)
    | Run.done (r1, hit, none) =>
      round.shootLoop fm fuel r1 (if hit then currentPlayer else currentPlayer.Other)

/-- Go `round.Judge`: the round after the call and the returned `*roleError`, which is never
nil; `fuel` bounds the number of shots. -/
def round.Judge (fm : Fmt) (fuel : Nat) (r : round) : Run (round × roleError) :=
  match r.InitPlayer fm Role.RoleMaster with
  | Run.crash => Run.crash
  | Run.fuelOut => Run.fuelOut
  | Run.done (r1, some err) => Run.done (r1, err)
  | Run.done (r1, none) =>
    match r1.InitPlayer fm Role.RoleSlave with
    | Run.crash => Run.crash
    | Run.fuelOut => Run.fuelOut
    | Run.done (r2, some err) => Run.done (r2, err)
    | Run.done (r2, none) =>
      match r2.RequestConfiguration fm with
      | Run.crash => Run.crash
      | Run.fuelOut => Run.fuelOut
      | Run.done (r3, some err) => Run.done (r3, err)
      | Run.done (r3, none) =>
        match r3.StartPlayer fm Role.RoleMaster with
        | Run.crash => Run.crash
        | Run.fuelOut => Run.fuelOut
        | Run.done (r4, some err) => Run.done (r4, err)
        | Run.done (r4, none) =>
          match r4.TransferConfiguration fm with
          | Run.crash => Run.crash
          | Run.fuelOut => Run.fuelOut
          | Run.done (r5, some err) => Run.done (r5, err)
          | Run.done (r5, none) =>
            match r5.StartPlayer fm Role.RoleSlave with
            | Run.crash => Run.crash
            | Run.fuelOut => Run.fuelOut
            | Run.done (r6, some err) => Run.done (r6, err)
            | Run.done (r6, none) => r6.shootLoop fm fuel Role.RoleSlave

/-- What `judgeMatch` reads from a round after `round.Judge` has returned: the master's field
(`none` for a nil field), the configuration and the returned `*roleError`; `none` when
`round.Judge` has not returned. -/
def roundEnd (o : Run (round × roleError)) :
    Option (Option ShipField × Configuration × roleError) :=
  match o with
  | Run.done (r, result) => some (r.fieldByRole Role.RoleMaster, r.conf, result)
  | _ => none

/-! ## The judge (`judge.go`) -/

/-- The breaker round of Go `judgeMatch` (from `newMockMaster` to the end of the function):
the mock holds the master's field `masterField`, already reset, and plays the master role
against a new player of the master factory in the slave role. -/
def judgeBreaker (fm : Fmt) (fuel : Nat) (masterField : ShipField)
    (conf : Configuration) (masterFactory : PlayerFactory) : Run (Result × Option GoError) :=
  match (newRound (Player.mock (newMockMaster masterField conf))
      (Player.real (masterFactory 1) [])).Judge fm fuel with
  | Run.crash => Run.crash
  | Run.fuelOut => Run.fuelOut
  | Run.done (_, result) =>
    if result.Role ≠ Role.RoleSlave then Run.done (ResultFromWinner Role.RoleMaster, none)
    else if errorsIs (some result.Err) GoError.errPlayerWon then
      Run.done (ResultFromWinner Role.RoleMaster, none)
    else
      Run.done (Result.Tie, some (GoError.wrap "error during breaker round: " result.Err))

/-- Go `Judge.judgeMatch`: the returned `Result` and error. The factories are the ones
`Judge.Judge` passes, whose players time out with the sentinels `errTimeoutMaster`,
`errTimeoutSlave` and `errTimeoutGlobal`. Calling `ResetShots` on a nil `masterField`
panics. -/
def judgeMatch (fm : Fmt) (fuel : Nat) (masterFactory slaveFactory : PlayerFactory) :
    Run (Result × Option GoError) :=
  match (newRound (Player.real (masterFactory 0) [])
      (Player.real (slaveFactory 0) [])).Judge fm fuel with
  | Run.crash => Run.crash
  | Run.fuelOut => Run.fuelOut
  | Run.done (r, result) =>
    if errorsIs (some result.Err) GoError.errPlayerWon then
      Run.done (ResultFromWinner result.Role, none)
    else if ¬ errorsIs (some result.Err) ErrTerminatedMemoryLimit then
      Run.done (ResultFromWinner result.Role.Other, some result.Err)
    else if result.Role = Role.RoleMaster then Run.done (Result.SlaveWon, some result.Err)
    else
      match r.fieldByRole Role.RoleMaster with
      | none => Run.crash
      | some masterField =>
        judgeBreaker fm fuel (ResetShots masterField) r.conf masterFactory

/-- The `reason` closure of Go `Judge.Judge`: the winner after the call and the reason. -/
def Judge.reason (verdict : Result) (details : Option GoError) : Result × Reason :=
  if errorsIs details GoError.errTimeoutGlobal then (verdict, Reason.GlobalTimeout)
  else if errorsIs details GoError.errTimeoutMaster then (Result.SlaveWon, Reason.Timeout)
  else if errorsIs details GoError.errTimeoutSlave then (Result.MasterWon, Reason.Timeout)
  else if errorsIs details ErrTerminatedMemoryLimit then (verdict, Reason.MemoryLimit)
  else if details ≠ none then (verdict, Reason.RuntimeError)
  else (verdict, Reason.Ok)

/-- The part of Go `Judge.Judge` after the call of `judgeMatch`. -/
def Judge.toVerdict (verdict : Result) (details : Option GoError) : Verdict :=
  { Winner := (Judge.reason verdict details).1
    Reason := (Judge.reason verdict details).2
    Details := match details with
      | none => ""
      | some e => e.Error }

/-- Go `Judge.Judge`. -/
def Judge (fm : Fmt) (fuel : Nat) (master slave : PlayerFactory) : Run Verdict :=
  match judgeMatch fm fuel master slave with
  | Run.crash => Run.crash
  | Run.fuelOut => Run.fuelOut
  | Run.done (verdict, details) => Run.done (Judge.toVerdict verdict details)

/-! ## Example players -/

/-- Value of a text of decimal digits, `acc` being the value of the digits already read;
`none` when a character is not a digit. -/
def scanDigits : List Char → Nat → Option Nat
  | [], acc => some acc
  | c :: cs, acc =>
    if 48 ≤ c.toNat ∧ c.toNat ≤ 57 then scanDigits cs (acc * 10 + (c.toNat - 48)) else none

/-- Value of a canonical decimal text: digits, with `-` in front for a negative number. -/
def scanDecimal (cs : List Char) : Option Int :=
  match cs with
  | [] => none
  | '-' :: ds =>
    if ds = [] then none else (scanDigits ds 0).map (fun (n : Nat) => -(n : Int))
  | ds => (scanDigits ds 0).map (fun (n : Nat) => (n : Int))

/-- Value of two canonical decimal texts separated by one space. -/
def scanDecimalPair (cs : List Char) : Option (Int × Int) :=
  match scanDecimal (cs.takeWhile (fun c => c ≠ ' ')),
      scanDecimal ((cs.dropWhile (fun c => c ≠ ' ')).drop 1) with
  | some x, some y => some (x, y)
  | _, _ => none

/-- An implementation of `Fmt` on canonical decimal texts, on which it agrees with Go: an
integer is written in decimal digits with `-` in front when negative, and read back from
exactly that form. Texts in any other form count as malformed here. It serves to run the
example matches below. -/
def decimalFmt : Fmt where
  Sprint := fun v => if v < 0 then "-" ++ Nat.repr v.natAbs else Nat.repr v.natAbs
  Quote := fun s =>
    String.singleton (Char.ofNat 34) ++ s ++ String.singleton (Char.ofNat 34)
  Sscan1 := fun s =>
    match scanDecimal s.data with
    | some v => Except.ok v
    | none => Except.error "expected integer"
  Sscan2 := fun s =>
    match scanDecimalPair s.data with
    | some p => Except.ok p
    | none => Except.error "expected integer"
  SscanShot := fun cmd =>
    match scanDecimalPair (cmd.data.drop 5) with
    | some p => p
    | none => (0, 0)

/-- The reply of an honest player whose field is the 1x1 field with one ship of size 1, to
the last command sent: `ok` to the commands of the setup, the configuration to the `get`
commands, the only cell to `shot`, and `kill` to a shot at that cell. -/
def honestReply (cmd : String) : String :=
  if cmd = "get width" then "1"
  else if cmd = "get height" then "1"
  else if cmd = "get count 1" then "1"
  else if cmd = "get count 2" then "0"
  else if cmd = "get count 3" then "0"
  else if cmd = "get count 4" then "0"
  else if cmd = "shot" then "0 0"
  else if cmd = "shot 0 0" then "kill"
  else "ok"

/-- The field an honest player dumps: the one-cell ship at `(0, 0)`, loaded as
`DockerPlayer.RetrieveField` does. -/
def honestField (conf : Configuration) : Except GoError ShipField :=
  match Load NewShipField conf [⟨0, 0, 1, false⟩] with
  | (f, none) => Except.ok f
  | (_, some _) => Except.error (GoError.plain "field does not match configuration")

/-- An honest player, see `honestReply`. -/
def honestPlayer : Behaviour where
  SendCommand := fun cmds => (honestReply (cmds.getLastD ""), none)
  RetrieveField := fun _ conf => honestField conf

/-- A player that is honest until the command `stop`, to which (and to every later command)
the answer is the error `err`. -/
def failingAt (stop : String) (err : GoError) : Behaviour where
  SendCommand := fun cmds =>
    if stop ∈ cmds then ("", some err) else (honestReply (cmds.getLastD ""), none)
  RetrieveField := fun _ conf => honestField conf

/-- A player that is honest until the command `stop`, which it answers with the text
`reply`. -/
def repliesAt (stop : String) (reply : String) : Behaviour where
  SendCommand := fun cmds =>
    if cmds.getLastD "" = stop then (reply, none) else (honestReply (cmds.getLastD ""), none)
  RetrieveField := fun _ conf => honestField conf

/-! ## Observing a round -/

/-- The commands sent so far to a player given by its behaviour, oldest first (nothing is
recorded for a mock). -/
def Player.sent : Player → List String
  | Player.real _ sent => sent
  | Player.mock _ => []

/-- The commands a round that has returned has sent to its master and to its slave, with the
returned `*roleError`; `none` when `round.Judge` has not returned. -/
def roundLog (o : Run (round × roleError)) : Option (List String × List String × roleError) :=
  match o with
  | Run.done (r, result) => some (r.master.sent, r.slave.sent, result)
  | _ => none

/-- The first `n` passes of the `for` loop of Go `round.Judge`, none of which returns an
error: the round and the current player after them, and the `hit` values `Shoot` returned,
oldest first; `none` when one of these passes ends the loop or does not return. -/
def round.playShots (fm : Fmt) : Nat → round → Role → Option (round × Role × List Bool)
  | 0, r, currentPlayer => some (r, currentPlayer, [])
  | n + 1, r, currentPlayer =>
    match r.Shoot fm currentPlayer with
    | Run.done (r1, hit, none) =>
      match round.playShots fm n r1 (if hit then currentPlayer else currentPlayer.Other) with
      | some (r2, player2, hits) => some (r2, player2, hit :: hits)
      | none => none
    | _ => none

/-- The shooter after shots with the given `hit` values, starting from `first`: a hit keeps
the shooter, a miss passes the turn to the other role. -/
def shooterAfter : Role → List Bool → Role
  | first, [] => first
  | first, hit :: hits => shooterAfter (if hit then first else first.Other) hits

/-! ## The ship dump (`field.go`) -/

/-- The loop of Go `ParseShips` over the remaining lines. `scan line` is
`fmt.Sscanf(line, "%d %c %d %d", &ship.Size, &direction, &ship.X, &ship.Y)`: the scanned
size, direction, `x` and `y` when it returns `n = 4` and no error, else `none`. The list
is the sequence the consumer sees when it asks for every ship. -/
def parseLines (scan : String → Option (Int × Char × Int × Int)) : List String → List Ship
  | [] => []
  | line :: rest =>
    match scan line with
    | none => []
    | some (size, direction, x, y) =>
      if direction = 'v' then ⟨x, y, size, true⟩ :: parseLines scan rest
      else if direction = 'h' then ⟨x, y, size, false⟩ :: parseLines scan rest
      else []

/-- Go `ParseShips`, on the lines `bufio.Scanner` splits the source into: the first line is
skipped. -/
def ParseShips (scan : String → Option (Int × Char × Int × Int)) (src : List String) :
    List Ship :=
  parseLines scan (src.drop 1)

/-- The line scans as `<size> <dir> <x> <y>` with `dir` one of `v` and `h`. -/
def WellFormedLine (scan : String → Option (Int × Char × Int × Int)) (line : String) : Bool :=
  match scan line with
  | none => false
  | some (_, direction, _, _) => decide (direction = 'v') || decide (direction = 'h')

/-- The ship a well-formed line describes. -/
def shipOfLine (scan : String → Option (Int × Char × Int × Int)) (line : String) : Ship :=
  match scan line with
  | none => ⟨0, 0, 0, false⟩
  | some (size, direction, x, y) => ⟨x, y, size, decide (direction = 'v')⟩

/-- The text of the error Go `Load` returns. -/
def LoadError.Error : LoadError → String
  | LoadError.invalidFieldSize => "invalid field size"
  | LoadError.invalidShipSize => "invalid ship size"
  | LoadError.outOfBounds => "ship out of bounds"
  | LoadError.shipsOverlap => "ships overlap"
  | LoadError.countMismatch => "ship count does not match configuration"

/-! ## Container errors and the docker player (`docker/runner.go`, `docker/player.go`) -/

/-- Go `docker.RunResult`; `Err = none` is a nil error. -/
structure RunResult where
  ExitCode : Int
  Err : Option GoError
  deriving DecidableEq

/-- An error as `convertContainerErrToPlayerErr` receives it, told apart the way
`errors.As(err, &contErr)` does: `terminated wraps Result` is a `*docker.ErrorTerminated`
carrying `Result`, found on the cause chain below errors with the texts `wraps` (the error
itself when `wraps` is empty); `other err` is an error whose chain holds no
`*docker.ErrorTerminated`. -/
inductive ContainerError where
  | terminated (wraps : List String) (Result : RunResult)
  | other (err : GoError)
  deriving DecidableEq

/-- Go `convertContainerErrToPlayerErr`. -/
def convertContainerErrToPlayerErr (err : ContainerError) : GoError :=
  match err with
  | ContainerError.other e => e
  | ContainerError.terminated _ result =>
    match result.Err with
    | some e => e
    | none =>
      if result.ExitCode = 0 then GoError.ErrorTerminated TerminationReason.ReasonNormal
      else if result.ExitCode = 137 then
        GoError.ErrorTerminated TerminationReason.ReasonMemoryLimit
      else GoError.ErrorTerminated TerminationReason.ReasonRuntimeError

/-- A container as `DockerPlayer` uses it, each function taking the commands written so far,
oldest first: `Write cmds` is the error of writing the last command to the standard input
(`none` for nil); `Scan cmds` is the line the scanner reads after it, or the error of the
scanner; `ReadFile cmds` gives the lines of `/tmp/field.txt`, or the error of `ReadFile`. -/
structure Container where
  Write : List String → Option GoError
  Scan : List String → Except ContainerError String
  ReadFile : List String → Except ContainerError (List String)

/-- Go `DockerPlayer`: `SendCommand` and `RetrieveField`, the latter loading the parsed
ships of the dumped file into a fresh field. -/
def DockerPlayer (scan : String → Option (Int × Char × Int × Int)) (c : Container) :
    Behaviour where
  SendCommand := fun cmds =>
    match c.Write cmds with
    | some e => ("", some e)
    | none =>
      match c.Scan cmds with
      | Except.ok text => (text, none)
      | Except.error e => ("", some (convertContainerErrToPlayerErr e))
  RetrieveField := fun cmds conf =>
    match c.ReadFile cmds with
    | Except.error e => Except.error (convertContainerErrToPlayerErr e)
    | Except.ok lines =>
      match Load NewShipField conf (ParseShips scan lines) with
      | (f, none) => Except.ok f
      | (_, some e) => Except.error (GoError.plain e.Error)

/-- The call of the field engine's `Shoot` that `round.Shoot` makes: the field it is made on
and the coordinates; `none` when `round.Shoot` returns or panics before reaching that
call. -/
def round.engineShot (fm : Fmt) (r : round) (shooterRole : Role) :
    Option (ShipField × Int × Int) :=
  match r.SendCommand fm shooterRole "shot" with
  | Run.done (r1, resp, none) =>
    match fm.Sscan2 resp with
    | Except.ok (x, y) =>
      if ¬ r1.isValidShot x y then none
      else
        match r1.SendCommand fm shooterRole.Other
            ("shot " ++ fm.Sprint x ++ " " ++ fm.Sprint y) with
        | Run.done (r2, resp2, none) =>
          match ShootResult.FromString resp2 with
          | Except.ok _ =>
            match r2.fieldByRole shooterRole.Other with
            | some victimField => some (victimField, x, y)
            | none => none
          | Except.error _ => none
        | _ => none
    | Except.error _ => none
  | _ => none

/-- A player that answers the `n`-th command it receives with the `n`-th text of `replies`
(`ok` once the list is used up) and dumps the field made of `ships`, loaded as
`DockerPlayer.RetrieveField` does. -/
def scriptedPlayer (replies : List String) (ships : List Ship) : Behaviour where
  SendCommand := fun cmds => ((replies.get? (cmds.length - 1)).getD "ok", none)
  RetrieveField := fun _ conf =>
    match Load NewShipField conf ships with
    | (f, none) => Except.ok f
    | (_, some e) => Except.error (GoError.plain e.Error)

/-- The part of Go `round.Judge` before the `for` loop: the round as it stands when the loop
is entered, or the error that ends the round before it. -/
def round.setup (fm : Fmt) (r : round) : Run (round × Option roleError) :=
  match r.InitPlayer fm Role.RoleMaster with
  | Run.crash => Run.crash
  | Run.fuelOut => Run.fuelOut
  | Run.done (r1, some err) => Run.done (r1, some err)
  | Run.done (r1, none) =>
    match r1.InitPlayer fm Role.RoleSlave with
    | Run.crash => Run.crash
    | Run.fuelOut => Run.fuelOut
    | Run.done (r2, some err) => Run.done (r2, some err)
    | Run.done (r2, none) =>
      match r2.RequestConfiguration fm with
      | Run.crash => Run.crash
      | Run.fuelOut => Run.fuelOut
      | Run.done (r3, some err) => Run.done (r3, some err)
      | Run.done (r3, none) =>
        match r3.StartPlayer fm Role.RoleMaster with
        | Run.crash => Run.crash
        | Run.fuelOut => Run.fuelOut
        | Run.done (r4, some err) => Run.done (r4, some err)
        | Run.done (r4, none) =>
          match r4.TransferConfiguration fm with
          | Run.crash => Run.crash
          | Run.fuelOut => Run.fuelOut
          | Run.done (r5, some err) => Run.done (r5, some err)
          | Run.done (r5, none) => r5.StartPlayer fm Role.RoleSlave

/-- A round as it stands when the shot loop is entered: both fields are the field of `ships`
loaded against `conf`, no shot made, and the players are given by their behaviours, their
command histories left empty. -/
def readyRound (conf : Configuration) (ships : List Ship) (master slave : Behaviour) : round :=
  { master := Player.real master [], slave := Player.real slave [],
    masterField := some (FieldRef.own (Load NewShipField conf ships).1),
    slaveField := some (FieldRef.own (Load NewShipField conf ships).1), conf := conf }

/-- A container whose program answers as an honest player does (see `honestReply`) and
whose file `/tmp/field.txt` holds the lines `dump`. -/
def honestContainer (dump : List String) : Container where
  Write := fun _ => none
  Scan := fun cmds => Except.ok (honestReply (cmds.getLastD ""))
  ReadFile := fun _ => Except.ok dump

/-- A scanner of dump lines that knows the line of the one-cell ship at `(0, 0)` only. -/
def scanOneCell (line : String) : Option (Int × Char × Int × Int) :=
  if line = "1 h 0 0" then some (1, 'h', 0, 0) else none

/-- The descriptor after `MarkHit(k)` for every index `k` of the list, in order; `none` when
one of the calls panics. -/
def markHits : shipData → List Int → Option shipData
  | c, [] => some c
  | c, k :: ks =>
    match MarkHit c k with
    | none => none
    | some c1 => markHits c1 ks

/-! ## The stdout reader of the docker runner (`docker/utils.go`) -/

/-- The `bufio.Reader` the stdout reader reads from, as a list of runs of bytes (values below
256): a run is what is available together, received by one `Read` of the attached stream
into the buffer; runs are not empty and not longer than the buffer. -/
abbrev Muxed := List (List Nat)

/-- Go `bufio.Reader.Read(p)` with `len(p) = n`: the bytes copied to `p`, the reader after
the call, and whether the call returns `io.EOF`. It copies what is available, at most `n`
bytes, and never waits for a second run. -/
def Muxed.Read (m : Muxed) (n : Nat) : List Nat × Muxed × Bool :=
  match m with
  | [] => ([], [], true)
  | run :: rest => (run.take n, if run.drop n = [] then rest else run.drop n :: rest, false)

/-- Go `dockerStdoutReader`; `left` is a `uint32`. -/
structure dockerStdoutReader where
  left : Nat
  muxed : Muxed
  deriving DecidableEq

/-- Go `newDockerStdoutReader`. -/
def newDockerStdoutReader (r : Muxed) : dockerStdoutReader :=
  { left := 0, muxed := r }

/-- Go `binary.BigEndian.Uint32(header[4:])`. -/
def bigEndianUint32 (header : List Nat) : Nat :=
  header.getD 4 0 * 16777216 + header.getD 5 0 * 65536 + header.getD 6 0 * 256
    + header.getD 7 0

/-- The part of Go `dockerStdoutReader.Read` after the header: `left` is decreased by
`uint32(cap(p))`, and the bytes come from `r.muxed.Read(p)`. -/
def dockerStdoutReader.readBody (r : dockerStdoutReader) (n : Nat) :
    dockerStdoutReader × List Nat × Bool :=
  let left1 := if r.left > n % 4294967296 then r.left - n % 4294967296 else 0
  ({ left := left1, muxed := (Muxed.Read r.muxed n).2.1 }, (Muxed.Read r.muxed n).1,
    (Muxed.Read r.muxed n).2.2)

/-- Go `dockerStdoutReader.Read(p)` for a buffer with `len(p) = cap(p) = n`: the reader after
the call, the bytes delivered in `p` and whether an error (`io.EOF`) is returned. -/
def dockerStdoutReader.Read (r : dockerStdoutReader) (n : Nat) :
    dockerStdoutReader × List Nat × Bool :=
  if r.left = 0 then
    match Muxed.Read r.muxed 8 with
    | (_, m1, true) => ({ r with muxed := m1 }, [], true)
    | (header, m1, false) =>
      if header.length ≠ 8 then ({ r with muxed := m1 }, [], false)
      else if header.getD 0 0 ≠ 1 then ({ r with muxed := m1 }, [], false)
      else dockerStdoutReader.readBody { left := bigEndianUint32 header, muxed := m1 } n
  else r.readBody n

/-- The bytes delivered by successive `Read` calls with buffers of the given sizes, up to
the first call that returns an error. -/
def dockerStdoutReader.readAll : dockerStdoutReader → List Nat → List Nat
  | _, [] => []
  | r, n :: sizes =>
    match r.Read n with
    | (_, bytes, true) => bytes
    | (r1, bytes, false) => bytes ++ dockerStdoutReader.readAll r1 sizes

/-- The bytes of a frame of the attached stream: the header
`{stream, 0, 0, 0, big-endian uint32 length}` and the payload. -/
def encodeFrame (frame : Nat × List Nat) : List Nat :=
  [frame.1, 0, 0, 0, frame.2.length / 16777216 % 256, frame.2.length / 65536 % 256,
    frame.2.length / 256 % 256, frame.2.length % 256] ++ frame.2

/-- The payloads of the frames with stream 1, concatenated. -/
def stdoutPayload (frames : List (Nat × List Nat)) : List Nat :=
  (frames.filter (fun frame => decide (frame.1 = 1))).flatMap (fun frame => frame.2)

/-! ## The stopwatch (`utils/stopwatch.go`) -/

/-- Go `utils.Stopwatch` together with its worker goroutine, calls and worker steps being
atomic and the worker reacting at once. Instants are readings of the monotonic clock in
nanoseconds, durations are `time.Duration` values. `lastResume = none` is the zero
`time.Time`; `chanClosed` says that `deadlineUpdates` is closed; `armed = some (a, d)` says
that the worker waits in `select` on `time.After(d)` started at instant `a` (its `timeLeft`
is `d`), `armed = none` that it waits for a deadline update only; `exited` says that the
worker has returned; `cancels` counts the calls of `cancelFunc`. -/
structure Stopwatch where
  totalPassed : Int
  timeout : Int
  lastResume : Option Int
  closed : Bool
  chanClosed : Bool
  armed : Option (Int × Int)
  exited : Bool
  cancels : Nat
  deriving DecidableEq

/-- Go `NewStopwatch`. -/
def NewStopwatch (timeout : Int) : Stopwatch :=
  { totalPassed := 0, timeout := timeout, lastResume := none, closed := false,
    chanClosed := false, armed := none, exited := false, cancels := 0 }

/-- Go `time.Since(t)` at the instant `now`: the difference of the monotonic readings,
saturated to the range of `time.Duration`; for the zero `time.Time` the largest duration. -/
def timeSince (now : Int) (t : Option Int) : Int :=
  match t with
  | none => 9223372036854775807
  | some u =>
    if wrap64 (now - u) < 0 ∧ now > u then 9223372036854775807
    else if wrap64 (now - u) > 0 ∧ now < u then -9223372036854775808
    else wrap64 (now - u)

/-- The worker goroutine up to a call made at the instant `now`: when it waits on a timer
that has expired before `now`, or expires at `now` and wins the `select` (`tie now`), it runs
`s.Close()`, calls `cancelFunc` and returns. A timer of duration `d` started at `a` expires
at `a + max(d, 0)`. -/
def Stopwatch.worker (tie : Int → Bool) (now : Int) (s : Stopwatch) : Stopwatch :=
  match s.armed with
  | none => s
  | some (a, d) =>
    if s.exited then s
    else if a + max d 0 < now ∨ (a + max d 0 = now ∧ tie now = true) then
      { s with
        closed := true
        chanClosed := if s.closed then s.chanClosed else true
        armed := none
        exited := true
        cancels := s.cancels + 1 }
    else s

/-- The statement `s.deadlineUpdates <- v` at the instant `now`; `none` when it panics (the
channel is closed) or blocks for ever (the worker has returned). The worker receives the
value and waits on a new timer when it is a duration. -/
def Stopwatch.send (now : Int) (v : Option Int) (s : Stopwatch) : Option Stopwatch :=
  if s.chanClosed then none
  else if s.exited then none
  else some { s with armed := v.map (fun d => (now, d)) }

/-- Go `Stopwatch.Resume` called at the instant `now`. -/
def Stopwatch.Resume (tie : Int → Bool) (now : Int) (s : Stopwatch) : Option Stopwatch :=
  let s1 := { s.worker tie now with lastResume := some now }
  let untilDeadline := wrap64 (s1.timeout - s1.totalPassed)
  if ¬ s1.closed then s1.send now (some untilDeadline)
  else some s1

/-- Go `Stopwatch.Pause` called at the instant `now`. -/
def Stopwatch.Pause (tie : Int → Bool) (now : Int) (s : Stopwatch) : Option Stopwatch :=
  let s1 := s.worker tie now
  let addDuration := timeSince now s1.lastResume
  match (if ¬ s1.closed then s1.send now none else some s1) with
  | none => none
  | some s2 => some { s2 with totalPassed := wrap64 (s2.totalPassed + addDuration) }

/-- Go `Stopwatch.Close` called at the instant `now`; closing a closed channel panics
(`none`). The worker finds the channel closed and returns. -/
def Stopwatch.Close (tie : Int → Bool) (now : Int) (s : Stopwatch) : Option Stopwatch :=
  let s1 := s.worker tie now
  if ¬ s1.closed then
    if s1.chanClosed then none
    else some { s1 with closed := true, chanClosed := true, armed := none, exited := true }
  else some s1

/-- A call on a stopwatch, with the instant at which it is made. -/
inductive StopwatchCall where
  | Resume (now : Int)
  | Pause (now : Int)
  | Close (now : Int)
  deriving DecidableEq

/-- Runs a sequence of calls; `none` when one of them does not return. -/
def Stopwatch.run (tie : Int → Bool) : Stopwatch → List StopwatchCall → Option Stopwatch
  | s, [] => some s
  | s, StopwatchCall.Resume now :: calls =>
    match s.Resume tie now with
    | none => none
    | some s1 => Stopwatch.run tie s1 calls
  | s, StopwatchCall.Pause now :: calls =>
    match s.Pause tie now with
    | none => none
    | some s1 => Stopwatch.run tie s1 calls
  | s, StopwatchCall.Close now :: calls =>
    match s.Close tie now with
    | none => none
    | some s1 => Stopwatch.run tie s1 calls

/-- The alternating sequence `Resume(t1), Pause(t1'), ..., Resume(tn), Pause(tn')` of the
pairs `(ti, ti')`. -/
def resumePauseCalls : List (Int × Int) → List StopwatchCall
  | [] => []
  | p :: pairs => StopwatchCall.Resume p.1 :: StopwatchCall.Pause p.2 :: resumePauseCalls pairs

/-- The sum of the active times `ti' - ti` of the pairs. -/
def activeTime : List (Int × Int) → Int
  | [] => 0
  | p :: pairs => (p.2 - p.1) + activeTime pairs

/-- The instants of the pairs are clock readings in the order of the calls, none before
`start`: `start ≤ t1 ≤ t1' ≤ t2 ≤ ...`, all below `2^63`. -/
def Chronological : Int → List (Int × Int) → Prop
  | _, [] => True
  | start, p :: pairs =>
    start ≤ p.1 ∧ p.1 ≤ p.2 ∧ p.2 < 9223372036854775808 ∧ Chronological p.2 pairs

/-- The state of a paused stopwatch with time-out `T` that has accumulated `total`, in a
sequence of calls without `Close`: the worker is not waiting on a timer, the flag `closed`,
the state of the channel and the end of the worker go together, and the callback has been
called once if the stopwatch has closed itself and never otherwise, which happens only with
`total ≥ T` and always with `total > T`. -/
def Stopwatch.PausedAt (s : Stopwatch) (T total : Int) : Prop :=
  s.timeout = T ∧ s.totalPassed = total ∧ s.armed = none ∧ s.chanClosed = s.closed
    ∧ s.exited = s.closed ∧ s.cancels = (if s.closed then 1 else 0)
    ∧ (s.closed = false → total ≤ T) ∧ (s.closed = true → T ≤ total)

/-- The states in which flag, channel and worker agree: the channel is closed and the worker
has returned, waiting on no timer, exactly when the stopwatch is closed. -/
def Stopwatch.Coherent (s : Stopwatch) : Prop :=
  s.chanClosed = s.closed ∧ s.exited = s.closed ∧ (s.closed = true → s.armed = none)

/-- What the claims about the mock use of `fmt`, for the configuration `conf`: the text
written for each value of the configuration is read back as that value, and for every cell
of the field the text written for its two coordinates is read back as the cell, under
`"%d %d"` and under `"shot %d %d"`. Go `fmt` does so for every `int64` value. -/
def Fmt.ReadsBack (fm : Fmt) (conf : Configuration) : Prop :=
  (∀ v ∈ [conf.W, conf.H, conf.Sizes.c0, conf.Sizes.c1, conf.Sizes.c2, conf.Sizes.c3],
      fm.Sscan1 (fm.Sprint v) = Except.ok v)
    ∧ ∀ x y : Int, 0 ≤ x → x < conf.W → 0 ≤ y → y < conf.H →
        fm.Sscan2 (fm.Sprint x ++ " " ++ fm.Sprint y) = Except.ok (x, y)
          ∧ fm.SscanShot ("shot " ++ fm.Sprint x ++ " " ++ fm.Sprint y) = (x, y)

/-- A round of the mock, in the master role, against a player given by the behaviour `b`:
the mock holds the configuration `conf` and its cursor is a cell of the field. -/
def round.MockSeated (conf : Configuration) (b : Behaviour) (r : round) : Prop :=
  ∃ m sent, r.master = Player.mock m ∧ r.slave = Player.real b sent ∧ m.conf = conf
    ∧ 0 ≤ m.x ∧ m.x < conf.W ∧ 0 ≤ m.y ∧ m.y < conf.H

/-- A round of the mock that has gone through the setup: its configuration is `conf`, the
master's field is the object the mock holds, and the slave's field is an object of its
own. -/
def round.InBreaker (conf : Configuration) (b : Behaviour) (r : round) : Prop :=
  r.MockSeated conf b ∧ r.conf = conf ∧ r.masterField = some FieldRef.shared
    ∧ ∃ g, r.slaveField = some (FieldRef.own g)

/-- The cells shot since the last `ResetShots` (since `Load` when there was none), latest
first, after the calls `ops`, `hist` being these cells before the calls. -/
def shotsAfter : List (Int × Int) → List FieldOp → List (Int × Int)
  | hist, [] => hist
  | hist, FieldOp.shoot x y :: ops => shotsAfter ((x, y) :: hist) ops
  | _, FieldOp.reset :: ops => shotsAfter [] ops

/-- Number of ships of the layout of the given size with a cell that is not among the cells
`shot`. -/
def aliveInLayout (ships : List Ship) (shot : List (Int × Int)) (size : Int) : Int :=
  ((ships.filter (fun s =>
    decide (s.Size = size) && s.cells.any (fun c => decide (c ∉ shot)))).length : Int)

/-! ## Scanning (`fmt.Sscanf`) -/

/-- Go `fmt.isSpace`: the runes that count as space when scanning (`U+0009..U+000D`,
`U+0020`, `U+0085`, `U+00A0`, `U+1680`, `U+2000..U+200A`, `U+2028`, `U+2029`, `U+202F`,
`U+205F`, `U+3000`). -/
def isSpace (r : Char) : Bool :=
  (decide (9 ≤ r.toNat) && decide (r.toNat ≤ 13)) || decide (r.toNat = 32)
    || decide (r.toNat = 133) || decide (r.toNat = 160) || decide (r.toNat = 5760)
    || (decide (8192 ≤ r.toNat) && decide (r.toNat ≤ 8202)) || decide (r.toNat = 8232)
    || decide (r.toNat = 8233) || decide (r.toNat = 8239) || decide (r.toNat = 8287)
    || decide (r.toNat = 12288)

/-- A space other than the newline: what a blank of a format matches and what is skipped
before a number. -/
def isBlank (r : Char) : Bool :=
  isSpace r && decide (r ≠ Char.ofNat 10)

/-- Membership in Go `decimalDigits`, the digits `scanNumber` accepts for the verb `%d`. -/
def isDecimalDigit (r : Char) : Bool :=
  decide (48 ≤ r.toNat) && decide (r.toNat ≤ 57)

/-- Go `(*ss).SkipSpace` as `Sscanf` runs it (`nlIsSpace` is false), on the runes left of the
input: the runes left after it, `none` for the error `unexpected newline`. -/
def SkipSpace : List Char → Option (List Char)
  | [] => some []
  | r :: input =>
    if r = Char.ofNat 13 ∧ input.head? = some (Char.ofNat 10) then SkipSpace input
    else if r = Char.ofNat 10 then none
    else if isSpace r then SkipSpace input
    else some (r :: input)

/-- The value `strconv.ParseUint` computes for a text of decimal digits, without its range
check. -/
def decimalValue (digits : List Char) : Nat :=
  digits.foldl (fun acc r => acc * 10 + (r.toNat - 48)) 0

/-- Go `(*ss).scanInt(verb, bitSize)` for the verb `d`: the value and the runes left after
the number; `none` for an error. It skips space, requires input (`notEOF`), accepts one sign,
requires a digit (`expected integer`) and accepts the digits that follow; the token goes
through `strconv.ParseInt(tok, 10, 64)`, which fails out of the `int64` range, and the value
must survive the truncation to `bitSize` bits (`integer overflow on token`). The width limit
of `2^30` runes of a verb without width is not modelled. -/
def scanInt (bitSize : Nat) (input : List Char) : Option (Int × List Char) :=
  match SkipSpace input with
  | none => none
  | some [] => none
  | some (r :: rest) =>
    let body := if r = '+' ∨ r = '-' then rest else r :: rest
    let digits := body.takeWhile isDecimalDigit
    let i : Int := if r = '-' then -(decimalValue digits : Int) else (decimalValue digits : Int)
    if digits = [] then none
    else if i < -9223372036854775808 ∨ 9223372036854775807 < i then none
    else if i < -(2 ^ (bitSize - 1) : Int) ∨ (2 ^ (bitSize - 1) : Int) ≤ i then none
    else some (i, body.dropWhile isDecimalDigit)

/-- Go `(*ss).scanRune`, which the verb `c` runs without skipping space: the next rune, an
error at the end of the input. A rune always fits the 32 bits of its target. -/
def scanRune (input : List Char) : Option (Char × List Char) :=
  match input with
  | [] => none
  | r :: rest => some (r, rest)

/-- Go `(*ss).advance` on one blank of the format that is followed by a verb: the blank
matches the end of the input, or one or more spaces of the input, none of them a newline;
`none` for the errors `expected space in input to match format` and `newline in input does
not match format`. -/
def advance (input : List Char) : Option (List Char) :=
  match input with
  | [] => some []
  | r :: rest =>
    if ¬ isSpace r then none
    else if r = Char.ofNat 10 then none
    else some (rest.dropWhile isBlank)

/-- Go `fmt.Sscanf(str, "%d", &v)` for an `int64` target, as `SendScanf` calls it: the value
stored when it returns `n = 1` and no error, `none` when it returns an error. The text after
the number is not read. -/
def SscanfInt (str : String) : Option Int :=
  match SkipSpace str.data with
  | none => none
  | some input =>
    match scanInt 64 input with
    | none => none
    | some (v, _) => some v

/-- Go `fmt.Sscanf(line, "%d %c %d %d", &ship.Size, &direction, &ship.X, &ship.Y)` of
`ParseShips`, the targets being an `int8`, a `rune` and two `int64`: the four values when it
returns `n = 4` and no error, `none` otherwise. The text after the last number is not
read. -/
def SscanfShip (line : String) : Option (Int × Char × Int × Int) :=
  match SkipSpace line.data with
  | none => none
  | some i0 =>
    match scanInt 8 i0 with
    | none => none
    | some (size, i1) =>
      match advance i1 with
      | none => none
      | some i2 =>
        match scanRune i2 with
        | none => none
        | some (direction, i3) =>
          match advance i3 with
          | none => none
          | some i4 =>
            match SkipSpace i4 with
            | none => none
            | some i5 =>
              match scanInt 64 i5 with
              | none => none
              | some (x, i6) =>
                match advance i6 with
                | none => none
                | some i7 =>
                  match SkipSpace i7 with
                  | none => none
                  | some i8 =>
                    match scanInt 64 i8 with
                    | none => none
                    | some (y, _) => some (size, direction, x, y)

/-- The runes `cs` start with a decimal integer as the verb `%d` reads it into a signed
integer of `bits` bits: blanks (spaces other than newlines, possibly none), an optional sign
`+` or `-`, one or more decimal digits, and then `rest`, which does not start with a digit;
`v` is the value of the digits, negated after `-`, and lies in `[-2^(bits-1), 2^(bits-1))`. -/
def IntegerAt (bits : Nat) (cs : List Char) (v : Int) (rest : List Char) : Prop :=
  ∃ blanks sign digits, cs = blanks ++ (sign ++ (digits ++ rest))
    ∧ (∀ c ∈ blanks, isBlank c = true)
    ∧ (sign = [] ∨ sign = ['+'] ∨ sign = ['-'])
    ∧ digits ≠ [] ∧ (∀ c ∈ digits, isDecimalDigit c = true)
    ∧ (∀ c, rest.head? = some c → isDecimalDigit c = false)
    ∧ v = (if sign = ['-'] then -(decimalValue digits : Int) else (decimalValue digits : Int))
    ∧ -(2 ^ (bits - 1) : Int) ≤ v ∧ v < (2 ^ (bits - 1) : Int)

/-- The runes `cs` are one or more blanks followed by `rest`, which does not start with a
blank. -/
def BlanksThen (cs rest : List Char) : Prop :=
  ∃ blanks, blanks ≠ [] ∧ cs = blanks ++ rest ∧ (∀ c ∈ blanks, isBlank c = true)
    ∧ (∀ c, rest.head? = some c → isBlank c = false)

/-- The line of a ship as `ParseShips` reads it: a size that fits an `int8`, blanks, one
rune for the direction, blanks, `x`, blanks and `y`, both fitting an `int64`, and then any
text that does not continue the digits of `y`. -/
def ShipLine (cs : List Char) (size : Int) (direction : Char) (x y : Int) : Prop :=
  ∃ r1 r3 r4 r5 r6 r7, IntegerAt 8 cs size r1 ∧ BlanksThen r1 (direction :: r3)
    ∧ BlanksThen r3 r4 ∧ IntegerAt 64 r4 x r5 ∧ BlanksThen r5 r6 ∧ IntegerAt 64 r6 y r7

/-- The functions of `fmt` on canonical decimal texts, with `Sscan1` the scan of
`fmt.Sscanf(str, "%d", &v)`; the text of every scan error stands as `expected integer`. It
serves to run example matches. -/
def scanningFmt : Fmt :=
  { decimalFmt with
    Sscan1 := fun s =>
      match SscanfInt s with
      | some v => Except.ok v
      | none => Except.error "expected integer" }

/-- The text starts, after optional blanks, with a decimal integer of value `v` in the range
of an `int64`; what follows its digits is free. -/
def StartsWithInteger (s : String) (v : Int) : Prop :=
  ∃ rest, IntegerAt 64 s.data v rest

/-! ## Machine arithmetic lemmas -/

theorem wrap64_eq_self {n : Int} (h : IsInt64 n) : wrap64 n = n := by
  unfold IsInt64 at h
  unfold wrap64
  omega

theorem wrap8_eq_self {n : Int} (h1 : -128 ≤ n) (h2 : n < 128) : wrap8 n = n := by
  unfold wrap8
  omega

theorem wrap64_inj_of_lt {a b : Int} (ha : 0 ≤ a) (ha2 : a < 18446744073709551616)
    (hb : 0 ≤ b) (hb2 : b < 18446744073709551616) (h : wrap64 a = wrap64 b) : a = b := by
  unfold wrap64 at h
  omega

theorem wrap64_wrap64_add (a y : Int) : wrap64 (wrap64 a + y) = wrap64 (a + y) := by
  unfold wrap64
  omega

theorem mem_intRange {lo hi v : Int} : v ∈ intRange lo hi ↔ lo ≤ v ∧ v ≤ hi := by
  unfold intRange
  simp only [List.mem_map, List.mem_range]
  constructor
  · rintro ⟨k, hk, rfl⟩
    omega
  · rintro ⟨h1, h2⟩
    refine ⟨(v - lo).toNat, ?_, ?_⟩ <;> omega

theorem makePos_eq (f : ShipField) (x y : Int) : makePos f x y = wrap64 (x * f.conf.H + y) := by
  unfold makePos
  exact wrap64_wrap64_add _ _

theorem pack_inj {H x y x1 y1 : Int} (hy : 0 ≤ y) (hyH : y < H) (hy1 : 0 ≤ y1) (hy1H : y1 < H)
    (h : x * H + y = x1 * H + y1) : x = x1 ∧ y = y1 := by
  have hx : x = x1 := by
    rcases lt_trichotomy x x1 with hlt | heq | hgt
    · exfalso
      have : (x + 1) * H ≤ x1 * H := by
        apply mul_le_mul_of_nonneg_right (by omega) (by omega)
      nlinarith
    · exact heq
    · exfalso
      have : (x1 + 1) * H ≤ x * H := by
        apply mul_le_mul_of_nonneg_right (by omega) (by omega)
      nlinarith
  subst hx
  exact ⟨rfl, by omega⟩

theorem pack_bounds {W H x y : Int} (hx : 0 ≤ x) (hxW : x < W) (hy : 0 ≤ y) (hyH : y < H) :
    0 ≤ x * H + y ∧ x * H + y < W * H := by
  have h1 : 0 ≤ x * H := mul_nonneg hx (by omega)
  have h2 : (x + 1) * H ≤ W * H := mul_le_mul_of_nonneg_right (by omega) (by omega)
  constructor
  · omega
  · nlinarith

/-! ## Descriptor lemmas -/

theorem MarkHit_eq {c : shipData} {idx : Int} (h : 0 ≤ idx) :
    MarkHit c idx = some (markBit c idx.toNat) := by
  unfold MarkHit markBit
  rw [if_neg (by omega)]

theorem MarkHit_some {c c1 : shipData} {idx : Int} (h : MarkHit c idx = some c1) :
    0 ≤ idx ∧ c1 = markBit c idx.toNat := by
  unfold MarkHit at h
  by_cases hneg : idx < 0
  · rw [if_pos hneg] at h
    cases h
  · rw [if_neg hneg] at h
    refine ⟨by omega, ?_⟩
    cases h
    rfl

set_option maxRecDepth 100000 in
set_option maxHeartbeats 4000000 in
theorem markBit_fields_fin : ∀ (c : shipData) (i : Fin 4),
    IsVert (markBit c i.val) = IsVert c ∧ Size (markBit c i.val) = Size c := by
  decide

set_option maxRecDepth 100000 in
set_option maxHeartbeats 4000000 in
theorem markBit_testBit_fin : ∀ (c : shipData) (i k : Fin 4),
    (markBit c i.val).val.testBit k.val = (c.val.testBit k.val || decide (k = i)) := by
  decide

set_option maxRecDepth 100000 in
set_option maxHeartbeats 4000000 in
theorem IsDead_eq_fin : ∀ (c : shipData),
    IsDead c = (c.val.testBit 0 && c.val.testBit 1 && c.val.testBit 2 && c.val.testBit 3) := by
  decide

set_option maxRecDepth 100000 in
set_option maxHeartbeats 4000000 in
theorem Size_range_fin : ∀ (c : shipData), 1 ≤ Size c ∧ Size c ≤ 4 := by
  decide

set_option maxRecDepth 100000 in
set_option maxHeartbeats 4000000 in
theorem newShipData_fields_fin : ∀ (v : Bool) (s : Fin 4),
    IsVert (newShipData v ((s.val : Int) + 1)) = v
      ∧ Size (newShipData v ((s.val : Int) + 1)) = (s.val : Int) + 1
      ∧ ∀ k : Fin 4, (newShipData v ((s.val : Int) + 1)).val.testBit k.val
          = decide (s.val + 1 ≤ k.val) := by
  decide

theorem markBit_IsVert (c : shipData) {k : Nat} (hk : k < 4) :
    IsVert (markBit c k) = IsVert c :=
  (markBit_fields_fin c ⟨k, hk⟩).1

theorem markBit_Size (c : shipData) {k : Nat} (hk : k < 4) :
    Size (markBit c k) = Size c :=
  (markBit_fields_fin c ⟨k, hk⟩).2

theorem markBit_testBit (c : shipData) {i k : Nat} (hi : i < 4) (hk : k < 4) :
    (markBit c i).val.testBit k = (c.val.testBit k || decide (k = i)) := by
  have h := markBit_testBit_fin c ⟨i, hi⟩ ⟨k, hk⟩
  simpa [Fin.ext_iff] using h

theorem IsDead_iff (c : shipData) :
    IsDead c = true ↔ ∀ k : Nat, k < 4 → c.val.testBit k = true := by
  rw [IsDead_eq_fin]
  constructor
  · intro h k hk
    simp only [Bool.and_eq_true] at h
    have : k = 0 ∨ k = 1 ∨ k = 2 ∨ k = 3 := by omega
    rcases this with rfl | rfl | rfl | rfl
    · exact h.1.1.1
    · exact h.1.1.2
    · exact h.1.2
    · exact h.2
  · intro h
    simp only [Bool.and_eq_true]
    exact ⟨⟨⟨h 0 (by omega), h 1 (by omega)⟩, h 2 (by omega)⟩, h 3 (by omega)⟩

theorem Size_pos (c : shipData) : 1 ≤ Size c := (Size_range_fin c).1

theorem Size_le (c : shipData) : Size c ≤ 4 := (Size_range_fin c).2

theorem newShipData_IsVert (v : Bool) {s : Int} (h1 : 1 ≤ s) (h4 : s ≤ 4) :
    IsVert (newShipData v s) = v := by
  have h := (newShipData_fields_fin v ⟨(s - 1).toNat, by omega⟩).1
  have e : (((s - 1).toNat : Nat) : Int) + 1 = s := by omega
  simp only [e] at h
  exact h

theorem newShipData_Size (v : Bool) {s : Int} (h1 : 1 ≤ s) (h4 : s ≤ 4) :
    Size (newShipData v s) = s := by
  have h := (newShipData_fields_fin v ⟨(s - 1).toNat, by omega⟩).2.1
  have e : (((s - 1).toNat : Nat) : Int) + 1 = s := by omega
  simp only [e] at h
  exact h

theorem newShipData_testBit (v : Bool) {s : Int} (h1 : 1 ≤ s) (h4 : s ≤ 4) {k : Nat}
    (hk : k < 4) : (newShipData v s).val.testBit k = true ↔ s ≤ (k : Int) := by
  have h := (newShipData_fields_fin v ⟨(s - 1).toNat, by omega⟩).2.2 ⟨k, hk⟩
  have e : (((s - 1).toNat : Nat) : Int) + 1 = s := by omega
  simp only [e] at h
  rw [h]
  simp only [decide_eq_true_eq]
  omega

theorem resetData_markBit (c : shipData) {k : Nat} (hk : k < 4) :
    resetData (markBit c k) = resetData c := by
  unfold resetData
  rw [markBit_IsVert c hk, markBit_Size c hk]

theorem resetData_newShipData (v : Bool) {s : Int} (h1 : 1 ≤ s) (h4 : s ≤ 4) :
    resetData (newShipData v s) = newShipData v s := by
  unfold resetData
  rw [newShipData_IsVert v h1 h4, newShipData_Size v h1 h4]

theorem resetData_resetData (c : shipData) : resetData (resetData c) = resetData c := by
  unfold resetData
  rw [newShipData_IsVert _ (Size_pos c) (Size_le c), newShipData_Size _ (Size_pos c) (Size_le c)]

theorem hasUnshotCell_iff (c : shipData) :
    hasUnshotCell c = true ↔ ∃ k : Nat, (k : Int) < Size c ∧ c.val.testBit k = false := by
  unfold hasUnshotCell
  simp only [List.any_eq_true, List.mem_range]
  constructor
  · rintro ⟨k, hk, hb⟩
    exact ⟨k, by omega, by simpa using hb⟩
  · rintro ⟨k, hk, hb⟩
    exact ⟨k, by omega, by simpa using hb⟩

/-! ## Map lemmas -/

theorem Get_some_mem {m : List (Int × shipData)} {p : Int} {d : shipData}
    (h : Get m p = some d) : (p, d) ∈ m := by
  induction m with
  | nil => simp [Get] at h
  | cons e m ih =>
    obtain ⟨k, v⟩ := e
    unfold Get at h
    by_cases hk : k = p
    · rw [if_pos hk] at h
      cases h
      subst hk
      exact List.mem_cons_self _ _
    · rw [if_neg hk] at h
      exact List.mem_cons_of_mem _ (ih h)

theorem Get_eq_none_iff {m : List (Int × shipData)} {p : Int} :
    Get m p = none ↔ ∀ e ∈ m, e.1 ≠ p := by
  induction m with
  | nil => simp [Get]
  | cons e m ih =>
    obtain ⟨k, v⟩ := e
    unfold Get
    by_cases hk : k = p
    · rw [if_pos hk]
      simp [hk]
    · rw [if_neg hk, ih]
      simp [hk]

theorem Get_of_mem_nodup {m : List (Int × shipData)} {p : Int} {d : shipData}
    (hnd : (m.map Prod.fst).Nodup) (h : (p, d) ∈ m) : Get m p = some d := by
  induction m with
  | nil => simp at h
  | cons e m ih =>
    obtain ⟨k, v⟩ := e
    simp only [List.map_cons, List.nodup_cons, List.mem_map, not_exists, not_and] at hnd
    unfold Get
    rcases List.mem_cons.1 h with heq | hmem
    · cases heq
      rw [if_pos rfl]
    · have hne : k ≠ p := by
        intro hkp
        exact hnd.1 (p, d) hmem hkp.symm
      rw [if_neg hne]
      exact ih hnd.2 hmem

theorem Put_of_Get_none {m : List (Int × shipData)} {p : Int} (v : shipData)
    (h : Get m p = none) : Put m p v = m ++ [(p, v)] := by
  induction m with
  | nil => rfl
  | cons e m ih =>
    obtain ⟨k, w⟩ := e
    unfold Get at h
    by_cases hk : k = p
    · rw [if_pos hk] at h
      cases h
    · rw [if_neg hk] at h
      unfold Put
      rw [if_neg hk, ih h]
      rfl

theorem Put_keys_of_Get_some {m : List (Int × shipData)} {p : Int} {d : shipData}
    (v : shipData) (h : Get m p = some d) : (Put m p v).map Prod.fst = m.map Prod.fst := by
  induction m with
  | nil => simp [Get] at h
  | cons e m ih =>
    obtain ⟨k, w⟩ := e
    unfold Get at h
    unfold Put
    by_cases hk : k = p
    · rw [if_pos hk]
      rfl
    · rw [if_neg hk] at h
      rw [if_neg hk]
      simp only [List.map_cons, ih h]

theorem Put_append_of_not_mem {A B : List (Int × shipData)} {p : Int} (w v : shipData)
    (hA : ∀ a ∈ A, a.1 ≠ p) : Put (A ++ (p, w) :: B) p v = A ++ (p, v) :: B := by
  induction A with
  | nil =>
    simp only [List.nil_append]
    unfold Put
    rw [if_pos rfl]
  | cons a A ih =>
    obtain ⟨k, u⟩ := a
    have hk : k ≠ p := hA (k, u) (List.mem_cons_self _ _)
    simp only [List.cons_append]
    unfold Put
    rw [if_neg hk, ih (fun a ha => hA a (List.mem_cons_of_mem _ ha))]

theorem Put_keys_nodup {m : List (Int × shipData)} (p : Int) (v : shipData)
    (hnd : (m.map Prod.fst).Nodup) : ((Put m p v).map Prod.fst).Nodup := by
  cases hg : Get m p with
  | none =>
    rw [Put_of_Get_none v hg]
    simp only [List.map_append, List.map_cons, List.map_nil]
    rw [List.nodup_append]
    refine ⟨hnd, List.nodup_singleton _, ?_⟩
    intro a ha hb
    simp only [List.mem_singleton] at hb
    subst hb
    obtain ⟨e, he, hfst⟩ := List.mem_map.1 ha
    exact (Get_eq_none_iff.1 hg) e he hfst
  | some d =>
    rw [Put_keys_of_Get_some v hg]
    exact hnd

/-- Overwriting every entry while iterating over a map with distinct keys rewrites each
value in place. -/
theorem foldl_Put_eq_map (g : shipData → shipData) (pre l : List (Int × shipData))
    (hnd : ((pre ++ l).map Prod.fst).Nodup) :
    l.foldl (fun m e => Put m e.1 (g e.2)) (pre.map (fun e => (e.1, g e.2)) ++ l)
      = (pre ++ l).map (fun e => (e.1, g e.2)) := by
  induction l generalizing pre with
  | nil => simp
  | cons e l ih =>
    obtain ⟨k, w⟩ := e
    simp only [List.foldl_cons]
    have hA : ∀ a ∈ pre.map (fun e => (e.1, g e.2)), a.1 ≠ k := by
      intro a ha
      obtain ⟨b, hb, rfl⟩ := List.mem_map.1 ha
      simp only
      intro hbk
      simp only [List.map_append, List.map_cons] at hnd
      rw [List.nodup_append] at hnd
      exact hnd.2.2 (List.mem_map.2 ⟨b, hb, hbk⟩) (List.mem_cons_self _ _)
    rw [Put_append_of_not_mem w (g w) hA]
    have h2 := ih (pre ++ [(k, w)]) (by simpa using hnd)
    simp only [List.map_append, List.map_cons, List.map_nil, List.append_assoc,
      List.singleton_append] at h2
    simp only [List.map_append, List.map_cons]
    exact h2

theorem ResetShots_ships {f : ShipField} (hnd : (f.ships.map Prod.fst).Nodup) :
    (ResetShots f).ships = f.ships.map (fun e => (e.1, resetData e.2)) := by
  have h := foldl_Put_eq_map resetData [] f.ships (by simpa using hnd)
  simpa [ResetShots, resetData] using h

/-- Effect of overwriting a present key on the number of entries satisfying a test. -/
theorem Put_filter_length {m : List (Int × shipData)} {p : Int} {d : shipData}
    (q : shipData → Bool) (v : shipData) (h : Get m p = some d) :
    (((Put m p v).filter (fun e => q e.2)).length : Int)
      = ((m.filter (fun e => q e.2)).length : Int)
        - (if q d then 1 else 0) + (if q v then 1 else 0) := by
  induction m with
  | nil => simp [Get] at h
  | cons e m ih =>
    obtain ⟨k, w⟩ := e
    unfold Get at h
    unfold Put
    by_cases hk : k = p
    · rw [if_pos hk] at h
      cases h
      rw [if_pos hk]
      by_cases h1 : q d = true <;> by_cases h2 : q v = true <;>
        simp [List.filter_cons, h1, h2]
    · rw [if_neg hk] at h
      rw [if_neg hk]
      have ih1 := ih h
      simp only [List.filter_cons]
      by_cases h1 : q w = true
      · simp only [h1, if_true, List.length_cons, Nat.cast_add, Nat.cast_one]
        omega
      · simp only [h1]
        exact ih1

theorem Put_map_of_Get_some {m : List (Int × shipData)} {p : Int} {d : shipData}
    (g : shipData → shipData) (v : shipData) (h : Get m p = some d) (hv : g v = g d) :
    (Put m p v).map (fun e => (e.1, g e.2)) = m.map (fun e => (e.1, g e.2)) := by
  induction m with
  | nil => simp [Get] at h
  | cons e m ih =>
    obtain ⟨k, w⟩ := e
    unfold Get at h
    unfold Put
    by_cases hk : k = p
    · rw [if_pos hk] at h
      cases h
      rw [if_pos hk]
      simp only [List.map_cons, hv]
    · rw [if_neg hk] at h
      rw [if_neg hk]
      simp only [List.map_cons, ih h]

/-! ## The scans -/

theorem scanLeftLoop_found {f : ShipField} {x y bound : Int} :
    ∀ (fuel : Nat) (i : Int) (intr : intersection),
      scanLeftLoop f x y bound fuel i = some (some intr) →
      Get f.ships intr.shipPos = some intr.shipData ∧ intr.deck < Size intr.shipData
        ∧ IsHor intr.shipData = true := by
  intro fuel
  induction fuel with
  | zero =>
    intro i intr h
    simp [scanLeftLoop] at h
  | succ fuel ih =>
    intro i intr h
    rw [scanLeftLoop] at h
    by_cases hi : i ≤ bound
    · rw [if_pos hi] at h
      simp only at h
      cases hg : Get f.ships (makePos f (wrap64 (x - i)) y) with
      | none =>
        rw [hg] at h
        exact ih _ _ h
      | some ship =>
        rw [hg] at h
        simp only at h
        by_cases hh : IsHor ship = true
        · rw [if_pos hh] at h
          by_cases hs : Size ship ≤ i
          · rw [if_pos hs] at h
            exact ih _ _ h
          · rw [if_neg hs] at h
            simp only [Option.some.injEq] at h
            subst h
            exact ⟨hg, by simp only; omega, hh⟩
        · rw [if_neg hh] at h
          exact ih _ _ h
    · rw [if_neg hi] at h
      simp at h

theorem scanLeftLoop_spec {f : ShipField} {x y bound : Int} (hb : bound ≤ 3) :
    ∀ (fuel : Nat) (i : Int), 1 ≤ i → (bound + 1 - i).toNat < fuel →
      ∃ r, scanLeftLoop f x y bound fuel i = some r
        ∧ (∀ intr, r = some intr → i ≤ intr.deck ∧ intr.deck ≤ bound
            ∧ intr.shipPos = makePos f (wrap64 (x - intr.deck)) y)
        ∧ (r = none → ∀ j, i ≤ j → j ≤ bound → ∀ ship,
            Get f.ships (makePos f (wrap64 (x - j)) y) = some ship →
            IsHor ship = true → Size ship ≤ j) := by
  intro fuel
  induction fuel with
  | zero =>
    intro i _ h
    omega
  | succ fuel ih =>
    intro i hi hfuel
    rw [scanLeftLoop]
    by_cases hib : i ≤ bound
    · rw [if_pos hib]
      have hw : wrap8 (i + 1) = i + 1 := wrap8_eq_self (by omega) (by omega)
      have hrec := ih (i + 1) (by omega) (by omega)
      obtain ⟨r, hr, hfound, hnone⟩ := hrec
      have hcont : ∃ r, scanLeftLoop f x y bound fuel (wrap8 (i + 1)) = some r
          ∧ (∀ intr, r = some intr → i ≤ intr.deck ∧ intr.deck ≤ bound
              ∧ intr.shipPos = makePos f (wrap64 (x - intr.deck)) y)
          ∧ (r = none → ∀ j, i + 1 ≤ j → j ≤ bound → ∀ ship,
              Get f.ships (makePos f (wrap64 (x - j)) y) = some ship →
              IsHor ship = true → Size ship ≤ j) := by
        rw [hw]
        refine ⟨r, hr, ?_, hnone⟩
        intro intr hintr
        obtain ⟨h1, h2, h3⟩ := hfound intr hintr
        exact ⟨by omega, h2, h3⟩
      simp only
      cases hg : Get f.ships (makePos f (wrap64 (x - i)) y) with
      | none =>
        simp only
        obtain ⟨r, hr, hfound, hnone⟩ := hcont
        refine ⟨r, hr, hfound, ?_⟩
        intro hrn j hj hjb ship hgj
        by_cases hji : j = i
        · subst hji
          rw [hg] at hgj
          cases hgj
        · exact hnone hrn j (by omega) hjb ship hgj
      | some ship =>
        simp only
        by_cases hh : IsHor ship = true
        · rw [if_pos hh]
          by_cases hs : Size ship ≤ i
          · rw [if_pos hs]
            obtain ⟨r, hr, hfound, hnone⟩ := hcont
            refine ⟨r, hr, hfound, ?_⟩
            intro hrn j hj hjb ship1 hgj hh1
            by_cases hji : j = i
            · subst hji
              rw [hg] at hgj
              cases hgj
              exact hs
            · exact hnone hrn j (by omega) hjb ship1 hgj hh1
          · rw [if_neg hs]
            refine ⟨_, rfl, ?_, ?_⟩
            · intro intr hintr
              simp only [Option.some.injEq] at hintr
              subst hintr
              exact ⟨le_refl _, hib, rfl⟩
            · intro hrn
              cases hrn
        · rw [if_neg hh]
          obtain ⟨r, hr, hfound, hnone⟩ := hcont
          refine ⟨r, hr, hfound, ?_⟩
          intro hrn j hj hjb ship1 hgj hh1
          by_cases hji : j = i
          · subst hji
            rw [hg] at hgj
            cases hgj
            exact absurd hh1 hh
          · exact hnone hrn j (by omega) hjb ship1 hgj hh1
    · rw [if_neg hib]
      refine ⟨none, rfl, ?_, ?_⟩
      · intro intr hintr
        cases hintr
      · intro _ j hj hjb
        omega

theorem scanUpLoop_found {f : ShipField} {x y bound : Int} :
    ∀ (fuel : Nat) (i : Int) (intr : intersection),
      scanUpLoop f x y bound fuel i = some (some intr) →
      Get f.ships intr.shipPos = some intr.shipData ∧ intr.deck < Size intr.shipData
        ∧ IsVert intr.shipData = true := by
  intro fuel
  induction fuel with
  | zero =>
    intro i intr h
    simp [scanUpLoop] at h
  | succ fuel ih =>
    intro i intr h
    rw [scanUpLoop] at h
    by_cases hi : i ≤ bound
    · rw [if_pos hi] at h
      simp only at h
      cases hg : Get f.ships (makePos f x (wrap64 (y - i))) with
      | none =>
        rw [hg] at h
        exact ih _ _ h
      | some ship =>
        rw [hg] at h
        simp only at h
        by_cases hh : IsVert ship = true
        · rw [if_pos hh] at h
          by_cases hs : Size ship ≤ i
          · rw [if_pos hs] at h
            exact ih _ _ h
          · rw [if_neg hs] at h
            simp only [Option.some.injEq] at h
            subst h
            exact ⟨hg, by simp only; omega, hh⟩
        · rw [if_neg hh] at h
          exact ih _ _ h
    · rw [if_neg hi] at h
      simp at h

theorem scanUpLoop_spec {f : ShipField} {x y bound : Int} (hb : bound ≤ 3) :
    ∀ (fuel : Nat) (i : Int), 1 ≤ i → (bound + 1 - i).toNat < fuel →
      ∃ r, scanUpLoop f x y bound fuel i = some r
        ∧ (∀ intr, r = some intr → i ≤ intr.deck ∧ intr.deck ≤ bound
            ∧ intr.shipPos = makePos f x (wrap64 (y - intr.deck)))
        ∧ (r = none → ∀ j, i ≤ j → j ≤ bound → ∀ ship,
            Get f.ships (makePos f x (wrap64 (y - j))) = some ship →
            IsVert ship = true → Size ship ≤ j) := by
  intro fuel
  induction fuel with
  | zero =>
    intro i _ h
    omega
  | succ fuel ih =>
    intro i hi hfuel
    rw [scanUpLoop]
    by_cases hib : i ≤ bound
    · rw [if_pos hib]
      have hw : wrap8 (i + 1) = i + 1 := wrap8_eq_self (by omega) (by omega)
      have hrec := ih (i + 1) (by omega) (by omega)
      obtain ⟨r, hr, hfound, hnone⟩ := hrec
      have hcont : ∃ r, scanUpLoop f x y bound fuel (wrap8 (i + 1)) = some r
          ∧ (∀ intr, r = some intr → i ≤ intr.deck ∧ intr.deck ≤ bound
              ∧ intr.shipPos = makePos f x (wrap64 (y - intr.deck)))
          ∧ (r = none → ∀ j, i + 1 ≤ j → j ≤ bound → ∀ ship,
              Get f.ships (makePos f x (wrap64 (y - j))) = some ship →
              IsVert ship = true → Size ship ≤ j) := by
        rw [hw]
        refine ⟨r, hr, ?_, hnone⟩
        intro intr hintr
        obtain ⟨h1, h2, h3⟩ := hfound intr hintr
        exact ⟨by omega, h2, h3⟩
      simp only
      cases hg : Get f.ships (makePos f x (wrap64 (y - i))) with
      | none =>
        simp only
        obtain ⟨r, hr, hfound, hnone⟩ := hcont
        refine ⟨r, hr, hfound, ?_⟩
        intro hrn j hj hjb ship hgj
        by_cases hji : j = i
        · subst hji
          rw [hg] at hgj
          cases hgj
        · exact hnone hrn j (by omega) hjb ship hgj
      | some ship =>
        simp only
        by_cases hh : IsVert ship = true
        · rw [if_pos hh]
          by_cases hs : Size ship ≤ i
          · rw [if_pos hs]
            obtain ⟨r, hr, hfound, hnone⟩ := hcont
            refine ⟨r, hr, hfound, ?_⟩
            intro hrn j hj hjb ship1 hgj hh1
            by_cases hji : j = i
            · subst hji
              rw [hg] at hgj
              cases hgj
              exact hs
            · exact hnone hrn j (by omega) hjb ship1 hgj hh1
          · rw [if_neg hs]
            refine ⟨_, rfl, ?_, ?_⟩
            · intro intr hintr
              simp only [Option.some.injEq] at hintr
              subst hintr
              exact ⟨le_refl _, hib, rfl⟩
            · intro hrn
              cases hrn
        · rw [if_neg hh]
          obtain ⟨r, hr, hfound, hnone⟩ := hcont
          refine ⟨r, hr, hfound, ?_⟩
          intro hrn j hj hjb ship1 hgj hh1
          by_cases hji : j = i
          · subst hji
            rw [hg] at hgj
            cases hgj
            exact absurd hh1 hh
          · exact hnone hrn j (by omega) hjb ship1 hgj hh1
    · rw [if_neg hib]
      refine ⟨none, rfl, ?_, ?_⟩
      · intro intr hintr
        cases hintr
      · intro _ j hj hjb
        omega

theorem scanIntersectionsLeft_spec (f : ShipField) {x : Int} (y : Int) (hx : 0 ≤ x) :
    ∃ r, scanIntersectionsLeft f x y = some r
      ∧ (∀ intr, r = some intr → 1 ≤ intr.deck ∧ intr.deck ≤ 3 ∧ intr.deck ≤ x
          ∧ intr.shipPos = makePos f (wrap64 (x - intr.deck)) y
          ∧ Get f.ships intr.shipPos = some intr.shipData
          ∧ intr.deck < Size intr.shipData ∧ IsHor intr.shipData = true)
      ∧ (r = none → ∀ j, 1 ≤ j → j ≤ 3 → j ≤ x → ∀ ship,
          Get f.ships (makePos f (wrap64 (x - j)) y) = some ship →
          IsHor ship = true → Size ship ≤ j) := by
  have hb : wrap8 (min 3 x) = min 3 x := wrap8_eq_self (by omega) (by omega)
  unfold scanIntersectionsLeft
  rw [hb]
  obtain ⟨r, hr, hfound, hnone⟩ :=
    @scanLeftLoop_spec f x y (min 3 x) (by omega) 256 1
      (le_refl _) (by omega)
  refine ⟨r, hr, ?_, ?_⟩
  · intro intr hintr
    obtain ⟨h1, h2, h3⟩ := hfound intr hintr
    subst hintr
    obtain ⟨h4, h5, h6⟩ := scanLeftLoop_found _ _ _ hr
    exact ⟨h1, by omega, by omega, h3, h4, h5, h6⟩
  · intro hrn j hj1 hj3 hjx
    exact hnone hrn j hj1 (by omega)

theorem scanIntersectionsUp_spec (f : ShipField) (x : Int) {y : Int} (hy : 0 ≤ y) :
    ∃ r, scanIntersectionsUp f x y = some r
      ∧ (∀ intr, r = some intr → 1 ≤ intr.deck ∧ intr.deck ≤ 3 ∧ intr.deck ≤ y
          ∧ intr.shipPos = makePos f x (wrap64 (y - intr.deck))
          ∧ Get f.ships intr.shipPos = some intr.shipData
          ∧ intr.deck < Size intr.shipData ∧ IsVert intr.shipData = true)
      ∧ (r = none → ∀ j, 1 ≤ j → j ≤ 3 → j ≤ y → ∀ ship,
          Get f.ships (makePos f x (wrap64 (y - j))) = some ship →
          IsVert ship = true → Size ship ≤ j) := by
  have hb : wrap8 (min 3 y) = min 3 y := wrap8_eq_self (by omega) (by omega)
  unfold scanIntersectionsUp
  rw [hb]
  obtain ⟨r, hr, hfound, hnone⟩ :=
    @scanUpLoop_spec f x y (min 3 y) (by omega) 256 1
      (le_refl _) (by omega)
  refine ⟨r, hr, ?_, ?_⟩
  · intro intr hintr
    obtain ⟨h1, h2, h3⟩ := hfound intr hintr
    subst hintr
    obtain ⟨h4, h5, h6⟩ := scanUpLoop_found _ _ _ hr
    exact ⟨h1, by omega, by omega, h3, h4, h5, h6⟩
  · intro hrn j hj1 hj3 hjx
    exact hnone hrn j hj1 (by omega)

/-! ## Shape of a shot -/

/-- A shot that returns either leaves the field alone and misses, or strikes (through
`hitShip`) a stored descriptor at one of its own cells. -/
theorem Shoot_cases {f f1 : ShipField} {x y : Int} {r : ShootResult}
    (h : Shoot f x y = some (f1, r)) :
    (f1 = f ∧ r = ShootResult.Miss)
      ∨ ∃ pos ship idx, Get f.ships pos = some ship ∧ idx < Size ship
          ∧ hitShip f ship pos idx = some (f1, r) := by
  unfold Shoot at h
  by_cases hout : x ≥ f.conf.W ∨ y ≥ f.conf.H
  · rw [if_pos hout] at h
    simp only [Option.some.injEq, Prod.mk.injEq] at h
    exact Or.inl ⟨h.1.symm, h.2.symm⟩
  · rw [if_neg hout] at h
    simp only at h
    cases hg : Get f.ships (makePos f x y) with
    | some ship =>
      rw [hg] at h
      exact Or.inr ⟨_, ship, 0, hg, by have := Size_pos ship; omega, h⟩
    | none =>
      rw [hg] at h
      simp only at h
      cases hl : scanIntersectionsLeft f x y with
      | none =>
        rw [hl] at h
        cases h
      | some rl =>
        rw [hl] at h
        cases rl with
        | some intr =>
          simp only at h
          obtain ⟨h1, h2, _⟩ := scanLeftLoop_found _ _ _ hl
          exact Or.inr ⟨_, _, _, h1, h2, h⟩
        | none =>
          simp only at h
          cases hu : scanIntersectionsUp f x y with
          | none =>
            rw [hu] at h
            cases h
          | some ru =>
            rw [hu] at h
            cases ru with
            | some intr =>
              simp only at h
              obtain ⟨h1, h2, _⟩ := scanUpLoop_found _ _ _ hu
              exact Or.inr ⟨_, _, _, h1, h2, h⟩
            | none =>
              simp only [Option.some.injEq, Prod.mk.injEq] at h
              exact Or.inl ⟨h.1.symm, h.2.symm⟩

/-- Unfolding of `hitShip` on a descriptor that is not dead. -/
theorem hitShip_alive {f f1 : ShipField} {ship : shipData} {pos idx : Int} {r : ShootResult}
    (hd : IsDead ship = false) (h : hitShip f ship pos idx = some (f1, r)) :
    0 ≤ idx ∧ f1.conf = f.conf ∧ f1.ships = Put f.ships pos (markBit ship idx.toNat)
      ∧ ((IsDead (markBit ship idx.toNat) = true ∧ r = ShootResult.Kill
            ∧ f1.currConfig = { f.currConfig with
                Sizes := f.currConfig.Sizes.set (Size (markBit ship idx.toNat) - 1)
                  (wrap64 (f.currConfig.Sizes.get (Size (markBit ship idx.toNat) - 1) - 1)) })
        ∨ (IsDead (markBit ship idx.toNat) = false ∧ r = ShootResult.Hit
            ∧ f1.currConfig = f.currConfig)) := by
  unfold hitShip at h
  rw [hd] at h
  simp only [Bool.false_eq_true, if_false] at h
  cases hm : MarkHit ship idx with
  | none =>
    rw [hm] at h
    cases h
  | some ship1 =>
    rw [hm] at h
    obtain ⟨h0, rfl⟩ := MarkHit_some hm
    simp only at h
    by_cases hd1 : IsDead (markBit ship idx.toNat) = true
    · rw [if_pos hd1] at h
      simp only [Option.some.injEq, Prod.mk.injEq] at h
      obtain ⟨hf, hr⟩ := h
      subst hf
      exact ⟨h0, rfl, rfl, Or.inl ⟨hd1, hr.symm, rfl⟩⟩
    · rw [if_neg hd1] at h
      simp only [Option.some.injEq, Prod.mk.injEq] at h
      obtain ⟨hf, hr⟩ := h
      subst hf
      exact ⟨h0, rfl, rfl, Or.inr ⟨by simpa using hd1, hr.symm, rfl⟩⟩

theorem hitShip_dead {f f1 : ShipField} {ship : shipData} {pos idx : Int} {r : ShootResult}
    (hd : IsDead ship = true) (h : hitShip f ship pos idx = some (f1, r)) :
    f1 = f ∧ r = ShootResult.Kill := by
  unfold hitShip at h
  rw [if_pos hd] at h
  simp only [Option.some.injEq, Prod.mk.injEq] at h
  exact ⟨h.1.symm, h.2.symm⟩

theorem hitShip_isSome (f : ShipField) (ship : shipData) (pos : Int) {idx : Int}
    (h : 0 ≤ idx) : ∃ f1 r, hitShip f ship pos idx = some (f1, r) := by
  unfold hitShip
  by_cases hd : IsDead ship = true
  · rw [if_pos hd]
    exact ⟨_, _, rfl⟩
  · rw [if_neg hd, MarkHit_eq h]
    simp only
    by_cases hd1 : IsDead (markBit ship idx.toNat) = true
    · rw [if_pos hd1]
      exact ⟨_, _, rfl⟩
    · rw [if_neg hd1]
      exact ⟨_, _, rfl⟩

/-- A shot at non-negative coordinates returns. -/
theorem Shoot_isSome (f : ShipField) {x y : Int} (hx : 0 ≤ x) (hy : 0 ≤ y) :
    ∃ f1 r, Shoot f x y = some (f1, r) := by
  unfold Shoot
  by_cases hout : x ≥ f.conf.W ∨ y ≥ f.conf.H
  · rw [if_pos hout]
    exact ⟨_, _, rfl⟩
  · rw [if_neg hout]
    simp only
    cases hg : Get f.ships (makePos f x y) with
    | some ship => exact hitShip_isSome f ship _ (le_refl _)
    | none =>
      simp only
      obtain ⟨rl, hl, hfl, _⟩ := scanIntersectionsLeft_spec f y hx
      rw [hl]
      cases rl with
      | some intr =>
        simp only
        exact hitShip_isSome f _ _ (by have := (hfl intr rfl).1; omega)
      | none =>
        simp only
        obtain ⟨ru, hu, hfu, _⟩ := scanIntersectionsUp_spec f x hy
        rw [hu]
        cases ru with
        | some intr =>
          simp only
          exact hitShip_isSome f _ _ (by have := (hfu intr rfl).1; omega)
        | none => exact ⟨_, _, rfl⟩

/-! ## Geometry of ships -/

theorem mem_cells_iff {s : Ship} {c : Int × Int} :
    c ∈ s.cells ↔ ∃ k : Int, 0 ≤ k ∧ k < s.Size ∧ c = s.cellAt k := by
  unfold Ship.cells
  simp only [List.mem_map, List.mem_range]
  constructor
  · rintro ⟨k, hk, rfl⟩
    exact ⟨(k : Int), by omega, by omega, rfl⟩
  · rintro ⟨k, h0, hk, rfl⟩
    refine ⟨k.toNat, by omega, ?_⟩
    have : ((k.toNat : Nat) : Int) = k := by omega
    rw [this]

theorem inField_iff {conf : Configuration} {s : Ship} :
    InField conf s ↔ 1 ≤ s.Size ∧ s.Size ≤ 4 ∧ 0 ≤ s.X ∧ 0 ≤ s.Y
      ∧ (if s.IsVert then s.X < conf.W ∧ s.Y + s.Size ≤ conf.H
         else s.X + s.Size ≤ conf.W ∧ s.Y < conf.H) := by
  unfold InField
  constructor
  · rintro ⟨h1, h4, hc⟩
    have hfirst := hc (s.cellAt 0) (mem_cells_iff.2 ⟨0, le_refl _, by omega, rfl⟩)
    have hlast := hc (s.cellAt (s.Size - 1))
      (mem_cells_iff.2 ⟨s.Size - 1, by omega, by omega, rfl⟩)
    unfold CellInField Ship.cellAt at hfirst hlast
    refine ⟨h1, h4, ?_⟩
    cases hv : s.IsVert
    · simp only [hv, Bool.false_eq_true, if_false] at hfirst hlast ⊢
      omega
    · simp only [hv, if_true] at hfirst hlast ⊢
      omega
  · rintro ⟨h1, h4, hx, hy, hb⟩
    refine ⟨h1, h4, ?_⟩
    intro c hc
    obtain ⟨k, hk0, hk, rfl⟩ := mem_cells_iff.1 hc
    unfold CellInField Ship.cellAt
    cases hv : s.IsVert
    · simp only [hv, Bool.false_eq_true, if_false] at hb ⊢
      omega
    · simp only [hv, if_true] at hb ⊢
      omega

/-! ## The loading loop -/

theorem mem_Put {m : List (Int × shipData)} {p : Int} {v : shipData} {e : Int × shipData}
    (h : e ∈ Put m p v) : e ∈ m ∨ e = (p, v) := by
  induction m with
  | nil =>
    simp only [Put, List.mem_singleton] at h
    exact Or.inr h
  | cons a m ih =>
    obtain ⟨k, w⟩ := a
    unfold Put at h
    by_cases hk : k = p
    · rw [if_pos hk] at h
      rcases List.mem_cons.1 h with h1 | h1
      · right
        rw [h1, hk]
      · left
        exact List.mem_cons_of_mem _ h1
    · rw [if_neg hk] at h
      rcases List.mem_cons.1 h with h1 | h1
      · left
        rw [h1]
        exact List.mem_cons_self _ _
      · rcases ih h1 with h2 | h2
        · left
          exact List.mem_cons_of_mem _ h2
        · right
          exact h2

theorem loadShips_cons (conf : Configuration) (f : ShipField) (c : SizeCounts) (ship : Ship)
    (rest : List Ship) :
    loadShips conf f c (ship :: rest) =
      if ship.Size ≤ 0 ∨ ship.Size > 4 then (f, c, some LoadError.invalidShipSize)
      else if outOfBounds conf ship then (f, c, some LoadError.outOfBounds)
      else if checkInnerOverlaps f ship || checkOuterLeftOverlaps f ship
          || checkOuterUpOverlaps f ship then
        (f, c, some LoadError.shipsOverlap)
      else
        loadShips conf
          { f with ships := Put f.ships (makePos f ship.X ship.Y)
                              (newShipData ship.IsVert ship.Size) }
          (c.set (ship.Size - 1) (c.get (ship.Size - 1) + 1))
          rest := by
  rw [loadShips]

/-- One accepted ship: what the loop checked and how it continues. -/
theorem loadShips_cons_ok {conf : Configuration} {f f1 : ShipField} {c c1 : SizeCounts}
    {ship : Ship} {rest : List Ship}
    (h : loadShips conf f c (ship :: rest) = (f1, c1, none)) :
    1 ≤ ship.Size ∧ ship.Size ≤ 4 ∧ outOfBounds conf ship = false
      ∧ checkInnerOverlaps f ship = false ∧ checkOuterLeftOverlaps f ship = false
      ∧ checkOuterUpOverlaps f ship = false
      ∧ loadShips conf
          { f with ships := Put f.ships (makePos f ship.X ship.Y)
                              (newShipData ship.IsVert ship.Size) }
          (c.set (ship.Size - 1) (c.get (ship.Size - 1) + 1)) rest = (f1, c1, none) := by
  rw [loadShips_cons] at h
  by_cases hs : ship.Size ≤ 0 ∨ ship.Size > 4
  · rw [if_pos hs] at h
    simp at h
  · rw [if_neg hs] at h
    by_cases hb : outOfBounds conf ship = true
    · rw [if_pos hb] at h
      simp at h
    · rw [if_neg hb] at h
      by_cases ho : (checkInnerOverlaps f ship || checkOuterLeftOverlaps f ship
          || checkOuterUpOverlaps f ship) = true
      · rw [if_pos ho] at h
        simp at h
      · rw [if_neg ho] at h
        simp only [Bool.or_eq_true, not_or, Bool.not_eq_true] at ho
        exact ⟨by omega, by omega, by simpa using hb, ho.1.1, ho.1.2, ho.2, h⟩

theorem SizeCounts.set_get_succ (c : SizeCounts) {s : Int} (h1 : 1 ≤ s) (h4 : s ≤ 4) :
    c.set (s - 1) (c.get (s - 1) + 1)
      = ⟨c.c0 + (if s = 1 then 1 else 0), c.c1 + (if s = 2 then 1 else 0),
         c.c2 + (if s = 3 then 1 else 0), c.c3 + (if s = 4 then 1 else 0)⟩ := by
  have : s = 1 ∨ s = 2 ∨ s = 3 ∨ s = 4 := by omega
  rcases this with rfl | rfl | rfl | rfl <;> simp [SizeCounts.set, SizeCounts.get]

theorem countSize_cons (ship : Ship) (rest : List Ship) (s : Int) :
    countSize (ship :: rest) s = (if ship.Size = s then 1 else 0) + countSize rest s := by
  unfold countSize
  by_cases h : ship.Size = s
  · simp [List.filter_cons, h]
    omega
  · simp [List.filter_cons, h]

/-- What a loop that ends without error leaves behind, for arbitrary ships. -/
theorem loadShips_ok {conf : Configuration} (ships : List Ship) :
    ∀ (f f1 : ShipField) (c c1 : SizeCounts),
      loadShips conf f c ships = (f1, c1, none) →
      f1.conf = f.conf ∧ f1.currConfig = f.currConfig
        ∧ c1 = ⟨c.c0 + countSize ships 1, c.c1 + countSize ships 2,
                c.c2 + countSize ships 3, c.c3 + countSize ships 4⟩
        ∧ ((f.ships.map Prod.fst).Nodup → (f1.ships.map Prod.fst).Nodup)
        ∧ ((∀ e ∈ f.ships, resetData e.2 = e.2) → ∀ e ∈ f1.ships, resetData e.2 = e.2) := by
  induction ships with
  | nil =>
    intro f f1 c c1 h
    simp only [loadShips, Prod.mk.injEq] at h
    obtain ⟨rfl, rfl, _⟩ := h
    refine ⟨rfl, rfl, ?_, fun h => h, fun h => h⟩
    simp [countSize]
  | cons ship rest ih =>
    intro f f1 c c1 h
    obtain ⟨h1, h4, _, _, _, _, hrest⟩ := loadShips_cons_ok h
    obtain ⟨hc, hcc, hcnt, hnd, hfresh⟩ := ih _ _ _ _ hrest
    refine ⟨hc, hcc, ?_, ?_, ?_⟩
    · rw [hcnt, SizeCounts.set_get_succ c h1 h4]
      simp only [countSize_cons]
      have : ship.Size = 1 ∨ ship.Size = 2 ∨ ship.Size = 3 ∨ ship.Size = 4 := by omega
      rcases this with h | h | h | h <;> simp [h] <;> omega
    · intro hf
      exact hnd (Put_keys_nodup _ _ hf)
    · intro hf
      apply hfresh
      intro e he
      rcases mem_Put he with h2 | h2
      · exact hf e h2
      · rw [h2]
        exact resetData_newShipData _ h1 h4

/-- A loop that ends with an error leaves the configurations alone as well. -/
theorem loadShips_conf {conf : Configuration} (ships : List Ship) :
    ∀ (f : ShipField) (c : SizeCounts),
      (loadShips conf f c ships).1.conf = f.conf
        ∧ (loadShips conf f c ships).1.currConfig = f.currConfig := by
  induction ships with
  | nil =>
    intro f c
    simp [loadShips]
  | cons ship rest ih =>
    intro f c
    rw [loadShips_cons]
    by_cases hs : ship.Size ≤ 0 ∨ ship.Size > 4
    · rw [if_pos hs]
      exact ⟨rfl, rfl⟩
    · rw [if_neg hs]
      by_cases hb : outOfBounds conf ship = true
      · rw [if_pos hb]
        exact ⟨rfl, rfl⟩
      · rw [if_neg hb]
        by_cases ho : (checkInnerOverlaps f ship || checkOuterLeftOverlaps f ship
            || checkOuterUpOverlaps f ship) = true
        · rw [if_pos ho]
          exact ⟨rfl, rfl⟩
        · rw [if_neg ho]
          exact ih _ _

/-- `Load` in terms of its ship loop. -/
theorem Load_eq (f : ShipField) (conf : Configuration) (ships : List Ship)
    (hW : conf.W ≠ 0) (hH : conf.H ≠ 0) :
    Load f conf ships =
      ((loadShips conf { f with currConfig := conf, conf := conf } ⟨0, 0, 0, 0⟩ ships).1,
        match (loadShips conf { f with currConfig := conf, conf := conf } ⟨0, 0, 0, 0⟩
            ships).2.2 with
        | some e => some e
        | none =>
          if (loadShips conf { f with currConfig := conf, conf := conf } ⟨0, 0, 0, 0⟩
              ships).2.1 = conf.Sizes then none
          else some LoadError.countMismatch) := by
  unfold Load
  simp only
  rw [if_neg (by simp [hW, hH])]
  rcases hl : loadShips conf { f with currConfig := conf, conf := conf } ⟨0, 0, 0, 0⟩ ships
    with ⟨f2, c2, e⟩
  cases e with
  | some e => rfl
  | none =>
    simp only
    obtain ⟨a0, a1, a2, a3⟩ := c2
    rcases hcs : conf.Sizes with ⟨b0, b1, b2, b3⟩
    simp only [SizeCounts.mk.injEq]
    by_cases h : a0 = b0 ∧ a1 = b1 ∧ a2 = b2 ∧ a3 = b3
    · rw [if_pos h, if_neg (by omega)]
    · rw [if_neg h, if_pos (by omega)]

/-- A successful `Load`: the loop ended without error and the counts agreed. -/
theorem Load_ok {f f0 : ShipField} {conf : Configuration} {ships : List Ship}
    (h : Load f conf ships = (f0, none)) :
    conf.W ≠ 0 ∧ conf.H ≠ 0
      ∧ loadShips conf { f with currConfig := conf, conf := conf } ⟨0, 0, 0, 0⟩ ships
          = (f0, conf.Sizes, none) := by
  have hWH : conf.W ≠ 0 ∧ conf.H ≠ 0 := by
    by_contra hne
    unfold Load at h
    simp only at h
    rw [if_pos (by
      by_cases hW : conf.W = 0
      · exact Or.inl hW
      · right
        by_contra hH
        exact hne ⟨hW, hH⟩)] at h
    simp at h
  refine ⟨hWH.1, hWH.2, ?_⟩
  rw [Load_eq f conf ships hWH.1 hWH.2] at h
  rcases hl : loadShips conf { f with currConfig := conf, conf := conf } ⟨0, 0, 0, 0⟩ ships
    with ⟨f2, c2, e⟩
  rw [hl] at h
  simp only [Prod.mk.injEq] at h
  obtain ⟨hf, he⟩ := h
  cases e with
  | some e => simp at he
  | none =>
    simp only at he
    by_cases hc : c2 = conf.Sizes
    · rw [hf, hc]
    · rw [if_neg hc] at he
      simp at he

/-! ## What every call leaves unchanged -/

theorem hitShip_frame {f f1 : ShipField} {ship : shipData} {pos idx : Int} {r : ShootResult}
    (hg : Get f.ships pos = some ship) (hidx : idx < Size ship)
    (h : hitShip f ship pos idx = some (f1, r)) :
    f1.conf = f.conf ∧ f1.ships.map Prod.fst = f.ships.map Prod.fst
      ∧ f1.ships.map (fun e => (e.1, resetData e.2))
          = f.ships.map (fun e => (e.1, resetData e.2)) := by
  cases hd : IsDead ship with
  | true =>
    obtain ⟨rfl, _⟩ := hitShip_dead hd h
    exact ⟨rfl, rfl, rfl⟩
  | false =>
    obtain ⟨h0, hc, hs, _⟩ := hitShip_alive hd h
    have hk : idx.toNat < 4 := by
      have := Size_le ship
      omega
    refine ⟨hc, ?_, ?_⟩
    · rw [hs]
      exact Put_keys_of_Get_some _ hg
    · rw [hs]
      exact Put_map_of_Get_some resetData _ hg (resetData_markBit ship hk)

theorem Shoot_frame {f f1 : ShipField} {x y : Int} {r : ShootResult}
    (h : Shoot f x y = some (f1, r)) :
    f1.conf = f.conf ∧ f1.ships.map Prod.fst = f.ships.map Prod.fst
      ∧ f1.ships.map (fun e => (e.1, resetData e.2))
          = f.ships.map (fun e => (e.1, resetData e.2)) := by
  rcases Shoot_cases h with ⟨rfl, _⟩ | ⟨pos, ship, idx, hg, hidx, hh⟩
  · exact ⟨rfl, rfl, rfl⟩
  · exact hitShip_frame hg hidx hh

theorem ResetShots_frame {f : ShipField} (hnd : (f.ships.map Prod.fst).Nodup) :
    (ResetShots f).conf = f.conf ∧ (ResetShots f).currConfig = f.conf
      ∧ (ResetShots f).ships.map Prod.fst = f.ships.map Prod.fst
      ∧ (ResetShots f).ships.map (fun e => (e.1, resetData e.2))
          = f.ships.map (fun e => (e.1, resetData e.2)) := by
  refine ⟨rfl, rfl, ?_, ?_⟩
  · rw [ResetShots_ships hnd, List.map_map]
    rfl
  · rw [ResetShots_ships hnd, List.map_map]
    apply List.map_congr_left
    intro e _
    simp only [Function.comp, resetData_resetData]

theorem runOps_frame (ops : List FieldOp) :
    ∀ (f f1 : ShipField) (rs : List ShootResult), (f.ships.map Prod.fst).Nodup →
      runOps f ops = some (f1, rs) →
      f1.conf = f.conf ∧ f1.ships.map Prod.fst = f.ships.map Prod.fst
        ∧ f1.ships.map (fun e => (e.1, resetData e.2))
            = f.ships.map (fun e => (e.1, resetData e.2)) := by
  induction ops with
  | nil =>
    intro f f1 rs _ h
    simp only [runOps, Option.some.injEq, Prod.mk.injEq] at h
    obtain ⟨rfl, _⟩ := h
    exact ⟨rfl, rfl, rfl⟩
  | cons op ops ih =>
    intro f f1 rs hnd h
    cases op with
    | shoot x y =>
      rw [runOps] at h
      cases hs : Shoot f x y with
      | none =>
        rw [hs] at h
        cases h
      | some p =>
        obtain ⟨f2, r⟩ := p
        rw [hs] at h
        simp only at h
        obtain ⟨hc, hk, hr⟩ := Shoot_frame hs
        cases hrest : runOps f2 ops with
        | none =>
          rw [hrest] at h
          cases h
        | some q =>
          obtain ⟨f3, rs3⟩ := q
          rw [hrest] at h
          simp only [Option.some.injEq, Prod.mk.injEq] at h
          obtain ⟨rfl, _⟩ := h
          obtain ⟨hc1, hk1, hr1⟩ := ih f2 f3 rs3 (by rw [hk]; exact hnd) hrest
          exact ⟨hc1.trans hc, hk1.trans hk, hr1.trans hr⟩
    | reset =>
      rw [runOps] at h
      obtain ⟨hc, _, hk, hr⟩ := ResetShots_frame hnd
      obtain ⟨hc1, hk1, hr1⟩ := ih (ResetShots f) f1 rs (by rw [hk]; exact hnd) h
      exact ⟨hc1.trans hc, hk1.trans hk, hr1.trans hr⟩

/-- A sequence of shots at non-negative coordinates returns. -/
theorem shootAll_isSome (shots : List (Int × Int)) :
    ∀ (f : ShipField), (∀ p ∈ shots, 0 ≤ p.1 ∧ 0 ≤ p.2) →
      ∃ f1 rs, shootAll f shots = some (f1, rs) := by
  induction shots with
  | nil =>
    intro f _
    exact ⟨f, [], rfl⟩
  | cons p shots ih =>
    intro f hp
    obtain ⟨hx, hy⟩ := hp p (List.mem_cons_self _ _)
    obtain ⟨f2, r, hs⟩ := Shoot_isSome f hx hy
    obtain ⟨f3, rs, hrest⟩ := ih f2 (fun q hq => hp q (List.mem_cons_of_mem _ hq))
    refine ⟨f3, r :: rs, ?_⟩
    unfold shootAll at hrest ⊢
    simp only [List.map_cons, runOps, hs, hrest]

/-- The field a successful `Load` on a fresh field produces. -/
theorem Load_fresh_ok {f0 : ShipField} {conf : Configuration} {ships : List Ship}
    (h : Load NewShipField conf ships = (f0, none)) :
    f0.conf = conf ∧ f0.currConfig = conf ∧ (f0.ships.map Prod.fst).Nodup
      ∧ (∀ e ∈ f0.ships, resetData e.2 = e.2)
      ∧ conf.Sizes = ⟨countSize ships 1, countSize ships 2, countSize ships 3,
          countSize ships 4⟩ := by
  obtain ⟨_, _, hl⟩ := Load_ok h
  obtain ⟨hc, hcc, hcnt, hnd, hfresh⟩ := loadShips_ok ships _ _ _ _ hl
  refine ⟨hc, hcc, hnd (by simp [NewShipField]), hfresh (by simp [NewShipField]), ?_⟩
  simpa using hcnt

theorem ResetShots_of_fresh {f : ShipField} (hnd : (f.ships.map Prod.fst).Nodup)
    (hfresh : ∀ e ∈ f.ships, resetData e.2 = e.2) (hcc : f.currConfig = f.conf) :
    ResetShots f = f := by
  have hs : (ResetShots f).ships = f.ships := by
    rw [ResetShots_ships hnd]
    conv_rhs => rw [← List.map_id f.ships]
    apply List.map_congr_left
    intro e he
    rw [hfresh e he]
    rfl
  obtain ⟨ships, conf, currConfig⟩ := f
  simp only at hs hcc
  show ShipField.mk _ _ _ = _
  simp only [ResetShots] at hs ⊢
  rw [hs, hcc]

theorem ShipField.ext3 {f g : ShipField} (h1 : f.ships = g.ships) (h2 : f.conf = g.conf)
    (h3 : f.currConfig = g.currConfig) : f = g := by
  cases f
  cases g
  simp only at h1 h2 h3
  rw [h1, h2, h3]

/-- After any calls on a freshly loaded field, `ResetShots` gives the loaded field back. -/
theorem ResetShots_runOps {f0 f1 : ShipField} {conf : Configuration} {ships : List Ship}
    {ops : List FieldOp} {rs : List ShootResult}
    (hload : Load NewShipField conf ships = (f0, none))
    (hrun : runOps f0 ops = some (f1, rs)) : ResetShots f1 = f0 := by
  obtain ⟨hc, hcc, hnd, hfresh, _⟩ := Load_fresh_ok hload
  obtain ⟨hc1, hk1, hr1⟩ := runOps_frame ops f0 f1 rs hnd hrun
  have hnd1 : (f1.ships.map Prod.fst).Nodup := by
    rw [hk1]
    exact hnd
  apply ShipField.ext3
  · rw [ResetShots_ships hnd1, hr1]
    conv_rhs => rw [← List.map_id f0.ships]
    apply List.map_congr_left
    intro e he
    rw [hfresh e he]
    rfl
  · exact hc1
  · show f1.conf = f0.currConfig
    rw [hc1, hc, hcc]

/-! ## Packed positions of cells of the field -/

theorem makePos_inj {f : ShipField} {conf : Configuration} (hc : f.conf = conf)
    (hp : Packable conf) {x y x1 y1 : Int} (h1 : CellInField conf (x, y))
    (h2 : CellInField conf (x1, y1)) (h : makePos f x y = makePos f x1 y1) :
    x = x1 ∧ y = y1 := by
  obtain ⟨_, hW, hH, hWH⟩ := hp
  unfold CellInField at h1 h2
  simp only at h1 h2
  rw [makePos_eq, makePos_eq, hc] at h
  have b1 := pack_bounds h1.1 h1.2.1 h1.2.2.1 h1.2.2.2
  have b2 := pack_bounds h2.1 h2.2.1 h2.2.2.1 h2.2.2.2
  have := wrap64_inj_of_lt b1.1 (by omega) b2.1 (by omega) h
  exact pack_inj h1.2.2.1 h1.2.2.2 h2.2.2.1 h2.2.2.2 this

theorem origin_inField {conf : Configuration} {s : Ship} (h : InField conf s) :
    CellInField conf (s.X, s.Y) := by
  have := inField_iff.1 h
  unfold CellInField
  simp only
  cases hv : s.IsVert <;> simp only [hv, if_true, Bool.false_eq_true, if_false] at this <;> omega

theorem cell_inField {conf : Configuration} {s : Ship} (h : InField conf s) {k : Int}
    (h0 : 0 ≤ k) (hk : k < s.Size) : CellInField conf (s.cellAt k) :=
  h.2.2 _ (mem_cells_iff.2 ⟨k, h0, hk, rfl⟩)

/-! ## Touching ships -/

theorem origin_mem_cells {s : Ship} (h : 1 ≤ s.Size) : (s.X, s.Y) ∈ s.cells := by
  refine mem_cells_iff.2 ⟨0, le_refl _, by omega, ?_⟩
  unfold Ship.cellAt
  cases s.IsVert <;> simp

theorem cells_subset_inflated {s : Ship} {c : Int × Int} (h : c ∈ s.cells) : s.Inflated c := by
  obtain ⟨k, h0, hk, rfl⟩ := mem_cells_iff.1 h
  unfold Ship.Inflated Ship.cellAt
  cases hv : s.IsVert <;> simp only [if_true, Bool.false_eq_true, if_false] <;> omega

/-- A ship touching `s` either starts inside the inflated rectangle of `s`, or is horizontal
and enters it through the left face, or is vertical and enters it through the upper face. -/
theorem Touches_cases {p s : Ship} (h : Touches p s) :
    s.Inflated (p.X, p.Y)
      ∨ (p.IsVert = false ∧ p.X < s.X - 1 ∧ s.X - 1 < p.X + p.Size
          ∧ s.Y - 1 ≤ p.Y ∧ p.Y ≤ s.Y + (if s.IsVert then s.Size else 1))
      ∨ (p.IsVert = true ∧ p.Y < s.Y - 1 ∧ s.Y - 1 < p.Y + p.Size
          ∧ s.X - 1 ≤ p.X ∧ p.X ≤ s.X + (if s.IsVert then 1 else s.Size)) := by
  obtain ⟨c, hc, hin⟩ := h
  obtain ⟨k, h0, hk, rfl⟩ := mem_cells_iff.1 hc
  unfold Ship.Inflated Ship.cellAt at hin
  unfold Ship.Inflated
  cases hv : p.IsVert
  · simp only [hv, Bool.false_eq_true, if_false] at hin
    simp only [true_and, false_and, or_false, reduceCtorEq]
    by_cases hx : s.X - 1 ≤ p.X
    · left
      cases hsv : s.IsVert <;>
        simp only [hsv, if_true, Bool.false_eq_true, if_false] at hin ⊢ <;> omega
    · right
      cases hsv : s.IsVert <;>
        simp only [hsv, if_true, Bool.false_eq_true, if_false] at hin ⊢ <;> omega
  · simp only [hv, if_true] at hin
    simp only [true_and, false_and, false_or, reduceCtorEq]
    by_cases hy : s.Y - 1 ≤ p.Y
    · left
      cases hsv : s.IsVert <;>
        simp only [hsv, if_true, Bool.false_eq_true, if_false] at hin ⊢ <;> omega
    · right
      cases hsv : s.IsVert <;>
        simp only [hsv, if_true, Bool.false_eq_true, if_false] at hin ⊢ <;> omega

theorem Touches_of_cell {p s : Ship} {k : Int} (h0 : 0 ≤ k) (hk : k < p.Size)
    (h : s.Inflated (p.cellAt k)) : Touches p s :=
  ⟨_, mem_cells_iff.2 ⟨k, h0, hk, rfl⟩, h⟩

theorem Touches_of_shared_cell {p s : Ship} {c : Int × Int} (hp : c ∈ p.cells)
    (hs : c ∈ s.cells) : Touches p s :=
  ⟨c, hp, cells_subset_inflated hs⟩

/-- Two different ships of a separated list share no cell. -/
theorem Separated.no_shared_cell {ships : List Ship} (h : Separated ships) {p s : Ship}
    (hp : p ∈ ships) (hs : s ∈ ships) (hne : p ≠ s) {c : Int × Int} (hcp : c ∈ p.cells)
    (hcs : c ∈ s.cells) : False := by
  have hpw : ships.Pairwise (fun a b => ∀ c, c ∈ a.cells → c ∈ b.cells → False) := by
    apply List.Pairwise.imp _ h
    intro a b hab c hca hcb
    exact hab (Touches_of_shared_cell hca hcb)
  have hsymm : Symmetric (fun a b : Ship => ∀ c, c ∈ a.cells → c ∈ b.cells → False) := by
    intro a b hab c hcb hca
    exact hab c hca hcb
  exact List.Pairwise.forall hsymm hpw hp hs hne c hcp hcs

/-- Ships of a separated list with sizes at least one have pairwise different origins. -/
theorem Separated.origin_inj {ships : List Ship} (h : Separated ships)
    (hsz : ∀ s ∈ ships, 1 ≤ s.Size) {p s : Ship}
    (hp : p ∈ ships) (hs : s ∈ ships) (hx : p.X = s.X) (hy : p.Y = s.Y) : p = s := by
  by_contra hne
  have h1 := origin_mem_cells (hsz p hp)
  have h2 := origin_mem_cells (hsz s hs)
  rw [hx, hy] at h1
  exact h.no_shared_cell hp hs hne h1 h2

/-! ## Stored layouts -/

theorem EntryFor_congr {f f1 : ShipField} (h : f1.conf = f.conf) (hist : List (Int × Int))
    (e : Int × shipData) (s : Ship) : EntryFor f1 hist e s ↔ EntryFor f hist e s := by
  unfold EntryFor makePos
  rw [h]

theorem Forall₂_exists_right {α β : Type} {R : α → β → Prop} {l1 : List α} {l2 : List β}
    (h : List.Forall₂ R l1 l2) {a : α} (ha : a ∈ l1) : ∃ b ∈ l2, R a b := by
  induction h with
  | nil => cases ha
  | cons hab _ ih =>
    rcases List.mem_cons.1 ha with rfl | hmem
    · exact ⟨_, List.mem_cons_self _ _, hab⟩
    · obtain ⟨b, hb, hr⟩ := ih hmem
      exact ⟨b, List.mem_cons_of_mem _ hb, hr⟩

theorem Forall₂_exists_left {α β : Type} {R : α → β → Prop} {l1 : List α} {l2 : List β}
    (h : List.Forall₂ R l1 l2) {b : β} (hb : b ∈ l2) : ∃ a ∈ l1, R a b := by
  induction h with
  | nil => cases hb
  | cons hab _ ih =>
    rcases List.mem_cons.1 hb with rfl | hmem
    · exact ⟨_, List.mem_cons_self _ _, hab⟩
    · obtain ⟨a, ha, hr⟩ := ih hmem
      exact ⟨a, List.mem_cons_of_mem _ ha, hr⟩

theorem Stored.keys {f : ShipField} {hist : List (Int × Int)} {ships : List Ship}
    (h : Stored f hist ships) :
    f.ships.map Prod.fst = ships.map (fun s => makePos f s.X s.Y) := by
  unfold Stored at h
  generalize f.ships = m at h
  induction h with
  | nil => rfl
  | cons hab _ ih =>
    simp only [List.map_cons, ih, hab.1]

theorem Tracks.keys_nodup {conf : Configuration} {f : ShipField} {hist : List (Int × Int)}
    {ships : List Ship} (h : Tracks conf f hist ships) : (f.ships.map Prod.fst).Nodup := by
  rw [h.stored.keys]
  unfold List.Nodup
  rw [List.pairwise_map]
  have hsz : ∀ s ∈ ships, 1 ≤ s.Size := fun s hs => (h.inField s hs).1
  have hsep := h.separated
  unfold Separated at hsep
  apply List.Pairwise.imp_of_mem _ hsep
  intro p s hp hs hnt hkey
  obtain ⟨hx, hy⟩ := makePos_inj h.conf_eq h.packable (origin_inField (h.inField p hp))
    (origin_inField (h.inField s hs)) hkey
  apply hnt
  refine ⟨(p.X, p.Y), origin_mem_cells (hsz p hp), ?_⟩
  rw [hx, hy]
  exact cells_subset_inflated (origin_mem_cells (hsz s hs))

/-- The origin of a stored ship is a key of the map, bound to the descriptor of that ship. -/
theorem Tracks.Get_origin {conf : Configuration} {f : ShipField} {hist : List (Int × Int)}
    {ships : List Ship} (h : Tracks conf f hist ships) {s : Ship} (hs : s ∈ ships) :
    ∃ d, Get f.ships (makePos f s.X s.Y) = some d
      ∧ EntryFor f hist (makePos f s.X s.Y, d) s := by
  obtain ⟨e, he, hr⟩ := Forall₂_exists_left h.stored hs
  obtain ⟨k, d⟩ := e
  have hk : k = makePos f s.X s.Y := hr.1
  subst hk
  exact ⟨d, Get_of_mem_nodup h.keys_nodup he, hr⟩

/-- A key found at the packed position of a cell of the field is the origin of a stored
ship. -/
theorem Tracks.Get_cell {conf : Configuration} {f : ShipField} {hist : List (Int × Int)}
    {ships : List Ship} (h : Tracks conf f hist ships) {x y : Int}
    (hxy : CellInField conf (x, y)) {d : shipData}
    (hg : Get f.ships (makePos f x y) = some d) :
    ∃ s ∈ ships, s.X = x ∧ s.Y = y ∧ EntryFor f hist (makePos f x y, d) s := by
  obtain ⟨s, hs, hr⟩ := Forall₂_exists_right h.stored (Get_some_mem hg)
  have hkey : makePos f x y = makePos f s.X s.Y := hr.1
  obtain ⟨hx, hy⟩ := makePos_inj h.conf_eq h.packable hxy (origin_inField (h.inField s hs)) hkey
  exact ⟨s, hs, hx.symm, hy.symm, hr⟩

theorem Tracks.Get_none {conf : Configuration} {f : ShipField} {hist : List (Int × Int)}
    {ships : List Ship} (h : Tracks conf f hist ships) {x y : Int}
    (hg : Get f.ships (makePos f x y) = none) {s : Ship} (hs : s ∈ ships) :
    ¬ (s.X = x ∧ s.Y = y) := by
  rintro ⟨rfl, rfl⟩
  obtain ⟨d, hd, _⟩ := h.Get_origin hs
  rw [hg] at hd
  cases hd

/-- The left scan from a cell of the field, in terms of the stored layout. -/
theorem Tracks.scanLeft {conf : Configuration} {f : ShipField} {hist : List (Int × Int)}
    {ships : List Ship} (h : Tracks conf f hist ships) {x y : Int}
    (hxy : CellInField conf (x, y)) :
    ∃ r, scanIntersectionsLeft f x y = some r
      ∧ (∀ intr, r = some intr → ∃ p ∈ ships, p.IsVert = false ∧ p.Y = y
          ∧ intr.deck = x - p.X ∧ 1 ≤ intr.deck ∧ intr.deck < p.Size
          ∧ intr.shipPos = makePos f p.X p.Y
          ∧ Get f.ships (makePos f p.X p.Y) = some intr.shipData
          ∧ EntryFor f hist (makePos f p.X p.Y, intr.shipData) p)
      ∧ (r = none → ∀ p ∈ ships, p.IsVert = false → p.Y = y → p.X < x →
          x < p.X + p.Size → False) := by
  obtain ⟨hgo, hW, hH, hWH⟩ := h.packable
  obtain ⟨hW64, hH64, _⟩ := hgo
  unfold IsInt64 at hW64 hH64
  unfold CellInField at hxy
  simp only at hxy
  obtain ⟨r, hr, hfound, hnone⟩ := scanIntersectionsLeft_spec f y hxy.1
  refine ⟨r, hr, ?_, ?_⟩
  · intro intr hintr
    obtain ⟨h1, h3, hx, hpos, hg, hsz, hhor⟩ := hfound intr hintr
    have hw : wrap64 (x - intr.deck) = x - intr.deck := wrap64_eq_self (by
      unfold IsInt64; omega)
    rw [hw] at hpos
    rw [hpos] at hg
    have hcell : CellInField conf (x - intr.deck, y) := by
      unfold CellInField
      simp only
      omega
    obtain ⟨p, hp, hpx, hpy, hent⟩ := h.Get_cell hcell hg
    have hv : p.IsVert = false := by
      rw [← hent.2.1]
      unfold IsHor at hhor
      simpa using hhor
    have hs : Size intr.shipData = p.Size := hent.2.2.1
    refine ⟨p, hp, hv, hpy, by omega, h1, by omega, ?_, ?_, ?_⟩
    · rw [hpos, hpx, hpy]
    · rw [hpx, hpy]
      exact hg
    · rw [hpx, hpy]
      exact hent
  · intro hrn p hp hv hpy hlt hgt
    obtain ⟨d, hd, hent⟩ := h.Get_origin hp
    have hin := inField_iff.1 (h.inField p hp)
    have hw : wrap64 (x - (x - p.X)) = p.X := by
      rw [wrap64_eq_self (by unfold IsInt64; omega)]
      omega
    have := hnone hrn (x - p.X) (by omega) (by omega) (by omega) d
      (by rw [hw, ← hpy]; exact hd)
      (by unfold IsHor; rw [hent.2.1, hv]; rfl)
    rw [hent.2.2.1] at this
    omega

/-- The up scan from a cell of the field, in terms of the stored layout. -/
theorem Tracks.scanUp {conf : Configuration} {f : ShipField} {hist : List (Int × Int)}
    {ships : List Ship} (h : Tracks conf f hist ships) {x y : Int}
    (hxy : CellInField conf (x, y)) :
    ∃ r, scanIntersectionsUp f x y = some r
      ∧ (∀ intr, r = some intr → ∃ p ∈ ships, p.IsVert = true ∧ p.X = x
          ∧ intr.deck = y - p.Y ∧ 1 ≤ intr.deck ∧ intr.deck < p.Size
          ∧ intr.shipPos = makePos f p.X p.Y
          ∧ Get f.ships (makePos f p.X p.Y) = some intr.shipData
          ∧ EntryFor f hist (makePos f p.X p.Y, intr.shipData) p)
      ∧ (r = none → ∀ p ∈ ships, p.IsVert = true → p.X = x → p.Y < y →
          y < p.Y + p.Size → False) := by
  obtain ⟨hgo, hW, hH, hWH⟩ := h.packable
  obtain ⟨hW64, hH64, _⟩ := hgo
  unfold IsInt64 at hW64 hH64
  unfold CellInField at hxy
  simp only at hxy
  obtain ⟨r, hr, hfound, hnone⟩ := scanIntersectionsUp_spec f x hxy.2.2.1
  refine ⟨r, hr, ?_, ?_⟩
  · intro intr hintr
    obtain ⟨h1, h3, hx, hpos, hg, hsz, hvert⟩ := hfound intr hintr
    have hw : wrap64 (y - intr.deck) = y - intr.deck := wrap64_eq_self (by
      unfold IsInt64; omega)
    rw [hw] at hpos
    rw [hpos] at hg
    have hcell : CellInField conf (x, y - intr.deck) := by
      unfold CellInField
      simp only
      omega
    obtain ⟨p, hp, hpx, hpy, hent⟩ := h.Get_cell hcell hg
    have hv : p.IsVert = true := by
      rw [← hent.2.1]
      exact hvert
    have hs : Size intr.shipData = p.Size := hent.2.2.1
    refine ⟨p, hp, hv, hpx, by omega, h1, by omega, ?_, ?_, ?_⟩
    · rw [hpos, hpx, hpy]
    · rw [hpx, hpy]
      exact hg
    · rw [hpx, hpy]
      exact hent
  · intro hrn p hp hv hpx hlt hgt
    obtain ⟨d, hd, hent⟩ := h.Get_origin hp
    have hin := inField_iff.1 (h.inField p hp)
    have hw : wrap64 (y - (y - p.Y)) = p.Y := by
      rw [wrap64_eq_self (by unfold IsInt64; omega)]
      omega
    have := hnone hrn (y - p.Y) (by omega) (by omega) (by omega) d
      (by rw [hw, ← hpx]; exact hd)
      (by rw [hent.2.1, hv])
    rw [hent.2.2.1] at this
    omega

/-! ## The three overlap checks -/

theorem scanFound_iff {r : Option (Option intersection)} :
    scanFound r = true ↔ ∃ intr, r = some (some intr) := by
  unfold scanFound
  cases r with
  | none => simp
  | some o =>
    cases o with
    | none => simp
    | some intr => simp

/-- Linear bounds of a ship of the field, with its extents along both axes. -/
theorem inField_bounds {conf : Configuration} {s : Ship} (h : InField conf s) :
    0 ≤ s.X ∧ s.X < conf.W ∧ 0 ≤ s.Y ∧ s.Y < conf.H ∧ 1 ≤ s.Size ∧ s.Size ≤ 4
      ∧ 1 ≤ (if s.IsVert then 1 else s.Size) ∧ (if s.IsVert then 1 else s.Size) ≤ 4
      ∧ 1 ≤ (if s.IsVert then s.Size else 1) ∧ (if s.IsVert then s.Size else 1) ≤ 4
      ∧ s.X + (if s.IsVert then 1 else s.Size) ≤ conf.W
      ∧ s.Y + (if s.IsVert then s.Size else 1) ≤ conf.H := by
  have hin := inField_iff.1 h
  cases hv : s.IsVert <;> simp only [hv, if_true, Bool.false_eq_true, if_false] at hin ⊢ <;>
    omega

theorem Tracks.checkInner_iff {conf : Configuration} {f : ShipField} {hist : List (Int × Int)}
    {placed : List Ship} (h : Tracks conf f hist placed) {s : Ship} (hs : InField conf s) :
    checkInnerOverlaps f s = true ↔ ∃ p ∈ placed, s.Inflated (p.X, p.Y) := by
  obtain ⟨hgo, hW, hH, hWH⟩ := h.packable
  obtain ⟨hW64, hH64, _⟩ := hgo
  unfold IsInt64 at hW64 hH64
  have hin := inField_iff.1 hs
  have hbd := inField_bounds hs
  have hc := h.conf_eq
  have w1 : wrap64 (s.X - 1) = s.X - 1 := wrap64_eq_self (by unfold IsInt64; omega)
  have w2 : wrap64 (s.Y - 1) = s.Y - 1 := wrap64_eq_self (by unfold IsInt64; omega)
  have w3 : wrap64 (conf.W - 1) = conf.W - 1 := wrap64_eq_self (by unfold IsInt64; omega)
  have w4 : wrap64 (conf.H - 1) = conf.H - 1 := wrap64_eq_self (by unfold IsInt64; omega)
  unfold checkInnerOverlaps
  simp only [List.any_eq_true, mem_intRange, hc, w1, w2, w3, w4]
  unfold Ship.Inflated
  cases hv : s.IsVert
  · simp only [hv, Bool.false_eq_true, if_false] at hin ⊢
    have w5 : wrap64 (s.X + s.Size) = s.X + s.Size :=
      wrap64_eq_self (by unfold IsInt64; omega)
    have w6 : wrap64 (s.Y + 1) = s.Y + 1 := wrap64_eq_self (by unfold IsInt64; omega)
    rw [w5, w6]
    constructor
    · rintro ⟨x, hx, y, hy, hhas⟩
      unfold Has at hhas
      obtain ⟨d, hd⟩ := Option.isSome_iff_exists.1 hhas
      obtain ⟨p, hp, hpx, hpy, _⟩ := h.Get_cell (x := x) (y := y)
        (by unfold CellInField; simp only; omega) hd
      exact ⟨p, hp, by omega, by omega, by omega, by omega⟩
    · rintro ⟨p, hp, h1, h2, h3, h4⟩
      have hpin := origin_inField (h.inField p hp)
      unfold CellInField at hpin
      simp only at hpin
      obtain ⟨d, hd, _⟩ := h.Get_origin hp
      refine ⟨p.X, by omega, p.Y, by omega, ?_⟩
      unfold Has
      rw [hd]
      rfl
  · simp only [hv, if_true] at hin ⊢
    have w5 : wrap64 (s.X + 1) = s.X + 1 := wrap64_eq_self (by unfold IsInt64; omega)
    have w6 : wrap64 (s.Y + s.Size) = s.Y + s.Size :=
      wrap64_eq_self (by unfold IsInt64; omega)
    rw [w5, w6]
    constructor
    · rintro ⟨x, hx, y, hy, hhas⟩
      unfold Has at hhas
      obtain ⟨d, hd⟩ := Option.isSome_iff_exists.1 hhas
      obtain ⟨p, hp, hpx, hpy, _⟩ := h.Get_cell (x := x) (y := y)
        (by unfold CellInField; simp only; omega) hd
      exact ⟨p, hp, by omega, by omega, by omega, by omega⟩
    · rintro ⟨p, hp, h1, h2, h3, h4⟩
      have hpin := origin_inField (h.inField p hp)
      unfold CellInField at hpin
      simp only at hpin
      obtain ⟨d, hd, _⟩ := h.Get_origin hp
      refine ⟨p.X, by omega, p.Y, by omega, ?_⟩
      unfold Has
      rw [hd]
      rfl

theorem Tracks.checkOuterLeft_iff {conf : Configuration} {f : ShipField}
    {hist : List (Int × Int)} {placed : List Ship} (h : Tracks conf f hist placed) {s : Ship}
    (hs : InField conf s) :
    checkOuterLeftOverlaps f s = true ↔
      ∃ p ∈ placed, p.IsVert = false ∧ p.X < s.X - 1 ∧ s.X - 1 < p.X + p.Size
        ∧ s.Y - 1 ≤ p.Y ∧ p.Y ≤ s.Y + (if s.IsVert then s.Size else 1) := by
  obtain ⟨hgo, hW, hH, hWH⟩ := h.packable
  obtain ⟨hW64, hH64, _⟩ := hgo
  unfold IsInt64 at hW64 hH64
  have hin := inField_iff.1 hs
  have hbd := inField_bounds hs
  have hc := h.conf_eq
  have w1 : wrap64 (s.X - 1) = s.X - 1 := wrap64_eq_self (by unfold IsInt64; omega)
  have w2 : wrap64 (s.Y - 1) = s.Y - 1 := wrap64_eq_self (by unfold IsInt64; omega)
  have w4 : wrap64 (conf.H - 1) = conf.H - 1 := wrap64_eq_self (by unfold IsInt64; omega)
  have w5 : wrap64 (s.Y + (if s.IsVert then s.Size else 1))
      = s.Y + (if s.IsVert then s.Size else 1) := by
    apply wrap64_eq_self
    unfold IsInt64
    omega
  have hmax : (if s.IsVert then min (wrap64 (f.conf.H - 1)) (wrap64 (s.Y + s.Size))
      else min (wrap64 (f.conf.H - 1)) (wrap64 (s.Y + 1)))
      = min (conf.H - 1) (s.Y + (if s.IsVert then s.Size else 1)) := by
    rw [hc, w4, ← w5]
    cases s.IsVert <;> rfl
  unfold checkOuterLeftOverlaps
  simp only [List.any_eq_true, mem_intRange, hmax, w1, w2, scanFound_iff]
  constructor
  · rintro ⟨y, hy, intr, hscan⟩
    obtain ⟨r, hr, hfound, _⟩ := h.scanLeft (x := max 0 (s.X - 1)) (y := y)
      (by unfold CellInField; simp only; omega)
    rw [hr] at hscan
    simp only [Option.some.injEq] at hscan
    obtain ⟨p, hp, hv, hpy, hdeck, h1, hsz, _⟩ := hfound intr hscan
    have hpin := inField_bounds (h.inField p hp)
    exact ⟨p, hp, hv, by omega, by omega, by omega, by omega⟩
  · rintro ⟨p, hp, hv, h1, h2, h3, h4⟩
    have hpin := inField_bounds (h.inField p hp)
    refine ⟨p.Y, by omega, ?_⟩
    obtain ⟨r, hr, _, hnone⟩ := h.scanLeft (x := max 0 (s.X - 1)) (y := p.Y)
      (by unfold CellInField; simp only; omega)
    cases r with
    | some intr => exact ⟨intr, hr⟩
    | none =>
      exfalso
      exact hnone rfl p hp hv rfl (by omega) (by omega)

theorem Tracks.checkOuterUp_iff {conf : Configuration} {f : ShipField}
    {hist : List (Int × Int)} {placed : List Ship} (h : Tracks conf f hist placed) {s : Ship}
    (hs : InField conf s) :
    checkOuterUpOverlaps f s = true ↔
      ∃ p ∈ placed, p.IsVert = true ∧ p.Y < s.Y - 1 ∧ s.Y - 1 < p.Y + p.Size
        ∧ s.X - 1 ≤ p.X ∧ p.X ≤ s.X + (if s.IsVert then 1 else s.Size) := by
  obtain ⟨hgo, hW, hH, hWH⟩ := h.packable
  obtain ⟨hW64, hH64, _⟩ := hgo
  unfold IsInt64 at hW64 hH64
  have hin := inField_iff.1 hs
  have hbd := inField_bounds hs
  have hc := h.conf_eq
  have w1 : wrap64 (s.X - 1) = s.X - 1 := wrap64_eq_self (by unfold IsInt64; omega)
  have w2 : wrap64 (s.Y - 1) = s.Y - 1 := wrap64_eq_self (by unfold IsInt64; omega)
  have w4 : wrap64 (conf.W - 1) = conf.W - 1 := wrap64_eq_self (by unfold IsInt64; omega)
  have w5 : wrap64 (s.X + (if s.IsVert then 1 else s.Size))
      = s.X + (if s.IsVert then 1 else s.Size) := by
    apply wrap64_eq_self
    unfold IsInt64
    omega
  have hmax : (if s.IsVert then min (wrap64 (f.conf.W - 1)) (wrap64 (s.X + 1))
      else min (wrap64 (f.conf.W - 1)) (wrap64 (s.X + s.Size)))
      = min (conf.W - 1) (s.X + (if s.IsVert then 1 else s.Size)) := by
    rw [hc, w4, ← w5]
    cases s.IsVert <;> rfl
  unfold checkOuterUpOverlaps
  simp only [List.any_eq_true, mem_intRange, hmax, w1, w2, scanFound_iff]
  constructor
  · rintro ⟨x, hx, intr, hscan⟩
    obtain ⟨r, hr, hfound, _⟩ := h.scanUp (x := x) (y := max 0 (s.Y - 1))
      (by unfold CellInField; simp only; omega)
    rw [hr] at hscan
    simp only [Option.some.injEq] at hscan
    obtain ⟨p, hp, hv, hpx, hdeck, h1, hsz, _⟩ := hfound intr hscan
    have hpin := inField_bounds (h.inField p hp)
    exact ⟨p, hp, hv, by omega, by omega, by omega, by omega⟩
  · rintro ⟨p, hp, hv, h1, h2, h3, h4⟩
    have hpin := inField_bounds (h.inField p hp)
    refine ⟨p.X, by omega, ?_⟩
    obtain ⟨r, hr, _, hnone⟩ := h.scanUp (x := p.X) (y := max 0 (s.Y - 1))
      (by unfold CellInField; simp only; omega)
    cases r with
    | some intr => exact ⟨intr, hr⟩
    | none =>
      exfalso
      exact hnone rfl p hp hv rfl (by omega) (by omega)

/-- The separation check is exact: the three scans together report an overlap iff some
placed ship has a cell inside the inflated rectangle of the new ship. -/
theorem Tracks.overlap_iff {conf : Configuration} {f : ShipField} {hist : List (Int × Int)}
    {placed : List Ship} (h : Tracks conf f hist placed) {s : Ship} (hs : InField conf s) :
    (checkInnerOverlaps f s || checkOuterLeftOverlaps f s || checkOuterUpOverlaps f s) = true
      ↔ ∃ p ∈ placed, Touches p s := by
  simp only [Bool.or_eq_true, h.checkInner_iff hs, h.checkOuterLeft_iff hs,
    h.checkOuterUp_iff hs]
  constructor
  · rintro ((⟨p, hp, hin⟩ | ⟨p, hp, hv, h1, h2, h3, h4⟩) | ⟨p, hp, hv, h1, h2, h3, h4⟩)
    · exact ⟨p, hp, (p.X, p.Y), origin_mem_cells (h.inField p hp).1, hin⟩
    · refine ⟨p, hp, Touches_of_cell (k := s.X - 1 - p.X) (by omega) (by omega) ?_⟩
      unfold Ship.Inflated Ship.cellAt
      simp only [hv, Bool.false_eq_true, if_false]
      have hsz := hs.1
      refine ⟨by omega, ?_, by omega, by omega⟩
      cases s.IsVert <;> simp only [if_true, Bool.false_eq_true, if_false] <;> omega
    · refine ⟨p, hp, Touches_of_cell (k := s.Y - 1 - p.Y) (by omega) (by omega) ?_⟩
      unfold Ship.Inflated Ship.cellAt
      simp only [hv, if_true]
      have hsz := hs.1
      refine ⟨by omega, by omega, by omega, ?_⟩
      cases s.IsVert <;> simp only [if_true, Bool.false_eq_true, if_false] <;> omega
  · rintro ⟨p, hp, ht⟩
    rcases Touches_cases ht with hin | hleft | hup
    · exact Or.inl (Or.inl ⟨p, hp, hin⟩)
    · exact Or.inl (Or.inr ⟨p, hp, hleft⟩)
    · exact Or.inr ⟨p, hp, hup⟩

/-! ## Loading a layout of ships of the field -/

theorem EntryFor_fresh (f : ShipField) {s : Ship} (h1 : 1 ≤ s.Size) (h4 : s.Size ≤ 4) :
    EntryFor f [] (freshEntry f s) s := by
  refine ⟨rfl, newShipData_IsVert _ h1 h4, newShipData_Size _ h1 h4, ?_⟩
  intro k hk
  unfold freshEntry
  simp only [List.not_mem_nil, or_false]
  exact newShipData_testBit _ h1 h4 hk

theorem Stored_of_fresh {f : ShipField} {placed : List Ship}
    (hfs : f.ships = placed.map (freshEntry f))
    (hsz : ∀ s ∈ placed, 1 ≤ s.Size ∧ s.Size ≤ 4) : Stored f [] placed := by
  unfold Stored
  rw [hfs]
  clear hfs
  induction placed with
  | nil => exact List.Forall₂.nil
  | cons s placed ih =>
    simp only [List.map_cons]
    refine List.Forall₂.cons ?_ (ih (fun q hq => hsz q (List.mem_cons_of_mem _ hq)))
    obtain ⟨h1, h4⟩ := hsz s (List.mem_cons_self _ _)
    exact EntryFor_fresh f h1 h4

theorem Tracks_of_fresh {conf : Configuration} {f : ShipField} {placed : List Ship}
    (hc : f.conf = conf) (hp : Packable conf) (hin : ∀ s ∈ placed, InField conf s)
    (hsep : Separated placed) (hfs : f.ships = placed.map (freshEntry f)) :
    Tracks conf f [] placed :=
  ⟨hc, hp, hin, hsep, Stored_of_fresh hfs (fun s hs => ⟨(hin s hs).1, (hin s hs).2.1⟩)⟩

theorem outOfBounds_inField {conf : Configuration} (hgo : conf.IsGo) {s : Ship}
    (h : InField conf s) : outOfBounds conf s = false := by
  obtain ⟨hW64, hH64, _⟩ := hgo
  unfold IsInt64 at hW64 hH64
  have hin := inField_iff.1 h
  unfold outOfBounds
  cases hv : s.IsVert
  · simp only [hv, Bool.false_eq_true, if_false] at hin ⊢
    rw [wrap64_eq_self (by unfold IsInt64; omega)]
    simp only [Bool.or_eq_false_iff, decide_eq_false_iff_not]
    omega
  · simp only [hv, if_true] at hin ⊢
    rw [wrap64_eq_self (by unfold IsInt64; omega)]
    simp only [Bool.or_eq_false_iff, decide_eq_false_iff_not]
    omega

/-- A ship of the field that touches a placed ship is rejected as overlapping. -/
theorem loadShips_reject {conf : Configuration} {f : ShipField} {placed : List Ship}
    (ht : Tracks conf f [] placed) (c : SizeCounts) {s : Ship} (hs : InField conf s)
    (rest : List Ship) (htouch : ∃ p ∈ placed, Touches p s) :
    loadShips conf f c (s :: rest) = (f, c, some LoadError.shipsOverlap) := by
  rw [loadShips_cons, if_neg (by have := hs.1; have := hs.2.1; omega),
    outOfBounds_inField ht.packable.1 hs]
  simp only [Bool.false_eq_true, if_false]
  rw [if_pos ((ht.overlap_iff hs).2 htouch)]

/-- A ship of the field that touches no placed ship is appended to the map. -/
theorem loadShips_accept {conf : Configuration} {f : ShipField} {placed : List Ship}
    (ht : Tracks conf f [] placed) (c : SizeCounts) {s : Ship} (hs : InField conf s)
    (rest : List Ship) (hfree : ∀ p ∈ placed, ¬ Touches p s) :
    loadShips conf f c (s :: rest)
      = loadShips conf { f with ships := f.ships ++ [freshEntry f s] }
          (c.set (s.Size - 1) (c.get (s.Size - 1) + 1)) rest := by
  rw [loadShips_cons, if_neg (by have := hs.1; have := hs.2.1; omega),
    outOfBounds_inField ht.packable.1 hs]
  simp only [Bool.false_eq_true, if_false]
  have hno : ¬ ((checkInnerOverlaps f s || checkOuterLeftOverlaps f s
      || checkOuterUpOverlaps f s) = true) := by
    rw [ht.overlap_iff hs]
    rintro ⟨p, hp, htp⟩
    exact hfree p hp htp
  rw [if_neg hno]
  have hget : Get f.ships (makePos f s.X s.Y) = none := by
    cases hg : Get f.ships (makePos f s.X s.Y) with
    | none => rfl
    | some d =>
      exfalso
      obtain ⟨p, hp, hpx, hpy, _⟩ := ht.Get_cell (origin_inField hs) hg
      apply hfree p hp
      refine ⟨(p.X, p.Y), origin_mem_cells (ht.inField p hp).1, ?_⟩
      rw [hpx, hpy]
      exact cells_subset_inflated (origin_mem_cells hs.1)
  rw [Put_of_Get_none _ hget]
  rfl

theorem freshEntry_congr {f f1 : ShipField} (h : f1.conf = f.conf) (s : Ship) :
    freshEntry f1 s = freshEntry f s := by
  unfold freshEntry makePos
  rw [h]

/-- A separated layout of ships of the field is loaded entirely. -/
theorem loadShips_separated {conf : Configuration} (hp : Packable conf) (ships : List Ship) :
    ∀ (f : ShipField) (c : SizeCounts) (placed : List Ship), f.conf = conf →
      f.ships = placed.map (freshEntry f) → (∀ s ∈ placed ++ ships, InField conf s) →
      Separated (placed ++ ships) →
      ∃ f1 c1, loadShips conf f c ships = (f1, c1, none)
        ∧ f1.ships = (placed ++ ships).map (freshEntry f) := by
  induction ships with
  | nil =>
    intro f c placed _ hfs _ _
    exact ⟨f, c, rfl, by simpa using hfs⟩
  | cons s rest ih =>
    intro f c placed hc hfs hin hsep
    have hin1 : ∀ q ∈ placed, InField conf q :=
      fun q hq => hin q (List.mem_append_left _ hq)
    have hs : InField conf s := hin s (by simp)
    unfold Separated at hsep
    have hsep1 : Separated placed := (List.pairwise_append.1 hsep).1
    have ht := Tracks_of_fresh hc hp hin1 hsep1 hfs
    have hfree : ∀ p ∈ placed, ¬ Touches p s :=
      fun p hpp => (List.pairwise_append.1 hsep).2.2 p hpp s (List.mem_cons_self _ _)
    rw [loadShips_accept ht c hs rest hfree]
    have hassoc : placed ++ s :: rest = (placed ++ [s]) ++ rest := by simp
    have := ih { f with ships := f.ships ++ [freshEntry f s] }
      (c.set (s.Size - 1) (c.get (s.Size - 1) + 1)) (placed ++ [s]) hc
      (by
        simp only [List.map_append, List.map_cons, List.map_nil]
        rw [hfs]
        rfl)
      (by rw [← hassoc]; exact hin)
      (by unfold Separated; rw [← hassoc]; exact hsep)
    obtain ⟨f1, c1, h1, h2⟩ := this
    refine ⟨f1, c1, h1, ?_⟩
    rw [h2, hassoc]
    rfl

/-- Loading stops with the overlap error at the first ship that touches an earlier one,
leaving exactly the earlier ships in the map. -/
theorem loadShips_first_touch {conf : Configuration} (hp : Packable conf) (pre : List Ship) :
    ∀ (f : ShipField) (c : SizeCounts) (placed : List Ship) (s : Ship) (post : List Ship),
      f.conf = conf → f.ships = placed.map (freshEntry f) →
      (∀ q ∈ placed ++ pre, InField conf q) → InField conf s →
      Separated (placed ++ pre) → (∃ p ∈ placed ++ pre, Touches p s) →
      ∃ f1 c1, loadShips conf f c (pre ++ s :: post) = (f1, c1, some LoadError.shipsOverlap)
        ∧ f1.ships = (placed ++ pre).map (freshEntry f) ∧ f1.conf = f.conf
        ∧ f1.currConfig = f.currConfig := by
  induction pre with
  | nil =>
    intro f c placed s post hc hfs hin hs hsep htouch
    simp only [List.append_nil] at hin hsep htouch
    have ht := Tracks_of_fresh hc hp hin hsep hfs
    refine ⟨f, c, ?_, by simpa using hfs, rfl, rfl⟩
    simp only [List.nil_append]
    exact loadShips_reject ht c hs post htouch
  | cons q pre ih =>
    intro f c placed s post hc hfs hin hs hsep htouch
    have hin1 : ∀ a ∈ placed, InField conf a :=
      fun a ha => hin a (List.mem_append_left _ ha)
    have hq : InField conf q := hin q (by simp)
    unfold Separated at hsep
    have hsep1 : Separated placed := (List.pairwise_append.1 hsep).1
    have ht := Tracks_of_fresh hc hp hin1 hsep1 hfs
    have hfree : ∀ p ∈ placed, ¬ Touches p q :=
      fun p hpp => (List.pairwise_append.1 hsep).2.2 p hpp q (List.mem_cons_self _ _)
    simp only [List.cons_append]
    rw [loadShips_accept ht c hq _ hfree]
    have hassoc : placed ++ q :: pre = (placed ++ [q]) ++ pre := by simp
    have := ih { f with ships := f.ships ++ [freshEntry f q] }
      (c.set (q.Size - 1) (c.get (q.Size - 1) + 1)) (placed ++ [q]) s post hc
      (by
        simp only [List.map_append, List.map_cons, List.map_nil]
        rw [hfs]
        rfl)
      (by rw [← hassoc]; exact hin) hs
      (by unfold Separated; rw [← hassoc]; exact hsep)
      (by rw [← hassoc]; exact htouch)
    obtain ⟨f1, c1, h1, h2, h3, h4⟩ := this
    refine ⟨f1, c1, h1, ?_, h3, h4⟩
    rw [h2, hassoc]
    rfl

/-- A list that is not separated has a first ship that touches an earlier one. -/
theorem exists_first_touch (ships : List Ship) (h : ¬ Separated ships) :
    ∃ pre s post, ships = pre ++ s :: post ∧ Separated pre ∧ ∃ p ∈ pre, Touches p s := by
  induction ships using List.reverseRecOn with
  | nil =>
    exfalso
    exact h List.Pairwise.nil
  | append_singleton init x ih =>
    by_cases hinit : Separated init
    · refine ⟨init, x, [], rfl, hinit, ?_⟩
      by_contra hno
      apply h
      unfold Separated
      rw [List.pairwise_append]
      refine ⟨hinit, List.pairwise_singleton _ _, ?_⟩
      intro p hp q hq
      simp only [List.mem_singleton] at hq
      subst hq
      intro htp
      exact hno ⟨p, hp, htp⟩
    · obtain ⟨pre, s, post, heq, hsep, htouch⟩ := ih hinit
      exact ⟨pre, s, post ++ [x], by simp [heq], hsep, htouch⟩

theorem not_separated_of_first_touch {pre post : List Ship} {s : Ship}
    (h : ∃ p ∈ pre, Touches p s) : ¬ Separated (pre ++ s :: post) := by
  intro hsep
  obtain ⟨p, hp, htp⟩ := h
  unfold Separated at hsep
  exact (List.pairwise_append.1 hsep).2.2 p hp s (List.mem_cons_self _ _) htp

/-! ## Shots at cells of the field -/

theorem Shoot_of_Get_some {f : ShipField} {x y : Int} {d : shipData}
    (hin : ¬ (x ≥ f.conf.W ∨ y ≥ f.conf.H)) (hg : Get f.ships (makePos f x y) = some d) :
    Shoot f x y = hitShip f d (makePos f x y) 0 := by
  unfold Shoot
  rw [if_neg hin]
  simp only [hg]

theorem Shoot_of_left {f : ShipField} {x y : Int} {intr : intersection}
    (hin : ¬ (x ≥ f.conf.W ∨ y ≥ f.conf.H)) (hg : Get f.ships (makePos f x y) = none)
    (hl : scanIntersectionsLeft f x y = some (some intr)) :
    Shoot f x y = hitShip f intr.shipData intr.shipPos intr.deck := by
  unfold Shoot
  rw [if_neg hin]
  simp only [hg, hl]

theorem Shoot_of_up {f : ShipField} {x y : Int} {intr : intersection}
    (hin : ¬ (x ≥ f.conf.W ∨ y ≥ f.conf.H)) (hg : Get f.ships (makePos f x y) = none)
    (hl : scanIntersectionsLeft f x y = some none)
    (hu : scanIntersectionsUp f x y = some (some intr)) :
    Shoot f x y = hitShip f intr.shipData intr.shipPos intr.deck := by
  unfold Shoot
  rw [if_neg hin]
  simp only [hg, hl, hu]

theorem Shoot_of_none {f : ShipField} {x y : Int}
    (hin : ¬ (x ≥ f.conf.W ∨ y ≥ f.conf.H)) (hg : Get f.ships (makePos f x y) = none)
    (hl : scanIntersectionsLeft f x y = some none)
    (hu : scanIntersectionsUp f x y = some none) :
    Shoot f x y = some (f, ShootResult.Miss) := by
  unfold Shoot
  rw [if_neg hin]
  simp only [hg, hl, hu]

theorem cellAt_hor {s : Ship} (hv : s.IsVert = false) (k : Int) :
    s.cellAt k = (s.X + k, s.Y) := by
  unfold Ship.cellAt
  rw [hv]
  rfl

theorem cellAt_vert {s : Ship} (hv : s.IsVert = true) (k : Int) :
    s.cellAt k = (s.X, s.Y + k) := by
  unfold Ship.cellAt
  rw [hv]
  rfl

theorem cellAt_inj {s : Ship} {j k : Int} (h : s.cellAt j = s.cellAt k) : j = k := by
  unfold Ship.cellAt at h
  cases hv : s.IsVert
  · simp only [hv, Bool.false_eq_true, if_false, Prod.mk.injEq] at h
    omega
  · simp only [hv, if_true, Prod.mk.injEq] at h
    omega

theorem cell_not_out {conf : Configuration} {f : ShipField} (hc : f.conf = conf) {x y : Int}
    (hxy : CellInField conf (x, y)) : ¬ (x ≥ f.conf.W ∨ y ≥ f.conf.H) := by
  unfold CellInField at hxy
  simp only at hxy
  rw [hc]
  omega

/-- A shot at a cell of the field that no ship occupies is a miss and changes nothing. -/
theorem Tracks.Shoot_miss {conf : Configuration} {f : ShipField} {hist : List (Int × Int)}
    {ships : List Ship} (h : Tracks conf f hist ships) {x y : Int}
    (hxy : CellInField conf (x, y)) (hfree : ∀ s ∈ ships, (x, y) ∉ s.cells) :
    Shoot f x y = some (f, ShootResult.Miss) := by
  have hin := cell_not_out h.conf_eq hxy
  have hg : Get f.ships (makePos f x y) = none := by
    cases hg : Get f.ships (makePos f x y) with
    | none => rfl
    | some d =>
      exfalso
      obtain ⟨s, hs, hsx, hsy, _⟩ := h.Get_cell hxy hg
      apply hfree s hs
      rw [← hsx, ← hsy]
      exact origin_mem_cells (h.inField s hs).1
  obtain ⟨rl, hl, hfl, _⟩ := h.scanLeft hxy
  have hrl : rl = none := by
    cases rl with
    | none => rfl
    | some intr =>
      exfalso
      obtain ⟨p, hp, hv, hpy, hdeck, h1, hsz, _⟩ := hfl intr rfl
      apply hfree p hp
      refine mem_cells_iff.2 ⟨intr.deck, by omega, hsz, ?_⟩
      rw [cellAt_hor hv, hpy, hdeck]
      congr 1
      omega
  subst hrl
  obtain ⟨ru, hu, hfu, _⟩ := h.scanUp hxy
  have hru : ru = none := by
    cases ru with
    | none => rfl
    | some intr =>
      exfalso
      obtain ⟨p, hp, hv, hpx, hdeck, h1, hsz, _⟩ := hfu intr rfl
      apply hfree p hp
      refine mem_cells_iff.2 ⟨intr.deck, by omega, hsz, ?_⟩
      rw [cellAt_vert hv, hpx, hdeck]
      congr 1
      omega
  subst hru
  exact Shoot_of_none hin hg hl hu

/-- A shot at cell `k` of a stored ship strikes the descriptor of that ship at index `k`. -/
theorem Tracks.Shoot_hit {conf : Configuration} {f : ShipField} {hist : List (Int × Int)}
    {ships : List Ship} (h : Tracks conf f hist ships) {s : Ship} (hs : s ∈ ships) {k : Int}
    (h0 : 0 ≤ k) (hk : k < s.Size) {x y : Int} (hxy : s.cellAt k = (x, y)) :
    ∃ d, Get f.ships (makePos f s.X s.Y) = some d
      ∧ EntryFor f hist (makePos f s.X s.Y, d) s
      ∧ Shoot f x y = hitShip f d (makePos f s.X s.Y) k := by
  have hcell : CellInField conf (x, y) := by
    rw [← hxy]
    exact cell_inField (h.inField s hs) h0 hk
  have hin := cell_not_out h.conf_eq hcell
  have hmem : (x, y) ∈ s.cells := mem_cells_iff.2 ⟨k, h0, hk, hxy.symm⟩
  obtain ⟨d, hd, hent⟩ := h.Get_origin hs
  refine ⟨d, hd, hent, ?_⟩
  have hshare : ∀ p ∈ ships, (x, y) ∈ p.cells → p = s := by
    intro p hp hpo
    by_contra hne
    exact h.separated.no_shared_cell hp hs hne hpo hmem
  by_cases hk0 : k = 0
  · subst hk0
    have horigin : s.cellAt 0 = (s.X, s.Y) := by
      unfold Ship.cellAt
      cases s.IsVert <;> simp
    rw [horigin] at hxy
    simp only [Prod.mk.injEq] at hxy
    obtain ⟨rfl, rfl⟩ := hxy
    exact Shoot_of_Get_some hin hd
  · have hg : Get f.ships (makePos f x y) = none := by
      cases hg : Get f.ships (makePos f x y) with
      | none => rfl
      | some d1 =>
        exfalso
        obtain ⟨p, hp, hpx, hpy, _⟩ := h.Get_cell hcell hg
        have hpo : (x, y) ∈ p.cells := by
          have := origin_mem_cells (h.inField p hp).1
          rw [hpx, hpy] at this
          exact this
        have hps := hshare p hp hpo
        subst hps
        have horigin : p.cellAt 0 = (p.X, p.Y) := by
          unfold Ship.cellAt
          cases p.IsVert <;> simp
        have : p.cellAt k = p.cellAt 0 := by
          rw [horigin, hxy, hpx, hpy]
        exact hk0 (cellAt_inj this)
    obtain ⟨rl, hl, hfl, hnl⟩ := h.scanLeft hcell
    cases hv : s.IsVert
    · -- horizontal: the left scan finds the ship
      rw [cellAt_hor hv] at hxy
      simp only [Prod.mk.injEq] at hxy
      cases rl with
      | none =>
        exfalso
        exact hnl rfl s hs hv hxy.2 (by omega) (by omega)
      | some intr =>
        obtain ⟨p, hp, hpv, hpy, hdeck, h1, hsz, hpos, hgp, _⟩ := hfl intr rfl
        have hpo : (x, y) ∈ p.cells := by
          refine mem_cells_iff.2 ⟨intr.deck, by omega, hsz, ?_⟩
          rw [cellAt_hor hpv, hpy, hdeck]
          congr 1
          omega
        have hps := hshare p hp hpo
        subst hps
        rw [Shoot_of_left hin hg hl, hpos]
        rw [hgp] at hd
        cases hd
        have : intr.deck = k := by omega
        rw [this]
    · -- vertical: the left scan finds nothing, the up scan finds the ship
      rw [cellAt_vert hv] at hxy
      simp only [Prod.mk.injEq] at hxy
      have hrl : rl = none := by
        cases rl with
        | none => rfl
        | some intr =>
          exfalso
          obtain ⟨p, hp, hpv, hpy, hdeck, h1, hsz, _⟩ := hfl intr rfl
          have hpo : (x, y) ∈ p.cells := by
            refine mem_cells_iff.2 ⟨intr.deck, by omega, hsz, ?_⟩
            rw [cellAt_hor hpv, hpy, hdeck]
            congr 1
            omega
          have hps := hshare p hp hpo
          subst hps
          rw [hv] at hpv
          cases hpv
      subst hrl
      obtain ⟨ru, hu, hfu, hnu⟩ := h.scanUp hcell
      cases ru with
      | none =>
        exfalso
        exact hnu rfl s hs hv hxy.1 (by omega) (by omega)
      | some intr =>
        obtain ⟨p, hp, hpv, hpx, hdeck, h1, hsz, hpos, hgp, _⟩ := hfu intr rfl
        have hpo : (x, y) ∈ p.cells := by
          refine mem_cells_iff.2 ⟨intr.deck, by omega, hsz, ?_⟩
          rw [cellAt_vert hpv, hpx, hdeck]
          congr 1
          omega
        have hps := hshare p hp hpo
        subst hps
        rw [Shoot_of_up hin hg hl hu, hpos]
        rw [hgp] at hd
        cases hd
        have : intr.deck = k := by omega
        rw [this]

/-! ## The hit bits follow the shot history -/

theorem EntryFor.other {f : ShipField} {hist : List (Int × Int)} {e : Int × shipData}
    {q : Ship} (h : EntryFor f hist e q) {c : Int × Int}
    (hne : ∀ j : Int, 0 ≤ j → j < q.Size → q.cellAt j ≠ c) : EntryFor f (c :: hist) e q := by
  obtain ⟨h1, h2, h3, h4⟩ := h
  refine ⟨h1, h2, h3, ?_⟩
  intro k hk
  rw [h4 k hk]
  by_cases hsz : q.Size ≤ (k : Int)
  · simp [hsz]
  · have := hne (k : Int) (by omega) (by omega)
    simp only [List.mem_cons, this, false_or]

theorem EntryFor.dead_iff {f : ShipField} {hist : List (Int × Int)} {p : Int} {d : shipData}
    {s : Ship} (h : EntryFor f hist (p, d) s) (h4 : s.Size ≤ 4) :
    IsDead d = true ↔ ∀ j : Int, 0 ≤ j → j < s.Size → s.cellAt j ∈ hist := by
  obtain ⟨_, _, _, hb⟩ := h
  simp only at hb
  rw [IsDead_iff]
  constructor
  · intro hall j hj0 hj
    have hjn : j.toNat < 4 := by omega
    have := (hb j.toNat hjn).1 (hall j.toNat hjn)
    have hcast : ((j.toNat : Nat) : Int) = j := by omega
    rw [hcast] at this
    rcases this with hle | hmem
    · omega
    · exact hmem
  · intro hall k hk
    rw [hb k hk]
    by_cases hsz : s.Size ≤ (k : Int)
    · exact Or.inl hsz
    · exact Or.inr (hall (k : Int) (by omega) (by omega))

theorem EntryFor.dead {f : ShipField} {hist : List (Int × Int)} {p : Int} {d : shipData}
    {s : Ship} (h : EntryFor f hist (p, d) s) (h4 : s.Size ≤ 4) (hd : IsDead d = true)
    (c : Int × Int) : EntryFor f (c :: hist) (p, d) s := by
  have hall := (h.dead_iff h4).1 hd
  obtain ⟨h1, h2, h3, hb⟩ := h
  refine ⟨h1, h2, h3, ?_⟩
  intro k hk
  simp only at hb ⊢
  rw [(IsDead_iff d).1 hd k hk]
  simp only [true_iff]
  by_cases hsz : s.Size ≤ (k : Int)
  · exact Or.inl hsz
  · exact Or.inr (List.mem_cons_of_mem _ (hall (k : Int) (by omega) (by omega)))

theorem EntryFor.hit {f : ShipField} {hist : List (Int × Int)} {p : Int} {d : shipData}
    {s : Ship} (h : EntryFor f hist (p, d) s) (h4 : s.Size ≤ 4) {k : Int} (h0 : 0 ≤ k)
    (hk : k < s.Size) : EntryFor f (s.cellAt k :: hist) (p, markBit d k.toNat) s := by
  obtain ⟨h1, h2, h3, hb⟩ := h
  simp only at h1 h2 h3 hb
  have hkn : k.toNat < 4 := by omega
  refine ⟨h1, ?_, ?_, ?_⟩
  · simp only
    rw [markBit_IsVert d hkn, h2]
  · simp only
    rw [markBit_Size d hkn, h3]
  · intro j hj
    simp only
    rw [markBit_testBit d hkn hj]
    simp only [Bool.or_eq_true, decide_eq_true_eq, List.mem_cons]
    rw [hb j hj]
    constructor
    · rintro ((hle | hmem) | heq)
      · exact Or.inl hle
      · exact Or.inr (Or.inr hmem)
      · right
        left
        have : (j : Int) = k := by omega
        rw [this]
    · rintro (hle | heq | hmem)
      · exact Or.inl (Or.inl hle)
      · right
        have := cellAt_inj heq
        omega
      · exact Or.inl (Or.inr hmem)

theorem Forall₂_imp_mem {α β : Type} {R S : α → β → Prop} {l1 : List α} {l2 : List β}
    (h : List.Forall₂ R l1 l2) (himp : ∀ a b, a ∈ l1 → b ∈ l2 → R a b → S a b) :
    List.Forall₂ S l1 l2 := by
  induction h with
  | nil => exact List.Forall₂.nil
  | cons hab _ ih =>
    refine List.Forall₂.cons (himp _ _ (List.mem_cons_self _ _) (List.mem_cons_self _ _) hab) ?_
    exact ih (fun a b ha hb hr =>
      himp a b (List.mem_cons_of_mem _ ha) (List.mem_cons_of_mem _ hb) hr)

/-- Overwriting the value of a present key, entry by entry. -/
theorem Forall₂_Put {β : Type} {R S : Int × shipData → β → Prop}
    {m : List (Int × shipData)} {l : List β} (h : List.Forall₂ R m l)
    (hnd : (m.map Prod.fst).Nodup) {p : Int} {d v : shipData} (hg : Get m p = some d)
    (hother : ∀ e b, e ∈ m → b ∈ l → R e b → e.1 ≠ p → S e b)
    (hthis : ∀ b, b ∈ l → R (p, d) b → S (p, v) b) :
    List.Forall₂ S (Put m p v) l := by
  induction h with
  | nil => simp [Get] at hg
  | @cons e b m l hab htail ih =>
    obtain ⟨k, w⟩ := e
    simp only [List.map_cons, List.nodup_cons, List.mem_map, not_exists, not_and] at hnd
    unfold Get at hg
    unfold Put
    by_cases hk : k = p
    · rw [if_pos hk] at hg
      cases hg
      rw [if_pos hk]
      subst hk
      refine List.Forall₂.cons (hthis b (List.mem_cons_self _ _) hab) ?_
      apply Forall₂_imp_mem htail
      intro e1 b1 he1 hb1 hr
      refine hother e1 b1 (List.mem_cons_of_mem _ he1) (List.mem_cons_of_mem _ hb1) hr ?_
      intro heq
      exact hnd.1 e1 he1 heq
    · rw [if_neg hk] at hg
      rw [if_neg hk]
      refine List.Forall₂.cons
        (hother _ b (List.mem_cons_self _ _) (List.mem_cons_self _ _) hab hk) ?_
      exact ih hnd.2 hg
        (fun e1 b1 he1 hb1 hr hne =>
          hother e1 b1 (List.mem_cons_of_mem _ he1) (List.mem_cons_of_mem _ hb1) hr hne)
        (fun b1 hb1 hr => hthis b1 (List.mem_cons_of_mem _ hb1) hr)

/-- The ship stored under the packed origin of `s` is `s`. -/
theorem Tracks.ship_of_key {conf : Configuration} {f : ShipField} {hist : List (Int × Int)}
    {ships : List Ship} (h : Tracks conf f hist ships) {s q : Ship} (hs : s ∈ ships)
    (hq : q ∈ ships) (hkey : makePos f q.X q.Y = makePos f s.X s.Y) : q = s := by
  obtain ⟨hx, hy⟩ := makePos_inj h.conf_eq h.packable (origin_inField (h.inField q hq))
    (origin_inField (h.inField s hs)) hkey
  exact h.separated.origin_inj (fun a ha => (h.inField a ha).1) hq hs hx hy

/-- A shot at a cell of the field keeps the stored layout and records the cell in the hit
bits. -/
theorem Tracks.Shoot_tracks {conf : Configuration} {f f1 : ShipField}
    {hist : List (Int × Int)} {ships : List Ship} (h : Tracks conf f hist ships) {x y : Int}
    (hxy : CellInField conf (x, y)) {r : ShootResult} (hshoot : Shoot f x y = some (f1, r)) :
    Tracks conf f1 ((x, y) :: hist) ships := by
  by_cases hocc : ∃ s ∈ ships, (x, y) ∈ s.cells
  · obtain ⟨s, hs, hmem⟩ := hocc
    obtain ⟨k, h0, hk, hcell⟩ := mem_cells_iff.1 hmem
    obtain ⟨d, hd, hent, heq⟩ := h.Shoot_hit hs h0 hk hcell.symm
    rw [heq] at hshoot
    have h4 : s.Size ≤ 4 := (h.inField s hs).2.1
    have hothers : ∀ q ∈ ships, q ≠ s → ∀ j : Int, 0 ≤ j → j < q.Size →
        q.cellAt j ≠ (x, y) := by
      intro q hq hne j hj0 hj heqc
      have : (x, y) ∈ q.cells := mem_cells_iff.2 ⟨j, hj0, hj, heqc.symm⟩
      exact h.separated.no_shared_cell hq hs hne this hmem
    cases hdead : IsDead d with
    | true =>
      obtain ⟨rfl, _⟩ := hitShip_dead hdead hshoot
      refine ⟨h.conf_eq, h.packable, h.inField, h.separated, ?_⟩
      apply Forall₂_imp_mem h.stored
      intro e q he hq hr
      by_cases hqs : q = s
      · subst hqs
        obtain ⟨k1, d1⟩ := e
        have hk1 : k1 = makePos f1 q.X q.Y := hr.1
        subst hk1
        have := Get_of_mem_nodup h.keys_nodup he
        rw [hd] at this
        cases this
        exact hr.dead h4 hdead _
      · exact hr.other (hothers q hq hqs)
    | false =>
      obtain ⟨_, hc, hships, _⟩ := hitShip_alive hdead hshoot
      refine ⟨hc.trans h.conf_eq, h.packable, h.inField, h.separated, ?_⟩
      unfold Stored
      rw [hships]
      apply Forall₂_Put h.stored h.keys_nodup hd
      · intro e q he hq hr hne
        rw [EntryFor_congr hc]
        apply hr.other
        apply hothers q hq
        rintro rfl
        exact hne hr.1
      · intro q hq hr
        have hqs : q = s := h.ship_of_key hs hq hr.1.symm
        subst hqs
        rw [EntryFor_congr hc, hcell]
        exact hr.hit h4 h0 hk
  · have hfree : ∀ s ∈ ships, (x, y) ∉ s.cells := fun s hs hmem => hocc ⟨s, hs, hmem⟩
    rw [h.Shoot_miss hxy hfree] at hshoot
    simp only [Option.some.injEq, Prod.mk.injEq] at hshoot
    obtain ⟨rfl, _⟩ := hshoot
    refine ⟨h.conf_eq, h.packable, h.inField, h.separated, ?_⟩
    apply Forall₂_imp_mem h.stored
    intro e q _ hq hr
    apply hr.other
    intro j hj0 hj heqc
    exact hfree q hq (mem_cells_iff.2 ⟨j, hj0, hj, heqc.symm⟩)

/-- A sequence of shots at cells of the field returns and keeps the stored layout. -/
theorem Tracks.shootAll_tracks {conf : Configuration} {ships : List Ship}
    (shots : List (Int × Int)) :
    ∀ (f : ShipField) (hist : List (Int × Int)), Tracks conf f hist ships →
      (∀ c ∈ shots, CellInField conf c) →
      ∃ f1 rs, shootAll f shots = some (f1, rs)
        ∧ Tracks conf f1 (shots.reverse ++ hist) ships := by
  induction shots with
  | nil =>
    intro f hist h _
    exact ⟨f, [], rfl, by simpa using h⟩
  | cons c shots ih =>
    intro f hist h hin
    obtain ⟨x, y⟩ := c
    have hc : CellInField conf (x, y) := hin _ (List.mem_cons_self _ _)
    obtain ⟨f2, r, hs⟩ := Shoot_isSome f hc.1 hc.2.2.1
    have h2 := h.Shoot_tracks hc hs
    obtain ⟨f3, rs, hrest, h3⟩ := ih f2 ((x, y) :: hist) h2
      (fun q hq => hin q (List.mem_cons_of_mem _ hq))
    refine ⟨f3, r :: rs, ?_, ?_⟩
    · unfold shootAll at hrest ⊢
      simp only [List.map_cons, runOps, hs, hrest]
    · simpa using h3

/-! ## Live counters -/

theorem Padded_markBit {c : shipData} (h : Padded c) {k : Nat} (hk : k < 4) :
    Padded (markBit c k) := by
  intro j hj hsz
  rw [markBit_Size c hk] at hsz
  rw [markBit_testBit c hk hj, h j hj hsz]
  rfl

theorem Padded_newShipData (v : Bool) {s : Int} (h1 : 1 ≤ s) (h4 : s ≤ 4) :
    Padded (newShipData v s) := by
  intro j hj hsz
  rw [newShipData_Size v h1 h4] at hsz
  exact (newShipData_testBit v h1 h4 hj).2 hsz

theorem Padded_resetData (c : shipData) : Padded (resetData c) :=
  Padded_newShipData _ (Size_pos c) (Size_le c)

theorem hasUnshotCell_of_Padded {c : shipData} (h : Padded c) :
    hasUnshotCell c = !(IsDead c) := by
  cases hd : IsDead c with
  | true =>
    simp only [Bool.not_true]
    cases hu : hasUnshotCell c with
    | false => rfl
    | true =>
      exfalso
      obtain ⟨k, hk, hb⟩ := (hasUnshotCell_iff c).1 hu
      have := (IsDead_iff c).1 hd k (by have := Size_le c; omega)
      rw [this] at hb
      cases hb
  | false =>
    simp only [Bool.not_false]
    rw [hasUnshotCell_iff]
    by_contra hno
    have : IsDead c = true := by
      rw [IsDead_iff]
      intro k hk
      by_cases hsz : Size c ≤ (k : Int)
      · exact h k hk hsz
      · cases hb : c.val.testBit k with
        | true => rfl
        | false => exact absurd ⟨k, by omega, hb⟩ hno
    rw [this] at hd
    cases hd

theorem hasUnshotCell_newShipData (v : Bool) {s : Int} (h1 : 1 ≤ s) (h4 : s ≤ 4) :
    hasUnshotCell (newShipData v s) = true := by
  rw [hasUnshotCell_iff]
  refine ⟨0, by rw [newShipData_Size v h1 h4]; omega, ?_⟩
  cases hb : (newShipData v s).val.testBit 0 with
  | false => rfl
  | true =>
    have := (newShipData_testBit v h1 h4 (k := 0) (by omega)).1 hb
    simp only [Nat.cast_zero] at this
    omega

theorem Size_resetData (c : shipData) : Size (resetData c) = Size c :=
  newShipData_Size _ (Size_pos c) (Size_le c)

theorem SizeCounts.get_set (c : SizeCounts) {i j : Int} (v : Int) (hi0 : 0 ≤ i) (hi : i ≤ 3)
    (hj0 : 0 ≤ j) (hj : j ≤ 3) : (c.set i v).get j = if j = i then v else c.get j := by
  have hi1 : i = 0 ∨ i = 1 ∨ i = 2 ∨ i = 3 := by omega
  have hj1 : j = 0 ∨ j = 1 ∨ j = 2 ∨ j = 3 := by omega
  rcases hi1 with rfl | rfl | rfl | rfl <;> rcases hj1 with rfl | rfl | rfl | rfl <;>
    simp [SizeCounts.set, SizeCounts.get]

theorem filter_and_length_le {α : Type} (l : List α) (p q : α → Bool) :
    (l.filter (fun a => p a && q a)).length ≤ (l.filter p).length := by
  induction l with
  | nil => simp
  | cons a l ih =>
    simp only [List.filter_cons]
    cases hp : p a <;> cases hq : q a <;> simp <;> omega

theorem liveShips_le_stored (f : ShipField) (s : Int) : liveShips f s ≤ storedOfSize f s := by
  unfold liveShips storedOfSize
  have := filter_and_length_le f.ships (fun e => decide (Size e.2 = s))
    (fun e => hasUnshotCell e.2)
  omega

theorem liveShips_nonneg (f : ShipField) (s : Int) : 0 ≤ liveShips f s := by
  unfold liveShips
  omega

/-- `hitShip` on a stored descriptor keeps the counters in step with the map. -/
theorem CountsTrack.after_hitShip {f f1 : ShipField} (h : CountsTrack f) {ship : shipData}
    {pos idx : Int} {r : ShootResult} (hg : Get f.ships pos = some ship)
    (hidx : idx < Size ship) (hh : hitShip f ship pos idx = some (f1, r)) :
    CountsTrack f1 := by
  obtain ⟨hnd, hgo, hpad, hst, hlive⟩ := h
  cases hd : IsDead ship with
  | true =>
    obtain ⟨rfl, _⟩ := hitShip_dead hd hh
    exact ⟨hnd, hgo, hpad, hst, hlive⟩
  | false =>
    obtain ⟨h0, hc, hs, hres⟩ := hitShip_alive hd hh
    have hk : idx.toNat < 4 := by
      have := Size_le ship
      omega
    have hpship : Padded ship := hpad _ (Get_some_mem hg)
    have hsz : Size (markBit ship idx.toNat) = Size ship := markBit_Size ship hk
    have hstored : ∀ s : Int, storedOfSize f1 s = storedOfSize f s := by
      intro s
      unfold storedOfSize
      rw [hs, Put_filter_length (fun d => decide (Size d = s)) _ hg, hsz]
      omega
    have hliveput : ∀ s : Int, liveShips f1 s = liveShips f s
        - (if (decide (Size ship = s) && hasUnshotCell ship) = true then 1 else 0)
        + (if (decide (Size ship = s) && hasUnshotCell (markBit ship idx.toNat)) = true
            then 1 else 0) := by
      intro s
      unfold liveShips
      rw [hs, Put_filter_length (fun d => decide (Size d = s) && hasUnshotCell d) _ hg, hsz]
    have hu : hasUnshotCell ship = true := by
      rw [hasUnshotCell_of_Padded hpship, hd]
      rfl
    refine ⟨?_, by rw [hc]; exact hgo, ?_, ?_, ?_⟩
    · rw [hs, Put_keys_of_Get_some _ hg]
      exact hnd
    · intro e he
      rw [hs] at he
      rcases mem_Put he with h1 | h1
      · exact hpad e h1
      · rw [h1]
        exact Padded_markBit hpship hk
    · intro s hs1 hs4
      rw [hc, hstored s]
      exact hst s hs1 hs4
    · intro s hs1 hs4
      rw [hliveput s, hu]
      rcases hres with ⟨hd1, _, hcc⟩ | ⟨hd1, _, hcc⟩
      · have hu1 : hasUnshotCell (markBit ship idx.toNat) = false := by
          rw [hasUnshotCell_of_Padded (Padded_markBit hpship hk), hd1]
          rfl
        rw [hcc, hu1, hsz]
        simp only [Bool.and_true, Bool.and_false, decide_eq_true_eq, Bool.false_eq_true,
          if_false, add_zero]
        have hsp := Size_pos ship
        have hsl := Size_le ship
        rw [SizeCounts.get_set _ _ (by omega) (by omega) (by omega) (by omega)]
        by_cases hss : Size ship = s
        · subst hss
          simp only [if_true]
          rw [hlive _ hs1 hs4]
          have h1 := hliveput (Size ship)
          rw [hu, hu1] at h1
          simp only [Bool.and_true, Bool.and_false, decide_eq_true_eq, Bool.false_eq_true,
            if_true, if_false, add_zero] at h1
          have h2 := liveShips_nonneg f1 (Size ship)
          have h3 := liveShips_le_stored f (Size ship)
          have h4 := hst _ hs1 hs4
          obtain ⟨_, _, g0, g1, g2, g3⟩ := hgo
          have hb : f.conf.Sizes.get (Size ship - 1) < 9223372036854775808 := by
            unfold SizeCounts.get
            unfold IsInt64 at g0 g1 g2 g3
            split_ifs <;> omega
          apply wrap64_eq_self
          unfold IsInt64
          omega
        · have : ¬ (s - 1 = Size ship - 1) := by omega
          rw [if_neg this, if_neg hss, hlive s hs1 hs4]
          omega
      · have hu1 : hasUnshotCell (markBit ship idx.toNat) = true := by
          rw [hasUnshotCell_of_Padded (Padded_markBit hpship hk), hd1]
          rfl
        rw [hcc, hu1, hlive s hs1 hs4]
        omega

theorem CountsTrack.after_Shoot {f f1 : ShipField} (h : CountsTrack f) {x y : Int}
    {r : ShootResult} (hs : Shoot f x y = some (f1, r)) : CountsTrack f1 := by
  rcases Shoot_cases hs with ⟨rfl, _⟩ | ⟨pos, ship, idx, hg, hidx, hh⟩
  · exact h
  · exact h.after_hitShip hg hidx hh

theorem CountsTrack.after_ResetShots {f : ShipField} (h : CountsTrack f) :
    CountsTrack (ResetShots f) := by
  obtain ⟨hnd, hgo, hpad, hst, hlive⟩ := h
  obtain ⟨hc, hcc, hk, _⟩ := ResetShots_frame hnd
  have hships := ResetShots_ships hnd
  have hstored : ∀ s : Int, storedOfSize (ResetShots f) s = storedOfSize f s := by
    intro s
    unfold storedOfSize
    rw [hships, List.filter_map, List.length_map]
    congr 2
    apply List.filter_congr
    intro e _
    simp only [Function.comp, Size_resetData]
  have hliveall : ∀ s : Int, liveShips (ResetShots f) s = storedOfSize f s := by
    intro s
    unfold liveShips storedOfSize
    rw [hships, List.filter_map, List.length_map]
    congr 2
    apply List.filter_congr
    intro e _
    simp only [Function.comp, Size_resetData]
    have : hasUnshotCell (resetData e.2) = true :=
      hasUnshotCell_newShipData _ (Size_pos e.2) (Size_le e.2)
    rw [this, Bool.and_true]
  refine ⟨by rw [hk]; exact hnd, by rw [hc]; exact hgo, ?_, ?_, ?_⟩
  · intro e he
    rw [hships] at he
    obtain ⟨a, _, rfl⟩ := List.mem_map.1 he
    exact Padded_resetData a.2
  · intro s hs1 hs4
    rw [hc, hstored s]
    exact hst s hs1 hs4
  · intro s hs1 hs4
    rw [hcc, hliveall s]
    exact hst s hs1 hs4

theorem CountsTrack.after_runOps (ops : List FieldOp) :
    ∀ (f f1 : ShipField) (rs : List ShootResult), CountsTrack f →
      runOps f ops = some (f1, rs) → CountsTrack f1 := by
  induction ops with
  | nil =>
    intro f f1 rs h hr
    simp only [runOps, Option.some.injEq, Prod.mk.injEq] at hr
    obtain ⟨rfl, _⟩ := hr
    exact h
  | cons op ops ih =>
    intro f f1 rs h hr
    cases op with
    | shoot x y =>
      rw [runOps] at hr
      cases hs : Shoot f x y with
      | none =>
        rw [hs] at hr
        cases hr
      | some p =>
        obtain ⟨f2, r⟩ := p
        rw [hs] at hr
        simp only at hr
        cases hrest : runOps f2 ops with
        | none =>
          rw [hrest] at hr
          cases hr
        | some q =>
          obtain ⟨f3, rs3⟩ := q
          rw [hrest] at hr
          simp only [Option.some.injEq, Prod.mk.injEq] at hr
          obtain ⟨rfl, _⟩ := hr
          exact ih f2 f3 rs3 (h.after_Shoot hs) hrest
    | reset =>
      rw [runOps] at hr
      exact ih _ f1 rs h.after_ResetShots hr

/-- `AllDead` reads the counters: it holds iff no stored ship has an unshot cell. -/
theorem CountsTrack.AllDead_iff {f : ShipField} (h : CountsTrack f) :
    AllDead f = true ↔ ∀ e ∈ f.ships, hasUnshotCell e.2 = false := by
  obtain ⟨_, _, _, _, hlive⟩ := h
  have h1 := hlive 1 (by omega) (by omega)
  have h2 := hlive 2 (by omega) (by omega)
  have h3 := hlive 3 (by omega) (by omega)
  have h4 := hlive 4 (by omega) (by omega)
  simp only [SizeCounts.get] at h1 h2 h3 h4
  norm_num at h1 h2 h3 h4
  unfold AllDead
  simp only [Bool.and_eq_true, decide_eq_true_eq]
  rw [h1, h2, h3, h4]
  have hzero : ∀ s : Int, liveShips f s = 0 ↔
      ∀ e ∈ f.ships, Size e.2 = s → hasUnshotCell e.2 = false := by
    intro s
    unfold liveShips
    rw [Nat.cast_eq_zero, List.length_eq_zero, List.filter_eq_nil_iff]
    constructor
    · intro hall e he hsz
      have := hall e he
      simp only [Bool.and_eq_true, decide_eq_true_eq, not_and, Bool.not_eq_true] at this
      exact this hsz
    · intro hall e he
      simp only [Bool.and_eq_true, decide_eq_true_eq, not_and, Bool.not_eq_true]
      exact hall e he
  rw [hzero, hzero, hzero, hzero]
  constructor
  · rintro ⟨⟨⟨a1, a2⟩, a3⟩, a4⟩ e he
    have hp := Size_pos e.2
    have hl := Size_le e.2
    have : Size e.2 = 1 ∨ Size e.2 = 2 ∨ Size e.2 = 3 ∨ Size e.2 = 4 := by omega
    rcases this with hs | hs | hs | hs
    · exact a1 e he hs
    · exact a2 e he hs
    · exact a3 e he hs
    · exact a4 e he hs
  · intro hall
    exact ⟨⟨⟨fun e he _ => hall e he, fun e he _ => hall e he⟩, fun e he _ => hall e he⟩,
      fun e he _ => hall e he⟩

/-! ## Counters of a freshly loaded field -/

/-- The inner scan covers the origin of the new ship itself. -/
theorem checkInner_own {conf : Configuration} {f : ShipField} (hc : f.conf = conf)
    (hgo : conf.IsGo) {s : Ship} (hs : InField conf s)
    (hcheck : checkInnerOverlaps f s = false) : Get f.ships (makePos f s.X s.Y) = none := by
  cases hg : Get f.ships (makePos f s.X s.Y) with
  | none => rfl
  | some d =>
    exfalso
    obtain ⟨hW64, hH64, _⟩ := hgo
    unfold IsInt64 at hW64 hH64
    have hbd := inField_bounds hs
    have w1 : wrap64 (s.X - 1) = s.X - 1 := wrap64_eq_self (by unfold IsInt64; omega)
    have w2 : wrap64 (s.Y - 1) = s.Y - 1 := wrap64_eq_self (by unfold IsInt64; omega)
    have w3 : wrap64 (conf.W - 1) = conf.W - 1 := wrap64_eq_self (by unfold IsInt64; omega)
    have w4 : wrap64 (conf.H - 1) = conf.H - 1 := wrap64_eq_self (by unfold IsInt64; omega)
    have w5 : wrap64 (s.X + (if s.IsVert then 1 else s.Size))
        = s.X + (if s.IsVert then 1 else s.Size) :=
      wrap64_eq_self (by unfold IsInt64; omega)
    have w6 : wrap64 (s.Y + (if s.IsVert then s.Size else 1))
        = s.Y + (if s.IsVert then s.Size else 1) :=
      wrap64_eq_self (by unfold IsInt64; omega)
    have hmaxX : (if s.IsVert then min (wrap64 (f.conf.W - 1)) (wrap64 (s.X + 1))
        else min (wrap64 (f.conf.W - 1)) (wrap64 (s.X + s.Size)))
        = min (conf.W - 1) (s.X + (if s.IsVert then 1 else s.Size)) := by
      rw [hc, w3, ← w5]
      cases s.IsVert <;> rfl
    have hmaxY : (if s.IsVert then min (wrap64 (f.conf.H - 1)) (wrap64 (s.Y + s.Size))
        else min (wrap64 (f.conf.H - 1)) (wrap64 (s.Y + 1)))
        = min (conf.H - 1) (s.Y + (if s.IsVert then s.Size else 1)) := by
      rw [hc, w4, ← w6]
      cases s.IsVert <;> rfl
    have : checkInnerOverlaps f s = true := by
      unfold checkInnerOverlaps
      simp only [List.any_eq_true, mem_intRange, hmaxX, hmaxY, w1, w2]
      refine ⟨s.X, by omega, s.Y, by omega, ?_⟩
      unfold Has
      rw [hg]
      rfl
    rw [this] at hcheck
    cases hcheck

/-- A loop that accepts ships of the field appends one fresh entry per ship. -/
theorem loadShips_inField {conf : Configuration} (hgo : conf.IsGo) (ships : List Ship) :
    ∀ (f f1 : ShipField) (c c1 : SizeCounts), f.conf = conf →
      (∀ s ∈ ships, InField conf s) → loadShips conf f c ships = (f1, c1, none) →
      f1.ships = f.ships ++ ships.map (freshEntry f) := by
  induction ships with
  | nil =>
    intro f f1 c c1 _ _ h
    simp only [loadShips, Prod.mk.injEq] at h
    obtain ⟨rfl, _⟩ := h
    simp
  | cons s rest ih =>
    intro f f1 c c1 hc hin h
    obtain ⟨_, _, _, hinner, _, _, hrest⟩ := loadShips_cons_ok h
    have hs : InField conf s := hin s (List.mem_cons_self _ _)
    have hget := checkInner_own hc hgo hs hinner
    rw [Put_of_Get_none _ hget] at hrest
    have := ih { f with ships := f.ships ++ [(makePos f s.X s.Y,
        newShipData s.IsVert s.Size)] } f1 _ c1 hc
      (fun q hq => hin q (List.mem_cons_of_mem _ hq)) hrest
    rw [this]
    simp only [List.map_cons, List.append_assoc, List.singleton_append]
    rfl

theorem storedOfSize_fresh (f g : ShipField) (ships : List Ship)
    (hsz : ∀ q ∈ ships, 1 ≤ q.Size ∧ q.Size ≤ 4) (hf : f.ships = ships.map (freshEntry g))
    (s : Int) : storedOfSize f s = countSize ships s := by
  unfold storedOfSize countSize
  rw [hf, List.filter_map, List.length_map]
  congr 2
  apply List.filter_congr
  intro q hq
  obtain ⟨h1, h4⟩ := hsz q hq
  simp only [Function.comp, freshEntry, newShipData_Size _ h1 h4]

theorem liveShips_fresh (f g : ShipField) (ships : List Ship)
    (hsz : ∀ q ∈ ships, 1 ≤ q.Size ∧ q.Size ≤ 4) (hf : f.ships = ships.map (freshEntry g))
    (s : Int) : liveShips f s = countSize ships s := by
  unfold liveShips countSize
  rw [hf, List.filter_map, List.length_map]
  congr 2
  apply List.filter_congr
  intro q hq
  obtain ⟨h1, h4⟩ := hsz q hq
  simp only [Function.comp, freshEntry, newShipData_Size _ h1 h4,
    hasUnshotCell_newShipData _ h1 h4, Bool.and_true]

/-- The field produced by a successful `Load` of ships of the field: one fresh entry per
ship, with counters in step. -/
theorem Load_inField_ok {f0 : ShipField} {conf : Configuration} {ships : List Ship}
    (hgo : conf.IsGo) (hin : ∀ s ∈ ships, InField conf s)
    (h : Load NewShipField conf ships = (f0, none)) :
    f0.conf = conf ∧ f0.currConfig = conf ∧ f0.ships = ships.map (freshEntry f0)
      ∧ CountsTrack f0 := by
  obtain ⟨hc, hcc, hnd, _, hcnt⟩ := Load_fresh_ok h
  obtain ⟨_, _, hl⟩ := Load_ok h
  have hships := loadShips_inField hgo ships _ _ _ _ rfl hin hl
  simp only [NewShipField, List.nil_append] at hships
  have hfs : f0.ships = ships.map (freshEntry f0) := by
    rw [hships]
    apply List.map_congr_left
    intro s _
    exact (freshEntry_congr (by rw [hc]) s).symm
  have hsz : ∀ q ∈ ships, 1 ≤ q.Size ∧ q.Size ≤ 4 :=
    fun q hq => ⟨(hin q hq).1, (hin q hq).2.1⟩
  have hget : ∀ s : Int, 1 ≤ s → s ≤ 4 → conf.Sizes.get (s - 1) = countSize ships s := by
    intro s hs1 hs4
    rw [hcnt]
    have : s = 1 ∨ s = 2 ∨ s = 3 ∨ s = 4 := by omega
    rcases this with rfl | rfl | rfl | rfl <;> simp [SizeCounts.get]
  refine ⟨hc, hcc, hfs, hnd, by rw [hc]; exact hgo, ?_, ?_, ?_⟩
  · intro e he
    rw [hfs] at he
    obtain ⟨q, hq, rfl⟩ := List.mem_map.1 he
    exact Padded_newShipData _ (hsz q hq).1 (hsz q hq).2
  · intro s hs1 hs4
    rw [hc, storedOfSize_fresh f0 f0 ships hsz hfs s]
    exact hget s hs1 hs4
  · intro s hs1 hs4
    rw [hcc, liveShips_fresh f0 f0 ships hsz hfs s]
    exact hget s hs1 hs4

theorem Forall₂_of_map_eq {α β γ : Type} (g : α → γ) (k : β → γ) :
    ∀ (l1 : List α) (l2 : List β), l1.map g = l2.map k →
      List.Forall₂ (fun a b => g a = k b) l1 l2 := by
  intro l1
  induction l1 with
  | nil =>
    intro l2 h
    cases l2 with
    | nil => exact List.Forall₂.nil
    | cons b l2 => simp at h
  | cons a l1 ih =>
    intro l2 h
    cases l2 with
    | nil => simp at h
    | cons b l2 =>
      simp only [List.map_cons, List.cons.injEq] at h
      exact List.Forall₂.cons h.1 (ih l2 h.2)

theorem IsVert_resetData (c : shipData) : IsVert (resetData c) = IsVert c :=
  newShipData_IsVert _ (Size_pos c) (Size_le c)

/-- After any calls on a loaded field of ships of the field, the map still stores one entry
per ship, with the origin, orientation and size of that ship. -/
theorem runOps_same_ships {f0 f1 : ShipField} {conf : Configuration} {ships : List Ship}
    (hgo : conf.IsGo) (hin : ∀ s ∈ ships, InField conf s)
    (hload : Load NewShipField conf ships = (f0, none)) {ops : List FieldOp}
    {rs : List ShootResult} (hrun : runOps f0 ops = some (f1, rs)) :
    List.Forall₂
      (fun e s => e.1 = makePos f1 s.X s.Y ∧ IsVert e.2 = s.IsVert ∧ Size e.2 = s.Size)
      f1.ships ships := by
  obtain ⟨hc, _, hfs, hct⟩ := Load_inField_ok hgo hin hload
  obtain ⟨hc1, _, hr1⟩ := runOps_frame ops f0 f1 rs hct.1 hrun
  rw [hfs, List.map_map] at hr1
  have := Forall₂_of_map_eq _ _ _ _ hr1
  apply Forall₂_imp_mem this
  intro e s _ hs heq
  simp only [Function.comp, freshEntry, Prod.mk.injEq] at heq
  obtain ⟨hk, hd⟩ := heq
  have h1 := (hin s hs).1
  have h4 := (hin s hs).2.1
  rw [resetData_newShipData _ h1 h4] at hd
  refine ⟨?_, ?_, ?_⟩
  · rw [hk]
    unfold makePos
    rw [hc1]
  · rw [← IsVert_resetData, hd, newShipData_IsVert _ h1 h4]
  · rw [← Size_resetData, hd, newShipData_Size _ h1 h4]

/-- A sequence of calls whose shots have non-negative coordinates returns. -/
theorem runOps_isSome (ops : List FieldOp) :
    ∀ (f : ShipField), (∀ x y, FieldOp.shoot x y ∈ ops → 0 ≤ x ∧ 0 ≤ y) →
      ∃ f1 rs, runOps f ops = some (f1, rs) := by
  induction ops with
  | nil =>
    intro f _
    exact ⟨f, [], rfl⟩
  | cons op ops ih =>
    intro f hp
    cases op with
    | shoot x y =>
      obtain ⟨hx, hy⟩ := hp x y (List.mem_cons_self _ _)
      obtain ⟨f2, r, hs⟩ := Shoot_isSome f hx hy
      obtain ⟨f3, rs, hrest⟩ := ih f2 (fun a b hab => hp a b (List.mem_cons_of_mem _ hab))
      exact ⟨f3, r :: rs, by simp only [runOps, hs, hrest]⟩
    | reset =>
      obtain ⟨f3, rs, hrest⟩ :=
        ih (ResetShots f) (fun a b hab => hp a b (List.mem_cons_of_mem _ hab))
      exact ⟨f3, rs, by simp only [runOps, hrest]⟩

/-! ## Loaded fields track their layout -/

/-- A layout of ships of the field that `Load` accepts is separated. -/
theorem Load_separated {f0 : ShipField} {conf : Configuration} {ships : List Ship}
    (hp : Packable conf) (hin : ∀ s ∈ ships, InField conf s)
    (h : Load NewShipField conf ships = (f0, none)) : Separated ships := by
  by_contra hsep
  obtain ⟨pre, s, post, heq, hpre, htouch⟩ := exists_first_touch ships hsep
  obtain ⟨_, _, hl⟩ := Load_ok h
  have hin1 : ∀ q ∈ ([] : List Ship) ++ pre, InField conf q := by
    intro q hq
    apply hin q
    rw [heq]
    simp only [List.nil_append] at hq
    exact List.mem_append_left _ hq
  have hs : InField conf s := by
    apply hin s
    rw [heq]
    simp
  obtain ⟨f1, c1, h1, _⟩ := loadShips_first_touch hp pre
    { NewShipField with currConfig := conf, conf := conf } ⟨0, 0, 0, 0⟩ [] s post rfl rfl
    hin1 hs (by simpa using hpre) (by simpa using htouch)
  rw [← heq, hl] at h1
  simp at h1

theorem Load_tracks {f0 : ShipField} {conf : Configuration} {ships : List Ship}
    (hp : Packable conf) (hin : ∀ s ∈ ships, InField conf s)
    (h : Load NewShipField conf ships = (f0, none)) :
    Tracks conf f0 [] ships ∧ CountsTrack f0 := by
  obtain ⟨hc, _, hfs, hct⟩ := Load_inField_ok hp.1 hin h
  exact ⟨Tracks_of_fresh hc hp hin (Load_separated hp hin h) hfs, hct⟩

theorem Forall₂_zip {α β : Type} {R : α → β → Prop} {l1 : List α} {l2 : List β}
    (h : List.Forall₂ R l1 l2) :
    List.Forall₂ (fun a b => R a b ∧ (a, b) ∈ l1.zip l2) l1 l2 := by
  induction h with
  | nil => exact List.Forall₂.nil
  | cons hab _ ih =>
    refine List.Forall₂.cons ⟨hab, by simp⟩ ?_
    apply Forall₂_imp_mem ih
    intro a b _ _ hr
    exact ⟨hr.1, by simp [hr.2]⟩

theorem Forall₂_of_mem_zip {α β : Type} {R : α → β → Prop} {l1 : List α} {l2 : List β}
    (h : List.Forall₂ R l1 l2) {a : α} {b : β} (hab : (a, b) ∈ l1.zip l2) : R a b := by
  induction h with
  | nil => simp at hab
  | cons hr _ ih =>
    simp only [List.zip_cons_cons, List.mem_cons, Prod.mk.injEq] at hab
    rcases hab with ⟨rfl, rfl⟩ | hmem
    · exact hr
    · exact ih hmem

/-- The cells whose hit bit is set in the map, as a shot history. -/
theorem exists_history {conf : Configuration} {f : ShipField} {ships : List Ship}
    (hc : f.conf = conf) (hp : Packable conf) (hin : ∀ s ∈ ships, InField conf s)
    (hsep : Separated ships) (hnd : (f.ships.map Prod.fst).Nodup)
    (hpad : ∀ e ∈ f.ships, Padded e.2)
    (hsame : List.Forall₂
      (fun e s => e.1 = makePos f s.X s.Y ∧ IsVert e.2 = s.IsVert ∧ Size e.2 = s.Size)
      f.ships ships) :
    ∃ hist, Tracks conf f hist ships := by
  let marked : (Int × shipData) × Ship → List (Int × Int) := fun p =>
    (List.range 4).filterMap (fun (k : Nat) =>
      if (k : Int) < p.2.Size ∧ p.1.2.val.testBit k = true then some (p.2.cellAt (k : Int))
      else none)
  refine ⟨(f.ships.zip ships).flatMap marked, hc, hp, hin, hsep, ?_⟩
  unfold Stored
  apply Forall₂_imp_mem (Forall₂_zip hsame)
  rintro ⟨key, d⟩ s he hs ⟨⟨hk, hv, hsz⟩, hzip⟩
  simp only at hk hv hsz
  refine ⟨hk, hv, hsz, ?_⟩
  intro k hk4
  simp only
  constructor
  · intro hbit
    by_cases hle : s.Size ≤ (k : Int)
    · exact Or.inl hle
    · right
      rw [List.mem_flatMap]
      refine ⟨((key, d), s), hzip, ?_⟩
      simp only [marked, List.mem_filterMap, List.mem_range]
      exact ⟨k, hk4, by rw [if_pos ⟨by omega, hbit⟩]⟩
  · rintro (hle | hmem)
    · exact hpad _ he k hk4 (by rw [hsz]; exact hle)
    · by_cases hle : s.Size ≤ (k : Int)
      · exact hpad _ he k hk4 (by rw [hsz]; exact hle)
      · rw [List.mem_flatMap] at hmem
        obtain ⟨⟨⟨key1, d1⟩, q⟩, hzq, hcell⟩ := hmem
        simp only [marked, List.mem_filterMap, List.mem_range] at hcell
        obtain ⟨j, hj4, hif⟩ := hcell
        by_cases hcond : ((j : Nat) : Int) < q.Size ∧ d1.val.testBit j = true
        · rw [if_pos hcond] at hif
          simp only [Option.some.injEq] at hif
          have hq : q ∈ ships := (List.of_mem_zip hzq).2
          have he1 : (key1, d1) ∈ f.ships := (List.of_mem_zip hzq).1
          have hqs : q = s := by
            by_contra hne
            exact hsep.no_shared_cell hq hs hne
              (mem_cells_iff.2 ⟨(j : Int), by omega, hcond.1, hif.symm⟩)
              (mem_cells_iff.2 ⟨(k : Int), by omega, by omega, rfl⟩)
          subst hqs
          have hjk : (j : Int) = (k : Int) := cellAt_inj hif
          have hrel := Forall₂_of_mem_zip hsame hzq
          simp only at hrel
          have hkey : key1 = key := by rw [hrel.1, hk]
          subst hkey
          have g1 := Get_of_mem_nodup hnd he1
          have g2 := Get_of_mem_nodup hnd he
          rw [g1] at g2
          cases g2
          have : j = k := by omega
          subst this
          exact hcond.2
        · rw [if_neg hcond] at hif
          cases hif

/-- After any calls that return, a loaded field of ships of the field still tracks its
layout, for some shot history. -/
theorem runOps_tracks {f0 f1 : ShipField} {conf : Configuration} {ships : List Ship}
    (hp : Packable conf) (hin : ∀ s ∈ ships, InField conf s)
    (hload : Load NewShipField conf ships = (f0, none)) {ops : List FieldOp}
    {rs : List ShootResult} (hrun : runOps f0 ops = some (f1, rs)) :
    ∃ hist, Tracks conf f1 hist ships := by
  obtain ⟨hc, _, _, hct⟩ := Load_inField_ok hp.1 hin hload
  have hct1 := CountsTrack.after_runOps ops f0 f1 rs hct hrun
  obtain ⟨hc1, _, _⟩ := runOps_frame ops f0 f1 rs hct.1 hrun
  exact exists_history (hc1.trans hc) hp hin (Load_separated hp hin hload) hct1.1 hct1.2.2.1
    (runOps_same_ships hp.1 hin hload hrun)

set_option maxRecDepth 100000 in
set_option maxHeartbeats 4000000 in
theorem markBit_of_testBit_fin : ∀ (c : shipData) (k : Fin 4),
    c.val.testBit k.val = true → markBit c k.val = c := by
  decide

theorem markBit_of_dead {c : shipData} (h : IsDead c = true) {k : Nat} (hk : k < 4) :
    markBit c k = c :=
  markBit_of_testBit_fin c ⟨k, hk⟩ ((IsDead_iff c).1 h k hk)

theorem Put_self {m : List (Int × shipData)} {p : Int} {d : shipData}
    (h : Get m p = some d) : Put m p d = m := by
  induction m with
  | nil => simp [Get] at h
  | cons e m ih =>
    obtain ⟨k, w⟩ := e
    unfold Get at h
    unfold Put
    by_cases hk : k = p
    · rw [if_pos hk] at h
      cases h
      rw [if_pos hk]
    · rw [if_neg hk] at h
      rw [if_neg hk, ih h]

/-- The live counter of a stored ship that is not dead is a positive `int64`. -/
theorem CountsTrack.live_pos {f : ShipField} (h : CountsTrack f) {pos : Int}
    {ship : shipData} (hg : Get f.ships pos = some ship) (hd : IsDead ship = false) :
    1 ≤ f.currConfig.Sizes.get (Size ship - 1)
      ∧ f.currConfig.Sizes.get (Size ship - 1) < 9223372036854775808 := by
  obtain ⟨_, hgo, hpad, hst, hlive⟩ := h
  have hsp := Size_pos ship
  have hsl := Size_le ship
  rw [hlive _ hsp hsl]
  have hmem := Get_some_mem hg
  have hu : hasUnshotCell ship = true := by
    rw [hasUnshotCell_of_Padded (hpad _ hmem), hd]
    rfl
  have h1 : 1 ≤ liveShips f (Size ship) := by
    unfold liveShips
    have : (pos, ship) ∈ f.ships.filter
        (fun e => decide (Size e.2 = Size ship) && hasUnshotCell e.2) := by
      rw [List.mem_filter]
      exact ⟨hmem, by simp [hu]⟩
    have := List.length_pos_of_mem this
    omega
  have h3 := liveShips_le_stored f (Size ship)
  have h4 := hst _ hsp hsl
  obtain ⟨_, _, g0, g1, g2, g3⟩ := hgo
  have hb : f.conf.Sizes.get (Size ship - 1) < 9223372036854775808 := by
    unfold SizeCounts.get
    unfold IsInt64 at g0 g1 g2 g3
    split_ifs <;> omega
  omega

/-! ## Auxiliary facts for the claims -/

theorem loadShips_sizes {conf : Configuration} (ships : List Ship) :
    ∀ (f f1 : ShipField) (c c1 : SizeCounts),
      loadShips conf f c ships = (f1, c1, none) → ∀ s ∈ ships, 1 ≤ s.Size ∧ s.Size ≤ 4 := by
  induction ships with
  | nil =>
    intro f f1 c c1 _ s hs
    cases hs
  | cons ship rest ih =>
    intro f f1 c c1 h s hs
    obtain ⟨h1, h4, _, _, _, _, hrest⟩ := loadShips_cons_ok h
    rcases List.mem_cons.1 hs with rfl | hmem
    · exact ⟨h1, h4⟩
    · exact ih _ _ _ _ hrest s hmem

theorem countSize_nonneg (ships : List Ship) (s : Int) : 0 ≤ countSize ships s := by
  unfold countSize
  omega

set_option maxRecDepth 100000 in
theorem Shoot_far_left_diverges :
    Shoot (Load NewShipField ⟨3, 3, ⟨1, 0, 0, 0⟩⟩ [⟨0, 2, 1, false⟩]).1 (-129) 0 = none := by
  decide

theorem Load_split {conf : Configuration} {ships : List Ship}
    (h : (Load NewShipField conf ships).2 = none) :
    Load NewShipField conf ships = ((Load NewShipField conf ships).1, none) := by
  rw [← h]

theorem hitShip_not_Miss {f f1 : ShipField} {ship : shipData} {pos idx : Int}
    {r : ShootResult} (h : hitShip f ship pos idx = some (f1, r)) : r ≠ ShootResult.Miss := by
  cases hd : IsDead ship with
  | true =>
    obtain ⟨_, rfl⟩ := hitShip_dead hd h
    intro hc
    cases hc
  | false =>
    obtain ⟨_, _, _, hres⟩ := hitShip_alive hd h
    rcases hres with ⟨_, rfl, _⟩ | ⟨_, rfl, _⟩ <;> intro hc <;> cases hc

/-! ## Counting the results of a complete shooting -/

set_option maxRecDepth 100000 in
set_option maxHeartbeats 4000000 in
theorem clearBits_markBit_fin : ∀ (c : shipData) (k : Fin 4),
    c.val.testBit k.val = false → clearBits (markBit c k.val) = clearBits c - 1 := by
  decide

set_option maxRecDepth 100000 in
set_option maxHeartbeats 4000000 in
theorem clearBits_dead_fin : ∀ (c : shipData), IsDead c = true → clearBits c = 0 := by
  decide

set_option maxRecDepth 100000 in
set_option maxHeartbeats 4000000 in
theorem clearBits_newShipData_fin : ∀ (v : Bool) (s : Fin 4),
    clearBits (newShipData v ((s.val : Int) + 1)) = (s.val : Int) + 1
      ∧ IsDead (newShipData v ((s.val : Int) + 1)) = false := by
  decide

theorem clearBits_newShipData (v : Bool) {s : Int} (h1 : 1 ≤ s) (h4 : s ≤ 4) :
    clearBits (newShipData v s) = s ∧ IsDead (newShipData v s) = false := by
  have h := clearBits_newShipData_fin v ⟨(s - 1).toNat, by omega⟩
  have e : (((s - 1).toNat : Nat) : Int) + 1 = s := by omega
  simp only [e] at h
  exact h

theorem Put_sum {m : List (Int × shipData)} {p : Int} {d : shipData} (g : shipData → Int)
    (v : shipData) (h : Get m p = some d) :
    ((Put m p v).map (fun e => g e.2)).sum = (m.map (fun e => g e.2)).sum - g d + g v := by
  induction m with
  | nil => simp [Get] at h
  | cons e m ih =>
    obtain ⟨k, w⟩ := e
    unfold Get at h
    unfold Put
    by_cases hk : k = p
    · rw [if_pos hk] at h
      cases h
      rw [if_pos hk]
      simp only [List.map_cons, List.sum_cons]
      omega
    · rw [if_neg hk] at h
      rw [if_neg hk]
      simp only [List.map_cons, List.sum_cons, ih h]
      omega

theorem countResult_cons (r a : ShootResult) (rs : List ShootResult) :
    countResult r (a :: rs) = (if a = r then 1 else 0) + countResult r rs := by
  unfold countResult
  by_cases h : a = r
  · simp [List.filter_cons, h]
    omega
  · simp [List.filter_cons, h]

/-- One shot at a cell of the field that was not shot before: a miss changes nothing, a hit
strikes one new cell, a kill strikes one new cell and takes one ship out. -/
theorem Tracks.Shoot_counts {conf : Configuration} {f f1 : ShipField}
    {hist : List (Int × Int)} {ships : List Ship} (h : Tracks conf f hist ships) {x y : Int}
    (hxy : CellInField conf (x, y)) (hnew : (x, y) ∉ hist) {r : ShootResult}
    (hshoot : Shoot f x y = some (f1, r)) :
    unshotCells f1 = unshotCells f - (if r = ShootResult.Miss then 0 else 1)
      ∧ aliveShips f1 = aliveShips f - (if r = ShootResult.Kill then 1 else 0) := by
  by_cases hocc : ∃ s ∈ ships, (x, y) ∈ s.cells
  · obtain ⟨s, hs, hmem⟩ := hocc
    obtain ⟨k, h0, hk, hcell⟩ := mem_cells_iff.1 hmem
    obtain ⟨d, hd, hent, heq⟩ := h.Shoot_hit hs h0 hk hcell.symm
    rw [heq] at hshoot
    have h4 : s.Size ≤ 4 := (h.inField s hs).2.1
    have hk4 : k.toNat < 4 := by omega
    have hbit : d.val.testBit k.toNat = false := by
      cases hb : d.val.testBit k.toNat with
      | false => rfl
      | true =>
        exfalso
        have := (hent.2.2.2 k.toNat hk4).1 hb
        have hcast : ((k.toNat : Nat) : Int) = k := by omega
        rw [hcast] at this
        rcases this with hle | hm
        · omega
        · rw [← hcell] at hm
          exact hnew hm
    have hdead : IsDead d = false := by
      cases hdd : IsDead d with
      | false => rfl
      | true =>
        have := (IsDead_iff d).1 hdd k.toNat hk4
        rw [this] at hbit
        cases hbit
    obtain ⟨_, _, hships, hres⟩ := hitShip_alive hdead hshoot
    have hcb := clearBits_markBit_fin d ⟨k.toNat, hk4⟩ hbit
    simp only at hcb
    have hun : unshotCells f1 = unshotCells f - 1 := by
      unfold unshotCells
      rw [hships, Put_sum clearBits _ hd, hcb]
      omega
    have hal : aliveShips f1 = aliveShips f - 1
        + (if (!(IsDead (markBit d k.toNat))) = true then 1 else 0) := by
      unfold aliveShips
      rw [hships, Put_filter_length (fun c => !(IsDead c)) _ hd, hdead]
      simp
    rcases hres with ⟨hd1, rfl, _⟩ | ⟨hd1, rfl, _⟩
    · rw [hd1] at hal
      simp only [Bool.not_true, Bool.false_eq_true, if_false, add_zero] at hal
      exact ⟨by rw [hun]; simp, by rw [hal]; simp⟩
    · rw [hd1] at hal
      simp only [Bool.not_false, if_true] at hal
      exact ⟨by rw [hun]; simp, by rw [hal]; simp⟩
  · have hfree : ∀ s ∈ ships, (x, y) ∉ s.cells := fun s hs hmem => hocc ⟨s, hs, hmem⟩
    rw [h.Shoot_miss hxy hfree] at hshoot
    simp only [Option.some.injEq, Prod.mk.injEq] at hshoot
    obtain ⟨rfl, rfl⟩ := hshoot
    simp

/-- A sequence of shots at pairwise different, not yet shot cells of the field: every hit or
kill strikes one new cell and every kill takes one ship out. -/
theorem Tracks.shootAll_counts {conf : Configuration} {ships : List Ship}
    (cells : List (Int × Int)) :
    ∀ (f : ShipField) (hist : List (Int × Int)), Tracks conf f hist ships →
      cells.Nodup → (∀ c ∈ cells, CellInField conf c ∧ c ∉ hist) →
      ∃ f1 rs, shootAll f cells = some (f1, rs)
        ∧ Tracks conf f1 (cells.reverse ++ hist) ships
        ∧ unshotCells f1 = unshotCells f
            - (countResult ShootResult.Hit rs + countResult ShootResult.Kill rs)
        ∧ aliveShips f1 = aliveShips f - countResult ShootResult.Kill rs := by
  induction cells with
  | nil =>
    intro f hist h _ _
    exact ⟨f, [], rfl, by simpa using h, by simp [countResult], by simp [countResult]⟩
  | cons c cells ih =>
    intro f hist h hnd hin
    obtain ⟨x, y⟩ := c
    obtain ⟨hc, hnew⟩ := hin _ (List.mem_cons_self _ _)
    obtain ⟨f2, r, hs⟩ := Shoot_isSome f hc.1 hc.2.2.1
    have h2 := h.Shoot_tracks hc hs
    obtain ⟨hu2, ha2⟩ := h.Shoot_counts hc hnew hs
    rw [List.nodup_cons] at hnd
    obtain ⟨f3, rs, hrest, h3, hu3, ha3⟩ := ih f2 ((x, y) :: hist) h2 hnd.2
      (by
        intro q hq
        refine ⟨(hin q (List.mem_cons_of_mem _ hq)).1, ?_⟩
        intro hmem
        rcases List.mem_cons.1 hmem with heq | hm
        · rw [heq] at hq
          exact hnd.1 hq
        · exact (hin q (List.mem_cons_of_mem _ hq)).2 hm)
    refine ⟨f3, r :: rs, ?_, by simpa using h3, ?_, ?_⟩
    · unfold shootAll at hrest ⊢
      simp only [List.map_cons, runOps, hs, hrest]
    · rw [hu3, hu2, countResult_cons, countResult_cons]
      cases r <;> simp <;> omega
    · rw [ha3, ha2, countResult_cons]
      cases r <;> simp
      all_goals omega

theorem unshotCells_fresh (f g : ShipField) (ships : List Ship)
    (hsz : ∀ q ∈ ships, 1 ≤ q.Size ∧ q.Size ≤ 4) (hf : f.ships = ships.map (freshEntry g)) :
    unshotCells f = countSize ships 1 + 2 * countSize ships 2 + 3 * countSize ships 3
      + 4 * countSize ships 4
      ∧ aliveShips f = countSize ships 1 + countSize ships 2 + countSize ships 3
        + countSize ships 4 := by
  unfold unshotCells aliveShips
  rw [hf]
  clear hf
  induction ships with
  | nil => simp [countSize]
  | cons s rest ih =>
    obtain ⟨h1, h4⟩ := hsz s (List.mem_cons_self _ _)
    obtain ⟨ih1, ih2⟩ := ih (fun q hq => hsz q (List.mem_cons_of_mem _ hq))
    obtain ⟨hcb, hdd⟩ := clearBits_newShipData s.IsVert h1 h4
    simp only [List.map_cons, List.sum_cons, List.filter_cons, freshEntry, hcb, hdd,
      Bool.not_false, if_true, List.length_cons, Nat.cast_add, Nat.cast_one, countSize_cons]
    rw [ih1, ih2]
    have : s.Size = 1 ∨ s.Size = 2 ∨ s.Size = 3 ∨ s.Size = 4 := by omega
    rcases this with h | h | h | h <;> simp [h] <;> omega

/-- Once every cell of every ship has been shot, no hit bit is clear and no ship alive. -/
theorem Tracks.all_shot {conf : Configuration} {f : ShipField} {hist : List (Int × Int)}
    {ships : List Ship} (h : Tracks conf f hist ships)
    (hall : ∀ c, CellInField conf c → c ∈ hist) : unshotCells f = 0 ∧ aliveShips f = 0 := by
  have hdead : ∀ e ∈ f.ships, IsDead e.2 = true := by
    intro e he
    obtain ⟨s, hs, hent⟩ := Forall₂_exists_right h.stored he
    obtain ⟨k, d⟩ := e
    rw [hent.dead_iff (h.inField s hs).2.1]
    intro j hj0 hj
    exact hall _ (cell_inField (h.inField s hs) hj0 hj)
  constructor
  · unfold unshotCells
    apply List.sum_eq_zero
    intro v hv
    obtain ⟨e, he, rfl⟩ := List.mem_map.1 hv
    exact clearBits_dead_fin e.2 (hdead e he)
  · unfold aliveShips
    rw [Nat.cast_eq_zero, List.length_eq_zero, List.filter_eq_nil_iff]
    intro e he
    rw [hdead e he]
    simp

/-! ## The cells of the field -/

theorem mem_allCells {conf : Configuration} {c : Int × Int} :
    c ∈ allCells conf ↔ CellInField conf c := by
  obtain ⟨x, y⟩ := c
  unfold allCells CellInField
  simp only [List.mem_flatMap, List.mem_map, mem_intRange, Prod.mk.injEq]
  constructor
  · rintro ⟨a, ha, b, hb, rfl, rfl⟩
    omega
  · intro h
    exact ⟨x, by omega, y, by omega, rfl, rfl⟩

theorem intRange_nodup (lo hi : Int) : (intRange lo hi).Nodup := by
  unfold intRange
  apply List.Nodup.map _ (List.nodup_range _)
  intro a b hab
  simp only at hab
  omega

theorem allCells_nodup (conf : Configuration) : (allCells conf).Nodup := by
  unfold allCells
  rw [List.nodup_flatMap]
  constructor
  · intro x _
    apply List.Nodup.map _ (intRange_nodup _ _)
    intro a b hab
    simp only [Prod.mk.injEq] at hab
    exact hab.2
  · apply List.Nodup.pairwise_of_forall_ne (intRange_nodup _ _)
    intro a _ b _ hab
    simp only [Function.onFun, List.disjoint_left, List.mem_map]
    rintro c ⟨y1, _, rfl⟩ ⟨y2, _, h2⟩
    simp only [Prod.mk.injEq] at h2
    exact hab h2.1.symm

/-! ## A field whose packed positions collide -/

theorem colliding_Load :
    Load NewShipField collidingConf [⟨0, 0, 1, false⟩] = (collidingLoaded, none) := by
  decide

theorem colliding_first_cell :
    Shoot collidingLoaded 0 0 = some (collidingKilled, ShootResult.Kill)
      ∧ Shoot collidingKilled 0 0 = some (collidingKilled, ShootResult.Kill) := by
  decide

theorem colliding_far_cell :
    Shoot collidingLoaded 4294967296 0 = some (collidingKilled, ShootResult.Kill)
      ∧ Shoot collidingKilled 4294967296 0 = some (collidingKilled, ShootResult.Kill) := by
  decide

theorem colliding_hitShip :
    hitShip collidingLoaded 142 0 0 = some (collidingKilled, ShootResult.Kill)
      ∧ IsDead 142 = false ∧ IsDead 143 = true ∧ Size 142 = 1 := by
  decide

theorem colliding_closed {f f1 : ShipField} {x y : Int} {r : ShootResult}
    (hf : f = collidingLoaded ∨ f = collidingKilled) (h : Shoot f x y = some (f1, r)) :
    f1 = collidingLoaded ∨ f1 = collidingKilled := by
  rcases Shoot_cases h with ⟨rfl, _⟩ | ⟨pos, ship, idx, hg, hidx, hh⟩
  · exact hf
  · rcases hf with rfl | rfl
    · have hpos : pos = 0 ∧ ship = 142 := by
        simp only [collidingLoaded, Get] at hg
        by_cases hp : (0 : Int) = pos
        · rw [if_pos hp] at hg
          simp only [Option.some.injEq] at hg
          exact ⟨hp.symm, hg.symm⟩
        · rw [if_neg hp] at hg
          cases hg
      obtain ⟨rfl, rfl⟩ := hpos
      have h0 := (hitShip_alive colliding_hitShip.2.1 hh).1
      rw [colliding_hitShip.2.2.2] at hidx
      have : idx = 0 := by omega
      subst this
      rw [colliding_hitShip.1] at hh
      simp only [Option.some.injEq, Prod.mk.injEq] at hh
      exact Or.inr hh.1.symm
    · have hpos : pos = 0 ∧ ship = 143 := by
        simp only [collidingKilled, Get] at hg
        by_cases hp : (0 : Int) = pos
        · rw [if_pos hp] at hg
          simp only [Option.some.injEq] at hg
          exact ⟨hp.symm, hg.symm⟩
        · rw [if_neg hp] at hg
          cases hg
      obtain ⟨rfl, rfl⟩ := hpos
      exact Or.inr (hitShip_dead colliding_hitShip.2.2.1 hh).1

/-- On the colliding field every shot at `(0, 0)` and every shot at `(2^32, 0)` is a kill. -/
theorem colliding_kills (cells : List (Int × Int)) :
    ∀ (f f1 : ShipField) (rs : List ShootResult),
      f = collidingLoaded ∨ f = collidingKilled → shootAll f cells = some (f1, rs) →
      ((cells.count (0, 0) : Nat) : Int) + ((cells.count (4294967296, 0) : Nat) : Int)
        ≤ countResult ShootResult.Kill rs := by
  induction cells with
  | nil =>
    intro f f1 rs _ h
    simp only [shootAll, List.map_nil, runOps, Option.some.injEq, Prod.mk.injEq] at h
    obtain ⟨_, rfl⟩ := h
    simp [countResult]
  | cons c cells ih =>
    intro f f1 rs hf h
    obtain ⟨x, y⟩ := c
    unfold shootAll at h
    simp only [List.map_cons, runOps] at h
    cases hs : Shoot f x y with
    | none =>
      rw [hs] at h
      cases h
    | some p =>
      obtain ⟨f2, r⟩ := p
      rw [hs] at h
      simp only at h
      cases hrest : runOps f2 (cells.map (fun p => FieldOp.shoot p.1 p.2)) with
      | none =>
        rw [hrest] at h
        cases h
      | some q =>
        obtain ⟨f3, rs3⟩ := q
        rw [hrest] at h
        simp only [Option.some.injEq, Prod.mk.injEq] at h
        obtain ⟨rfl, rfl⟩ := h
        have hih := ih f2 f3 rs3 (colliding_closed hf hs) hrest
        rw [countResult_cons, List.count_cons, List.count_cons]
        by_cases h1 : (x, y) = ((0, 0) : Int × Int)
        · simp only [Prod.mk.injEq] at h1
          obtain ⟨rfl, rfl⟩ := h1
          have hr : r = ShootResult.Kill := by
            rcases hf with rfl | rfl
            · rw [colliding_first_cell.1] at hs
              simp only [Option.some.injEq, Prod.mk.injEq] at hs
              exact hs.2.symm
            · rw [colliding_first_cell.2] at hs
              simp only [Option.some.injEq, Prod.mk.injEq] at hs
              exact hs.2.symm
          subst hr
          have hb : (((0, 0) : Int × Int) == (4294967296, 0)) = false := by decide
          simp only [beq_self_eq_true, hb, if_true, Bool.false_eq_true, if_false,
            Nat.cast_add, Nat.cast_one, add_zero]
          omega
        · by_cases h2 : (x, y) = ((4294967296, 0) : Int × Int)
          · simp only [Prod.mk.injEq] at h2
            obtain ⟨rfl, rfl⟩ := h2
            have hr : r = ShootResult.Kill := by
              rcases hf with rfl | rfl
              · rw [colliding_far_cell.1] at hs
                simp only [Option.some.injEq, Prod.mk.injEq] at hs
                exact hs.2.symm
              · rw [colliding_far_cell.2] at hs
                simp only [Option.some.injEq, Prod.mk.injEq] at hs
                exact hs.2.symm
            subst hr
            have hb : (((4294967296, 0) : Int × Int) == (0, 0)) = false := by decide
            simp only [beq_self_eq_true, hb, if_true, Bool.false_eq_true, if_false,
              Nat.cast_add, Nat.cast_one, add_zero]
            omega
          · have e1 : ((0, 0) : Int × Int) ≠ (x, y) := fun h => h1 h.symm
            have e2 : ((4294967296, 0) : Int × Int) ≠ (x, y) := fun h => h2 h.symm
            simp only [beq_iff_eq, h1, h2, if_false, add_zero]
            have : 0 ≤ (if r = ShootResult.Kill then (1 : Int) else 0) := by
              split_ifs <;> omega
            omega

/-! ## Claims about separation and shots -/

/-- C1 (counterexample): on the field `W = 2^32 + 1`, `H = 2^32` the one-cell ships at
`(0, 0)` and `(2^32, 0)` lie in the field and are far apart, yet `Load` rejects the second
one as overlapping: its packed position `2^32 * 2^32` wraps to `0`, the key of the first. -/
theorem Load_overlap_on_wrapped_position :
    (0 : Int) < 4294967297 ∧ (0 : Int) < 4294967296
      ∧ (∀ s ∈ [(⟨0, 0, 1, false⟩ : Ship), ⟨4294967296, 0, 1, false⟩],
          InField ⟨4294967297, 4294967296, ⟨2, 0, 0, 0⟩⟩ s)
      ∧ ¬ Touches ⟨0, 0, 1, false⟩ ⟨4294967296, 0, 1, false⟩
      ∧ (Load NewShipField ⟨4294967297, 4294967296, ⟨2, 0, 0, 0⟩⟩
          [⟨0, 0, 1, false⟩, ⟨4294967296, 0, 1, false⟩]).2
          = some LoadError.shipsOverlap := by
  decide

/-- C1 (amended): for a configuration with `W > 0`, `H > 0` and `W*H ≤ 2^64` (packed
positions do not collide) and a list of ships that each have size `1..4` and lie within the
field, `Load` on a fresh field fails with the overlap error iff some ship of the list has a
cell of an earlier ship inside its inflated rectangle; it then fails at the first such ship,
with exactly the ships before it placed. -/
theorem Load_separation_exact (conf : Configuration) (ships : List Ship)
    (hp : Packable conf) (hin : ∀ s ∈ ships, InField conf s) :
    ((Load NewShipField conf ships).2 = some LoadError.shipsOverlap ↔ ¬ Separated ships)
      ∧ ∀ (pre : List Ship) (s : Ship) (post : List Ship), ships = pre ++ s :: post →
          Separated pre → (∃ p ∈ pre, Touches p s) →
          (Load NewShipField conf ships).2 = some LoadError.shipsOverlap
            ∧ (Load NewShipField conf ships).1.ships
                = pre.map (freshEntry (Load NewShipField conf ships).1) := by
  obtain ⟨hgo, hW, hH, hWH⟩ := hp
  have hp : Packable conf := ⟨hgo, hW, hH, hWH⟩
  have hfirst : ∀ (pre : List Ship) (s : Ship) (post : List Ship), ships = pre ++ s :: post →
      Separated pre → (∃ p ∈ pre, Touches p s) →
      (Load NewShipField conf ships).2 = some LoadError.shipsOverlap
        ∧ (Load NewShipField conf ships).1.ships
            = pre.map (freshEntry (Load NewShipField conf ships).1) := by
    intro pre s post heq hpre htouch
    have hin1 : ∀ q ∈ ([] : List Ship) ++ pre, InField conf q := by
      intro q hq
      apply hin q
      rw [heq]
      simp only [List.nil_append] at hq
      exact List.mem_append_left _ hq
    have hs : InField conf s := by
      apply hin s
      rw [heq]
      simp
    obtain ⟨f1, c1, h1, h2, h3, _⟩ := loadShips_first_touch hp pre
      { NewShipField with currConfig := conf, conf := conf } ⟨0, 0, 0, 0⟩ [] s post rfl rfl
      hin1 hs (by simpa using hpre) (by simpa using htouch)
    rw [Load_eq NewShipField conf ships (by omega) (by omega), heq, h1]
    refine ⟨rfl, ?_⟩
    simp only
    rw [h2]
    simp only [List.nil_append]
    apply List.map_congr_left
    intro q _
    exact (freshEntry_congr h3 q).symm
  refine ⟨⟨?_, ?_⟩, hfirst⟩
  · intro herr hsep
    obtain ⟨f1, c1, h1, _⟩ := loadShips_separated hp ships
      { NewShipField with currConfig := conf, conf := conf } ⟨0, 0, 0, 0⟩ [] rfl rfl
      (by simpa using hin) (by simpa using hsep)
    rw [Load_eq NewShipField conf ships (by omega) (by omega), h1] at herr
    simp only at herr
    split_ifs at herr
    cases herr
  · intro hsep
    obtain ⟨pre, s, post, heq, hpre, htouch⟩ := exists_first_touch ships hsep
    exact (hfirst pre s post heq hpre htouch).1

/-- C1 witness: the layout of test `Load_ShipsTouchingCorners`. -/
theorem Load_separation_exact_witness :
    Packable ⟨3, 3, ⟨2, 0, 0, 0⟩⟩
      ∧ (∀ s ∈ [(⟨0, 0, 1, false⟩ : Ship), ⟨1, 1, 1, false⟩],
          InField ⟨3, 3, ⟨2, 0, 0, 0⟩⟩ s)
      ∧ ((Load NewShipField ⟨3, 3, ⟨2, 0, 0, 0⟩⟩
            [⟨0, 0, 1, false⟩, ⟨1, 1, 1, false⟩]).2 = some LoadError.shipsOverlap ↔
          ¬ Separated [⟨0, 0, 1, false⟩, ⟨1, 1, 1, false⟩]) :=
  ⟨by decide, by decide,
    (Load_separation_exact ⟨3, 3, ⟨2, 0, 0, 0⟩⟩ [⟨0, 0, 1, false⟩, ⟨1, 1, 1, false⟩]
      (by decide) (by decide)).1⟩

/-- C2 (counterexample): on the field `W = 2^32 + 1`, `H = 2^32` loaded with the single
one-cell ship at `(0, 0)`, the cell `(2^32, 0)` lies in the field and no ship occupies it,
yet `Shoot(2^32, 0)` returns `Kill`: the packed position of the cell wraps to that of the
ship. -/
theorem Shoot_hits_on_wrapped_position :
    (∀ s ∈ [(⟨0, 0, 1, false⟩ : Ship)], InField ⟨4294967297, 4294967296, ⟨1, 0, 0, 0⟩⟩ s)
      ∧ (Load NewShipField ⟨4294967297, 4294967296, ⟨1, 0, 0, 0⟩⟩ [⟨0, 0, 1, false⟩]).2
          = none
      ∧ CellInField ⟨4294967297, 4294967296, ⟨1, 0, 0, 0⟩⟩ (4294967296, 0)
      ∧ (∀ s ∈ [(⟨0, 0, 1, false⟩ : Ship)], ((4294967296, 0) : Int × Int) ∉ s.cells)
      ∧ (Shoot (Load NewShipField ⟨4294967297, 4294967296, ⟨1, 0, 0, 0⟩⟩
            [⟨0, 0, 1, false⟩]).1 4294967296 0).map Prod.snd = some ShootResult.Kill := by
  decide

/-- C2 (amended): for a configuration with `W*H ≤ 2^64` and a field loaded successfully
from ships lying within the field, after any earlier calls that return (all calls with
non-negative coordinates do), a shot at a cell `(x, y)` of the field returns; it returns
`Miss`, leaving the field unchanged, iff no ship occupies `(x, y)`; otherwise exactly one
ship occupies the cell, and the shot sets hit bit `k` of the descriptor stored at the origin
of that ship, `k` being the index of `(x, y)` along the ship. -/
theorem Shoot_finds_occupying_ship (conf : Configuration) (ships : List Ship)
    (hp : Packable conf) (hin : ∀ s ∈ ships, InField conf s)
    (hload : (Load NewShipField conf ships).2 = none) :
    (∀ ops : List FieldOp, (∀ x y, FieldOp.shoot x y ∈ ops → 0 ≤ x ∧ 0 ≤ y) →
        ∃ f rs, runOps (Load NewShipField conf ships).1 ops = some (f, rs))
      ∧ ∀ (ops : List FieldOp) (f : ShipField) (rs : List ShootResult),
          runOps (Load NewShipField conf ships).1 ops = some (f, rs) →
          ∀ x y : Int, CellInField conf (x, y) →
            ∃ f1 r, Shoot f x y = some (f1, r)
              ∧ (r = ShootResult.Miss ↔ ∀ s ∈ ships, (x, y) ∉ s.cells)
              ∧ ((∀ s ∈ ships, (x, y) ∉ s.cells) → f1 = f)
              ∧ ∀ s ∈ ships, ∀ k : Int, 0 ≤ k → k < s.Size → s.cellAt k = (x, y) →
                  (∀ q ∈ ships, (x, y) ∈ q.cells → q = s)
                    ∧ ∃ d, Get f.ships (makePos f s.X s.Y) = some d
                        ∧ IsVert d = s.IsVert ∧ Size d = s.Size
                        ∧ f1.ships = Put f.ships (makePos f s.X s.Y) (markBit d k.toNat) := by
  refine ⟨fun ops hops => runOps_isSome ops _ hops, ?_⟩
  intro ops f rs hrun x y hxy
  obtain ⟨hist, ht⟩ := runOps_tracks hp hin (Load_split hload) hrun
  obtain ⟨f1, r, hshoot⟩ := Shoot_isSome f hxy.1 hxy.2.2.1
  refine ⟨f1, r, hshoot, ?_, ?_, ?_⟩
  · constructor
    · intro hr s hs hmem
      obtain ⟨k, h0, hk, hcell⟩ := mem_cells_iff.1 hmem
      obtain ⟨d, _, _, heq⟩ := ht.Shoot_hit hs h0 hk hcell.symm
      rw [heq] at hshoot
      exact hitShip_not_Miss hshoot hr
    · intro hfree
      rw [ht.Shoot_miss hxy hfree] at hshoot
      simp only [Option.some.injEq, Prod.mk.injEq] at hshoot
      exact hshoot.2.symm
  · intro hfree
    rw [ht.Shoot_miss hxy hfree] at hshoot
    simp only [Option.some.injEq, Prod.mk.injEq] at hshoot
    exact hshoot.1.symm
  · intro s hs k h0 hk hcell
    have hmem : (x, y) ∈ s.cells := mem_cells_iff.2 ⟨k, h0, hk, hcell.symm⟩
    refine ⟨?_, ?_⟩
    · intro q hq hqmem
      by_contra hne
      exact ht.separated.no_shared_cell hq hs hne hqmem hmem
    · obtain ⟨d, hd, hent, heq⟩ := ht.Shoot_hit hs h0 hk hcell
      rw [heq] at hshoot
      refine ⟨d, hd, hent.2.1, hent.2.2.1, ?_⟩
      have hk4 : k.toNat < 4 := by
        have := (hin s hs).2.1
        omega
      cases hdead : IsDead d with
      | true =>
        obtain ⟨rfl, _⟩ := hitShip_dead hdead hshoot
        rw [markBit_of_dead hdead hk4, Put_self hd]
      | false =>
        exact (hitShip_alive hdead hshoot).2.2.1

/-- C2 witness: the field of test `Shoot_DestroyMulticellShip`. -/
theorem Shoot_finds_occupying_ship_witness :
    Packable ⟨3, 3, ⟨0, 1, 0, 0⟩⟩
      ∧ (∀ s ∈ [(⟨0, 0, 2, true⟩ : Ship)], InField ⟨3, 3, ⟨0, 1, 0, 0⟩⟩ s)
      ∧ (Load NewShipField ⟨3, 3, ⟨0, 1, 0, 0⟩⟩ [⟨0, 0, 2, true⟩]).2 = none
      ∧ ∀ ops : List FieldOp, (∀ x y, FieldOp.shoot x y ∈ ops → 0 ≤ x ∧ 0 ≤ y) →
          ∃ f rs, runOps (Load NewShipField ⟨3, 3, ⟨0, 1, 0, 0⟩⟩ [⟨0, 0, 2, true⟩]).1 ops
            = some (f, rs) :=
  ⟨by decide, by decide, by decide,
    (Shoot_finds_occupying_ship ⟨3, 3, ⟨0, 1, 0, 0⟩⟩ [⟨0, 0, 2, true⟩] (by decide) (by decide)
      (by decide)).1⟩

/-! ## Claims about hits, kills and live counters -/

/-- C3 (counterexample): on the field `W = 2^32 + 1`, `H = 2^32` loaded with the two-cell
horizontal ship at `(0, 0)`, after the single earlier shot at the cell `(2^32, 0)` of the
field, the shot at the ship's cell `(1, 0)` returns `Kill` although the ship's cell `(0, 0)`
has never been shot: the earlier shot wrapped onto the ship's origin. -/
theorem Shoot_Kill_with_unshot_cell :
    (∀ s ∈ [(⟨0, 0, 2, false⟩ : Ship)], InField ⟨4294967297, 4294967296, ⟨0, 1, 0, 0⟩⟩ s)
      ∧ (Load NewShipField ⟨4294967297, 4294967296, ⟨0, 1, 0, 0⟩⟩ [⟨0, 0, 2, false⟩]).2
          = none
      ∧ CellInField ⟨4294967297, 4294967296, ⟨0, 1, 0, 0⟩⟩ (4294967296, 0)
      ∧ ((1, 0) : Int × Int) ∈ (⟨0, 0, 2, false⟩ : Ship).cells
      ∧ ((0, 0) : Int × Int) ∈ (⟨0, 0, 2, false⟩ : Ship).cells
      ∧ ((0, 0) : Int × Int) ∉ [((1, 0) : Int × Int), (4294967296, 0)]
      ∧ ((shootAll (Load NewShipField ⟨4294967297, 4294967296, ⟨0, 1, 0, 0⟩⟩
            [⟨0, 0, 2, false⟩]).1 [(4294967296, 0), (1, 0)]).map Prod.snd)
          = some [ShootResult.Hit, ShootResult.Kill] := by
  decide

/-- C3 (amended): for a configuration with `W*H ≤ 2^64`, a field loaded successfully from
ships lying within the field, and any history of shots at cells of the field, a shot at a
cell `(x, y)` occupied by ship `s` returns `Kill` iff after this shot every cell of `s` has
been shot, and `Hit` iff `s` still has an unshot cell; the live count of the size of `s` is
decremented by exactly one if this shot strikes the last unshot cell of `s` (the cell was not
shot before and every cell of `s` has been shot afterwards), and no live count changes
otherwise. -/
theorem Shoot_Hit_versus_Kill (conf : Configuration) (ships : List Ship)
    (hp : Packable conf) (hin : ∀ s ∈ ships, InField conf s)
    (hload : (Load NewShipField conf ships).2 = none)
    (hist : List (Int × Int)) (hhist : ∀ c ∈ hist, CellInField conf c)
    (s : Ship) (hs : s ∈ ships) (x y : Int) (hocc : (x, y) ∈ s.cells) :
    ∃ f rs f1 r, shootAll (Load NewShipField conf ships).1 hist = some (f, rs)
      ∧ Shoot f x y = some (f1, r)
      ∧ (r = ShootResult.Kill ↔ ∀ c ∈ s.cells, c = (x, y) ∨ c ∈ hist)
      ∧ (r = ShootResult.Hit ↔ ∃ c ∈ s.cells, c ≠ (x, y) ∧ c ∉ hist)
      ∧ (((x, y) ∉ hist ∧ ∀ c ∈ s.cells, c = (x, y) ∨ c ∈ hist) →
          f1.currConfig.Sizes = f.currConfig.Sizes.set (s.Size - 1)
            (f.currConfig.Sizes.get (s.Size - 1) - 1))
      ∧ (¬ ((x, y) ∉ hist ∧ ∀ c ∈ s.cells, c = (x, y) ∨ c ∈ hist) →
          f1.currConfig.Sizes = f.currConfig.Sizes) := by
  obtain ⟨ht0, hct0⟩ := Load_tracks hp hin (Load_split hload)
  obtain ⟨f, rs, hrun, ht⟩ := Tracks.shootAll_tracks hist _ [] ht0 hhist
  have hct : CountsTrack f := CountsTrack.after_runOps _ _ f rs hct0 hrun
  obtain ⟨k, h0, hk, hcell⟩ := mem_cells_iff.1 hocc
  obtain ⟨d, hd, hent, heq⟩ := ht.Shoot_hit hs h0 hk hcell.symm
  obtain ⟨f1, r, hh⟩ := hitShip_isSome f d (makePos f s.X s.Y) h0
  have h4 : s.Size ≤ 4 := (hin s hs).2.1
  have hA : IsDead d = true ↔ ∀ c ∈ s.cells, c ∈ hist := by
    rw [hent.dead_iff h4]
    simp only [List.append_nil, List.mem_reverse]
    constructor
    · intro hall c hc
      obtain ⟨j, hj0, hj, rfl⟩ := mem_cells_iff.1 hc
      exact hall j hj0 hj
    · intro hall j hj0 hj
      exact hall _ (mem_cells_iff.2 ⟨j, hj0, hj, rfl⟩)
  have hB : IsDead (markBit d k.toNat) = true ↔ ∀ c ∈ s.cells, c = (x, y) ∨ c ∈ hist := by
    rw [(hent.hit h4 h0 hk).dead_iff h4]
    simp only [List.append_nil, List.mem_cons, List.mem_reverse, ← hcell]
    constructor
    · intro hall c hc
      obtain ⟨j, hj0, hj, rfl⟩ := mem_cells_iff.1 hc
      exact hall j hj0 hj
    · intro hall j hj0 hj
      exact hall _ (mem_cells_iff.2 ⟨j, hj0, hj, rfl⟩)
  refine ⟨f, rs, f1, r, hrun, by rw [heq]; exact hh, ?_⟩
  cases hdead : IsDead d with
  | true =>
    obtain ⟨rfl, rfl⟩ := hitShip_dead hdead hh
    have hall := hA.1 hdead
    refine ⟨?_, ?_, ?_, ?_⟩
    · exact ⟨fun _ c hc => Or.inr (hall c hc), fun _ => rfl⟩
    · constructor
      · intro hr
        cases hr
      · rintro ⟨c, hc, _, hnot⟩
        exact absurd (hall c hc) hnot
    · rintro ⟨hnot, _⟩
      exact absurd (hall _ hocc) hnot
    · intro _
      rfl
  | false =>
    have hnA : ¬ ∀ c ∈ s.cells, c ∈ hist := by
      intro hall
      rw [hA.2 hall] at hdead
      cases hdead
    obtain ⟨_, _, _, hres⟩ := hitShip_alive hdead hh
    have hk4 : k.toNat < 4 := by omega
    rcases hres with ⟨hd1, rfl, hcc⟩ | ⟨hd1, rfl, hcc⟩
    · have hall := hB.1 hd1
      refine ⟨?_, ?_, ?_, ?_⟩
      · exact ⟨fun _ => hall, fun _ => rfl⟩
      · constructor
        · intro hr
          cases hr
        · rintro ⟨c, hc, hne, hnot⟩
          rcases hall c hc with h1 | h1
          · exact absurd h1 hne
          · exact absurd h1 hnot
      · intro _
        rw [hcc, markBit_Size d hk4, hent.2.2.1]
        simp only
        have hlp := hct.live_pos hd hdead
        rw [hent.2.2.1] at hlp
        rw [wrap64_eq_self (by unfold IsInt64; omega)]
      · intro hcond
        exfalso
        apply hcond
        refine ⟨?_, hall⟩
        intro hmem
        apply hnA
        intro c hc
        rcases hall c hc with h1 | h1
        · rw [h1]
          exact hmem
        · exact h1
    · have hnB : ¬ ∀ c ∈ s.cells, c = (x, y) ∨ c ∈ hist := by
        intro hall
        rw [hB.2 hall] at hd1
        cases hd1
      refine ⟨?_, ?_, ?_, ?_⟩
      · constructor
        · intro hr
          cases hr
        · intro hall
          exact absurd hall hnB
      · constructor
        · intro _
          by_contra hno
          apply hnB
          intro c hc
          by_contra hc2
          simp only [not_or] at hc2
          exact hno ⟨c, hc, hc2.1, hc2.2⟩
        · intro _
          rfl
      · rintro ⟨_, hall⟩
        exact absurd hall hnB
      · intro _
        rw [hcc]

/-- C3 witness: the field of test `Shoot_DestroyMulticellShip`, after the shot `(0, 0)`,
shooting `(0, 1)`. -/
theorem Shoot_Hit_versus_Kill_witness :
    ∃ f rs f1 r,
      shootAll (Load NewShipField ⟨3, 3, ⟨0, 1, 0, 0⟩⟩ [⟨0, 0, 2, true⟩]).1 [(0, 0)]
          = some (f, rs)
      ∧ Shoot f 0 1 = some (f1, r)
      ∧ (r = ShootResult.Kill ↔
          ∀ c ∈ (⟨0, 0, 2, true⟩ : Ship).cells, c = (0, 1) ∨ c ∈ [((0, 0) : Int × Int)])
      ∧ (r = ShootResult.Hit ↔
          ∃ c ∈ (⟨0, 0, 2, true⟩ : Ship).cells, c ≠ (0, 1) ∧ c ∉ [((0, 0) : Int × Int)])
      ∧ ((((0, 1) : Int × Int) ∉ [((0, 0) : Int × Int)]
            ∧ ∀ c ∈ (⟨0, 0, 2, true⟩ : Ship).cells, c = (0, 1) ∨ c ∈ [((0, 0) : Int × Int)]) →
          f1.currConfig.Sizes = f.currConfig.Sizes.set ((⟨0, 0, 2, true⟩ : Ship).Size - 1)
            (f.currConfig.Sizes.get ((⟨0, 0, 2, true⟩ : Ship).Size - 1) - 1))
      ∧ (¬ (((0, 1) : Int × Int) ∉ [((0, 0) : Int × Int)]
            ∧ ∀ c ∈ (⟨0, 0, 2, true⟩ : Ship).cells, c = (0, 1) ∨ c ∈ [((0, 0) : Int × Int)]) →
          f1.currConfig.Sizes = f.currConfig.Sizes) :=
  Shoot_Hit_versus_Kill ⟨3, 3, ⟨0, 1, 0, 0⟩⟩ [⟨0, 0, 2, true⟩] (by decide) (by decide)
    (by decide) [(0, 0)] (by decide) ⟨0, 0, 2, true⟩ (by decide) 0 1 (by decide)

/-! ## Claim about a complete shooting -/

/-- C4 (counterexample): the configuration `W = 2^32 + 1`, `H = 2^32`, `Sizes = [1,0,0,0]`
with the single one-cell ship at `(0, 0)` is accepted by `Load`, its cells can be listed
without repetition, and every shooting of all cells, each exactly once, that returns yields
at least two `Kill` results, not `Sizes[0]+Sizes[1]+Sizes[2]+Sizes[3] = 1`: the cell
`(2^32, 0)` has the packed position of the ship's cell. -/
theorem complete_shooting_overcounts_kills :
    0 < collidingConf.W ∧ 0 < collidingConf.H
      ∧ (∀ s ∈ [(⟨0, 0, 1, false⟩ : Ship)], InField collidingConf s)
      ∧ (Load NewShipField collidingConf [⟨0, 0, 1, false⟩]).2 = none
      ∧ (∃ cells : List (Int × Int), cells.Nodup ∧ ∀ c, c ∈ cells ↔ CellInField collidingConf c)
      ∧ ∀ cells : List (Int × Int), cells.Nodup →
          (∀ c, c ∈ cells ↔ CellInField collidingConf c) →
          (∃ f rs, shootAll (Load NewShipField collidingConf [⟨0, 0, 1, false⟩]).1 cells
            = some (f, rs))
          ∧ ∀ f rs, shootAll (Load NewShipField collidingConf [⟨0, 0, 1, false⟩]).1 cells
              = some (f, rs) →
            countResult ShootResult.Kill rs ≠
              collidingConf.Sizes.c0 + collidingConf.Sizes.c1 + collidingConf.Sizes.c2
                + collidingConf.Sizes.c3 := by
  refine ⟨by decide, by decide, by decide, by decide,
    ⟨allCells collidingConf, allCells_nodup _, fun c => mem_allCells⟩, ?_⟩
  intro cells _ hall
  refine ⟨shootAll_isSome cells _ (fun p hp => ⟨((hall p).1 hp).1, ((hall p).1 hp).2.2.1⟩), ?_⟩
  intro f rs hrun
  rw [colliding_Load] at hrun
  have hk := colliding_kills cells collidingLoaded f rs (Or.inl rfl) hrun
  have h1 : 0 < cells.count ((0, 0) : Int × Int) :=
    List.count_pos_iff.2 ((hall _).2 (by decide))
  have h2 : 0 < cells.count ((4294967296, 0) : Int × Int) :=
    List.count_pos_iff.2 ((hall _).2 (by decide))
  have hs : collidingConf.Sizes.c0 + collidingConf.Sizes.c1 + collidingConf.Sizes.c2
      + collidingConf.Sizes.c3 = 1 := by decide
  rw [hs]
  omega

/-- C4 (amended): for a configuration with `W*H ≤ 2^64`, a layout of ships lying within the
field that `Load` accepts, and any list that contains every cell of the field exactly once,
shooting the cells in that order returns, the number of `Kill` results equals
`Sizes[0]+Sizes[1]+Sizes[2]+Sizes[3]` and the number of `Hit` results equals
`Sizes[1] + 2*Sizes[2] + 3*Sizes[3]`. -/
theorem Load_then_Shoot_consistency (conf : Configuration) (ships : List Ship)
    (hp : Packable conf) (hin : ∀ s ∈ ships, InField conf s)
    (hload : (Load NewShipField conf ships).2 = none)
    (cells : List (Int × Int)) (hnd : cells.Nodup)
    (hall : ∀ c, c ∈ cells ↔ CellInField conf c) :
    ∃ f rs, shootAll (Load NewShipField conf ships).1 cells = some (f, rs)
      ∧ countResult ShootResult.Kill rs
          = conf.Sizes.c0 + conf.Sizes.c1 + conf.Sizes.c2 + conf.Sizes.c3
      ∧ countResult ShootResult.Hit rs
          = conf.Sizes.c1 + 2 * conf.Sizes.c2 + 3 * conf.Sizes.c3 := by
  obtain ⟨ht0, _⟩ := Load_tracks hp hin (Load_split hload)
  obtain ⟨_, _, hfs, _⟩ := Load_inField_ok hp.1 hin (Load_split hload)
  obtain ⟨_, _, _, _, hcnt⟩ := Load_fresh_ok (Load_split hload)
  obtain ⟨f, rs, hrun, ht, hu, ha⟩ := Tracks.shootAll_counts cells _ [] ht0 hnd
    (fun c hc => ⟨(hall c).1 hc, by simp⟩)
  obtain ⟨hu0, ha0⟩ := ht.all_shot (fun c hc => by
    simp only [List.append_nil, List.mem_reverse]
    exact (hall c).2 hc)
  obtain ⟨hu1, ha1⟩ := unshotCells_fresh _ _ ships
    (fun q hq => ⟨(hin q hq).1, (hin q hq).2.1⟩) hfs
  refine ⟨f, rs, hrun, ?_, ?_⟩
  · rw [hcnt]
    simp only
    omega
  · rw [hcnt]
    simp only
    omega

/-- C4 witness: the 2x2 field with one one-cell ship at `(0, 0)`, shot column by column. -/
theorem Load_then_Shoot_consistency_witness :
    ∃ f rs, shootAll (Load NewShipField ⟨2, 2, ⟨1, 0, 0, 0⟩⟩ [⟨0, 0, 1, false⟩]).1
          [(0, 0), (0, 1), (1, 0), (1, 1)] = some (f, rs)
      ∧ countResult ShootResult.Kill rs = (1 : Int) + 0 + 0 + 0
      ∧ countResult ShootResult.Hit rs = (0 : Int) + 2 * 0 + 3 * 0 :=
  Load_then_Shoot_consistency ⟨2, 2, ⟨1, 0, 0, 0⟩⟩ [⟨0, 0, 1, false⟩] (by decide) (by decide)
    (by decide) [(0, 0), (0, 1), (1, 0), (1, 1)] (by decide)
    (by
      intro c
      obtain ⟨x, y⟩ := c
      unfold CellInField
      simp only [List.mem_cons, Prod.mk.injEq, List.mem_singleton, List.not_mem_nil, or_false]
      omega)

/-! ## Claims about validation and reset -/

/-- C5 (evaluation at the failing input): on a 3x3 field with `Sizes = [1,0,0,0]`, `Load`
returns no error for the single ship `{X: -1, Y: 0, Size: 1, horizontal}`, whose only cell
`(-1, 0)` lies outside `[0,3) x [0,3)`; the bounds test of `Load` has no check for negative
origins. -/
theorem Load_accepts_ship_outside_field :
    (Load NewShipField ⟨3, 3, ⟨1, 0, 0, 0⟩⟩ [⟨-1, 0, 1, false⟩]).2 = none
      ∧ ¬ InField ⟨3, 3, ⟨1, 0, 0, 0⟩⟩ ⟨-1, 0, 1, false⟩ := by
  decide

/-- C6 (evaluation at the failing input): on the 3x3 field loaded with the single one-cell
ship at `(0, 2)`, `Shoot(1, -1)` returns `Kill`, not `Miss`: `Shoot` only tests `x >= W` and
`y >= H`, and the packed position of `(1, -1)` equals that of `(0, 2)`. On the same field
`Shoot(-129, 0)` does not return at all (`int8(min(3, x))` is 127 and the scan loop never
exits). -/
theorem Shoot_outside_field_not_Miss :
    (Load NewShipField ⟨3, 3, ⟨1, 0, 0, 0⟩⟩ [⟨0, 2, 1, false⟩]).2 = none
      ∧ (Shoot (Load NewShipField ⟨3, 3, ⟨1, 0, 0, 0⟩⟩ [⟨0, 2, 1, false⟩]).1 1 (-1)).map
          Prod.snd = some ShootResult.Kill
      ∧ Shoot (Load NewShipField ⟨3, 3, ⟨1, 0, 0, 0⟩⟩ [⟨0, 2, 1, false⟩]).1 (-129) 0
          = none :=
  ⟨by decide, by decide, Shoot_far_left_diverges⟩

/-- C7: for a configuration with `W, H > 0` and a list of ships that all pass the size,
bounds and separation checks, `Load` on a fresh field returns the count-mismatch error iff
for some size `s` in `1..4` the number of ships of size `s` differs from `Sizes[s-1]`, and
returns no error iff all four counts agree. -/
theorem Load_count_validation (conf : Configuration) (ships : List Ship)
    (hW : 0 < conf.W) (hH : 0 < conf.H) (hpass : ShipChecksPass conf ships) :
    ((Load NewShipField conf ships).2 = some LoadError.countMismatch ↔
        ∃ s : Int, 1 ≤ s ∧ s ≤ 4 ∧ countSize ships s ≠ conf.Sizes.get (s - 1))
      ∧ ((Load NewShipField conf ships).2 = none ↔
        ∀ s : Int, 1 ≤ s → s ≤ 4 → countSize ships s = conf.Sizes.get (s - 1)) := by
  unfold ShipChecksPass at hpass
  rcases hl : loadShips conf { NewShipField with currConfig := conf, conf := conf }
    ⟨0, 0, 0, 0⟩ ships with ⟨f2, c2, e⟩
  rw [hl] at hpass
  simp only at hpass
  subst hpass
  obtain ⟨_, _, hcnt, _, _⟩ := loadShips_ok ships _ _ _ _ hl
  simp only [zero_add] at hcnt
  rw [Load_eq NewShipField conf ships (by omega) (by omega), hl]
  simp only
  have hagree : c2 = conf.Sizes ↔
      ∀ s : Int, 1 ≤ s → s ≤ 4 → countSize ships s = conf.Sizes.get (s - 1) := by
    rw [hcnt]
    rcases conf.Sizes with ⟨b0, b1, b2, b3⟩
    simp only [SizeCounts.mk.injEq, SizeCounts.get]
    constructor
    · rintro ⟨h0, h1, h2, h3⟩ s hs1 hs4
      have : s = 1 ∨ s = 2 ∨ s = 3 ∨ s = 4 := by omega
      rcases this with rfl | rfl | rfl | rfl <;> simp [*]
    · intro h
      have h1 := h 1 (by omega) (by omega)
      have h2 := h 2 (by omega) (by omega)
      have h3 := h 3 (by omega) (by omega)
      have h4 := h 4 (by omega) (by omega)
      simp at h1 h2 h3 h4
      exact ⟨h1, h2, h3, h4⟩
  by_cases hc : c2 = conf.Sizes
  · rw [if_pos hc]
    refine ⟨⟨fun h => by simp at h, ?_⟩, ⟨fun _ => hagree.1 hc, fun _ => rfl⟩⟩
    rintro ⟨s, hs1, hs4, hne⟩
    exact absurd (hagree.1 hc s hs1 hs4) hne
  · rw [if_neg hc]
    refine ⟨⟨fun _ => ?_, fun _ => rfl⟩, ⟨fun h => by simp at h, fun h => absurd (hagree.2 h) hc⟩⟩
    by_contra hno
    apply hc
    apply hagree.2
    intro s hs1 hs4
    by_contra hne
    exact hno ⟨s, hs1, hs4, hne⟩

/-- C7 witness: the layout of test `Load_MismatchedShipCounts` (one ship of size 1 on a 5x5
field that asks for two ships of size 1 and one of size 3). -/
theorem Load_count_validation_witness :
    ((Load NewShipField ⟨5, 5, ⟨2, 0, 1, 0⟩⟩ [⟨0, 0, 1, false⟩]).2
          = some LoadError.countMismatch ↔
        ∃ s : Int, 1 ≤ s ∧ s ≤ 4
          ∧ countSize [⟨0, 0, 1, false⟩] s ≠ (⟨2, 0, 1, 0⟩ : SizeCounts).get (s - 1))
      ∧ ((Load NewShipField ⟨5, 5, ⟨2, 0, 1, 0⟩⟩ [⟨0, 0, 1, false⟩]).2 = none ↔
        ∀ s : Int, 1 ≤ s → s ≤ 4 →
          countSize [⟨0, 0, 1, false⟩] s = (⟨2, 0, 1, 0⟩ : SizeCounts).get (s - 1)) :=
  Load_count_validation ⟨5, 5, ⟨2, 0, 1, 0⟩⟩ [⟨0, 0, 1, false⟩] (by decide) (by decide)
    (by decide)

/-- C9: on a field that `Load` accepted, every sequence of shots at non-negative coordinates
returns, and after any sequence of shots that returns, `ResetShots` puts the field (stored
descriptors, configuration and live counts) back into the state it had right after `Load`;
any later shot sequence therefore behaves as on the freshly loaded field. -/
theorem ResetShots_restores_loaded_state (conf : Configuration) (ships : List Ship)
    (hload : (Load NewShipField conf ships).2 = none) :
    (∀ shots : List (Int × Int), (∀ p ∈ shots, 0 ≤ p.1 ∧ 0 ≤ p.2) →
        ∃ f1 rs, shootAll (Load NewShipField conf ships).1 shots = some (f1, rs))
      ∧ ∀ (shots : List (Int × Int)) (f1 : ShipField) (rs : List ShootResult),
          shootAll (Load NewShipField conf ships).1 shots = some (f1, rs) →
          ResetShots f1 = (Load NewShipField conf ships).1
            ∧ ∀ later : List (Int × Int),
                shootAll (ResetShots f1) later
                  = shootAll (Load NewShipField conf ships).1 later := by
  refine ⟨fun shots hs => shootAll_isSome shots _ hs, ?_⟩
  intro shots f1 rs hrun
  have h := ResetShots_runOps (Load_split hload) hrun
  exact ⟨h, fun later => by rw [h]⟩

/-- C9 witness: the 3x3 field of test `Shoot_DestroyMulticellShip`. -/
theorem ResetShots_restores_loaded_state_witness :
    (∀ shots : List (Int × Int), (∀ p ∈ shots, 0 ≤ p.1 ∧ 0 ≤ p.2) →
        ∃ f1 rs, shootAll (Load NewShipField ⟨3, 3, ⟨0, 1, 0, 0⟩⟩ [⟨0, 0, 2, true⟩]).1 shots
          = some (f1, rs))
      ∧ ∀ (shots : List (Int × Int)) (f1 : ShipField) (rs : List ShootResult),
          shootAll (Load NewShipField ⟨3, 3, ⟨0, 1, 0, 0⟩⟩ [⟨0, 0, 2, true⟩]).1 shots
            = some (f1, rs) →
          ResetShots f1 = (Load NewShipField ⟨3, 3, ⟨0, 1, 0, 0⟩⟩ [⟨0, 0, 2, true⟩]).1
            ∧ ∀ later : List (Int × Int),
                shootAll (ResetShots f1) later
                  = shootAll (Load NewShipField ⟨3, 3, ⟨0, 1, 0, 0⟩⟩ [⟨0, 0, 2, true⟩]).1
                      later :=
  ResetShots_restores_loaded_state ⟨3, 3, ⟨0, 1, 0, 0⟩⟩ [⟨0, 0, 2, true⟩] (by decide)

/-- C10 (counterexample): the field of test `Shoot_EmptyCell` (3x3, no ships,
`Sizes = [0,0,0,0]`) loads; after the shot `(1,1)` and `ResetShots`, `AllDead()` is true. -/
theorem ResetShots_AllDead_on_empty_layout :
    (Load NewShipField ⟨3, 3, ⟨0, 0, 0, 0⟩⟩ []).2 = none
      ∧ ∃ f1, shootAll (Load NewShipField ⟨3, 3, ⟨0, 0, 0, 0⟩⟩ []).1 [(1, 1)]
            = some (f1, [ShootResult.Miss])
          ∧ AllDead (ResetShots f1) = true := by
  refine ⟨by decide, (Load NewShipField ⟨3, 3, ⟨0, 0, 0, 0⟩⟩ []).1, by decide, by decide⟩

/-- C10 (amended): on a field that `Load` accepted, after any sequence of shots that returns
(every sequence at non-negative coordinates does), `ResetShots` makes the live-counts vector
equal to `Sizes`, and `AllDead()` is then false exactly when `Sizes` is not all zero, that
is when the layout has at least one ship. -/
theorem ResetShots_restores_live_counts (conf : Configuration) (ships : List Ship)
    (hload : (Load NewShipField conf ships).2 = none) :
    (∀ shots : List (Int × Int), (∀ p ∈ shots, 0 ≤ p.1 ∧ 0 ≤ p.2) →
        ∃ f1 rs, shootAll (Load NewShipField conf ships).1 shots = some (f1, rs))
      ∧ ∀ (shots : List (Int × Int)) (f1 : ShipField) (rs : List ShootResult),
          shootAll (Load NewShipField conf ships).1 shots = some (f1, rs) →
          (ResetShots f1).currConfig.Sizes = conf.Sizes
            ∧ (AllDead (ResetShots f1) = false ↔ conf.Sizes ≠ ⟨0, 0, 0, 0⟩)
            ∧ (conf.Sizes ≠ ⟨0, 0, 0, 0⟩ ↔ ships ≠ []) := by
  refine ⟨fun shots hs => shootAll_isSome shots _ hs, ?_⟩
  intro shots f1 rs hrun
  have h := ResetShots_runOps (Load_split hload) hrun
  obtain ⟨hc, hcc, _, _, hcnt⟩ := Load_fresh_ok (Load_split hload)
  obtain ⟨_, _, hl⟩ := Load_ok (Load_split hload)
  have hsz := loadShips_sizes ships _ _ _ _ hl
  rw [h, hcc]
  refine ⟨rfl, ?_, ?_⟩
  · unfold AllDead
    rw [hcc]
    rcases conf.Sizes with ⟨b0, b1, b2, b3⟩
    simp only [SizeCounts.mk.injEq, ne_eq]
    by_cases hz : b0 = 0 ∧ b1 = 0 ∧ b2 = 0 ∧ b3 = 0
    · obtain ⟨rfl, rfl, rfl, rfl⟩ := hz
      simp
    · simp only [hz, not_false_eq_true, iff_true]
      simp only [Bool.and_eq_false_iff, decide_eq_false_iff_not]
      by_contra hno
      apply hz
      simp only [not_or, not_not] at hno
      exact ⟨hno.1.1.1, hno.1.1.2, hno.1.2, hno.2⟩
  · rw [hcnt]
    cases ships with
    | nil => simp [countSize]
    | cons s rest =>
      simp only [ne_eq, SizeCounts.mk.injEq, not_false_eq_true, iff_true, reduceCtorEq]
      obtain ⟨h1, h4⟩ := hsz s (List.mem_cons_self _ _)
      have hn1 := countSize_nonneg rest 1
      have hn2 := countSize_nonneg rest 2
      have hn3 := countSize_nonneg rest 3
      have hn4 := countSize_nonneg rest 4
      simp only [countSize_cons]
      have : s.Size = 1 ∨ s.Size = 2 ∨ s.Size = 3 ∨ s.Size = 4 := by omega
      rcases this with h | h | h | h <;> simp [h] <;> omega

/-- C10 witness: the 3x3 field of test `Shoot_DestroyMulticellShip`. -/
theorem ResetShots_restores_live_counts_witness :
    (Load NewShipField ⟨3, 3, ⟨0, 1, 0, 0⟩⟩ [⟨0, 0, 2, true⟩]).2 = none
      ∧ ∀ (shots : List (Int × Int)) (f1 : ShipField) (rs : List ShootResult),
          shootAll (Load NewShipField ⟨3, 3, ⟨0, 1, 0, 0⟩⟩ [⟨0, 0, 2, true⟩]).1 shots
            = some (f1, rs) →
          (ResetShots f1).currConfig.Sizes = (⟨0, 1, 0, 0⟩ : SizeCounts)
            ∧ (AllDead (ResetShots f1) = false ↔ (⟨0, 1, 0, 0⟩ : SizeCounts) ≠ ⟨0, 0, 0, 0⟩)
            ∧ ((⟨0, 1, 0, 0⟩ : SizeCounts) ≠ ⟨0, 0, 0, 0⟩ ↔ [(⟨0, 0, 2, true⟩ : Ship)] ≠ []) :=
  ⟨by decide,
    (ResetShots_restores_live_counts ⟨3, 3, ⟨0, 1, 0, 0⟩⟩ [⟨0, 0, 2, true⟩] (by decide)).2⟩

/-! ## A miss depends on the keys, orientations and sizes only -/

theorem Get_resetData_congr : ∀ {m n : List (Int × shipData)},
    m.map (fun e => (e.1, resetData e.2)) = n.map (fun e => (e.1, resetData e.2)) →
    ∀ p : Int, (Get m p).map resetData = (Get n p).map resetData := by
  intro m
  induction m with
  | nil =>
    intro n h p
    cases n with
    | nil => rfl
    | cons b n => simp at h
  | cons a m ih =>
    intro n h p
    cases n with
    | nil => simp at h
    | cons b n =>
      simp only [List.map_cons, List.cons.injEq, Prod.mk.injEq] at h
      obtain ⟨⟨hk, hd⟩, hrest⟩ := h
      obtain ⟨ka, da⟩ := a
      obtain ⟨kb, db⟩ := b
      simp only at hk hd
      subst hk
      simp only [Get]
      by_cases hp : ka = p
      · simp only [if_pos hp, Option.map_some', hd]
      · simp only [if_neg hp]
        exact ih hrest p

/-- Two maps with the same keys, orientations and sizes answer every lookup alike. -/
theorem Get_shape {m n : List (Int × shipData)}
    (hs : m.map (fun e => (e.1, resetData e.2)) = n.map (fun e => (e.1, resetData e.2)))
    (p : Int) :
    (Get m p = none ∧ Get n p = none)
      ∨ ∃ d d1, Get m p = some d ∧ Get n p = some d1 ∧ IsVert d1 = IsVert d
          ∧ Size d1 = Size d := by
  have h := Get_resetData_congr hs p
  cases hm : Get m p with
  | none =>
    cases hn : Get n p with
    | none => exact Or.inl ⟨rfl, rfl⟩
    | some d1 =>
      rw [hm, hn] at h
      simp at h
  | some d =>
    cases hn : Get n p with
    | none =>
      rw [hm, hn] at h
      simp at h
    | some d1 =>
      rw [hm, hn] at h
      simp only [Option.map_some', Option.some.injEq] at h
      refine Or.inr ⟨d, d1, rfl, rfl, ?_, ?_⟩
      · rw [← IsVert_resetData d1, ← h, IsVert_resetData]
      · rw [← Size_resetData d1, ← h, Size_resetData]

theorem makePos_congr {f g : ShipField} (hc : g.conf = f.conf) (x y : Int) :
    makePos g x y = makePos f x y := by
  unfold makePos
  rw [hc]

theorem scanLeftLoop_none_congr {f g : ShipField} (hc : g.conf = f.conf)
    (hs : f.ships.map (fun e => (e.1, resetData e.2))
      = g.ships.map (fun e => (e.1, resetData e.2))) {x y bound : Int} :
    ∀ (fuel : Nat) (i : Int), scanLeftLoop f x y bound fuel i = some none →
      scanLeftLoop g x y bound fuel i = some none := by
  intro fuel
  induction fuel with
  | zero =>
    intro i h
    simp [scanLeftLoop] at h
  | succ fuel ih =>
    intro i h
    rw [scanLeftLoop] at h ⊢
    by_cases hi : i ≤ bound
    · rw [if_pos hi] at h ⊢
      simp only at h ⊢
      rw [makePos_congr hc]
      rcases Get_shape hs (makePos f (wrap64 (x - i)) y) with ⟨h1, h2⟩ | ⟨d, d1, h1, h2, hv, hz⟩
      · rw [h1] at h
        rw [h2]
        exact ih _ h
      · rw [h1] at h
        rw [h2]
        simp only [IsHor, hv, hz] at h ⊢
        by_cases hh : (!IsVert d) = true
        · rw [if_pos hh] at h ⊢
          by_cases hsz : Size d ≤ i
          · rw [if_pos hsz] at h ⊢
            exact ih _ h
          · rw [if_neg hsz] at h
            simp at h
        · rw [if_neg hh] at h ⊢
          exact ih _ h
    · rw [if_neg hi]

theorem scanUpLoop_none_congr {f g : ShipField} (hc : g.conf = f.conf)
    (hs : f.ships.map (fun e => (e.1, resetData e.2))
      = g.ships.map (fun e => (e.1, resetData e.2))) {x y bound : Int} :
    ∀ (fuel : Nat) (i : Int), scanUpLoop f x y bound fuel i = some none →
      scanUpLoop g x y bound fuel i = some none := by
  intro fuel
  induction fuel with
  | zero =>
    intro i h
    simp [scanUpLoop] at h
  | succ fuel ih =>
    intro i h
    rw [scanUpLoop] at h ⊢
    by_cases hi : i ≤ bound
    · rw [if_pos hi] at h ⊢
      simp only at h ⊢
      rw [makePos_congr hc]
      rcases Get_shape hs (makePos f x (wrap64 (y - i))) with ⟨h1, h2⟩ | ⟨d, d1, h1, h2, hv, hz⟩
      · rw [h1] at h
        rw [h2]
        exact ih _ h
      · rw [h1] at h
        rw [h2]
        simp only [hv, hz] at h ⊢
        by_cases hh : IsVert d = true
        · rw [if_pos hh] at h ⊢
          by_cases hsz : Size d ≤ i
          · rw [if_pos hsz] at h ⊢
            exact ih _ h
          · rw [if_neg hsz] at h
            simp at h
        · rw [if_neg hh] at h ⊢
          exact ih _ h
    · rw [if_neg hi]

/-- A shot misses exactly when the cell is beyond the far borders or all three lookups
(the cell itself, the scan to the left, the scan upwards) find nothing; the field is then
left as it was. -/
theorem Shoot_Miss_iff {f f1 : ShipField} {x y : Int} :
    Shoot f x y = some (f1, ShootResult.Miss) ↔
      f1 = f ∧ ((x ≥ f.conf.W ∨ y ≥ f.conf.H)
        ∨ (Get f.ships (makePos f x y) = none ∧ scanIntersectionsLeft f x y = some none
            ∧ scanIntersectionsUp f x y = some none)) := by
  constructor
  · intro h
    have hf : f1 = f := by
      rcases Shoot_cases h with ⟨h1, _⟩ | ⟨pos, ship, idx, _, _, hh⟩
      · exact h1
      · exact absurd rfl (hitShip_not_Miss hh)
    refine ⟨hf, ?_⟩
    by_cases hout : x ≥ f.conf.W ∨ y ≥ f.conf.H
    · exact Or.inl hout
    · right
      unfold Shoot at h
      rw [if_neg hout] at h
      simp only at h
      cases hg : Get f.ships (makePos f x y) with
      | some ship =>
        rw [hg] at h
        exact absurd rfl (hitShip_not_Miss h)
      | none =>
        rw [hg] at h
        simp only at h
        cases hl : scanIntersectionsLeft f x y with
        | none =>
          rw [hl] at h
          cases h
        | some rl =>
          rw [hl] at h
          cases rl with
          | some intr =>
            exact absurd rfl (hitShip_not_Miss h)
          | none =>
            simp only at h
            cases hu : scanIntersectionsUp f x y with
            | none =>
              rw [hu] at h
              cases h
            | some ru =>
              rw [hu] at h
              cases ru with
              | some intr => exact absurd rfl (hitShip_not_Miss h)
              | none => exact ⟨rfl, rfl, rfl⟩
  · rintro ⟨rfl, hout | ⟨hg, hl, hu⟩⟩
    · unfold Shoot
      rw [if_pos hout]
    · unfold Shoot
      by_cases hout : x ≥ f1.conf.W ∨ y ≥ f1.conf.H
      · rw [if_pos hout]
      · rw [if_neg hout]
        simp only [hg, hl, hu]

/-- A miss on `f` is a miss on every field with the same configuration, keys, orientations
and sizes. -/
theorem Shoot_Miss_congr {f g : ShipField} (hc : g.conf = f.conf)
    (hs : f.ships.map (fun e => (e.1, resetData e.2))
      = g.ships.map (fun e => (e.1, resetData e.2))) {x y : Int}
    (h : Shoot f x y = some (f, ShootResult.Miss)) :
    Shoot g x y = some (g, ShootResult.Miss) := by
  obtain ⟨_, hout | ⟨hg, hl, hu⟩⟩ := Shoot_Miss_iff.1 h
  · exact Shoot_Miss_iff.2 ⟨rfl, Or.inl (by rw [hc]; exact hout)⟩
  · refine Shoot_Miss_iff.2 ⟨rfl, Or.inr ⟨?_, ?_, ?_⟩⟩
    · rw [makePos_congr hc]
      rcases Get_shape hs (makePos f x y) with ⟨_, h2⟩ | ⟨d, d1, h1, _, _, _⟩
      · exact h2
      · rw [h1] at hg
        cases hg
    · exact scanLeftLoop_none_congr hc hs _ _ hl
    · exact scanUpLoop_none_congr hc hs _ _ hu

/-! ## Layouts up to the order of the ships -/

/-- Touching is symmetric for ships of size at least one. -/
theorem Touches_symm {p s : Ship} (hs : 1 ≤ s.Size) (h : Touches p s) :
    Touches s p := by
  obtain ⟨c, hc, hin⟩ := h
  obtain ⟨k, h0, hk, rfl⟩ := mem_cells_iff.1 hc
  unfold Ship.Inflated Ship.cellAt at hin
  cases hpv : p.IsVert <;> cases hsv : s.IsVert <;>
    simp only [hpv, hsv, if_true, Bool.false_eq_true, if_false] at hin
  · refine Touches_of_cell (k := max 0 (p.X - 1 - s.X)) (by omega) (by omega) ?_
    unfold Ship.Inflated Ship.cellAt
    simp only [hpv, hsv, Bool.false_eq_true, if_false]
    omega
  · refine Touches_of_cell (k := max 0 (p.Y - 1 - s.Y)) (by omega) (by omega) ?_
    unfold Ship.Inflated Ship.cellAt
    simp only [hpv, hsv, if_true, Bool.false_eq_true, if_false]
    omega
  · refine Touches_of_cell (k := max 0 (p.X - 1 - s.X)) (by omega) (by omega) ?_
    unfold Ship.Inflated Ship.cellAt
    simp only [hpv, hsv, if_true, Bool.false_eq_true, if_false]
    omega
  · refine Touches_of_cell (k := max 0 (p.Y - 1 - s.Y)) (by omega) (by omega) ?_
    unfold Ship.Inflated Ship.cellAt
    simp only [hpv, hsv, if_true]
    omega

theorem Separated_iff_symm {ships : List Ship} (hsz : ∀ s ∈ ships, 1 ≤ s.Size) :
    Separated ships ↔ ships.Pairwise (fun p s => ¬ Touches p s ∧ ¬ Touches s p) := by
  unfold Separated
  constructor
  · intro h
    apply List.Pairwise.imp_of_mem _ h
    intro a b ha hb hab
    exact ⟨hab, fun hba => hab (Touches_symm (hsz a ha) hba)⟩
  · intro h
    exact List.Pairwise.imp (fun hab => hab.1) h

/-- Being separated does not depend on the order of the ships. -/
theorem Separated_perm {l1 l2 : List Ship} (hsz : ∀ s ∈ l1, 1 ≤ s.Size) (hperm : l1.Perm l2) :
    Separated l1 ↔ Separated l2 := by
  have hsz2 : ∀ s ∈ l2, 1 ≤ s.Size := fun s hs => hsz s (hperm.mem_iff.2 hs)
  rw [Separated_iff_symm hsz, Separated_iff_symm hsz2]
  apply List.Perm.pairwise_iff _ hperm
  intro a b hab
  exact ⟨hab.2, hab.1⟩

theorem countSize_perm {l1 l2 : List Ship} (hperm : l1.Perm l2) (size : Int) :
    countSize l1 size = countSize l2 size := by
  unfold countSize
  rw [(hperm.filter _).length_eq]

/-- The verdict of `Load` on a fresh field, for ships of the field on a configuration whose
packed positions do not collide: the overlap error when the layout is not separated, else
the count-mismatch error when the counts differ from `conf.Sizes`, else no error. -/
theorem Load_verdict_inField {conf : Configuration} {ships : List Ship} (hp : Packable conf)
    (hin : ∀ s ∈ ships, InField conf s) :
    (¬ Separated ships → (Load NewShipField conf ships).2 = some LoadError.shipsOverlap)
      ∧ (Separated ships → (Load NewShipField conf ships).2 =
          if (⟨countSize ships 1, countSize ships 2, countSize ships 3, countSize ships 4⟩
              : SizeCounts) = conf.Sizes then none
          else some LoadError.countMismatch) := by
  obtain ⟨hgo, hW, hH, hWH⟩ := hp
  have hp : Packable conf := ⟨hgo, hW, hH, hWH⟩
  constructor
  · intro hsep
    obtain ⟨pre, s, post, heq, hpre, htouch⟩ := exists_first_touch ships hsep
    have hin1 : ∀ q ∈ ([] : List Ship) ++ pre, InField conf q := by
      intro q hq
      apply hin q
      rw [heq]
      simp only [List.nil_append] at hq
      exact List.mem_append_left _ hq
    have hs : InField conf s := by
      apply hin s
      rw [heq]
      simp
    obtain ⟨f1, c1, h1, _⟩ := loadShips_first_touch hp pre
      { NewShipField with currConfig := conf, conf := conf } ⟨0, 0, 0, 0⟩ [] s post rfl rfl
      hin1 hs (by simpa using hpre) (by simpa using htouch)
    rw [Load_eq NewShipField conf ships (by omega) (by omega), heq, h1]
  · intro hsep
    obtain ⟨f1, c1, h1, _⟩ := loadShips_separated hp ships
      { NewShipField with currConfig := conf, conf := conf } ⟨0, 0, 0, 0⟩ [] rfl rfl
      (by simpa using hin) (by simpa using hsep)
    obtain ⟨_, _, hcnt, _, _⟩ := loadShips_ok ships _ _ _ _ h1
    simp only [zero_add] at hcnt
    rw [Load_eq NewShipField conf ships (by omega) (by omega), h1]
    simp only
    rw [hcnt]

/-! ## Claims about repeated shots and the order of the ships -/

/-- C11 (counterexample): two fields that `Load` accepts on which a shot at a cell of a dead
ship does not return `Kill`. First, `W = 9`, `H = 3 * 2^61` (so `W*H > 2^64`) with the
vertical ship `(8, 2^61 - 1)` of size 2 and the horizontal ship `(2, 0)` of size 2, both
within the field: the shots at `(0, 2^61)` and `(8, 2^61 - 1)` return `Hit` and `Kill` and
leave the first ship dead, yet the shot at its cell `(8, 2^61)` returns `Hit` and changes the
descriptor of the other ship (all three shots are at cells of the field). Second, the 3x3 field with the horizontal ship `(-1, 0)` of
size 2: after the shots `(-1, 0)` and `(1, -3)` the ship is dead, yet the shot at its cell
`(0, 0)` returns `Miss`. -/
theorem Shoot_dead_ship_not_Kill :
    ((∀ s ∈ [(⟨8, 2305843009213693951, 2, true⟩ : Ship), ⟨2, 0, 2, false⟩],
          InField ⟨9, 6917529027641081856, ⟨0, 2, 0, 0⟩⟩ s)
      ∧ (Load NewShipField ⟨9, 6917529027641081856, ⟨0, 2, 0, 0⟩⟩
          [⟨8, 2305843009213693951, 2, true⟩, ⟨2, 0, 2, false⟩]).2 = none
      ∧ (∀ p ∈ [((0, 2305843009213693952) : Int × Int), (8, 2305843009213693951),
            (8, 2305843009213693952)],
          CellInField ⟨9, 6917529027641081856, ⟨0, 2, 0, 0⟩⟩ p)
      ∧ shootAll (Load NewShipField ⟨9, 6917529027641081856, ⟨0, 2, 0, 0⟩⟩
            [⟨8, 2305843009213693951, 2, true⟩, ⟨2, 0, 2, false⟩]).1
          [(0, 2305843009213693952), (8, 2305843009213693951)]
          = some (⟨[(2305843009213693951, 223), (-4611686018427387904, 156)],
                    ⟨9, 6917529027641081856, ⟨0, 2, 0, 0⟩⟩,
                    ⟨9, 6917529027641081856, ⟨0, 1, 0, 0⟩⟩⟩,
                  [ShootResult.Hit, ShootResult.Kill])
      ∧ IsDead 223 = true
      ∧ ((8, 2305843009213693952) : Int × Int)
          ∈ (⟨8, 2305843009213693951, 2, true⟩ : Ship).cells
      ∧ Shoot ⟨[(2305843009213693951, 223), (-4611686018427387904, 156)],
            ⟨9, 6917529027641081856, ⟨0, 2, 0, 0⟩⟩,
            ⟨9, 6917529027641081856, ⟨0, 1, 0, 0⟩⟩⟩ 8 2305843009213693952
          = some (⟨[(2305843009213693951, 223), (-4611686018427387904, 158)],
                    ⟨9, 6917529027641081856, ⟨0, 2, 0, 0⟩⟩,
                    ⟨9, 6917529027641081856, ⟨0, 1, 0, 0⟩⟩⟩,
                  ShootResult.Hit))
    ∧ ((Load NewShipField ⟨3, 3, ⟨0, 1, 0, 0⟩⟩ [⟨-1, 0, 2, false⟩]).2 = none
      ∧ shootAll (Load NewShipField ⟨3, 3, ⟨0, 1, 0, 0⟩⟩ [⟨-1, 0, 2, false⟩]).1
          [(-1, 0), (1, -3)]
          = some (⟨[(-3, 159)], ⟨3, 3, ⟨0, 1, 0, 0⟩⟩, ⟨3, 3, ⟨0, 0, 0, 0⟩⟩⟩,
                  [ShootResult.Hit, ShootResult.Kill])
      ∧ IsDead 159 = true
      ∧ ((0, 0) : Int × Int) ∈ (⟨-1, 0, 2, false⟩ : Ship).cells
      ∧ Shoot ⟨[(-3, 159)], ⟨3, 3, ⟨0, 1, 0, 0⟩⟩, ⟨3, 3, ⟨0, 0, 0, 0⟩⟩⟩ 0 0
          = some (⟨[(-3, 159)], ⟨3, 3, ⟨0, 1, 0, 0⟩⟩, ⟨3, 3, ⟨0, 0, 0, 0⟩⟩⟩,
                  ShootResult.Miss)) := by
  decide

/-- C11 (amended): for a configuration with `W*H ≤ 2^64` and a field loaded successfully
from ships lying within the field, every sequence of calls with non-negative coordinates
returns, and after any sequence of `Shoot` and `ResetShots` calls that returns, every ship
of the layout has its descriptor stored at its origin, and once that descriptor is dead a
shot at any cell of the ship returns `Kill` and leaves the whole field (map, configuration
and live counts) unchanged. -/
theorem Shoot_dead_ship_again (conf : Configuration) (ships : List Ship)
    (hp : Packable conf) (hin : ∀ s ∈ ships, InField conf s)
    (hload : (Load NewShipField conf ships).2 = none) :
    (∀ ops : List FieldOp, (∀ x y, FieldOp.shoot x y ∈ ops → 0 ≤ x ∧ 0 ≤ y) →
        ∃ f rs, runOps (Load NewShipField conf ships).1 ops = some (f, rs))
      ∧ ∀ (ops : List FieldOp) (f : ShipField) (rs : List ShootResult),
          runOps (Load NewShipField conf ships).1 ops = some (f, rs) →
          ∀ s ∈ ships, ∃ d, Get f.ships (makePos f s.X s.Y) = some d
            ∧ (IsDead d = true →
                ∀ c ∈ s.cells, Shoot f c.1 c.2 = some (f, ShootResult.Kill)) := by
  refine ⟨fun ops hops => runOps_isSome ops _ hops, ?_⟩
  intro ops f rs hrun s hs
  obtain ⟨hist, ht⟩ := runOps_tracks hp hin (Load_split hload) hrun
  obtain ⟨d, hd, _⟩ := ht.Get_origin hs
  refine ⟨d, hd, ?_⟩
  intro hdead c hc
  obtain ⟨k, h0, hk, hcell⟩ := mem_cells_iff.1 hc
  obtain ⟨d1, hd1, _, heq⟩ := ht.Shoot_hit hs h0 hk (x := c.1) (y := c.2) hcell.symm
  rw [hd] at hd1
  cases hd1
  rw [heq]
  unfold hitShip
  rw [if_pos hdead]

/-- C11 witness: the field of test `Shoot_DestroyMulticellShip` with both cells of its ship
shot; the shot at the first cell returns `Kill` again and changes nothing. -/
theorem Shoot_dead_ship_again_witness :
    Packable ⟨3, 3, ⟨0, 1, 0, 0⟩⟩
      ∧ (∀ s ∈ [(⟨0, 0, 2, true⟩ : Ship)], InField ⟨3, 3, ⟨0, 1, 0, 0⟩⟩ s)
      ∧ (Load NewShipField ⟨3, 3, ⟨0, 1, 0, 0⟩⟩ [⟨0, 0, 2, true⟩]).2 = none
      ∧ runOps (Load NewShipField ⟨3, 3, ⟨0, 1, 0, 0⟩⟩ [⟨0, 0, 2, true⟩]).1
          [FieldOp.shoot 0 0, FieldOp.shoot 0 1]
          = some (⟨[(0, 223)], ⟨3, 3, ⟨0, 1, 0, 0⟩⟩, ⟨3, 3, ⟨0, 0, 0, 0⟩⟩⟩,
              [ShootResult.Hit, ShootResult.Kill])
      ∧ ∃ d, Get [(0, 223)] (makePos
            ⟨[(0, 223)], ⟨3, 3, ⟨0, 1, 0, 0⟩⟩, ⟨3, 3, ⟨0, 0, 0, 0⟩⟩⟩ 0 0) = some d
          ∧ (IsDead d = true → ∀ c ∈ (⟨0, 0, 2, true⟩ : Ship).cells,
              Shoot ⟨[(0, 223)], ⟨3, 3, ⟨0, 1, 0, 0⟩⟩, ⟨3, 3, ⟨0, 0, 0, 0⟩⟩⟩ c.1 c.2
                = some (⟨[(0, 223)], ⟨3, 3, ⟨0, 1, 0, 0⟩⟩, ⟨3, 3, ⟨0, 0, 0, 0⟩⟩⟩,
                    ShootResult.Kill)) :=
  ⟨by decide, by decide, by decide, by decide,
    (Shoot_dead_ship_again ⟨3, 3, ⟨0, 1, 0, 0⟩⟩ [⟨0, 0, 2, true⟩] (by decide) (by decide)
      (by decide)).2 [FieldOp.shoot 0 0, FieldOp.shoot 0 1]
      ⟨[(0, 223)], ⟨3, 3, ⟨0, 1, 0, 0⟩⟩, ⟨3, 3, ⟨0, 0, 0, 0⟩⟩⟩
      [ShootResult.Hit, ShootResult.Kill] (by decide) ⟨0, 0, 2, true⟩ (by decide)⟩

/-- C12: on a field that `Load` accepted (for any configuration and ships), after any calls
that return, a shot at `(x, y)` that returns `Miss` leaves the field unchanged, and after any
further sequence of `Shoot` and `ResetShots` calls that returns, `Shoot(x, y)` returns `Miss`
again and leaves the field unchanged; sequences of calls with non-negative coordinates always
return. -/
theorem Shoot_Miss_stable (conf : Configuration) (ships : List Ship)
    (hload : (Load NewShipField conf ships).2 = none) :
    (∀ ops : List FieldOp, (∀ x y, FieldOp.shoot x y ∈ ops → 0 ≤ x ∧ 0 ≤ y) →
        ∃ f rs, runOps (Load NewShipField conf ships).1 ops = some (f, rs))
      ∧ ∀ (ops : List FieldOp) (f : ShipField) (rs : List ShootResult),
          runOps (Load NewShipField conf ships).1 ops = some (f, rs) →
          ∀ (x y : Int) (f1 : ShipField), Shoot f x y = some (f1, ShootResult.Miss) →
            f1 = f
              ∧ ∀ (more : List FieldOp) (f2 : ShipField) (rs2 : List ShootResult),
                  runOps f more = some (f2, rs2) →
                  Shoot f2 x y = some (f2, ShootResult.Miss) := by
  refine ⟨fun ops hops => runOps_isSome ops _ hops, ?_⟩
  intro ops f rs hrun x y f1 hmiss
  obtain ⟨hf, _⟩ := Shoot_Miss_iff.1 hmiss
  subst hf
  refine ⟨rfl, ?_⟩
  intro more f2 rs2 hmore
  obtain ⟨_, _, hnd, _, _⟩ := Load_fresh_ok (Load_split hload)
  obtain ⟨_, hk, _⟩ := runOps_frame ops _ _ rs hnd hrun
  have hnd1 : (f1.ships.map Prod.fst).Nodup := by
    rw [hk]
    exact hnd
  obtain ⟨hc2, _, hr2⟩ := runOps_frame more _ _ rs2 hnd1 hmore
  exact Shoot_Miss_congr hc2 hr2.symm hmiss

/-- C12 witness: the field of test `Shoot_EmptyCell`; the shot at `(2, 2)` misses, and keeps
missing after any further calls. -/
theorem Shoot_Miss_stable_witness :
    (Load NewShipField ⟨3, 3, ⟨1, 0, 0, 0⟩⟩ [⟨0, 0, 1, false⟩]).2 = none
      ∧ Shoot (Load NewShipField ⟨3, 3, ⟨1, 0, 0, 0⟩⟩ [⟨0, 0, 1, false⟩]).1 2 2
          = some ((Load NewShipField ⟨3, 3, ⟨1, 0, 0, 0⟩⟩ [⟨0, 0, 1, false⟩]).1,
              ShootResult.Miss)
      ∧ ∀ (more : List FieldOp) (f2 : ShipField) (rs2 : List ShootResult),
          runOps (Load NewShipField ⟨3, 3, ⟨1, 0, 0, 0⟩⟩ [⟨0, 0, 1, false⟩]).1 more
            = some (f2, rs2) →
          Shoot f2 2 2 = some (f2, ShootResult.Miss) :=
  ⟨by decide, by decide,
    ((Shoot_Miss_stable ⟨3, 3, ⟨1, 0, 0, 0⟩⟩ [⟨0, 0, 1, false⟩] (by decide)).2 []
      (Load NewShipField ⟨3, 3, ⟨1, 0, 0, 0⟩⟩ [⟨0, 0, 1, false⟩]).1 [] rfl
      2 2 (Load NewShipField ⟨3, 3, ⟨1, 0, 0, 0⟩⟩ [⟨0, 0, 1, false⟩]).1 (by decide)).2⟩

/-- Every ship of a list the loading loop went through without error passed the size test
and the bounds test. -/
theorem loadShips_checks_passed {conf : Configuration} (ships : List Ship) :
    ∀ (f f1 : ShipField) (c c1 : SizeCounts), loadShips conf f c ships = (f1, c1, none) →
      ∀ s ∈ ships, 1 ≤ s.Size ∧ s.Size ≤ 4 ∧ outOfBounds conf s = false := by
  induction ships with
  | nil =>
    intro f f1 c c1 _ s hs
    cases hs
  | cons ship rest ih =>
    intro f f1 c c1 h s hs
    obtain ⟨h1, h4, hb, _, _, _, hrest⟩ := loadShips_cons_ok h
    rcases List.mem_cons.1 hs with rfl | hmem
    · exact ⟨h1, h4, hb⟩
    · exact ih _ _ _ _ hrest s hmem

/-- `Load` rejects every list that holds a ship failing the size test or the bounds test,
wherever the ship stands in the list. -/
theorem Load_rejects_failing_ship {conf : Configuration} {ships : List Ship} {s : Ship}
    (hs : s ∈ ships) (hfail : s.Size ≤ 0 ∨ s.Size > 4 ∨ outOfBounds conf s = true) :
    (Load NewShipField conf ships).2 ≠ none := by
  intro h
  obtain ⟨_, _, hl⟩ := Load_ok (Load_split h)
  obtain ⟨h1, h4, hb⟩ := loadShips_checks_passed ships _ _ _ _ hl s hs
  rcases hfail with hf | hf | hf
  · omega
  · omega
  · rw [hb] at hf
    cases hf

/-- C13 (counterexample): two layouts that `Load` accepts in one order and rejects in the
other. On the field `W = 2^32 + 1`, `H = 2^32` the horizontal ship `(2^32 - 1, 0)` of size 2
followed by the one-cell ship `(0, 0)`, both within the field, loads, while the reverse order
fails with the overlap error (the cell `(2^32, 0)` has the packed position of `(0, 0)`). On
the 3x3 field the horizontal ship `(-1, 0)` of size 2 followed by the one-cell ship `(0, 0)`
loads, while the reverse order fails with the overlap error. -/
theorem Load_depends_on_ship_order :
    ((∀ s ∈ [(⟨4294967295, 0, 2, false⟩ : Ship), ⟨0, 0, 1, false⟩],
          InField ⟨4294967297, 4294967296, ⟨1, 1, 0, 0⟩⟩ s)
      ∧ List.Perm [(⟨4294967295, 0, 2, false⟩ : Ship), ⟨0, 0, 1, false⟩]
          [⟨0, 0, 1, false⟩, ⟨4294967295, 0, 2, false⟩]
      ∧ (Load NewShipField ⟨4294967297, 4294967296, ⟨1, 1, 0, 0⟩⟩
          [⟨4294967295, 0, 2, false⟩, ⟨0, 0, 1, false⟩]).2 = none
      ∧ (Load NewShipField ⟨4294967297, 4294967296, ⟨1, 1, 0, 0⟩⟩
          [⟨0, 0, 1, false⟩, ⟨4294967295, 0, 2, false⟩]).2 = some LoadError.shipsOverlap)
    ∧ (Packable ⟨3, 3, ⟨1, 1, 0, 0⟩⟩
      ∧ List.Perm [(⟨-1, 0, 2, false⟩ : Ship), ⟨0, 0, 1, false⟩]
          [⟨0, 0, 1, false⟩, ⟨-1, 0, 2, false⟩]
      ∧ (Load NewShipField ⟨3, 3, ⟨1, 1, 0, 0⟩⟩
          [⟨-1, 0, 2, false⟩, ⟨0, 0, 1, false⟩]).2 = none
      ∧ (Load NewShipField ⟨3, 3, ⟨1, 1, 0, 0⟩⟩
          [⟨0, 0, 1, false⟩, ⟨-1, 0, 2, false⟩]).2 = some LoadError.shipsOverlap) :=
  ⟨⟨by decide, List.Perm.swap _ _ _, by decide, by decide⟩,
    ⟨by decide, List.Perm.swap _ _ _, by decide, by decide⟩⟩

/-- C13 (amended): for a configuration with `W > 0`, `H > 0` and `W*H ≤ 2^64` and two lists
of ships that are permutations of each other, in which every ship either lies within the
field or fails the size test or the bounds test of `Load`, `Load` on a fresh field accepts
one list iff it accepts the other; and when all ships lie within the field it returns the
same verdict (no error, or the same error) for both. -/
theorem Load_order_independent (conf : Configuration) (l1 l2 : List Ship)
    (hp : Packable conf)
    (hin : ∀ s ∈ l1, InField conf s ∨ s.Size ≤ 0 ∨ s.Size > 4 ∨ outOfBounds conf s = true)
    (hperm : l1.Perm l2) :
    ((Load NewShipField conf l1).2 = none ↔ (Load NewShipField conf l2).2 = none)
      ∧ ((∀ s ∈ l1, InField conf s) →
          (Load NewShipField conf l1).2 = (Load NewShipField conf l2).2) := by
  have heq : (∀ s ∈ l1, InField conf s) →
      (Load NewShipField conf l1).2 = (Load NewShipField conf l2).2 := by
    intro hall
    have hin2 : ∀ s ∈ l2, InField conf s := fun s hs => hall s (hperm.mem_iff.2 hs)
    have hsep := Separated_perm (fun s hs => (hall s hs).1) hperm
    by_cases h1 : Separated l1
    · rw [(Load_verdict_inField hp hall).2 h1, (Load_verdict_inField hp hin2).2 (hsep.1 h1),
        countSize_perm hperm 1, countSize_perm hperm 2, countSize_perm hperm 3,
        countSize_perm hperm 4]
    · rw [(Load_verdict_inField hp hall).1 h1,
        (Load_verdict_inField hp hin2).1 (fun h2 => h1 (hsep.2 h2))]
  refine ⟨?_, heq⟩
  by_cases hall : ∀ s ∈ l1, InField conf s
  · rw [heq hall]
  · obtain ⟨s, hs, hnot⟩ : ∃ s ∈ l1, ¬ InField conf s := by
      by_contra hno
      apply hall
      intro s hs
      by_contra hn
      exact hno ⟨s, hs, hn⟩
    have hfail : s.Size ≤ 0 ∨ s.Size > 4 ∨ outOfBounds conf s = true := by
      rcases hin s hs with h | h
      · exact absurd h hnot
      · exact h
    have r1 := Load_rejects_failing_ship hs hfail
    have r2 := Load_rejects_failing_ship (hperm.mem_iff.1 hs) hfail
    exact ⟨fun h => absurd h r1, fun h => absurd h r2⟩

/-- C13 witness: the two `Load_MulticellShipsTouchingCorners` tests, one touching pair in
both orders. -/
theorem Load_order_independent_witness :
    Packable ⟨5, 5, ⟨0, 1, 1, 0⟩⟩
      ∧ (∀ s ∈ [(⟨0, 2, 3, false⟩ : Ship), ⟨3, 3, 2, true⟩], InField ⟨5, 5, ⟨0, 1, 1, 0⟩⟩ s)
      ∧ List.Perm [(⟨0, 2, 3, false⟩ : Ship), ⟨3, 3, 2, true⟩]
          [⟨3, 3, 2, true⟩, ⟨0, 2, 3, false⟩]
      ∧ (Load NewShipField ⟨5, 5, ⟨0, 1, 1, 0⟩⟩ [⟨0, 2, 3, false⟩, ⟨3, 3, 2, true⟩]).2
          = (Load NewShipField ⟨5, 5, ⟨0, 1, 1, 0⟩⟩ [⟨3, 3, 2, true⟩, ⟨0, 2, 3, false⟩]).2 :=
  ⟨by decide, by decide, List.Perm.swap _ _ _,
    (Load_order_independent ⟨5, 5, ⟨0, 1, 1, 0⟩⟩ [⟨0, 2, 3, false⟩, ⟨3, 3, 2, true⟩]
      [⟨3, 3, 2, true⟩, ⟨0, 2, 3, false⟩] (by decide) (by decide) (List.Perm.swap _ _ _)).2
      (by decide)⟩

/-- C14 (counterexample): on the 6x6 field of test `Shoot_RealField` the layout loads and the
twenty shots of the test return, but they produce 6 `Kill` results, not 10. -/
theorem RealField_kills_are_not_ten :
    (Load NewShipField ⟨6, 6, ⟨1, 2, 1, 2⟩⟩
        [⟨0, 0, 4, false⟩, ⟨5, 0, 4, true⟩, ⟨4, 5, 2, false⟩, ⟨0, 5, 3, false⟩,
          ⟨0, 2, 2, true⟩, ⟨3, 2, 1, false⟩]).2 = none
      ∧ (shootAll (Load NewShipField ⟨6, 6, ⟨1, 2, 1, 2⟩⟩
          [⟨0, 0, 4, false⟩, ⟨5, 0, 4, true⟩, ⟨4, 5, 2, false⟩, ⟨0, 5, 3, false⟩,
            ⟨0, 2, 2, true⟩, ⟨3, 2, 1, false⟩]).1
          [(4, 0), (0, 1), (3, 1), (3, 5), (0, 2), (0, 3), (5, 2), (5, 0), (5, 3), (5, 1),
            (3, 2), (4, 5), (5, 5), (3, 0), (1, 0), (2, 0), (0, 0), (2, 5), (0, 5),
            (1, 5)]).map (fun p => countResult ShootResult.Kill p.2) = some 6
      ∧ (6 : Int) ≠ 10 := by
  decide

/-- C14 (amended): on the 6x6 field with `Sizes = [1,2,1,2]` and the six ships of test
`Shoot_RealField`, `Load` succeeds, and the twenty shots of the test return with the results
the test expects (four `Miss`, then per ship `Hit`s closed by a `Kill`), end with
`AllDead() = true`, and produce 6 `Kill`, 10 `Hit` and 4 `Miss` results in total. -/
theorem RealField_scenario :
    (Load NewShipField ⟨6, 6, ⟨1, 2, 1, 2⟩⟩
        [⟨0, 0, 4, false⟩, ⟨5, 0, 4, true⟩, ⟨4, 5, 2, false⟩, ⟨0, 5, 3, false⟩,
          ⟨0, 2, 2, true⟩, ⟨3, 2, 1, false⟩]).2 = none
      ∧ AllDead (Load NewShipField ⟨6, 6, ⟨1, 2, 1, 2⟩⟩
          [⟨0, 0, 4, false⟩, ⟨5, 0, 4, true⟩, ⟨4, 5, 2, false⟩, ⟨0, 5, 3, false⟩,
            ⟨0, 2, 2, true⟩, ⟨3, 2, 1, false⟩]).1 = false
      ∧ (shootAll (Load NewShipField ⟨6, 6, ⟨1, 2, 1, 2⟩⟩
          [⟨0, 0, 4, false⟩, ⟨5, 0, 4, true⟩, ⟨4, 5, 2, false⟩, ⟨0, 5, 3, false⟩,
            ⟨0, 2, 2, true⟩, ⟨3, 2, 1, false⟩]).1
          [(4, 0), (0, 1), (3, 1), (3, 5), (0, 2), (0, 3), (5, 2), (5, 0), (5, 3), (5, 1),
            (3, 2), (4, 5), (5, 5), (3, 0), (1, 0), (2, 0), (0, 0), (2, 5), (0, 5),
            (1, 5)]).map
          (fun p => (AllDead p.1, p.2, countResult ShootResult.Kill p.2,
            countResult ShootResult.Hit p.2, countResult ShootResult.Miss p.2))
        = some (true,
            [ShootResult.Miss, ShootResult.Miss, ShootResult.Miss, ShootResult.Miss,
              ShootResult.Hit, ShootResult.Kill,
              ShootResult.Hit, ShootResult.Hit, ShootResult.Hit, ShootResult.Kill,
              ShootResult.Kill,
              ShootResult.Hit, ShootResult.Kill,
              ShootResult.Hit, ShootResult.Hit, ShootResult.Hit, ShootResult.Kill,
              ShootResult.Hit, ShootResult.Hit, ShootResult.Kill],
            6, 10, 4) := by
  decide

/-! ## The judge: what a match returns once its rounds have returned -/

/-- `judgeMatch` in terms of what the main round left behind. -/
theorem judgeMatch_eq {fm : Fmt} {fuel : Nat} {masterFactory slaveFactory : PlayerFactory}
    {masterField : Option ShipField} {conf : Configuration} {result : roleError}
    (h : roundEnd ((newRound (Player.real (masterFactory 0) [])
        (Player.real (slaveFactory 0) [])).Judge fm fuel) = some (masterField, conf, result)) :
    judgeMatch fm fuel masterFactory slaveFactory =
      if errorsIs (some result.Err) GoError.errPlayerWon then
        Run.done (ResultFromWinner result.Role, none)
      else if ¬ errorsIs (some result.Err) ErrTerminatedMemoryLimit then
        Run.done (ResultFromWinner result.Role.Other, some result.Err)
      else if result.Role = Role.RoleMaster then Run.done (Result.SlaveWon, some result.Err)
      else
        masterField.elim Run.crash
          (fun f => judgeBreaker fm fuel (ResetShots f) conf masterFactory) := by
  unfold judgeMatch
  cases hr : (newRound (Player.real (masterFactory 0) [])
      (Player.real (slaveFactory 0) [])).Judge fm fuel with
  | done p =>
    obtain ⟨r, res⟩ := p
    rw [hr] at h
    simp only [roundEnd, Option.some.injEq, Prod.mk.injEq] at h
    obtain ⟨h1, h2, h3⟩ := h
    subst h1 h2 h3
    simp only
    cases r.fieldByRole Role.RoleMaster <;> rfl
  | crash =>
    rw [hr] at h
    simp [roundEnd] at h
  | fuelOut =>
    rw [hr] at h
    simp [roundEnd] at h

/-- `judgeBreaker` in terms of the `*roleError` the breaker round returned. -/
theorem judgeBreaker_eq {fm : Fmt} {fuel : Nat} {masterFactory : PlayerFactory}
    {f : ShipField} {conf : Configuration} {endField : Option ShipField}
    {endConf : Configuration} {result : roleError}
    (h : roundEnd ((newRound (Player.mock (newMockMaster f conf))
        (Player.real (masterFactory 1) [])).Judge fm fuel)
          = some (endField, endConf, result)) :
    judgeBreaker fm fuel f conf masterFactory =
      if result.Role ≠ Role.RoleSlave then Run.done (Result.MasterWon, none)
      else if errorsIs (some result.Err) GoError.errPlayerWon then
        Run.done (Result.MasterWon, none)
      else
        Run.done (Result.Tie, some (GoError.wrap "error during breaker round: " result.Err)) := by
  unfold judgeBreaker
  cases hr : (newRound (Player.mock (newMockMaster f conf))
      (Player.real (masterFactory 1) [])).Judge fm fuel with
  | done p =>
    obtain ⟨r, res⟩ := p
    rw [hr] at h
    simp only [roundEnd, Option.some.injEq, Prod.mk.injEq] at h
    obtain ⟨_, _, h3⟩ := h
    subst h3
    rfl
  | crash =>
    rw [hr] at h
    simp [roundEnd] at h
  | fuelOut =>
    rw [hr] at h
    simp [roundEnd] at h

/-- `Judge` in terms of what `judgeMatch` returned. -/
theorem Judge_eq {fm : Fmt} {fuel : Nat} {master slave : PlayerFactory} {verdict : Result}
    {details : Option GoError}
    (h : judgeMatch fm fuel master slave = Run.done (verdict, details)) :
    Judge fm fuel master slave = Run.done (Judge.toVerdict verdict details) := by
  unfold Judge
  rw [h]

/-- Wrapping an error keeps the answers of `errors.Is` for the targets of the judge. -/
theorem errorsIs_wrap (text : String) (e target : GoError)
    (ht : ∀ t c, target ≠ GoError.wrap t c) :
    errorsIs (some (GoError.wrap text e)) target = errorsIs (some e) target := by
  simp only [errorsIs, GoError.Is]
  have : decide (GoError.wrap text e = target) = false := by
    simp only [decide_eq_false_iff_not]
    intro hc
    exact ht text e hc.symm
  rw [this, Bool.false_or]

/-- A match in which a breaker round is played: the main round ended with a memory-limit
error attributed to the slave after the master's field `f` had been retrieved, and the
breaker round returned `result`. -/
theorem judgeMatch_breaker {fm : Fmt} {fuel : Nat} {masterFactory slaveFactory : PlayerFactory}
    {f : ShipField} {conf : Configuration} {mainResult : roleError}
    {endField : Option ShipField} {endConf : Configuration} {result : roleError}
    (hmain : roundEnd ((newRound (Player.real (masterFactory 0) [])
        (Player.real (slaveFactory 0) [])).Judge fm fuel) = some (some f, conf, mainResult))
    (hpw : errorsIs (some mainResult.Err) GoError.errPlayerWon = false)
    (hml : errorsIs (some mainResult.Err) ErrTerminatedMemoryLimit = true)
    (hrole : mainResult.Role = Role.RoleSlave)
    (hbreak : roundEnd ((newRound (Player.mock (newMockMaster (ResetShots f) conf))
        (Player.real (masterFactory 1) [])).Judge fm fuel)
          = some (endField, endConf, result)) :
    judgeMatch fm fuel masterFactory slaveFactory =
      if result.Role ≠ Role.RoleSlave then Run.done (Result.MasterWon, none)
      else if errorsIs (some result.Err) GoError.errPlayerWon then
        Run.done (Result.MasterWon, none)
      else
        Run.done (Result.Tie, some (GoError.wrap "error during breaker round: " result.Err)) := by
  rw [judgeMatch_eq hmain, hpw, hml, hrole]
  simp only [Bool.false_eq_true, if_false, not_true_eq_false, reduceCtorEq, Option.elim]
  exact judgeBreaker_eq hbreak

/-! ## Claims about the judge -/

/-- C15: winner rule of `judgeMatch`. Once the main round has returned the error `result`:
if its cause chain holds `errPlayerWon`, the role of `result` has won and no error is
returned; otherwise, if the chain holds no `Terminated{MemoryLimit}`, the other role wins and
the error is returned; otherwise, if the role is Master, Slave wins and the error is
returned; and only otherwise (memory limit attributed to Slave) the result is that of a
breaker round, played with the master's field after `ResetShots` and the configuration of
the main round (a panic when that field was never retrieved). -/
theorem judgeMatch_winner_rule (fm : Fmt) (fuel : Nat)
    (masterFactory slaveFactory : PlayerFactory) (masterField : Option ShipField)
    (conf : Configuration) (result : roleError)
    (hround : roundEnd ((newRound (Player.real (masterFactory 0) [])
        (Player.real (slaveFactory 0) [])).Judge fm fuel)
          = some (masterField, conf, result)) :
    (errorsIs (some result.Err) GoError.errPlayerWon = true →
        judgeMatch fm fuel masterFactory slaveFactory
          = Run.done (ResultFromWinner result.Role, none)
          ∧ (result.Role = Role.RoleMaster → ResultFromWinner result.Role = Result.MasterWon)
          ∧ (result.Role = Role.RoleSlave → ResultFromWinner result.Role = Result.SlaveWon))
      ∧ (errorsIs (some result.Err) GoError.errPlayerWon = false →
          errorsIs (some result.Err) ErrTerminatedMemoryLimit = false →
          judgeMatch fm fuel masterFactory slaveFactory
            = Run.done (ResultFromWinner result.Role.Other, some result.Err)
            ∧ (result.Role = Role.RoleMaster →
                ResultFromWinner result.Role.Other = Result.SlaveWon)
            ∧ (result.Role = Role.RoleSlave →
                ResultFromWinner result.Role.Other = Result.MasterWon))
      ∧ (errorsIs (some result.Err) GoError.errPlayerWon = false →
          errorsIs (some result.Err) ErrTerminatedMemoryLimit = true →
          result.Role = Role.RoleMaster →
          judgeMatch fm fuel masterFactory slaveFactory
            = Run.done (Result.SlaveWon, some result.Err))
      ∧ (errorsIs (some result.Err) GoError.errPlayerWon = false →
          errorsIs (some result.Err) ErrTerminatedMemoryLimit = true →
          result.Role = Role.RoleSlave →
          judgeMatch fm fuel masterFactory slaveFactory
            = masterField.elim Run.crash
                (fun f => judgeBreaker fm fuel (ResetShots f) conf masterFactory)) := by
  have h := judgeMatch_eq hround
  refine ⟨?_, ?_, ?_, ?_⟩
  · intro hpw
    rw [h, hpw]
    refine ⟨rfl, ?_, ?_⟩
    · intro hr
      rw [hr]
      rfl
    · intro hr
      rw [hr]
      rfl
  · intro hpw hml
    rw [h, hpw, hml]
    refine ⟨by simp, ?_, ?_⟩
    · intro hr
      rw [hr]
      rfl
    · intro hr
      rw [hr]
      rfl
  · intro hpw hml hr
    rw [h, hpw, hml, hr]
    simp
  · intro hpw hml hr
    rw [h, hpw, hml, hr]
    simp

/-- C15 witness: the master is terminated for memory while answering `create master`; the
slave wins and the error is returned. -/
theorem judgeMatch_winner_rule_witness :
    roundEnd ((newRound
        (Player.real ((fun _ => failingAt "create master" ErrTerminatedMemoryLimit) 0) [])
        (Player.real ((fun _ => honestPlayer) 0) [])).Judge decimalFmt 5)
        = some (none, ⟨0, 0, ⟨0, 0, 0, 0⟩⟩,
            ⟨Role.RoleMaster, GoError.wrap "failed to create role: " ErrTerminatedMemoryLimit⟩)
      ∧ judgeMatch decimalFmt 5 (fun _ => failingAt "create master" ErrTerminatedMemoryLimit)
          (fun _ => honestPlayer)
        = Run.done (Result.SlaveWon,
            some (GoError.wrap "failed to create role: " ErrTerminatedMemoryLimit)) :=
  ⟨by decide,
    (judgeMatch_winner_rule decimalFmt 5
      (fun _ => failingAt "create master" ErrTerminatedMemoryLimit) (fun _ => honestPlayer)
      none ⟨0, 0, ⟨0, 0, 0, 0⟩⟩
      ⟨Role.RoleMaster, GoError.wrap "failed to create role: " ErrTerminatedMemoryLimit⟩
      (by decide)).2.2.1 (by decide) (by decide) rfl⟩

/-- C16: reason derivation of `Judge.Judge`. Once `judgeMatch` has returned the winner
`verdict` and the error `details`, `Judge` returns a verdict whose details are the text of
`details` (empty for nil) and whose reason and winner follow the first test that succeeds on
the cause chain of `details`: `errTimeoutGlobal` gives GTL with the winner unchanged;
otherwise `errTimeoutMaster` gives TL with winner slave; otherwise `errTimeoutSlave` gives TL
with winner master; otherwise `Terminated{MemoryLimit}` gives ML, otherwise a non-nil error
gives RE, and a nil error gives OK, the winner being unchanged in these three cases. -/
theorem Judge_reason_precedence (fm : Fmt) (fuel : Nat) (master slave : PlayerFactory)
    (verdict : Result) (details : Option GoError)
    (h : judgeMatch fm fuel master slave = Run.done (verdict, details)) :
    ∃ v, Judge fm fuel master slave = Run.done v
      ∧ v.Details = details.elim "" GoError.Error
      ∧ (errorsIs details GoError.errTimeoutGlobal = true →
          v.Reason = Reason.GlobalTimeout ∧ v.Winner = verdict)
      ∧ (errorsIs details GoError.errTimeoutGlobal = false →
          errorsIs details GoError.errTimeoutMaster = true →
          v.Reason = Reason.Timeout ∧ v.Winner = Result.SlaveWon)
      ∧ (errorsIs details GoError.errTimeoutGlobal = false →
          errorsIs details GoError.errTimeoutMaster = false →
          errorsIs details GoError.errTimeoutSlave = true →
          v.Reason = Reason.Timeout ∧ v.Winner = Result.MasterWon)
      ∧ (errorsIs details GoError.errTimeoutGlobal = false →
          errorsIs details GoError.errTimeoutMaster = false →
          errorsIs details GoError.errTimeoutSlave = false →
          errorsIs details ErrTerminatedMemoryLimit = true →
          v.Reason = Reason.MemoryLimit ∧ v.Winner = verdict)
      ∧ (errorsIs details GoError.errTimeoutGlobal = false →
          errorsIs details GoError.errTimeoutMaster = false →
          errorsIs details GoError.errTimeoutSlave = false →
          errorsIs details ErrTerminatedMemoryLimit = false →
          details ≠ none →
          v.Reason = Reason.RuntimeError ∧ v.Winner = verdict)
      ∧ (details = none → v.Reason = Reason.Ok ∧ v.Winner = verdict) := by
  refine ⟨Judge.toVerdict verdict details, Judge_eq h, ?_, ?_, ?_, ?_, ?_, ?_, ?_⟩
  · cases details <;> rfl
  · intro h1
    simp [Judge.toVerdict, Judge.reason, h1]
  · intro h1 h2
    simp [Judge.toVerdict, Judge.reason, h1, h2]
  · intro h1 h2 h3
    simp [Judge.toVerdict, Judge.reason, h1, h2, h3]
  · intro h1 h2 h3 h4
    simp [Judge.toVerdict, Judge.reason, h1, h2, h3, h4]
  · intro h1 h2 h3 h4 h5
    simp [Judge.toVerdict, Judge.reason, h1, h2, h3, h4, h5]
  · intro h1
    subst h1
    simp [Judge.toVerdict, Judge.reason, errorsIs]

/-- C16 witness: the master is terminated for memory while answering `create master`; the
verdict is slave, ML. -/
theorem Judge_reason_precedence_witness :
    judgeMatch decimalFmt 5 (fun _ => failingAt "create master" ErrTerminatedMemoryLimit)
        (fun _ => honestPlayer)
        = Run.done (Result.SlaveWon,
            some (GoError.wrap "failed to create role: " ErrTerminatedMemoryLimit))
      ∧ ∃ v, Judge decimalFmt 5 (fun _ => failingAt "create master" ErrTerminatedMemoryLimit)
            (fun _ => honestPlayer) = Run.done v
          ∧ v.Details = "failed to create role: player terminated due to memory limit"
          ∧ v.Reason = Reason.MemoryLimit ∧ v.Winner = Result.SlaveWon := by
  refine ⟨by decide, ?_⟩
  obtain ⟨v, hv, hd, _, _, _, hml, _, _⟩ :=
    Judge_reason_precedence decimalFmt 5
      (fun _ => failingAt "create master" ErrTerminatedMemoryLimit) (fun _ => honestPlayer)
      Result.SlaveWon (some (GoError.wrap "failed to create role: " ErrTerminatedMemoryLimit))
      (by decide)
  exact ⟨v, hv, by rw [hd]; decide, hml (by decide) (by decide) (by decide) (by decide)⟩

/-- C17 (evaluation at the failing input): the master answers every command honestly and the slave is
terminated for memory while answering `create slave`. The main round returns that error
attributed to Slave with the master's field still nil, since `InitPlayer(Slave)` runs before
`StartPlayer(Master)`; `judgeMatch` then calls `ResetShots` on the nil field, and
`Judge.Judge` panics instead of returning a verdict. -/
theorem Judge_panics_on_unretrieved_master_field :
    roundEnd ((newRound (Player.real honestPlayer [])
        (Player.real (failingAt "create slave" ErrTerminatedMemoryLimit) [])).Judge
          decimalFmt 5)
        = some (none, ⟨0, 0, ⟨0, 0, 0, 0⟩⟩,
            ⟨Role.RoleSlave, GoError.wrap "failed to create role: " ErrTerminatedMemoryLimit⟩)
      ∧ Judge decimalFmt 5 (fun _ => honestPlayer)
          (fun _ => failingAt "create slave" ErrTerminatedMemoryLimit) = Run.crash := by
  decide

/-- C18 (counterexample): master and slave are honest players on the 1x1 field with one
ship, but the slave is terminated for memory while answering `set width 1`. The main round
returns that error attributed to Slave; the breaker round, played by a fresh master against
the mock holding the master's field, ends with the master winning; `Judge.Judge` returns
winner master with reason OK and empty details, not reason ML. -/
theorem Judge_reason_OK_after_clean_breaker :
    roundEnd ((newRound (Player.real honestPlayer [])
        (Player.real (failingAt "set width 1" ErrTerminatedMemoryLimit) [])).Judge
          decimalFmt 5)
        = some (some ⟨[(0, 142)], ⟨1, 1, ⟨1, 0, 0, 0⟩⟩, ⟨1, 1, ⟨1, 0, 0, 0⟩⟩⟩,
            ⟨1, 1, ⟨1, 0, 0, 0⟩⟩,
            ⟨Role.RoleSlave,
              GoError.wrap "failed to set configuration: " ErrTerminatedMemoryLimit⟩)
      ∧ (roundEnd ((newRound
          (Player.mock (newMockMaster
            (ResetShots ⟨[(0, 142)], ⟨1, 1, ⟨1, 0, 0, 0⟩⟩, ⟨1, 1, ⟨1, 0, 0, 0⟩⟩⟩)
            ⟨1, 1, ⟨1, 0, 0, 0⟩⟩))
          (Player.real honestPlayer [])).Judge decimalFmt 5)).map (fun e => e.2.2)
        = some (wonAs Role.RoleSlave)
      ∧ Judge decimalFmt 5 (fun _ => honestPlayer)
          (fun _ => failingAt "set width 1" ErrTerminatedMemoryLimit)
        = Run.done ⟨Result.MasterWon, Reason.Ok, ""⟩
      ∧ Reason.Ok ≠ Reason.MemoryLimit := by
  decide

/-- C18 (amended): whenever the main round ends with a memory-limit error attributed to
Slave (the master's field having been retrieved) and the breaker round ends without an error
of the real master (with an error attributed to the mock's role, or with `errPlayerWon`),
`Judge.Judge` returns the verdict winner master, reason OK, with empty details. -/
theorem Judge_clean_breaker (fm : Fmt) (fuel : Nat) (masterFactory slaveFactory : PlayerFactory)
    (f : ShipField) (conf : Configuration) (mainResult : roleError)
    (endField : Option ShipField) (endConf : Configuration) (result : roleError)
    (hmain : roundEnd ((newRound (Player.real (masterFactory 0) [])
        (Player.real (slaveFactory 0) [])).Judge fm fuel) = some (some f, conf, mainResult))
    (hpw : errorsIs (some mainResult.Err) GoError.errPlayerWon = false)
    (hml : errorsIs (some mainResult.Err) ErrTerminatedMemoryLimit = true)
    (hrole : mainResult.Role = Role.RoleSlave)
    (hbreak : roundEnd ((newRound (Player.mock (newMockMaster (ResetShots f) conf))
        (Player.real (masterFactory 1) [])).Judge fm fuel)
          = some (endField, endConf, result))
    (hclean : result.Role ≠ Role.RoleSlave
      ∨ errorsIs (some result.Err) GoError.errPlayerWon = true) :
    Judge fm fuel masterFactory slaveFactory
      = Run.done ⟨Result.MasterWon, Reason.Ok, ""⟩ := by
  have h := judgeMatch_breaker hmain hpw hml hrole hbreak
  have h2 : judgeMatch fm fuel masterFactory slaveFactory
      = Run.done (Result.MasterWon, none) := by
    rw [h]
    rcases hclean with hc | hc
    · rw [if_pos hc]
    · by_cases hr : result.Role ≠ Role.RoleSlave
      · rw [if_pos hr]
      · rw [if_neg hr, if_pos hc]
  rw [Judge_eq h2]
  rfl

/-- C18 witness: honest players on the 1x1 field with one ship, the slave being terminated
for memory while answering `set width 1`; the fresh master wins the breaker round. -/
theorem Judge_clean_breaker_witness :
    Judge decimalFmt 5 (fun _ => honestPlayer)
        (fun _ => failingAt "set width 1" ErrTerminatedMemoryLimit)
      = Run.done ⟨Result.MasterWon, Reason.Ok, ""⟩ :=
  Judge_clean_breaker decimalFmt 5 (fun _ => honestPlayer)
    (fun _ => failingAt "set width 1" ErrTerminatedMemoryLimit)
    ⟨[(0, 142)], ⟨1, 1, ⟨1, 0, 0, 0⟩⟩, ⟨1, 1, ⟨1, 0, 0, 0⟩⟩⟩ ⟨1, 1, ⟨1, 0, 0, 0⟩⟩
    ⟨Role.RoleSlave, GoError.wrap "failed to set configuration: " ErrTerminatedMemoryLimit⟩
    (some ⟨[(0, 143)], ⟨1, 1, ⟨1, 0, 0, 0⟩⟩, ⟨1, 1, ⟨0, 0, 0, 0⟩⟩⟩) ⟨1, 1, ⟨1, 0, 0, 0⟩⟩
    (wonAs Role.RoleSlave) (by decide) (by decide) (by decide) rfl (by decide)
    (Or.inr (by decide))

/-- The reason closure sees through the text `judgeMatch` puts in front of the error of the
breaker round. -/
theorem Judge.reason_wrap (verdict : Result) (text : String) (e : GoError) :
    Judge.reason verdict (some (GoError.wrap text e)) = Judge.reason verdict (some e) := by
  unfold Judge.reason
  rw [errorsIs_wrap text e GoError.errTimeoutGlobal (by intro t c hc; cases hc),
    errorsIs_wrap text e GoError.errTimeoutMaster (by intro t c hc; cases hc),
    errorsIs_wrap text e GoError.errTimeoutSlave (by intro t c hc; cases hc),
    errorsIs_wrap text e ErrTerminatedMemoryLimit (by intro t c hc; cases hc)]
  simp

/-- A breaker round that ends with an error of the real master: `Judge` returns the verdict
derived from that error, the winner of `judgeMatch` being tie. -/
theorem Judge_of_failed_breaker {fm : Fmt} {fuel : Nat} {masterFactory slaveFactory : PlayerFactory}
    {f : ShipField} {conf : Configuration} {mainResult : roleError}
    {endField : Option ShipField} {endConf : Configuration} {result : roleError}
    (hmain : roundEnd ((newRound (Player.real (masterFactory 0) [])
        (Player.real (slaveFactory 0) [])).Judge fm fuel) = some (some f, conf, mainResult))
    (hpw : errorsIs (some mainResult.Err) GoError.errPlayerWon = false)
    (hml : errorsIs (some mainResult.Err) ErrTerminatedMemoryLimit = true)
    (hrole : mainResult.Role = Role.RoleSlave)
    (hbreak : roundEnd ((newRound (Player.mock (newMockMaster (ResetShots f) conf))
        (Player.real (masterFactory 1) [])).Judge fm fuel)
          = some (endField, endConf, result))
    (hfail : result.Role = Role.RoleSlave)
    (hnpw : errorsIs (some result.Err) GoError.errPlayerWon = false) :
    Judge fm fuel masterFactory slaveFactory
      = Run.done ⟨(Judge.reason Result.Tie (some result.Err)).1,
          (Judge.reason Result.Tie (some result.Err)).2,
          "error during breaker round: " ++ result.Err.Error⟩ := by
  have h := judgeMatch_breaker hmain hpw hml hrole hbreak
  rw [hfail, hnpw] at h
  simp only [ne_eq, not_true_eq_false, if_false, Bool.false_eq_true] at h
  rw [Judge_eq h]
  simp only [Judge.toVerdict, Judge.reason_wrap, GoError.Error]

/-- The table of the reason closure for a non-nil error. -/
theorem Judge.reason_some (verdict : Result) (e : GoError) :
    (errorsIs (some e) GoError.errTimeoutGlobal = true →
        Judge.reason verdict (some e) = (verdict, Reason.GlobalTimeout))
      ∧ (errorsIs (some e) GoError.errTimeoutGlobal = false →
          errorsIs (some e) GoError.errTimeoutMaster = true →
          Judge.reason verdict (some e) = (Result.SlaveWon, Reason.Timeout))
      ∧ (errorsIs (some e) GoError.errTimeoutGlobal = false →
          errorsIs (some e) GoError.errTimeoutMaster = false →
          errorsIs (some e) GoError.errTimeoutSlave = true →
          Judge.reason verdict (some e) = (Result.MasterWon, Reason.Timeout))
      ∧ (errorsIs (some e) GoError.errTimeoutGlobal = false →
          errorsIs (some e) GoError.errTimeoutMaster = false →
          errorsIs (some e) GoError.errTimeoutSlave = false →
          errorsIs (some e) ErrTerminatedMemoryLimit = true →
          Judge.reason verdict (some e) = (verdict, Reason.MemoryLimit))
      ∧ (errorsIs (some e) GoError.errTimeoutGlobal = false →
          errorsIs (some e) GoError.errTimeoutMaster = false →
          errorsIs (some e) GoError.errTimeoutSlave = false →
          errorsIs (some e) ErrTerminatedMemoryLimit = false →
          Judge.reason verdict (some e) = (verdict, Reason.RuntimeError)) := by
  refine ⟨?_, ?_, ?_, ?_, ?_⟩
  · intro h1
    simp [Judge.reason, h1]
  · intro h1 h2
    simp [Judge.reason, h1, h2]
  · intro h1 h2 h3
    simp [Judge.reason, h1, h2, h3]
  · intro h1 h2 h3 h4
    simp [Judge.reason, h1, h2, h3, h4]
  · intro h1 h2 h3 h4
    simp [Judge.reason, h1, h2, h3, h4]

/-- C19 (counterexample): master and slave are honest players on the 1x1 field with one
ship; the slave is terminated for memory while answering `set width 1`, and in the breaker
round the fresh master answers `shot` with the text `nope`, an invalid response. The breaker
round returns an error attributed to the real master (role Slave of that round), and
`Judge.Judge` returns winner tie with reason RE, not ML. -/
theorem Judge_failed_breaker_reason_is_RE :
    (roundEnd ((newRound (Player.real honestPlayer [])
        (Player.real (failingAt "set width 1" ErrTerminatedMemoryLimit) [])).Judge
          decimalFmt 5)).map (fun e => e.2.2)
        = some ⟨Role.RoleSlave,
            GoError.wrap "failed to set configuration: " ErrTerminatedMemoryLimit⟩
      ∧ (roundEnd ((newRound
          (Player.mock (newMockMaster
            (ResetShots ⟨[(0, 142)], ⟨1, 1, ⟨1, 0, 0, 0⟩⟩, ⟨1, 1, ⟨1, 0, 0, 0⟩⟩⟩)
            ⟨1, 1, ⟨1, 0, 0, 0⟩⟩))
          (Player.real (repliesAt "shot" "nope") [])).Judge decimalFmt 5)).map
            (fun e => e.2.2)
        = some ⟨Role.RoleSlave,
            GoError.wrap "failed to request shoot coordinaes: "
              (GoError.plain "expected integer")⟩
      ∧ Judge decimalFmt 5
          (fun n => if n = 0 then honestPlayer else repliesAt "shot" "nope")
          (fun _ => failingAt "set width 1" ErrTerminatedMemoryLimit)
        = Run.done ⟨Result.Tie, Reason.RuntimeError,
            "error during breaker round: failed to request shoot coordinaes: expected integer"⟩
      ∧ Reason.RuntimeError ≠ Reason.MemoryLimit := by
  decide

/-- C19 (amended): whenever the main round ends with a memory-limit error attributed to
Slave (the master's field having been retrieved) and the breaker round ends with an error
`e` attributed to the real master whose cause chain holds neither `errTimeoutMaster` nor
`errTimeoutSlave`, `Judge.Judge` returns a verdict whose winner is tie, whose details are
the text `error during breaker round: ` followed by the text of `e`, and whose reason is
that of `e`: GTL when its cause chain holds `errTimeoutGlobal`, otherwise ML when it holds
`Terminated{MemoryLimit}`, otherwise (for example an invalid response) RE. -/
theorem Judge_failed_breaker_verdict (fm : Fmt) (fuel : Nat)
    (masterFactory slaveFactory : PlayerFactory)
    (f : ShipField) (conf : Configuration) (mainResult : roleError)
    (endField : Option ShipField) (endConf : Configuration) (result : roleError)
    (hmain : roundEnd ((newRound (Player.real (masterFactory 0) [])
        (Player.real (slaveFactory 0) [])).Judge fm fuel) = some (some f, conf, mainResult))
    (hpw : errorsIs (some mainResult.Err) GoError.errPlayerWon = false)
    (hml : errorsIs (some mainResult.Err) ErrTerminatedMemoryLimit = true)
    (hrole : mainResult.Role = Role.RoleSlave)
    (hbreak : roundEnd ((newRound (Player.mock (newMockMaster (ResetShots f) conf))
        (Player.real (masterFactory 1) [])).Judge fm fuel)
          = some (endField, endConf, result))
    (hfail : result.Role = Role.RoleSlave)
    (hnpw : errorsIs (some result.Err) GoError.errPlayerWon = false)
    (htm : errorsIs (some result.Err) GoError.errTimeoutMaster = false)
    (hts : errorsIs (some result.Err) GoError.errTimeoutSlave = false) :
    ∃ v, Judge fm fuel masterFactory slaveFactory = Run.done v
      ∧ v.Winner = Result.Tie
      ∧ v.Details = "error during breaker round: " ++ result.Err.Error
      ∧ (errorsIs (some result.Err) GoError.errTimeoutGlobal = true →
          v.Reason = Reason.GlobalTimeout)
      ∧ (errorsIs (some result.Err) GoError.errTimeoutGlobal = false →
          errorsIs (some result.Err) ErrTerminatedMemoryLimit = true →
          v.Reason = Reason.MemoryLimit)
      ∧ (errorsIs (some result.Err) GoError.errTimeoutGlobal = false →
          errorsIs (some result.Err) ErrTerminatedMemoryLimit = false →
          v.Reason = Reason.RuntimeError) := by
  obtain ⟨t1, _, _, t4, t5⟩ := Judge.reason_some Result.Tie result.Err
  refine ⟨_, Judge_of_failed_breaker hmain hpw hml hrole hbreak hfail hnpw, ?_, rfl, ?_, ?_,
    ?_⟩
  · cases h1 : errorsIs (some result.Err) GoError.errTimeoutGlobal
    · cases h4 : errorsIs (some result.Err) ErrTerminatedMemoryLimit
      · simp only [t5 h1 htm hts h4]
      · simp only [t4 h1 htm hts h4]
    · simp only [t1 h1]
  · intro h1
    simp only [t1 h1]
  · intro h1 h4
    simp only [t4 h1 htm hts h4]
  · intro h1 h4
    simp only [t5 h1 htm hts h4]

/-- C19 witness: in the breaker round the fresh master is terminated for memory while
answering `shot`; the verdict is tie, ML, and the details start with the breaker text. -/
theorem Judge_failed_breaker_verdict_witness :
    ∃ v, Judge decimalFmt 5
        (fun n => if n = 0 then honestPlayer else failingAt "shot" ErrTerminatedMemoryLimit)
        (fun _ => failingAt "set width 1" ErrTerminatedMemoryLimit) = Run.done v
      ∧ v.Details = "error during breaker round: "
          ++ "failed to request shoot coordinaes: player terminated due to memory limit"
      ∧ v.Winner = Result.Tie ∧ v.Reason = Reason.MemoryLimit := by
  obtain ⟨v, hv, hw, hd, _, hml, _⟩ :=
    Judge_failed_breaker_verdict decimalFmt 5
      (fun n => if n = 0 then honestPlayer else failingAt "shot" ErrTerminatedMemoryLimit)
      (fun _ => failingAt "set width 1" ErrTerminatedMemoryLimit)
      ⟨[(0, 142)], ⟨1, 1, ⟨1, 0, 0, 0⟩⟩, ⟨1, 1, ⟨1, 0, 0, 0⟩⟩⟩ ⟨1, 1, ⟨1, 0, 0, 0⟩⟩
      ⟨Role.RoleSlave, GoError.wrap "failed to set configuration: " ErrTerminatedMemoryLimit⟩
      (some ⟨[(0, 142)], ⟨1, 1, ⟨1, 0, 0, 0⟩⟩, ⟨1, 1, ⟨1, 0, 0, 0⟩⟩⟩) ⟨1, 1, ⟨1, 0, 0, 0⟩⟩
      ⟨Role.RoleSlave,
        GoError.wrap "failed to request shoot coordinaes: " ErrTerminatedMemoryLimit⟩
      (by decide) (by decide) (by decide) rfl (by decide) rfl (by decide) (by decide)
      (by decide)
  exact ⟨v, hv, hd, hw, hml (by decide) (by decide)⟩

/-- C20: master and slave are honest players on the 1x1 field with one ship; the slave is
terminated for memory while answering `set width 1`, and in the breaker round the fresh
master runs out of its time while answering `shot`, so that its error is the sentinel
`errTimeoutMaster`. The breaker round returns an error attributed to the real master, and
`judgeMatch` returns tie for it, as its comments say; yet `Judge.Judge` returns winner slave
(reason TL): its timeout test overrides the tie of the breaker. -/
theorem Judge_breaker_timeout_winner_is_slave :
    (roundEnd ((newRound (Player.real honestPlayer [])
        (Player.real (failingAt "set width 1" ErrTerminatedMemoryLimit) [])).Judge
          decimalFmt 5)).map (fun e => e.2.2)
        = some ⟨Role.RoleSlave,
            GoError.wrap "failed to set configuration: " ErrTerminatedMemoryLimit⟩
      ∧ (roundEnd ((newRound
          (Player.mock (newMockMaster
            (ResetShots ⟨[(0, 142)], ⟨1, 1, ⟨1, 0, 0, 0⟩⟩, ⟨1, 1, ⟨1, 0, 0, 0⟩⟩⟩)
            ⟨1, 1, ⟨1, 0, 0, 0⟩⟩))
          (Player.real (failingAt "shot" GoError.errTimeoutMaster) [])).Judge
            decimalFmt 5)).map (fun e => e.2.2)
        = some ⟨Role.RoleSlave,
            GoError.wrap "failed to request shoot coordinaes: " GoError.errTimeoutMaster⟩
      ∧ judgeMatch decimalFmt 5
          (fun n => if n = 0 then honestPlayer else failingAt "shot" GoError.errTimeoutMaster)
          (fun _ => failingAt "set width 1" ErrTerminatedMemoryLimit)
        = Run.done (Result.Tie, some (GoError.wrap "error during breaker round: "
            (GoError.wrap "failed to request shoot coordinaes: " GoError.errTimeoutMaster)))
      ∧ Judge decimalFmt 5
          (fun n => if n = 0 then honestPlayer else failingAt "shot" GoError.errTimeoutMaster)
          (fun _ => failingAt "set width 1" ErrTerminatedMemoryLimit)
        = Run.done ⟨Result.SlaveWon, Reason.Timeout,
            "error during breaker round: failed to request shoot coordinaes: master timeout"⟩
      ∧ Result.SlaveWon ≠ Result.Tie := by
  decide

/-! ## More fuel does not change what a run returns -/

theorem round.shootLoop_mono (fm : Fmt) :
    ∀ (fuel : Nat) (r : round) (role : Role) (o : Run (round × roleError)),
      o ≠ Run.fuelOut → round.shootLoop fm fuel r role = o →
      round.shootLoop fm (fuel + 1) r role = o := by
  intro fuel
  induction fuel with
  | zero =>
    intro r role o ho h
    simp only [round.shootLoop] at h
    exact absurd h.symm ho
  | succ fuel ih =>
    intro r role o ho h
    rw [round.shootLoop] at h ⊢
    cases hs : r.Shoot fm role with
    | crash =>
      rw [hs] at h
      exact h
    | fuelOut =>
      rw [hs] at h
      exact h
    | done p =>
      obtain ⟨r1, hit, e⟩ := p
      rw [hs] at h
      cases e with
      | some err => exact h
      | none => exact ih _ _ _ ho h

theorem roundJudge_mono (fm : Fmt) (fuel : Nat) (r : round) (o : Run (round × roleError))
    (ho : o ≠ Run.fuelOut) (h : r.Judge fm fuel = o) : r.Judge fm (fuel + 1) = o := by
  unfold round.Judge at h ⊢
  repeat' split at h
  all_goals first
    | exact h
    | exact round.shootLoop_mono fm fuel _ _ o ho h

theorem judgeBreaker_mono (fm : Fmt) (fuel : Nat) (f : ShipField) (conf : Configuration)
    (masterFactory : PlayerFactory) (o : Run (Result × Option GoError))
    (ho : o ≠ Run.fuelOut) (h : judgeBreaker fm fuel f conf masterFactory = o) :
    judgeBreaker fm (fuel + 1) f conf masterFactory = o := by
  unfold judgeBreaker at h ⊢
  cases hr : (newRound (Player.mock (newMockMaster f conf))
      (Player.real (masterFactory 1) [])).Judge fm fuel with
  | fuelOut =>
    rw [hr] at h
    exact absurd h.symm ho
  | crash =>
    rw [hr] at h
    rw [roundJudge_mono fm fuel _ _ (by intro hc; cases hc) hr]
    exact h
  | done p =>
    rw [hr] at h
    rw [roundJudge_mono fm fuel _ _ (by intro hc; cases hc) hr]
    exact h

theorem judgeMatch_mono (fm : Fmt) (fuel : Nat) (masterFactory slaveFactory : PlayerFactory)
    (o : Run (Result × Option GoError)) (ho : o ≠ Run.fuelOut)
    (h : judgeMatch fm fuel masterFactory slaveFactory = o) :
    judgeMatch fm (fuel + 1) masterFactory slaveFactory = o := by
  unfold judgeMatch at h ⊢
  cases hr : (newRound (Player.real (masterFactory 0) [])
      (Player.real (slaveFactory 0) [])).Judge fm fuel with
  | fuelOut =>
    rw [hr] at h
    exact absurd h.symm ho
  | crash =>
    rw [hr] at h
    rw [roundJudge_mono fm fuel _ _ (by intro hc; cases hc) hr]
    exact h
  | done p =>
    obtain ⟨r, result⟩ := p
    rw [hr] at h
    rw [roundJudge_mono fm fuel _ _ (by intro hc; cases hc) hr]
    simp only at h ⊢
    split_ifs at h ⊢
    all_goals first
      | exact h
      | (rcases hf : r.fieldByRole Role.RoleMaster with _ | masterField
         · rw [hf] at h
           exact h
         · rw [hf] at h
           exact judgeBreaker_mono fm fuel _ _ _ o ho h)

/-- A verdict (or a panic) reached within some number of shots per round is reached with
every larger number: what `Judge` returns does not depend on the fuel. -/
theorem Judge_mono (fm : Fmt) (fuel more : Nat) (master slave : PlayerFactory) (o : Run Verdict)
    (ho : o ≠ Run.fuelOut) (h : Judge fm fuel master slave = o) :
    Judge fm (fuel + more) master slave = o := by
  induction more with
  | zero => exact h
  | succ more ih =>
    unfold Judge at ih ⊢
    cases hm : judgeMatch fm (fuel + more) master slave with
    | fuelOut =>
      rw [hm] at ih
      exact absurd ih.symm ho
    | crash =>
      rw [hm] at ih
      have := judgeMatch_mono fm (fuel + more) master slave _ (by intro hc; cases hc) hm
      rw [Nat.add_succ, Nat.succ_eq_add_one, this]
      exact ih
    | done p =>
      rw [hm] at ih
      have := judgeMatch_mono fm (fuel + more) master slave _ (by intro hc; cases hc) hm
      rw [Nat.add_succ, Nat.succ_eq_add_one, this]
      exact ih

/-! ## Claims about configurations, the ship dump and container errors -/

/-- C28 (counterexample): the configuration `W = 1`, `H = 1`, `Sizes = [2^63 - 1, 1, 0, 0]`
has `int64` fields, positive dimensions, no negative count and a positive count, yet
`IsValid` returns an error: the sum of the counts wraps to `-2^63`. -/
theorem IsValid_rejects_wrapped_sum :
    (⟨1, 1, ⟨9223372036854775807, 1, 0, 0⟩⟩ : Configuration).IsGo
      ∧ ((⟨1, 1, ⟨9223372036854775807, 1, 0, 0⟩⟩ : Configuration).IsValid decimalFmt).isSome
          = true
      ∧ wrap64 (wrap64 (wrap64 (9223372036854775807 + 1) + 0) + 0) = -9223372036854775808 := by
  decide

/-- C28 (amended): for every configuration, `IsValid` returns no error iff `W > 0`, `H > 0`,
every `Sizes[i] ≥ 0` and the sum of the four counts, taken in wrapping 64-bit arithmetic, is
positive; for `int64` values whose counts sum to less than `2^63` this is the case iff
`W > 0`, `H > 0`, every `Sizes[i] ≥ 0` and at least one `Sizes[i]` is positive. -/
theorem IsValid_iff (fm : Fmt) (c : Configuration) :
    (c.IsValid fm = none ↔
        0 < c.W ∧ 0 < c.H ∧ 0 ≤ c.Sizes.c0 ∧ 0 ≤ c.Sizes.c1 ∧ 0 ≤ c.Sizes.c2 ∧ 0 ≤ c.Sizes.c3
          ∧ 0 < wrap64 (wrap64 (wrap64 (c.Sizes.c0 + c.Sizes.c1) + c.Sizes.c2) + c.Sizes.c3))
      ∧ (c.IsGo → c.Sizes.c0 + c.Sizes.c1 + c.Sizes.c2 + c.Sizes.c3 < 9223372036854775808 →
          (c.IsValid fm = none ↔
            0 < c.W ∧ 0 < c.H ∧ 0 ≤ c.Sizes.c0 ∧ 0 ≤ c.Sizes.c1 ∧ 0 ≤ c.Sizes.c2
              ∧ 0 ≤ c.Sizes.c3
              ∧ (0 < c.Sizes.c0 ∨ 0 < c.Sizes.c1 ∨ 0 < c.Sizes.c2 ∨ 0 < c.Sizes.c3))) := by
  have h1 : c.IsValid fm = none ↔
      0 < c.W ∧ 0 < c.H ∧ 0 ≤ c.Sizes.c0 ∧ 0 ≤ c.Sizes.c1 ∧ 0 ≤ c.Sizes.c2 ∧ 0 ≤ c.Sizes.c3
        ∧ 0 < wrap64 (wrap64 (wrap64 (c.Sizes.c0 + c.Sizes.c1) + c.Sizes.c2) + c.Sizes.c3) := by
    unfold Configuration.IsValid
    split_ifs with ha hb hc
    · constructor
      · intro h
        cases h
      · intro h
        omega
    · constructor
      · intro h
        cases h
      · intro h
        omega
    · constructor
      · intro h
        cases h
      · intro h
        omega
    · constructor
      · intro _
        refine ⟨by omega, by omega, by omega, by omega, by omega, by omega, by omega⟩
      · intro _
        rfl
  refine ⟨h1, ?_⟩
  intro hgo hsum
  rw [h1]
  obtain ⟨_, _, g0, g1, g2, g3⟩ := hgo
  unfold IsInt64 at g0 g1 g2 g3
  constructor
  · rintro ⟨hW, hH, p0, p1, p2, p3, hs⟩
    refine ⟨hW, hH, p0, p1, p2, p3, ?_⟩
    by_contra hno
    have e0 : c.Sizes.c0 = 0 := by omega
    have e1 : c.Sizes.c1 = 0 := by omega
    have e2 : c.Sizes.c2 = 0 := by omega
    have e3 : c.Sizes.c3 = 0 := by omega
    rw [e0, e1, e2, e3] at hs
    revert hs
    decide
  · rintro ⟨hW, hH, p0, p1, p2, p3, hs⟩
    refine ⟨hW, hH, p0, p1, p2, p3, ?_⟩
    rw [wrap64_eq_self (n := c.Sizes.c0 + c.Sizes.c1) (by unfold IsInt64; omega),
      wrap64_eq_self (n := c.Sizes.c0 + c.Sizes.c1 + c.Sizes.c2) (by unfold IsInt64; omega),
      wrap64_eq_self (n := c.Sizes.c0 + c.Sizes.c1 + c.Sizes.c2 + c.Sizes.c3)
        (by unfold IsInt64; omega)]
    omega

/-- C28 witness: the configuration of test `Shoot_RealField`. -/
theorem IsValid_iff_witness :
    (⟨6, 6, ⟨1, 2, 1, 2⟩⟩ : Configuration).IsGo
      ∧ ((1 : Int) + 2 + 1 + 2 < 9223372036854775808)
      ∧ ((⟨6, 6, ⟨1, 2, 1, 2⟩⟩ : Configuration).IsValid decimalFmt = none ↔
          (0 : Int) < 6 ∧ (0 : Int) < 6 ∧ (0 : Int) ≤ 1 ∧ (0 : Int) ≤ 2 ∧ (0 : Int) ≤ 1
            ∧ (0 : Int) ≤ 2 ∧ ((0 : Int) < 1 ∨ (0 : Int) < 2 ∨ (0 : Int) < 1 ∨ (0 : Int) < 2)) :=
  ⟨by decide, by decide,
    (IsValid_iff decimalFmt ⟨6, 6, ⟨1, 2, 1, 2⟩⟩).2 (by decide) (by decide)⟩

/-- The loop of `ParseShips` yields the ships of the longest run of well-formed lines. -/
theorem parseLines_eq (scan : String → Option (Int × Char × Int × Int)) (lines : List String) :
    parseLines scan lines = (lines.takeWhile (WellFormedLine scan)).map (shipOfLine scan) := by
  induction lines with
  | nil => rfl
  | cons line rest ih =>
    unfold parseLines
    cases hs : scan line with
    | none =>
      simp only [List.takeWhile, WellFormedLine, hs, List.map_nil]
    | some p =>
      obtain ⟨size, direction, x, y⟩ := p
      simp only
      by_cases hv : direction = 'v'
      · rw [if_pos hv, ih]
        simp only [List.takeWhile, WellFormedLine, hs, hv, decide_True, Bool.true_or,
          List.map_cons, shipOfLine]
      · rw [if_neg hv]
        by_cases hh : direction = 'h'
        · rw [if_pos hh, ih]
          simp only [List.takeWhile, WellFormedLine, hs, hh, Bool.or_true, List.map_cons,
            shipOfLine, decide_True]
          simp
        · rw [if_neg hh]
          simp only [List.takeWhile, WellFormedLine, hs, hv, hh, decide_False, Bool.or_self,
            List.map_nil]

/-- C30: `convertContainerErrToPlayerErr` maps a container termination (found anywhere on the
cause chain) whose run result carries no error to `Terminated{Normal}` for exit code 0, to
`Terminated{MemoryLimit}` for exit code 137 and to `Terminated{RuntimeError}` for every
other exit code; when the run result carries an error, that error is returned; and an error
that holds no container termination is returned unchanged. -/
theorem convertContainerErrToPlayerErr_cases :
    (∀ wraps : List String,
        convertContainerErrToPlayerErr (ContainerError.terminated wraps ⟨0, none⟩)
          = GoError.ErrorTerminated TerminationReason.ReasonNormal)
      ∧ (∀ wraps : List String,
          convertContainerErrToPlayerErr (ContainerError.terminated wraps ⟨137, none⟩)
            = GoError.ErrorTerminated TerminationReason.ReasonMemoryLimit)
      ∧ (∀ (wraps : List String) (code : Int), code ≠ 0 → code ≠ 137 →
          convertContainerErrToPlayerErr (ContainerError.terminated wraps ⟨code, none⟩)
            = GoError.ErrorTerminated TerminationReason.ReasonRuntimeError)
      ∧ (∀ (wraps : List String) (code : Int) (e : GoError),
          convertContainerErrToPlayerErr (ContainerError.terminated wraps ⟨code, some e⟩) = e)
      ∧ (∀ e : GoError, convertContainerErrToPlayerErr (ContainerError.other e) = e) := by
  refine ⟨fun _ => rfl, fun _ => rfl, ?_, fun _ _ _ => rfl, fun _ => rfl⟩
  intro wraps code h0 h137
  simp only [convertContainerErrToPlayerErr, if_neg h0, if_neg h137]

/-- C30 witness: exit code 1 (test `Test_RuntimeError`). -/
theorem convertContainerErrToPlayerErr_cases_witness :
    (1 : Int) ≠ 0 ∧ (1 : Int) ≠ 137
      ∧ convertContainerErrToPlayerErr (ContainerError.terminated [] ⟨1, none⟩)
          = GoError.ErrorTerminated TerminationReason.ReasonRuntimeError :=
  ⟨by decide, by decide,
    convertContainerErrToPlayerErr_cases.2.2.1 [] 1 (by decide) (by decide)⟩

/-! ## Steps of a round -/

/-- The other role of the other role is the role itself. -/
theorem Role.Other_Other (role : Role) : role.Other.Other = role := by
  cases role <;> rfl

/-- The other role is a different role. -/
theorem Role.Other_ne (role : Role) : role.Other ≠ role := by
  cases role <;> decide

/-- A command sent to the player of one role leaves the player of the other role, both field
references and the configuration as they were. -/
theorem SendCommand_frame {fm : Fmt} {r r1 : round} {role : Role} {cmd resp : String}
    {err : Option GoError} (h : r.SendCommand fm role cmd = Run.done (r1, resp, err)) :
    r1.playerByRole role.Other = r.playerByRole role.Other ∧ r1.masterField = r.masterField
      ∧ r1.slaveField = r.slaveField ∧ r1.conf = r.conf := by
  unfold round.SendCommand at h
  cases hp : (r.playerByRole role).SendCommand fm cmd with
  | none =>
    rw [hp] at h
    cases h
  | some t =>
    obtain ⟨p1, resp1, err1⟩ := t
    rw [hp] at h
    simp only [Run.done.injEq, Prod.mk.injEq] at h
    obtain ⟨h1, _, _⟩ := h
    subst h1
    cases role <;> simp [round.setPlayer, round.playerByRole, Role.Other]

/-- A command sent to the player of one role leaves the field of the other role as it
was. -/
theorem SendCommand_fieldByRole {fm : Fmt} {r r1 : round} {role : Role}
    {cmd resp : String} {err : Option GoError}
    (h : r.SendCommand fm role cmd = Run.done (r1, resp, err)) :
    r1.fieldByRole role.Other = r.fieldByRole role.Other := by
  obtain ⟨h1, h2, h3, _⟩ := SendCommand_frame h
  unfold round.fieldByRole
  rw [h1, h2, h3]

/-- A command sent to a player given by its behaviour is added to the commands it has
received, and the reply is the behaviour's. -/
theorem SendCommand_real {fm : Fmt} {r : round} {role : Role} {cmd : String}
    {b : Behaviour} {sent : List String} (h : r.playerByRole role = Player.real b sent) :
    r.SendCommand fm role cmd
      = Run.done (r.setPlayer role (Player.real b (sent ++ [cmd])),
          (b.SendCommand (sent ++ [cmd])).1, (b.SendCommand (sent ++ [cmd])).2) := by
  unfold round.SendCommand
  rw [h]
  rfl

/-- The player stored for a role is the player of that role. -/
theorem playerByRole_setPlayer (r : round) (role : Role) (p : Player) :
    (r.setPlayer role p).playerByRole role = p := by
  cases role <;> simp [round.setPlayer, round.playerByRole]

/-- The field stored for a role is the field of that role. -/
theorem fieldByRole_setField (r : round) (role : Role) (f : ShipField) :
    (r.setField role f).fieldByRole role = some f := by
  unfold round.setField
  split
  · rename_i m hf hp
    cases role
    · simp only [if_true] at hf
      simp only [round.playerByRole, if_true] at hp
      simp [round.fieldByRole, round.setPlayer, round.playerByRole, hf]
    · simp only [if_false, reduceCtorEq] at hf
      simp only [round.playerByRole, if_false, reduceCtorEq] at hp
      simp [round.fieldByRole, round.setPlayer, round.playerByRole, hf]
  · cases role <;> simp [round.fieldByRole, round.playerByRole]

/-- Storing the field of one role leaves the player of the other role and the configuration
as they were. -/
theorem setField_frame (r : round) (role : Role) (f : ShipField) :
    (r.setField role f).playerByRole role.Other = r.playerByRole role.Other
      ∧ (r.setField role f).conf = r.conf := by
  unfold round.setField
  split
  · cases role <;> simp [round.setPlayer, round.playerByRole, Role.Other]
  · cases role <;> simp [round.playerByRole, Role.Other]

/-- The test `isValidShot` accepts exactly the cells of the field of the configuration. -/
theorem isValidShot_iff (r : round) (x y : Int) :
    r.isValidShot x y = true ↔ CellInField r.conf (x, y) := by
  unfold round.isValidShot CellInField
  simp only [Bool.and_eq_true, decide_eq_true_eq]
  constructor
  · rintro ⟨⟨⟨h1, h2⟩, h3⟩, h4⟩
    exact ⟨h1, h3, h2, h4⟩
  · rintro ⟨h1, h3, h2, h4⟩
    exact ⟨⟨⟨h1, h2⟩, h3⟩, h4⟩

/-- The only error `FromString` returns. -/
theorem FromString_error {str : String} {err : GoError}
    (h : ShootResult.FromString str = Except.error err) :
    err = GoError.plain "invalid shoot result" := by
  unfold ShootResult.FromString at h
  split_ifs at h
  cases h
  rfl

/-- What `round.Shoot` returns once the field engine has answered: the error of a lying
victim, or what the acknowledgement of the shooter and the state of the victim's field
give. -/
theorem roundShoot_of_steps {fm : Fmt} {r r1 r2 : round} {shooter : Role}
    {resp resp2 : String} {x y : Int} {result expected : ShootResult} {vf vf1 : ShipField}
    (h1 : r.SendCommand fm shooter "shot" = Run.done (r1, resp, none))
    (h2 : fm.Sscan2 resp = Except.ok (x, y))
    (h3 : r1.isValidShot x y = true)
    (h4 : r1.SendCommand fm shooter.Other ("shot " ++ fm.Sprint x ++ " " ++ fm.Sprint y)
      = Run.done (r2, resp2, none))
    (h5 : ShootResult.FromString resp2 = Except.ok result)
    (h6 : r2.fieldByRole shooter.Other = some vf)
    (h7 : Shoot vf x y = some (vf1, expected)) :
    r.Shoot fm shooter =
      if result ≠ expected then
        Run.done (r2.setField shooter.Other vf1, false,
          some (failedAs shooter.Other
            (GoError.plain ("victim returned invalid shoot result: "
              ++ fm.Sprint result.toInt))))
      else
        match (r2.setField shooter.Other vf1).SendCommand fm shooter
            ("set result " ++ resp2) with
        | Run.crash => Run.crash
        | Run.fuelOut => Run.fuelOut
        | Run.done (r4, _, some err) =>
          Run.done (r4, false, some (failedAs shooter
            (GoError.wrap "failed to set shoot result: " err)))
        | Run.done (r4, resp4, none) =>
          if resp4 ≠ "ok" then
            Run.done (r4, false, some (failedAs shooter
              (GoError.plain ("failed to set shoot result, returned: " ++ fm.Quote resp4))))
          else if ¬ AllDead vf1 then Run.done (r4, decide (result ≠ ShootResult.Miss), none)
          else Run.done (r4, true, some (wonAs shooter)) := by
  unfold round.Shoot
  rw [h1]
  simp only [h2, h3, h4, h5, h6, h7, not_true_eq_false, if_false]
  by_cases hne : result = expected
  · simp only [hne, ne_eq, not_true_eq_false, if_false]
    cases h9 : (r2.setField shooter.Other vf1).SendCommand fm shooter
        ("set result " ++ resp2) with
    | crash => rfl
    | fuelOut => rfl
    | done t =>
      obtain ⟨r4, resp4, err⟩ := t
      cases err with
      | some e => rfl
      | none =>
        have hf : r4.fieldByRole shooter.Other = some vf1 := by
          rw [SendCommand_fieldByRole h9, fieldByRole_setField]
        simp only [hf]
  · simp only [ne_eq, hne, not_false_eq_true, if_true]


/-- A call of `round.Shoot` that returns no error, or the error `errPlayerWon` itself, has gone
through every step: the shooter named a cell of the field, the victim's answer was the
result of the field engine, and the shooter acknowledged `set result` with `ok`; it returns
`true` with `PlayerWon` for the shooter when the victim's field is then all dead, and
otherwise whether the result is not a miss, with no error. -/
theorem roundShoot_completed {fm : Fmt} {r r' : round} {shooter : Role} {b : Bool}
    {oe : Option roleError} (h : r.Shoot fm shooter = Run.done (r', b, oe))
    (hoe : ∀ e, oe = some e → e.Err = GoError.errPlayerWon) :
    ∃ r1 resp x y r2 resp2 result vf vf1,
      r.SendCommand fm shooter "shot" = Run.done (r1, resp, none)
      ∧ fm.Sscan2 resp = Except.ok (x, y)
      ∧ r1.isValidShot x y = true
      ∧ r1.SendCommand fm shooter.Other ("shot " ++ fm.Sprint x ++ " " ++ fm.Sprint y)
          = Run.done (r2, resp2, none)
      ∧ ShootResult.FromString resp2 = Except.ok result
      ∧ r2.fieldByRole shooter.Other = some vf
      ∧ Field.Shoot vf x y = some (vf1, result)
      ∧ (r2.setField shooter.Other vf1).SendCommand fm shooter ("set result " ++ resp2)
          = Run.done (r', "ok", none)
      ∧ r'.fieldByRole shooter.Other = some vf1
      ∧ ((AllDead vf1 = true ∧ b = true ∧ oe = some (wonAs shooter))
        ∨ (AllDead vf1 = false ∧ b = decide (result ≠ ShootResult.Miss) ∧ oe = none)) := by
  have hno : ∀ (q : round) (role : Role) (e : GoError), e ≠ GoError.errPlayerWon →
      Run.done (q, false, some (failedAs role e)) ≠ Run.done (r', b, oe) := by
    intro q role e he hq
    simp only [Run.done.injEq, Prod.mk.injEq] at hq
    exact he (hoe _ hq.2.2.symm)
  cases h1 : r.SendCommand fm shooter "shot" with
  | crash => unfold round.Shoot at h; rw [h1] at h; cases h
  | fuelOut => unfold round.Shoot at h; rw [h1] at h; cases h
  | done t1 =>
    obtain ⟨r1, resp, err1⟩ := t1
    cases err1 with
    | some e1 =>
      unfold round.Shoot at h
      rw [h1] at h
      exact absurd h (hno _ _ _ (by intro hc; cases hc))
    | none =>
      cases h2 : fm.Sscan2 resp with
      | error text =>
        unfold round.Shoot at h
        rw [h1] at h
        simp only [h2] at h
        exact absurd h (hno _ _ _ (by intro hc; cases hc))
      | ok p =>
        obtain ⟨x, y⟩ := p
        cases h3 : r1.isValidShot x y with
        | false =>
          unfold round.Shoot at h
          rw [h1] at h
          simp only [h2, h3, Bool.false_eq_true, not_false_eq_true, if_true] at h
          exact absurd h (hno _ _ _ (by intro hc; cases hc))
        | true =>
          cases h4 : r1.SendCommand fm shooter.Other
              ("shot " ++ fm.Sprint x ++ " " ++ fm.Sprint y) with
          | crash =>
            unfold round.Shoot at h
            rw [h1] at h
            simp only [h2, h3, h4, not_true_eq_false, if_false] at h
            cases h
          | fuelOut =>
            unfold round.Shoot at h
            rw [h1] at h
            simp only [h2, h3, h4, not_true_eq_false, if_false] at h
            cases h
          | done t2 =>
            obtain ⟨r2, resp2, err2⟩ := t2
            cases err2 with
            | some e2 =>
              unfold round.Shoot at h
              rw [h1] at h
              simp only [h2, h3, h4, not_true_eq_false, if_false] at h
              exact absurd h (hno _ _ _ (by intro hc; cases hc))
            | none =>
              cases h5 : ShootResult.FromString resp2 with
              | error e5 =>
                unfold round.Shoot at h
                rw [h1] at h
                simp only [h2, h3, h4, h5, not_true_eq_false, if_false] at h
                refine absurd h (hno _ _ _ ?_)
                rw [FromString_error h5]
                intro hc
                cases hc
              | ok result =>
                cases h6 : r2.fieldByRole shooter.Other with
                | none =>
                  unfold round.Shoot at h
                  rw [h1] at h
                  simp only [h2, h3, h4, h5, h6, not_true_eq_false, if_false] at h
                  cases h
                | some vf =>
                  cases h7 : Field.Shoot vf x y with
                  | none =>
                    unfold round.Shoot at h
                    rw [h1] at h
                    simp only [h2, h3, h4, h5, h6, h7, not_true_eq_false, if_false] at h
                    cases h
                  | some t7 =>
                    obtain ⟨vf1, expected⟩ := t7
                    rw [roundShoot_of_steps h1 h2 h3 h4 h5 h6 h7] at h
                    by_cases hne : result = expected
                    · subst hne
                      simp only [ne_eq, not_true_eq_false, if_false] at h
                      cases h9 : (r2.setField shooter.Other vf1).SendCommand fm shooter
                          ("set result " ++ resp2) with
                      | crash => rw [h9] at h; cases h
                      | fuelOut => rw [h9] at h; cases h
                      | done t9 =>
                        obtain ⟨r4, resp4, err4⟩ := t9
                        rw [h9] at h
                        cases err4 with
                        | some e4 =>
                          exact absurd h (hno _ _ _ (by intro hc; cases hc))
                        | none =>
                          simp only at h
                          by_cases hok : resp4 = "ok"
                          · subst hok
                            simp only [ne_eq, not_true_eq_false, if_false] at h
                            have hf : r4.fieldByRole shooter.Other = some vf1 := by
                              rw [SendCommand_fieldByRole h9, fieldByRole_setField]
                            cases hd : AllDead vf1 with
                            | true =>
                              simp only [hd, not_true_eq_false, if_false, Run.done.injEq,
                                Prod.mk.injEq] at h
                              obtain ⟨hr, hb, he⟩ := h
                              subst hr
                              exact ⟨r1, resp, x, y, r2, resp2, result, vf, vf1, rfl, h2, h3, h4,
                                h5, h6, h7, h9, hf, Or.inl ⟨hd, hb.symm, he.symm⟩⟩
                            | false =>
                              simp only [hd, Bool.false_eq_true, not_false_eq_true, if_true,
                                Run.done.injEq, Prod.mk.injEq] at h
                              obtain ⟨hr, hb, he⟩ := h
                              subst hr
                              exact ⟨r1, resp, x, y, r2, resp2, result, vf, vf1, rfl, h2, h3, h4,
                                h5, h6, h7, h9, hf, Or.inr ⟨hd, hb.symm, he.symm⟩⟩
                          · simp only [ne_eq, hok, not_false_eq_true, if_true] at h
                            exact absurd h (hno _ _ _ (by intro hc; cases hc))
                    · simp only [ne_eq, hne, not_false_eq_true, if_true] at h
                      exact absurd h (hno _ _ _ (by intro hc; cases hc))

/-! ## Claims about a shot of the round -/

/-- A main round that ends with an error carrying none of the sentinels of the judge: the
other role wins and the reason is `RE`, the details being the text of the error. -/
theorem Judge_of_round_error {fm : Fmt} {fuel : Nat} {master slave : PlayerFactory}
    {mf : Option ShipField} {conf : Configuration} {role : Role} {e : GoError}
    (h : roundEnd ((newRound (Player.real (master 0) [])
        (Player.real (slave 0) [])).Judge fm fuel) = some (mf, conf, ⟨role, e⟩))
    (h1 : errorsIs (some e) GoError.errPlayerWon = false)
    (h2 : errorsIs (some e) ErrTerminatedMemoryLimit = false)
    (h3 : errorsIs (some e) GoError.errTimeoutGlobal = false)
    (h4 : errorsIs (some e) GoError.errTimeoutMaster = false)
    (h5 : errorsIs (some e) GoError.errTimeoutSlave = false) :
    Judge fm fuel master slave
      = Run.done ⟨ResultFromWinner role.Other, Reason.RuntimeError, e.Error⟩ := by
  have hm := judgeMatch_eq h
  simp only [h1, h2, Bool.false_eq_true, if_false, not_false_eq_true, if_true] at hm
  rw [Judge_eq hm]
  simp [Judge.toVerdict, Judge.reason, h2, h3, h4, h5]

/-- An error made of a text only carries no sentinel. -/
theorem errorsIs_plain (text : String) (target : GoError) (ht : ∀ t, target ≠ GoError.plain t) :
    errorsIs (some (GoError.plain text)) target = false := by
  simp only [errorsIs, GoError.Is, decide_eq_false_iff_not]
  exact fun hc => ht text hc.symm

/-- The loop of `round.Judge` returns the error of the first shot that returns one. -/
theorem shootLoop_of_error {fm : Fmt} {r r1 : round} {role : Role} {hit : Bool}
    {e : roleError} (h : r.Shoot fm role = Run.done (r1, hit, some e)) (fuel : Nat) :
    r.shootLoop fm (fuel + 1) role = Run.done (r1, e) := by
  unfold round.shootLoop
  rw [h]

/-- C21: in `round.Shoot`, when the shooter has named a cell of the field, the victim has
answered `shot x y` with a text that parses as a shoot result, and that result differs from
the one the judge's copy of the victim's field returns for `Shoot(x, y)`, the call returns
the error `victim returned invalid shoot result` attributed to the victim; the shooter's
player is as it was after answering `shot` (nothing is relayed to it); the loop of
`round.Judge` ends with that error; and when a main round ends so, `Judge` returns the
verdict with the shooter as winner and reason `RE`. -/
theorem Shoot_cheating_victim (fm : Fmt) (r r1 r2 : round) (shooter : Role)
    (resp resp2 : String) (x y : Int) (result expected : ShootResult) (vf vf1 : ShipField)
    (h1 : r.SendCommand fm shooter "shot" = Run.done (r1, resp, none))
    (h2 : fm.Sscan2 resp = Except.ok (x, y))
    (h3 : r1.isValidShot x y = true)
    (h4 : r1.SendCommand fm shooter.Other ("shot " ++ fm.Sprint x ++ " " ++ fm.Sprint y)
      = Run.done (r2, resp2, none))
    (h5 : ShootResult.FromString resp2 = Except.ok result)
    (h6 : r2.fieldByRole shooter.Other = some vf)
    (h7 : Shoot vf x y = some (vf1, expected))
    (h8 : result ≠ expected) :
    r.Shoot fm shooter
        = Run.done (r2.setField shooter.Other vf1, false,
            some (failedAs shooter.Other
              (GoError.plain ("victim returned invalid shoot result: "
                ++ fm.Sprint result.toInt))))
      ∧ (r2.setField shooter.Other vf1).playerByRole shooter = r1.playerByRole shooter
      ∧ (∀ fuel : Nat, r.shootLoop fm (fuel + 1) shooter
          = Run.done (r2.setField shooter.Other vf1, failedAs shooter.Other
              (GoError.plain ("victim returned invalid shoot result: "
                ++ fm.Sprint result.toInt))))
      ∧ (∀ (fuel : Nat) (master slave : PlayerFactory) (mf : Option ShipField)
          (conf : Configuration),
          roundEnd ((newRound (Player.real (master 0) [])
              (Player.real (slave 0) [])).Judge fm fuel)
            = some (mf, conf, failedAs shooter.Other
                (GoError.plain ("victim returned invalid shoot result: "
                  ++ fm.Sprint result.toInt))) →
          Judge fm fuel master slave
            = Run.done ⟨ResultFromWinner shooter, Reason.RuntimeError,
                "victim returned invalid shoot result: " ++ fm.Sprint result.toInt⟩) := by
  have hs : r.Shoot fm shooter
      = Run.done (r2.setField shooter.Other vf1, false,
          some (failedAs shooter.Other
            (GoError.plain ("victim returned invalid shoot result: "
              ++ fm.Sprint result.toInt)))) := by
    rw [roundShoot_of_steps h1 h2 h3 h4 h5 h6 h7, if_pos h8]
  refine ⟨hs, ?_, fun fuel => shootLoop_of_error hs fuel, ?_⟩
  · have ha := (setField_frame r2 shooter.Other vf1).1
    have hb := (SendCommand_frame h4).1
    rw [Role.Other_Other] at ha hb
    rw [ha, hb]
  · intro fuel master slave mf conf hend
    have hj := Judge_of_round_error hend
      (errorsIs_plain _ _ (by intro t hc; cases hc))
      (errorsIs_plain _ _ (by intro t hc; cases hc))
      (errorsIs_plain _ _ (by intro t hc; cases hc))
      (errorsIs_plain _ _ (by intro t hc; cases hc))
      (errorsIs_plain _ _ (by intro t hc; cases hc))
    rw [Role.Other_Other] at hj
    exact hj

/-- C21 witness: on the 1x1 field with one ship the slave shoots at `(0, 0)` and the master
answers `miss` where the field engine says `kill`; the error names the master. The same
master loses the match against an honest slave with reason `RE`. -/
theorem Shoot_cheating_victim_witness :
    (readyRound ⟨1, 1, ⟨1, 0, 0, 0⟩⟩ [⟨0, 0, 1, false⟩] (repliesAt "shot 0 0" "miss")
        honestPlayer).shootLoop decimalFmt 1 Role.RoleSlave
      = Run.done (
          { master := Player.real (repliesAt "shot 0 0" "miss") ["shot 0 0"],
            slave := Player.real honestPlayer ["shot"],
            masterField := some (FieldRef.own
              ⟨[(0, 143)], ⟨1, 1, ⟨1, 0, 0, 0⟩⟩, ⟨1, 1, ⟨0, 0, 0, 0⟩⟩⟩),
            slaveField := some (FieldRef.own
              ⟨[(0, 142)], ⟨1, 1, ⟨1, 0, 0, 0⟩⟩, ⟨1, 1, ⟨1, 0, 0, 0⟩⟩⟩),
            conf := ⟨1, 1, ⟨1, 0, 0, 0⟩⟩ },
          failedAs Role.RoleMaster (GoError.plain "victim returned invalid shoot result: 0")) :=
  (Shoot_cheating_victim decimalFmt
    (readyRound ⟨1, 1, ⟨1, 0, 0, 0⟩⟩ [⟨0, 0, 1, false⟩] (repliesAt "shot 0 0" "miss")
      honestPlayer)
    { master := Player.real (repliesAt "shot 0 0" "miss") [],
      slave := Player.real honestPlayer ["shot"],
      masterField := some (FieldRef.own
        ⟨[(0, 142)], ⟨1, 1, ⟨1, 0, 0, 0⟩⟩, ⟨1, 1, ⟨1, 0, 0, 0⟩⟩⟩),
      slaveField := some (FieldRef.own
        ⟨[(0, 142)], ⟨1, 1, ⟨1, 0, 0, 0⟩⟩, ⟨1, 1, ⟨1, 0, 0, 0⟩⟩⟩),
      conf := ⟨1, 1, ⟨1, 0, 0, 0⟩⟩ }
    { master := Player.real (repliesAt "shot 0 0" "miss") ["shot 0 0"],
      slave := Player.real honestPlayer ["shot"],
      masterField := some (FieldRef.own
        ⟨[(0, 142)], ⟨1, 1, ⟨1, 0, 0, 0⟩⟩, ⟨1, 1, ⟨1, 0, 0, 0⟩⟩⟩),
      slaveField := some (FieldRef.own
        ⟨[(0, 142)], ⟨1, 1, ⟨1, 0, 0, 0⟩⟩, ⟨1, 1, ⟨1, 0, 0, 0⟩⟩⟩),
      conf := ⟨1, 1, ⟨1, 0, 0, 0⟩⟩ }
    Role.RoleSlave "0 0" "miss" 0 0 ShootResult.Miss ShootResult.Kill
    ⟨[(0, 142)], ⟨1, 1, ⟨1, 0, 0, 0⟩⟩, ⟨1, 1, ⟨1, 0, 0, 0⟩⟩⟩
    ⟨[(0, 143)], ⟨1, 1, ⟨1, 0, 0, 0⟩⟩, ⟨1, 1, ⟨0, 0, 0, 0⟩⟩⟩
    rfl rfl rfl rfl rfl rfl (by decide) (by decide)).2.2.1 0


/-- The steps `round.Shoot` has gone through when it calls the field engine. -/
theorem engineShot_some {fm : Fmt} {q : round} {role : Role} {vf : ShipField} {a b : Int}
    (h : q.engineShot fm role = some (vf, a, b)) :
    ∃ r1 resp r2 resp2 result,
      q.SendCommand fm role "shot" = Run.done (r1, resp, none)
      ∧ fm.Sscan2 resp = Except.ok (a, b)
      ∧ r1.isValidShot a b = true
      ∧ r1.SendCommand fm role.Other ("shot " ++ fm.Sprint a ++ " " ++ fm.Sprint b)
          = Run.done (r2, resp2, none)
      ∧ ShootResult.FromString resp2 = Except.ok result
      ∧ r2.fieldByRole role.Other = some vf := by
  unfold round.engineShot at h
  split at h
  · split at h
    · split at h
      · cases h
      · split at h
        · split at h
          · split at h
            · rename_i _ r1 resp e1 _ x y e2 hv _ r2 resp2 e4 _ res e5 _ vf0 e6
              simp only [Option.some.injEq, Prod.mk.injEq] at h
              obtain ⟨rfl, rfl, rfl⟩ := h
              exact ⟨r1, resp, r2, resp2, res, e1, e2, by simpa using hv, e4, e5, e6⟩
            · cases h
          · cases h
        · cases h
    · cases h
  · cases h

/-- The call of the field engine `round.Shoot` makes once the victim has answered with a
shoot result. -/
theorem engineShot_of_steps {fm : Fmt} {r r1 r2 : round} {shooter : Role}
    {resp resp2 : String} {x y : Int} {result : ShootResult} {vf : ShipField}
    (h1 : r.SendCommand fm shooter "shot" = Run.done (r1, resp, none))
    (h2 : fm.Sscan2 resp = Except.ok (x, y))
    (h3 : r1.isValidShot x y = true)
    (h4 : r1.SendCommand fm shooter.Other ("shot " ++ fm.Sprint x ++ " " ++ fm.Sprint y)
      = Run.done (r2, resp2, none))
    (h5 : ShootResult.FromString resp2 = Except.ok result)
    (h6 : r2.fieldByRole shooter.Other = some vf) :
    r.engineShot fm shooter = some (vf, x, y) := by
  unfold round.engineShot
  rw [h1]
  simp only [h2, h3, h4, h5, h6, not_true_eq_false, if_false]

/-- C22: in `round.Shoot`, when the shooter's reply to `shot` parses as coordinates with
`x < 0`, `y < 0`, `x ≥ W` or `y ≥ H`, the call returns the error `invalid shoot position`
attributed to the shooter; the victim's player is as it was (it has received no command),
the victim's field is unchanged and the field engine is not called; the loop of
`round.Judge` ends with that error. Every call of the field engine's `Shoot` that
`round.Shoot` makes has `0 ≤ x < W` and `0 ≤ y < H`, and so returns. -/
theorem Shoot_out_of_range (fm : Fmt) (r r1 : round) (shooter : Role) (resp : String)
    (x y : Int)
    (h1 : r.SendCommand fm shooter "shot" = Run.done (r1, resp, none))
    (h2 : fm.Sscan2 resp = Except.ok (x, y))
    (h3 : x < 0 ∨ y < 0 ∨ x ≥ r.conf.W ∨ y ≥ r.conf.H) :
    r.Shoot fm shooter
        = Run.done (r1, false, some (failedAs shooter
            (GoError.plain ("invalid shoot position " ++ fm.Sprint x ++ " " ++ fm.Sprint y))))
      ∧ r1.playerByRole shooter.Other = r.playerByRole shooter.Other
      ∧ r1.fieldByRole shooter.Other = r.fieldByRole shooter.Other
      ∧ r.engineShot fm shooter = none
      ∧ (∀ fuel : Nat, r.shootLoop fm (fuel + 1) shooter
          = Run.done (r1, failedAs shooter
              (GoError.plain ("invalid shoot position " ++ fm.Sprint x ++ " "
                ++ fm.Sprint y))))
      ∧ (∀ (q : round) (role : Role) (vf : ShipField) (a b : Int),
          q.engineShot fm role = some (vf, a, b) →
            0 ≤ a ∧ a < q.conf.W ∧ 0 ≤ b ∧ b < q.conf.H
              ∧ ∃ vf1 expected, Shoot vf a b = some (vf1, expected)) := by
  have hconf := (SendCommand_frame h1).2.2.2
  have hv : r1.isValidShot x y = false := by
    cases hc : r1.isValidShot x y with
    | false => rfl
    | true =>
      rw [isValidShot_iff, hconf] at hc
      obtain ⟨c1, c2, c3, c4⟩ := hc
      simp only at c1 c2 c3 c4
      omega
  have hs : r.Shoot fm shooter
      = Run.done (r1, false, some (failedAs shooter
          (GoError.plain ("invalid shoot position " ++ fm.Sprint x ++ " " ++ fm.Sprint y)))) := by
    unfold round.Shoot
    rw [h1]
    simp only [h2, hv, Bool.false_eq_true, not_false_eq_true, if_true]
  refine ⟨hs, (SendCommand_frame h1).1, SendCommand_fieldByRole h1, ?_,
    fun fuel => shootLoop_of_error hs fuel, ?_⟩
  · unfold round.engineShot
    rw [h1]
    simp only [h2, hv, Bool.false_eq_true, not_false_eq_true, if_true]
  · intro q role vf a b hq
    obtain ⟨q1, resp1, q2, resp2, result, e1, e2, e3, e4, e5, e6⟩ := engineShot_some hq
    rw [isValidShot_iff, (SendCommand_frame e1).2.2.2] at e3
    obtain ⟨c1, c2, c3, c4⟩ := e3
    exact ⟨c1, c2, c3, c4, Shoot_isSome vf c1 c3⟩

/-- C22 witness: on the 1x1 field the slave answers `shot` with `5 5`; the master has
received nothing and its field is untouched. -/
theorem Shoot_out_of_range_witness :
    ((5 : Int) < 0 ∨ (5 : Int) < 0 ∨ (5 : Int) ≥ 1 ∨ (5 : Int) ≥ 1)
      ∧ (readyRound ⟨1, 1, ⟨1, 0, 0, 0⟩⟩ [⟨0, 0, 1, false⟩] honestPlayer
          (repliesAt "shot" "5 5")).Shoot decimalFmt Role.RoleSlave
        = Run.done (
            { master := Player.real honestPlayer [],
              slave := Player.real (repliesAt "shot" "5 5") ["shot"],
              masterField := some (FieldRef.own
                ⟨[(0, 142)], ⟨1, 1, ⟨1, 0, 0, 0⟩⟩, ⟨1, 1, ⟨1, 0, 0, 0⟩⟩⟩),
              slaveField := some (FieldRef.own
                ⟨[(0, 142)], ⟨1, 1, ⟨1, 0, 0, 0⟩⟩, ⟨1, 1, ⟨1, 0, 0, 0⟩⟩⟩),
              conf := ⟨1, 1, ⟨1, 0, 0, 0⟩⟩ },
            false, some (failedAs Role.RoleSlave (GoError.plain "invalid shoot position 5 5"))) :=
  ⟨by decide,
    (Shoot_out_of_range decimalFmt
      (readyRound ⟨1, 1, ⟨1, 0, 0, 0⟩⟩ [⟨0, 0, 1, false⟩] honestPlayer
        (repliesAt "shot" "5 5"))
      { master := Player.real honestPlayer [],
        slave := Player.real (repliesAt "shot" "5 5") ["shot"],
        masterField := some (FieldRef.own
          ⟨[(0, 142)], ⟨1, 1, ⟨1, 0, 0, 0⟩⟩, ⟨1, 1, ⟨1, 0, 0, 0⟩⟩⟩),
        slaveField := some (FieldRef.own
          ⟨[(0, 142)], ⟨1, 1, ⟨1, 0, 0, 0⟩⟩, ⟨1, 1, ⟨1, 0, 0, 0⟩⟩⟩),
        conf := ⟨1, 1, ⟨1, 0, 0, 0⟩⟩ }
      Role.RoleSlave "5 5" 5 5 rfl rfl (by decide)).1⟩

/-- C24: when no step of `round.Shoot(shooter)` fails (the shooter names a cell of the field,
the victim's answer is the result of the field engine, and the shooter acknowledges
`set result <result>` with `ok`), the victim's field after the shot is the one the engine
returned, and the call returns `(true, PlayerWon for the shooter)` if that field is
`AllDead` and `(result != miss, nil)` otherwise; so it returns `PlayerWon` iff the field is
`AllDead`. Conversely, every call of `round.Shoot` that returns the error `PlayerWon` has
gone through all these steps. -/
theorem Shoot_win_condition (fm : Fmt) (r r1 r2 r4 : round) (shooter : Role)
    (resp resp2 : String) (x y : Int) (result : ShootResult) (vf vf1 : ShipField)
    (h1 : r.SendCommand fm shooter "shot" = Run.done (r1, resp, none))
    (h2 : fm.Sscan2 resp = Except.ok (x, y))
    (h3 : r1.isValidShot x y = true)
    (h4 : r1.SendCommand fm shooter.Other ("shot " ++ fm.Sprint x ++ " " ++ fm.Sprint y)
      = Run.done (r2, resp2, none))
    (h5 : ShootResult.FromString resp2 = Except.ok result)
    (h6 : r2.fieldByRole shooter.Other = some vf)
    (h7 : Shoot vf x y = some (vf1, result))
    (h9 : (r2.setField shooter.Other vf1).SendCommand fm shooter ("set result " ++ resp2)
      = Run.done (r4, "ok", none)) :
    r4.fieldByRole shooter.Other = some vf1
      ∧ r.Shoot fm shooter
          = (if AllDead vf1 then Run.done (r4, true, some (wonAs shooter))
            else Run.done (r4, decide (result ≠ ShootResult.Miss), none))
      ∧ (r.Shoot fm shooter = Run.done (r4, true, some (wonAs shooter)) ↔ AllDead vf1 = true)
      ∧ (∀ (q q' : round) (role : Role) (b : Bool) (e : roleError),
          q.Shoot fm role = Run.done (q', b, some e) → e.Err = GoError.errPlayerWon →
            e = wonAs role ∧ b = true
              ∧ ∃ q1 answer a c q2 answer2 res wf wf1,
                q.SendCommand fm role "shot" = Run.done (q1, answer, none)
                ∧ fm.Sscan2 answer = Except.ok (a, c)
                ∧ q1.isValidShot a c = true
                ∧ q1.SendCommand fm role.Other ("shot " ++ fm.Sprint a ++ " " ++ fm.Sprint c)
                    = Run.done (q2, answer2, none)
                ∧ ShootResult.FromString answer2 = Except.ok res
                ∧ q2.fieldByRole role.Other = some wf
                ∧ Shoot wf a c = some (wf1, res)
                ∧ (q2.setField role.Other wf1).SendCommand fm role ("set result " ++ answer2)
                    = Run.done (q', "ok", none)
                ∧ q'.fieldByRole role.Other = some wf1
                ∧ AllDead wf1 = true) := by
  have hs : r.Shoot fm shooter
      = (if AllDead vf1 then Run.done (r4, true, some (wonAs shooter))
        else Run.done (r4, decide (result ≠ ShootResult.Miss), none)) := by
    rw [roundShoot_of_steps h1 h2 h3 h4 h5 h6 h7, h9]
    simp only [ne_eq, not_true_eq_false, if_false]
    cases AllDead vf1 <;> simp
  refine ⟨?_, hs, ?_, ?_⟩
  · rw [SendCommand_fieldByRole h9, fieldByRole_setField]
  · rw [hs]
    cases AllDead vf1 <;> simp
  · intro q q' role b e hq he
    obtain ⟨q1, answer, a, c, q2, answer2, res, wf, wf1, e1, e2, e3, e4, e5, e6, e7, e8, e9,
      hcase⟩ := roundShoot_completed hq (by
        intro e0 h0
        cases h0
        exact he)
    rcases hcase with ⟨hd, hb, hoe⟩ | ⟨_, _, hoe⟩
    · cases hoe
      exact ⟨rfl, hb, q1, answer, a, c, q2, answer2, res, wf, wf1, e1, e2, e3, e4, e5, e6, e7,
        e8, e9, hd⟩
    · cases hoe

/-- C24 witness: on the 1x1 field with one ship the slave shoots at the ship, the master
answers `kill` and the slave acknowledges; the master's field is all dead and the slave has
won. -/
theorem Shoot_win_condition_witness :
    (readyRound ⟨1, 1, ⟨1, 0, 0, 0⟩⟩ [⟨0, 0, 1, false⟩] honestPlayer
        honestPlayer).Shoot decimalFmt Role.RoleSlave
      = Run.done (
          { master := Player.real honestPlayer ["shot 0 0"],
            slave := Player.real honestPlayer ["shot", "set result kill"],
            masterField := some (FieldRef.own
              ⟨[(0, 143)], ⟨1, 1, ⟨1, 0, 0, 0⟩⟩, ⟨1, 1, ⟨0, 0, 0, 0⟩⟩⟩),
            slaveField := some (FieldRef.own
              ⟨[(0, 142)], ⟨1, 1, ⟨1, 0, 0, 0⟩⟩, ⟨1, 1, ⟨1, 0, 0, 0⟩⟩⟩),
            conf := ⟨1, 1, ⟨1, 0, 0, 0⟩⟩ },
          true, some (wonAs Role.RoleSlave)) :=
  (Shoot_win_condition decimalFmt
    (readyRound ⟨1, 1, ⟨1, 0, 0, 0⟩⟩ [⟨0, 0, 1, false⟩] honestPlayer honestPlayer)
    { master := Player.real honestPlayer [],
      slave := Player.real honestPlayer ["shot"],
      masterField := some (FieldRef.own
        ⟨[(0, 142)], ⟨1, 1, ⟨1, 0, 0, 0⟩⟩, ⟨1, 1, ⟨1, 0, 0, 0⟩⟩⟩),
      slaveField := some (FieldRef.own
        ⟨[(0, 142)], ⟨1, 1, ⟨1, 0, 0, 0⟩⟩, ⟨1, 1, ⟨1, 0, 0, 0⟩⟩⟩),
      conf := ⟨1, 1, ⟨1, 0, 0, 0⟩⟩ }
    { master := Player.real honestPlayer ["shot 0 0"],
      slave := Player.real honestPlayer ["shot"],
      masterField := some (FieldRef.own
        ⟨[(0, 142)], ⟨1, 1, ⟨1, 0, 0, 0⟩⟩, ⟨1, 1, ⟨1, 0, 0, 0⟩⟩⟩),
      slaveField := some (FieldRef.own
        ⟨[(0, 142)], ⟨1, 1, ⟨1, 0, 0, 0⟩⟩, ⟨1, 1, ⟨1, 0, 0, 0⟩⟩⟩),
      conf := ⟨1, 1, ⟨1, 0, 0, 0⟩⟩ }
    { master := Player.real honestPlayer ["shot 0 0"],
      slave := Player.real honestPlayer ["shot", "set result kill"],
      masterField := some (FieldRef.own
        ⟨[(0, 143)], ⟨1, 1, ⟨1, 0, 0, 0⟩⟩, ⟨1, 1, ⟨0, 0, 0, 0⟩⟩⟩),
      slaveField := some (FieldRef.own
        ⟨[(0, 142)], ⟨1, 1, ⟨1, 0, 0, 0⟩⟩, ⟨1, 1, ⟨1, 0, 0, 0⟩⟩⟩),
      conf := ⟨1, 1, ⟨1, 0, 0, 0⟩⟩ }
    Role.RoleSlave "0 0" "kill" 0 0 ShootResult.Kill
    ⟨[(0, 142)], ⟨1, 1, ⟨1, 0, 0, 0⟩⟩, ⟨1, 1, ⟨1, 0, 0, 0⟩⟩⟩
    ⟨[(0, 143)], ⟨1, 1, ⟨1, 0, 0, 0⟩⟩, ⟨1, 1, ⟨0, 0, 0, 0⟩⟩⟩
    rfl rfl rfl rfl rfl rfl (by decide) rfl).2.2.1.2 (by decide)

/-! ## Claims about the order of a round -/

/-- The function `round.Judge` is its setup followed by the shot loop, which the slave
opens. -/
theorem roundJudge_eq_setup (fm : Fmt) (fuel : Nat) (r : round) :
    r.Judge fm fuel =
      match r.setup fm with
      | Run.crash => Run.crash
      | Run.fuelOut => Run.fuelOut
      | Run.done (r6, some err) => Run.done (r6, err)
      | Run.done (r6, none) => r6.shootLoop fm fuel Role.RoleSlave := by
  unfold round.Judge round.setup
  repeat' split
  all_goals rfl

/-- The shots `playShots` plays are the first shots of the loop of `round.Judge`, and the
role whose turn it is afterwards is the one `shooterAfter` computes. -/
theorem playShots_spec (fm : Fmt) :
    ∀ (n : Nat) (r : round) (first : Role) (r' : round) (cur : Role) (hits : List Bool),
      r.playShots fm n first = some (r', cur, hits) →
        hits.length = n ∧ cur = shooterAfter first hits
          ∧ ∀ fuel : Nat, r.shootLoop fm (n + fuel) first = r'.shootLoop fm fuel cur
  | 0, r, first, r', cur, hits, h => by
    simp only [round.playShots, Option.some.injEq, Prod.mk.injEq] at h
    obtain ⟨rfl, rfl, rfl⟩ := h
    exact ⟨rfl, rfl, fun fuel => by rw [Nat.zero_add]⟩
  | n + 1, r, first, r', cur, hits, h => by
    unfold round.playShots at h
    cases hs : r.Shoot fm first with
    | crash => rw [hs] at h; cases h
    | fuelOut => rw [hs] at h; cases h
    | done t =>
      obtain ⟨r1, hit, oe⟩ := t
      rw [hs] at h
      cases oe with
      | some e => cases h
      | none =>
        simp only at h
        cases hp : round.playShots fm n r1 (if hit = true then first else first.Other) with
        | none => rw [hp] at h; cases h
        | some t2 =>
          obtain ⟨r2, p2, hits2⟩ := t2
          rw [hp] at h
          simp only [Option.some.injEq, Prod.mk.injEq] at h
          obtain ⟨rfl, rfl, rfl⟩ := h
          obtain ⟨hl, hc, hloop⟩ := playShots_spec fm n r1 _ _ _ _ hp
          refine ⟨by simp [hl], ?_, fun fuel => ?_⟩
          · rw [hc]
            rfl
          · rw [show n + 1 + fuel = (n + fuel) + 1 by omega]
            conv_lhs => unfold round.shootLoop
            rw [hs]
            exact hloop fuel

/-- C23: in `round.Judge`, once the setup has succeeded the shot loop starts with the slave
as shooter; after a call of `round.Shoot` that returns no error (the game is not over) the
next shot is requested from the same shooter when the validated result is hit or kill, and
from the other role when it is miss; hence after any number of shots the role whose turn it
is is `shooterAfter` of the first shooter and the sequence of hit flags, a function of the
sequence of validated results. -/
theorem shooter_order (fm : Fmt) :
    (∀ (r r6 : round) (fuel : Nat), r.setup fm = Run.done (r6, none) →
        r.Judge fm fuel = r6.shootLoop fm fuel Role.RoleSlave)
      ∧ (∀ (r r1 : round) (cur : Role) (hit : Bool),
          r.Shoot fm cur = Run.done (r1, hit, none) →
            (∀ fuel : Nat, r.shootLoop fm (fuel + 1) cur
                = r1.shootLoop fm fuel (if hit then cur else cur.Other))
              ∧ ∃ vf x y vf1 result,
                  r.engineShot fm cur = some (vf, x, y)
                  ∧ Shoot vf x y = some (vf1, result)
                  ∧ AllDead vf1 = false
                  ∧ hit = decide (result ≠ ShootResult.Miss))
      ∧ (∀ (n : Nat) (r : round) (first : Role) (hits : List Bool),
          (r.playShots fm n first).map (fun t => t.2.2) = some hits →
            ∃ r', r.playShots fm n first = some (r', shooterAfter first hits, hits)
              ∧ ∀ fuel : Nat, r.shootLoop fm (n + fuel) first
                  = r'.shootLoop fm fuel (shooterAfter first hits))
      ∧ (∀ first : Role, shooterAfter first [] = first)
      ∧ (∀ (first : Role) (hits : List Bool),
          shooterAfter first (true :: hits) = shooterAfter first hits
            ∧ shooterAfter first (false :: hits) = shooterAfter first.Other hits) := by
  refine ⟨?_, ?_, ?_, fun _ => rfl, fun _ _ => ⟨rfl, rfl⟩⟩
  · intro r r6 fuel h
    rw [roundJudge_eq_setup, h]
  · intro r r1 cur hit h
    constructor
    · intro fuel
      conv_lhs => unfold round.shootLoop
      rw [h]
    · obtain ⟨q1, answer, a, c, q2, answer2, res, wf, wf1, e1, e2, e3, e4, e5, e6, e7, _, _,
        hcase⟩ := roundShoot_completed h (by intro e0 h0; cases h0)
      rcases hcase with ⟨_, _, hoe⟩ | ⟨hd, hb, _⟩
      · cases hoe
      · exact ⟨wf, a, c, wf1, res, engineShot_of_steps e1 e2 e3 e4 e5 e6, e7, hd, hb⟩
  · intro n r first hits h
    cases hp : r.playShots fm n first with
    | none => rw [hp] at h; cases h
    | some t =>
      obtain ⟨r', cur, hits'⟩ := t
      rw [hp] at h
      simp only [Option.map_some', Option.some.injEq] at h
      subst h
      obtain ⟨_, hc, hloop⟩ := playShots_spec fm n r first r' cur hits' hp
      subst hc
      exact ⟨r', rfl, hloop⟩

/-- C23 witness: on the 3x1 field with one ship of size 2 at `(0, 0)` the slave misses, the
master hits and then misses, and the slave hits; the turn is then the slave's again. -/
theorem shooter_order_witness :
    shooterAfter Role.RoleSlave [false, true, false, true] = Role.RoleSlave
      ∧ ∃ r', (readyRound ⟨3, 1, ⟨0, 1, 0, 0⟩⟩ [⟨0, 0, 2, false⟩]
          (scriptedPlayer ["miss", "0 0", "ok", "2 0", "ok", "hit", "kill"] [])
          (scriptedPlayer ["2 0", "ok", "hit", "miss", "0 0", "ok", "1 0", "ok"] [])).playShots
            decimalFmt 4 Role.RoleSlave
          = some (r', shooterAfter Role.RoleSlave [false, true, false, true],
              [false, true, false, true])
        ∧ ∀ fuel : Nat, (readyRound ⟨3, 1, ⟨0, 1, 0, 0⟩⟩ [⟨0, 0, 2, false⟩]
            (scriptedPlayer ["miss", "0 0", "ok", "2 0", "ok", "hit", "kill"] [])
            (scriptedPlayer ["2 0", "ok", "hit", "miss", "0 0", "ok", "1 0", "ok"]
              [])).shootLoop decimalFmt (4 + fuel) Role.RoleSlave
          = r'.shootLoop decimalFmt fuel
              (shooterAfter Role.RoleSlave [false, true, false, true]) :=
  ⟨by decide,
    (shooter_order decimalFmt).2.2.1 4
      (readyRound ⟨3, 1, ⟨0, 1, 0, 0⟩⟩ [⟨0, 0, 2, false⟩]
        (scriptedPlayer ["miss", "0 0", "ok", "2 0", "ok", "hit", "kill"] [])
        (scriptedPlayer ["2 0", "ok", "hit", "miss", "0 0", "ok", "1 0", "ok"] []))
      Role.RoleSlave [false, true, false, true] rfl⟩

/-! ## Steps of the setup -/

/-- What `round.InitPlayer` leaves as it was: the player of the other role, both field
references and the configuration; its error names the role it initialises. -/
theorem InitPlayer_frame {fm : Fmt} {r r1 : round} {role : Role} {oe : Option roleError}
    (h : r.InitPlayer fm role = Run.done (r1, oe)) :
    r1.playerByRole role.Other = r.playerByRole role.Other ∧ r1.masterField = r.masterField
      ∧ r1.slaveField = r.slaveField ∧ r1.conf = r.conf
      ∧ ∀ e, oe = some e → e.Role = role := by
  unfold round.InitPlayer at h
  split at h
  · cases h
  · cases h
  · rename_i ra _ err ha
    simp only [Run.done.injEq, Prod.mk.injEq] at h
    obtain ⟨rfl, rfl⟩ := h
    have hf := SendCommand_frame ha
    exact ⟨hf.1, hf.2.1, hf.2.2.1, hf.2.2.2, by intro e he; cases he; rfl⟩
  · rename_i ra resp ha
    have hf := SendCommand_frame ha
    split at h
    · simp only [Run.done.injEq, Prod.mk.injEq] at h
      obtain ⟨rfl, rfl⟩ := h
      exact ⟨hf.1, hf.2.1, hf.2.2.1, hf.2.2.2, by intro e he; cases he; rfl⟩
    · split at h
      · cases h
      · cases h
      · rename_i rb _ err hb
        simp only [Run.done.injEq, Prod.mk.injEq] at h
        obtain ⟨rfl, rfl⟩ := h
        have hg := SendCommand_frame hb
        exact ⟨hg.1.trans hf.1, hg.2.1.trans hf.2.1, hg.2.2.1.trans hf.2.2.1,
          hg.2.2.2.trans hf.2.2.2, by intro e he; cases he; rfl⟩
      · rename_i rb resp2 hb
        have hg := SendCommand_frame hb
        split at h
        · simp only [Run.done.injEq, Prod.mk.injEq] at h
          obtain ⟨rfl, rfl⟩ := h
          exact ⟨hg.1.trans hf.1, hg.2.1.trans hf.2.1, hg.2.2.1.trans hf.2.2.1,
            hg.2.2.2.trans hf.2.2.2, by intro e he; cases he; rfl⟩
        · simp only [Run.done.injEq, Prod.mk.injEq] at h
          obtain ⟨rfl, rfl⟩ := h
          exact ⟨hg.1.trans hf.1, hg.2.1.trans hf.2.1, hg.2.2.1.trans hf.2.2.1,
            hg.2.2.2.trans hf.2.2.2, by intro e he; cases he⟩


/-- What the loop of `round.RequestConfiguration` leaves as it was: the slave and both field
references; its error names the master and is a failure to get the configuration. -/
theorem requestLoop_frame (fm : Fmt) :
    ∀ (args : List (String × (Configuration → Int → Configuration) × (Configuration → Int)))
      (r r1 : round) (oe : Option roleError),
      r.requestLoop fm args = Run.done (r1, oe) →
        r1.slave = r.slave ∧ r1.masterField = r.masterField ∧ r1.slaveField = r.slaveField
          ∧ ∀ e, oe = some e → e.Role = Role.RoleMaster
              ∧ ∃ cause, e.Err = GoError.wrap "failed to get configuration: " cause
  | [], r, r1, oe, h => by
    simp only [round.requestLoop, Run.done.injEq, Prod.mk.injEq] at h
    obtain ⟨rfl, rfl⟩ := h
    exact ⟨rfl, rfl, rfl, by intro e he; cases he⟩
  | arg :: rest, r, r1, oe, h => by
    unfold round.requestLoop at h
    split at h
    · cases h
    · cases h
    · rename_i ra _ err ha
      simp only [Run.done.injEq, Prod.mk.injEq] at h
      obtain ⟨rfl, rfl⟩ := h
      have hf := SendCommand_frame ha
      exact ⟨hf.1, hf.2.1, hf.2.2.1, by intro e he; cases he; exact ⟨rfl, _, rfl⟩⟩
    · rename_i ra resp ha
      have hf := SendCommand_frame ha
      split at h
      · simp only [Run.done.injEq, Prod.mk.injEq] at h
        obtain ⟨rfl, rfl⟩ := h
        exact ⟨hf.1, hf.2.1, hf.2.2.1, by intro e he; cases he; exact ⟨rfl, _, rfl⟩⟩
      · obtain ⟨g1, g2, g3, g4⟩ := requestLoop_frame fm rest _ r1 oe h
        exact ⟨g1.trans hf.1, g2.trans hf.2.1, g3.trans hf.2.2.1, g4⟩

/-- What `round.RequestConfiguration` leaves as it was: the slave and both field references;
its error names the master and is a failure to get the configuration or the error of
`IsValid` on the configuration read. -/
theorem RequestConfiguration_frame {fm : Fmt} {r r1 : round} {oe : Option roleError}
    (h : r.RequestConfiguration fm = Run.done (r1, oe)) :
    r1.slave = r.slave ∧ r1.masterField = r.masterField ∧ r1.slaveField = r.slaveField
      ∧ ∀ e, oe = some e → e.Role = Role.RoleMaster
          ∧ ((∃ cause, e.Err = GoError.wrap "failed to get configuration: " cause)
            ∨ (∃ err, r1.conf.IsValid fm = some err
                ∧ e.Err = GoError.wrap "invalid configuration: " err)) := by
  unfold round.RequestConfiguration at h
  split at h
  · cases h
  · cases h
  · rename_i ra e0 ha
    simp only [Run.done.injEq, Prod.mk.injEq] at h
    obtain ⟨rfl, rfl⟩ := h
    obtain ⟨g1, g2, g3, g4⟩ := requestLoop_frame fm _ _ _ _ ha
    exact ⟨g1, g2, g3, by intro e he; cases he; exact ⟨(g4 _ rfl).1, Or.inl (g4 _ rfl).2⟩⟩
  · rename_i ra ha
    obtain ⟨g1, g2, g3, _⟩ := requestLoop_frame fm _ _ _ _ ha
    split at h
    · rename_i err hv
      simp only [Run.done.injEq, Prod.mk.injEq] at h
      obtain ⟨rfl, rfl⟩ := h
      exact ⟨g1, g2, g3, by intro e he; cases he; exact ⟨rfl, Or.inr ⟨err, hv, rfl⟩⟩⟩
    · simp only [Run.done.injEq, Prod.mk.injEq] at h
      obtain ⟨rfl, rfl⟩ := h
      exact ⟨g1, g2, g3, by intro e he; cases he⟩

/-- What `round.StartPlayer` leaves as it was: the player of the other role and the
configuration; its error names the role it starts; and when it returns no error the field
reference of the role is the field `RetrieveField` returned for the configuration. -/
theorem StartPlayer_frame {fm : Fmt} {r r1 : round} {role : Role} {oe : Option roleError}
    (h : r.StartPlayer fm role = Run.done (r1, oe)) :
    r1.playerByRole role.Other = r.playerByRole role.Other ∧ r1.conf = r.conf
      ∧ (∀ e, oe = some e → e.Role = role)
      ∧ (oe = none → ∃ ref, (r1.playerByRole role).RetrieveField r.conf = Except.ok ref
          ∧ (if role = Role.RoleMaster then r1.masterField else r1.slaveField) = some ref) := by
  unfold round.StartPlayer at h
  split at h
  · cases h
  · cases h
  · rename_i ra _ err ha
    simp only [Run.done.injEq, Prod.mk.injEq] at h
    obtain ⟨rfl, rfl⟩ := h
    have hf := SendCommand_frame ha
    exact ⟨hf.1, hf.2.2.2, by intro e he; cases he; rfl, by intro he; cases he⟩
  · rename_i ra resp ha
    have hf := SendCommand_frame ha
    split at h
    · simp only [Run.done.injEq, Prod.mk.injEq] at h
      obtain ⟨rfl, rfl⟩ := h
      exact ⟨hf.1, hf.2.2.2, by intro e he; cases he; rfl, by intro he; cases he⟩
    · split at h
      · cases h
      · cases h
      · rename_i rb ref err hb
        unfold round.RequestAndGetField at hb
        split at hb
        · cases hb
        · cases hb
        · rename_i rc _ err2 hc
          simp only [Run.done.injEq, Prod.mk.injEq] at hb
          obtain ⟨rfl, rfl, rfl⟩ := hb
          have hg := SendCommand_frame hc
          simp only [Run.done.injEq, Prod.mk.injEq] at h
          obtain ⟨rfl, rfl⟩ := h
          refine ⟨?_, ?_, by intro e he; cases he; rfl, by intro he; cases he⟩
          · rw [← hf.1, ← hg.1]
            cases role <;> simp [round.playerByRole, Role.Other]
          · rw [← hf.2.2.2, ← hg.2.2.2]
            cases role <;> simp
        · rename_i rc resp2 hc
          have hg := SendCommand_frame hc
          split at hb
          · simp only [Run.done.injEq, Prod.mk.injEq] at hb
            obtain ⟨rfl, rfl, rfl⟩ := hb
            simp only [Run.done.injEq, Prod.mk.injEq] at h
            obtain ⟨rfl, rfl⟩ := h
            refine ⟨?_, ?_, by intro e he; cases he; rfl, by intro he; cases he⟩
            · rw [← hf.1, ← hg.1]
              cases role <;> simp [round.playerByRole, Role.Other]
            · rw [← hf.2.2.2, ← hg.2.2.2]
              cases role <;> simp
          · split at hb
            · rename_i ref0 hr
              simp only [Run.done.injEq, Prod.mk.injEq] at hb
              obtain ⟨rfl, rfl, rfl⟩ := hb
              simp only [Run.done.injEq, Prod.mk.injEq] at h
              obtain ⟨rfl, rfl⟩ := h
              refine ⟨?_, ?_, (by intro e he; cases he), ?_⟩
              · rw [← hf.1, ← hg.1]
                cases role <;> simp [round.playerByRole, Role.Other]
              · rw [← hf.2.2.2, ← hg.2.2.2]
                cases role <;> simp
              · intro _
                refine ⟨ref0, ?_, ?_⟩
                · rw [← hf.2.2.2, ← hg.2.2.2, ← hr]
                  cases role <;> simp [round.playerByRole]
                · cases role <;> simp
            · rename_i err0 hr
              simp only [Run.done.injEq, Prod.mk.injEq] at hb
              obtain ⟨rfl, rfl, rfl⟩ := hb
              simp only [Run.done.injEq, Prod.mk.injEq] at h
              obtain ⟨rfl, rfl⟩ := h
              refine ⟨?_, ?_, by intro e he; cases he; rfl, by intro he; cases he⟩
              · rw [← hf.1, ← hg.1]
                cases role <;> simp [round.playerByRole, Role.Other]
              · rw [← hf.2.2.2, ← hg.2.2.2]
                cases role <;> simp


/-- A player given by its behaviour that has gone through `round.InitPlayer` without error
has received `create <role>` and `set strategy custom`. -/
theorem InitPlayer_real {fm : Fmt} {r r2 : round} {role : Role} {b : Behaviour}
    {sent : List String} (hp : r.playerByRole role = Player.real b sent)
    (h : r.InitPlayer fm role = Run.done (r2, none)) :
    r2.playerByRole role
      = Player.real b (sent ++ ["create " ++ role.String, "set strategy custom"]) := by
  unfold round.InitPlayer at h
  rw [SendCommand_real hp] at h
  split at h
  · cases h
  · cases h
  · cases h
  · rename_i ra resp ha
    simp only [Run.done.injEq, Prod.mk.injEq] at ha
    obtain ⟨rfl, -, -⟩ := ha
    split at h
    · cases h
    · rw [SendCommand_real (playerByRole_setPlayer r role _)] at h
      split at h
      · cases h
      · cases h
      · cases h
      · rename_i rb resp2 hb
        simp only [Run.done.injEq, Prod.mk.injEq] at hb
        obtain ⟨rfl, -, -⟩ := hb
        split at h
        · cases h
        · simp only [Run.done.injEq, Prod.mk.injEq, and_true] at h
          subst h
          rw [playerByRole_setPlayer]
          simp

/-! ## Claims about the setup of a round -/

/-- C25 (counterexample): with a master that would answer `get width` with `nope` and a
slave whose `create slave` fails, `round.Judge` sends `create slave` to the slave although
the master has received no `get` command, and the error returned is the slave's, not a
failure of `RequestConfiguration`; against an honest slave the same master does fail
`RequestConfiguration`, after the slave has received both commands of its initialisation. -/
theorem Judge_inits_slave_before_RequestConfiguration :
    roundLog ((newRound (Player.real (repliesAt "get width" "nope") [])
        (Player.real (failingAt "create slave" (GoError.plain "boom")) [])).Judge decimalFmt 5)
      = some (["create master", "set strategy custom"], ["create slave"],
          failedAs Role.RoleSlave
            (GoError.wrap "failed to create role: " (GoError.plain "boom")))
    ∧ roundLog ((newRound (Player.real (repliesAt "get width" "nope") [])
        (Player.real honestPlayer [])).Judge decimalFmt 5)
      = some (["create master", "set strategy custom", "get width"],
          ["create slave", "set strategy custom"],
          failedAs Role.RoleMaster
            (GoError.wrap "failed to get configuration: " (GoError.plain "expected integer"))) := by
  decide

/-- C25 (amended): in `round.Judge`, `InitPlayer(Slave)` is performed before the
configuration is requested from the master: while the slave is initialised the master
receives no command, a failure of the slave's initialisation is returned whatever the
master would have answered to the `get` commands, and `RequestConfiguration` runs only
once the slave has received `create slave` and `set strategy custom` and answered both with
`ok`; its failure is then returned with the master as the failing role, the slave having
received nothing more. -/
theorem Judge_setup_order (fm : Fmt) (r r1 : round)
    (h1 : r.InitPlayer fm Role.RoleMaster = Run.done (r1, none)) :
    (∀ (r2 : round) (oe : Option roleError),
        r1.InitPlayer fm Role.RoleSlave = Run.done (r2, oe) →
          r2.master = r1.master ∧ r2.conf = r1.conf)
      ∧ (∀ (r2 : round) (e : roleError) (fuel : Nat),
          r1.InitPlayer fm Role.RoleSlave = Run.done (r2, some e) →
            r.Judge fm fuel = Run.done (r2, e) ∧ e.Role = Role.RoleSlave)
      ∧ (∀ (r2 : round) (b : Behaviour) (sent : List String),
          r1.InitPlayer fm Role.RoleSlave = Run.done (r2, none) →
          r1.slave = Player.real b sent →
            r2.slave = Player.real b (sent ++ ["create slave", "set strategy custom"]))
      ∧ (∀ (r2 r3 : round) (e : roleError) (fuel : Nat),
          r1.InitPlayer fm Role.RoleSlave = Run.done (r2, none) →
          r2.RequestConfiguration fm = Run.done (r3, some e) →
            r.Judge fm fuel = Run.done (r3, e) ∧ e.Role = Role.RoleMaster
              ∧ r3.slave = r2.slave) := by
  refine ⟨?_, ?_, ?_, ?_⟩
  · intro r2 oe h2
    obtain ⟨g1, _, _, g4, _⟩ := InitPlayer_frame h2
    exact ⟨g1, g4⟩
  · intro r2 e fuel h2
    refine ⟨?_, (InitPlayer_frame h2).2.2.2.2 e rfl⟩
    unfold round.Judge
    rw [h1]
    simp only [h2]
  · intro r2 b sent h2 hp
    exact @InitPlayer_real fm r1 r2 Role.RoleSlave b sent hp h2
  · intro r2 r3 e fuel h2 h3
    obtain ⟨g1, _, _, g4⟩ := RequestConfiguration_frame h3
    refine ⟨?_, (g4 e rfl).1, g1⟩
    unfold round.Judge
    rw [h1]
    simp only [h2, h3]

/-- C25 witness: the round of the counterexample; the slave fails `create slave` and the
round ends there, the master having received its own two commands only. -/
theorem Judge_setup_order_witness :
    (newRound (Player.real (repliesAt "get width" "nope") [])
        (Player.real (failingAt "create slave" (GoError.plain "boom")) [])).Judge decimalFmt 5
      = Run.done (
          { master := Player.real (repliesAt "get width" "nope")
              ["create master", "set strategy custom"],
            slave := Player.real (failingAt "create slave" (GoError.plain "boom"))
              ["create slave"],
            masterField := none, slaveField := none, conf := ⟨0, 0, ⟨0, 0, 0, 0⟩⟩ },
          failedAs Role.RoleSlave
            (GoError.wrap "failed to create role: " (GoError.plain "boom"))) :=
  ((Judge_setup_order decimalFmt
    (newRound (Player.real (repliesAt "get width" "nope") [])
      (Player.real (failingAt "create slave" (GoError.plain "boom")) []))
    { master := Player.real (repliesAt "get width" "nope")
        ["create master", "set strategy custom"],
      slave := Player.real (failingAt "create slave" (GoError.plain "boom")) [],
      masterField := none, slaveField := none, conf := ⟨0, 0, ⟨0, 0, 0, 0⟩⟩ }
    rfl).2.1
    { master := Player.real (repliesAt "get width" "nope")
        ["create master", "set strategy custom"],
      slave := Player.real (failingAt "create slave" (GoError.plain "boom"))
        ["create slave"],
      masterField := none, slaveField := none, conf := ⟨0, 0, ⟨0, 0, 0, 0⟩⟩ }
    (failedAs Role.RoleSlave (GoError.wrap "failed to create role: " (GoError.plain "boom")))
    5 rfl).1


/-- The field `DockerPlayer.RetrieveField` returns is the field of the ships parsed from the
dump, loaded without error against the configuration. -/
theorem DockerPlayer_RetrieveField_ok (scan : String → Option (Int × Char × Int × Int))
    (c : Container) (cmds : List String) (conf : Configuration) (f : ShipField) :
    (DockerPlayer scan c).RetrieveField cmds conf = Except.ok f ↔
      ∃ lines, c.ReadFile cmds = Except.ok lines
        ∧ Load NewShipField conf (ParseShips scan lines) = (f, none) := by
  simp only [DockerPlayer]
  cases hr : c.ReadFile cmds with
  | error e =>
    simp only
    constructor
    · intro h
      cases h
    · rintro ⟨lines, hl, _⟩
      cases hl
  | ok lines =>
    simp only
    rcases hL : Load NewShipField conf (ParseShips scan lines) with ⟨f1, _ | le⟩
    · simp only [Except.ok.injEq]
      constructor
      · rintro rfl
        exact ⟨lines, rfl, hL⟩
      · rintro ⟨lines2, hl, h2⟩
        cases hl
        rw [hL] at h2
        simp only [Prod.mk.injEq, and_true] at h2
        exact h2
    · simp only
      constructor
      · intro h
        cases h
      · rintro ⟨lines2, hl, h2⟩
        cases hl
        rw [hL] at h2
        simp only [Prod.mk.injEq] at h2
        cases h2.2

/-- What `round.StartPlayer` returns for a docker player whose program answers `start` and
`dump /tmp/field.txt` with `ok` and whose dump does not load against the configuration. -/
theorem StartPlayer_docker_load_error {fm : Fmt} {r : round} {role : Role}
    {scan : String → Option (Int × Char × Int × Int)} {c : Container} {sent lines : List String}
    {f : ShipField} {le : LoadError}
    (hp : r.playerByRole role = Player.real (DockerPlayer scan c) sent)
    (hw1 : c.Write (sent ++ ["start"]) = none)
    (hs1 : c.Scan (sent ++ ["start"]) = Except.ok "ok")
    (hw2 : c.Write (sent ++ ["start", "dump /tmp/field.txt"]) = none)
    (hs2 : c.Scan (sent ++ ["start", "dump /tmp/field.txt"]) = Except.ok "ok")
    (hr : c.ReadFile (sent ++ ["start", "dump /tmp/field.txt"]) = Except.ok lines)
    (hl : Load NewShipField r.conf (ParseShips scan lines) = (f, some le)) :
    ∃ r4, r.StartPlayer fm role
      = Run.done (r4, some (failedAs role
          (GoError.wrap "failed to get field: " (GoError.plain le.Error)))) := by
  have hq : ∀ (q : round) (p : Player), (q.setPlayer role p).conf = q.conf := by
    intro q p
    cases role <;> simp [round.setPlayer]
  have e2 : sent ++ ["start"] ++ ["dump /tmp/field.txt"]
      = sent ++ ["start", "dump /tmp/field.txt"] := by simp
  unfold round.StartPlayer
  rw [SendCommand_real hp]
  simp only [DockerPlayer, hw1, hs1, ne_eq, not_true_eq_false, if_false]
  unfold round.RequestAndGetField
  rw [SendCommand_real (playerByRole_setPlayer r role _)]
  simp only [DockerPlayer, e2, hw2, hs2, ne_eq, not_true_eq_false, if_false,
    playerByRole_setPlayer, Player.RetrieveField, hr]
  simp only [hq, hl]
  exact ⟨_, rfl⟩

/-- C26: in `round.Judge`, once both players are initialised, the slave receives nothing
until `StartPlayer(Master)` has returned without error: a failure of `RequestConfiguration`
or of `StartPlayer(Master)` ends the round with the slave as it was after its
initialisation (a slave given by its behaviour has received `create slave` and
`set strategy custom` only), the error of `StartPlayer(Master)` naming the master; when
`StartPlayer(Master)` succeeds, the master's field is the one `RetrieveField` returned for
the configuration, which for a docker player is the dumped ships loaded without error, and
only then `TransferConfiguration` runs; and a docker master whose dump fails to load ends
the round with the error `failed to get field` attributed to the master. -/
theorem Judge_transfer_after_master_field (fm : Fmt) (r r1 r2 : round)
    (h1 : r.InitPlayer fm Role.RoleMaster = Run.done (r1, none))
    (h2 : r1.InitPlayer fm Role.RoleSlave = Run.done (r2, none)) :
    (∀ (b : Behaviour) (sent : List String), r1.slave = Player.real b sent →
        r2.slave = Player.real b (sent ++ ["create slave", "set strategy custom"]))
      ∧ (∀ (r3 : round) (e : roleError) (fuel : Nat),
          r2.RequestConfiguration fm = Run.done (r3, some e) →
            r.Judge fm fuel = Run.done (r3, e) ∧ r3.slave = r2.slave)
      ∧ (∀ (r3 r4 : round) (e : roleError) (fuel : Nat),
          r2.RequestConfiguration fm = Run.done (r3, none) →
          r3.StartPlayer fm Role.RoleMaster = Run.done (r4, some e) →
            r.Judge fm fuel = Run.done (r4, e) ∧ e.Role = Role.RoleMaster
              ∧ r4.slave = r2.slave)
      ∧ (∀ (r3 r4 : round) (fuel : Nat),
          r2.RequestConfiguration fm = Run.done (r3, none) →
          r3.StartPlayer fm Role.RoleMaster = Run.done (r4, none) →
            r4.slave = r2.slave
              ∧ (∃ ref, r4.master.RetrieveField r3.conf = Except.ok ref
                  ∧ r4.masterField = some ref)
              ∧ r.Judge fm fuel =
                  match r4.TransferConfiguration fm with
                  | Run.crash => Run.crash
                  | Run.fuelOut => Run.fuelOut
                  | Run.done (r5, some err) => Run.done (r5, err)
                  | Run.done (r5, none) =>
                    match r5.StartPlayer fm Role.RoleSlave with
                    | Run.crash => Run.crash
                    | Run.fuelOut => Run.fuelOut
                    | Run.done (r6, some err) => Run.done (r6, err)
                    | Run.done (r6, none) => r6.shootLoop fm fuel Role.RoleSlave)
      ∧ (∀ (scan : String → Option (Int × Char × Int × Int)) (c : Container)
          (cmds : List String) (conf : Configuration) (f : ShipField),
          (DockerPlayer scan c).RetrieveField cmds conf = Except.ok f ↔
            ∃ lines, c.ReadFile cmds = Except.ok lines
              ∧ Load NewShipField conf (ParseShips scan lines) = (f, none))
      ∧ (∀ (r3 : round) (scan : String → Option (Int × Char × Int × Int)) (c : Container)
          (sent lines : List String) (f : ShipField) (le : LoadError) (fuel : Nat),
          r2.RequestConfiguration fm = Run.done (r3, none) →
          r3.master = Player.real (DockerPlayer scan c) sent →
          c.Write (sent ++ ["start"]) = none →
          c.Scan (sent ++ ["start"]) = Except.ok "ok" →
          c.Write (sent ++ ["start", "dump /tmp/field.txt"]) = none →
          c.Scan (sent ++ ["start", "dump /tmp/field.txt"]) = Except.ok "ok" →
          c.ReadFile (sent ++ ["start", "dump /tmp/field.txt"]) = Except.ok lines →
          Load NewShipField r3.conf (ParseShips scan lines) = (f, some le) →
            ∃ r4, r.Judge fm fuel
                = Run.done (r4, failedAs Role.RoleMaster
                    (GoError.wrap "failed to get field: " (GoError.plain le.Error)))
              ∧ r4.slave = r2.slave) := by
  have hfail : ∀ (r3 r4 : round) (e : roleError) (fuel : Nat),
      r2.RequestConfiguration fm = Run.done (r3, none) →
      r3.StartPlayer fm Role.RoleMaster = Run.done (r4, some e) →
        r.Judge fm fuel = Run.done (r4, e) ∧ e.Role = Role.RoleMaster
          ∧ r4.slave = r2.slave := by
    intro r3 r4 e fuel h3 h4
    obtain ⟨g1, _, _, _⟩ := RequestConfiguration_frame h3
    obtain ⟨k1, _, k3, _⟩ := StartPlayer_frame h4
    refine ⟨?_, k3 e rfl, ?_⟩
    · unfold round.Judge
      rw [h1]
      simp only [h2, h3, h4]
    · exact (show r4.slave = r3.slave from k1).trans g1
  refine ⟨?_, ?_, hfail, ?_, DockerPlayer_RetrieveField_ok, ?_⟩
  · intro b sent hp
    exact @InitPlayer_real fm r1 r2 Role.RoleSlave b sent hp h2
  · intro r3 e fuel h3
    obtain ⟨g1, _, _, _⟩ := RequestConfiguration_frame h3
    refine ⟨?_, g1⟩
    unfold round.Judge
    rw [h1]
    simp only [h2, h3]
  · intro r3 r4 fuel h3 h4
    obtain ⟨g1, _, _, _⟩ := RequestConfiguration_frame h3
    obtain ⟨k1, _, _, k4⟩ := StartPlayer_frame h4
    refine ⟨(show r4.slave = r3.slave from k1).trans g1, ?_, ?_⟩
    · obtain ⟨ref, q1, q2⟩ := k4 rfl
      exact ⟨ref, q1, q2⟩
    · conv_lhs => unfold round.Judge
      rw [h1]
      simp only [h2, h3, h4]
  · intro r3 scan c sent lines f le fuel h3 hp hw1 hs1 hw2 hs2 hr hl
    obtain ⟨r4, h4⟩ := @StartPlayer_docker_load_error fm r3 Role.RoleMaster scan c sent lines
      f le hp hw1 hs1 hw2 hs2 hr hl
    exact ⟨r4, (hfail r3 r4 _ fuel h3 h4).1, (hfail r3 r4 _ fuel h3 h4).2.2⟩


/-- C26 witness: a docker master that answers honestly for the 1x1 field with one ship but
whose dump holds the header line only; the field does not load, the round ends with the
master's error and the slave has received the two commands of its initialisation only. -/
theorem Judge_transfer_after_master_field_witness :
    ∃ r4, (newRound (Player.real (DockerPlayer scanOneCell (honestContainer ["1 1"])) [])
        (Player.real honestPlayer [])).Judge decimalFmt 5
          = Run.done (r4, failedAs Role.RoleMaster
              (GoError.wrap "failed to get field: "
                (GoError.plain "ship count does not match configuration")))
      ∧ r4.slave = Player.real honestPlayer ["create slave", "set strategy custom"] :=
  (Judge_transfer_after_master_field decimalFmt
    (newRound (Player.real (DockerPlayer scanOneCell (honestContainer ["1 1"])) [])
      (Player.real honestPlayer []))
    { master := Player.real (DockerPlayer scanOneCell (honestContainer ["1 1"]))
        ["create master", "set strategy custom"],
      slave := Player.real honestPlayer [],
      masterField := none, slaveField := none, conf := ⟨0, 0, ⟨0, 0, 0, 0⟩⟩ }
    { master := Player.real (DockerPlayer scanOneCell (honestContainer ["1 1"]))
        ["create master", "set strategy custom"],
      slave := Player.real honestPlayer ["create slave", "set strategy custom"],
      masterField := none, slaveField := none, conf := ⟨0, 0, ⟨0, 0, 0, 0⟩⟩ }
    rfl rfl).2.2.2.2.2
    { master := Player.real (DockerPlayer scanOneCell (honestContainer ["1 1"]))
        ["create master", "set strategy custom", "get width", "get height", "get count 1",
          "get count 2", "get count 3", "get count 4"],
      slave := Player.real honestPlayer ["create slave", "set strategy custom"],
      masterField := none, slaveField := none, conf := ⟨1, 1, ⟨1, 0, 0, 0⟩⟩ }
    scanOneCell (honestContainer ["1 1"])
    ["create master", "set strategy custom", "get width", "get height", "get count 1",
      "get count 2", "get count 3", "get count 4"]
    ["1 1"] (Load NewShipField ⟨1, 1, ⟨1, 0, 0, 0⟩⟩ []).1 LoadError.countMismatch 5
    rfl rfl rfl rfl rfl rfl rfl rfl

/-! ## Claims about the configuration request -/

/-- The errors of `IsValid` are texts. -/
theorem IsValid_error_plain {fm : Fmt} {c : Configuration} {err : GoError}
    (h : c.IsValid fm = some err) : ∃ t, err = GoError.plain t := by
  unfold Configuration.IsValid at h
  split_ifs at h <;> (cases h; exact ⟨_, rfl⟩)

/-- The loop of `round.RequestConfiguration` over a list of parameters made of two parts:
the second part is gone through when the first has ended without error. -/
theorem requestLoop_append (fm : Fmt) :
    ∀ (pre rest : List (String × (Configuration → Int → Configuration)
        × (Configuration → Int))) (r r1 : round),
      r.requestLoop fm pre = Run.done (r1, none) →
        r.requestLoop fm (pre ++ rest) = r1.requestLoop fm rest
  | [], rest, r, r1, h => by
    simp only [round.requestLoop, Run.done.injEq, Prod.mk.injEq, and_true] at h
    subst h
    rfl
  | arg :: pre, rest, r, r1, h => by
    rw [List.cons_append]
    unfold round.requestLoop at h
    conv_lhs => unfold round.requestLoop
    split at h
    · cases h
    · cases h
    · cases h
    · split at h
      · cases h
      · exact requestLoop_append fm pre rest _ r1 h

/-- The six requests of `round.RequestConfiguration` to a master given by its behaviour
whose replies all scan as integers. -/
theorem requestLoop_real {fm : Fmt} {r : round} {b : Behaviour} {sent : List String}
    {w h c1 c2 c3 c4 : Int} {tw th t1 t2 t3 t4 : String}
    (hp : r.master = Player.real b sent)
    (aw : b.SendCommand (sent ++ ["get width"]) = (tw, none))
    (sw : fm.Sscan1 tw = Except.ok w)
    (ah : b.SendCommand (sent ++ ["get width", "get height"]) = (th, none))
    (sh : fm.Sscan1 th = Except.ok h)
    (a1 : b.SendCommand (sent ++ ["get width", "get height", "get count 1"]) = (t1, none))
    (s1 : fm.Sscan1 t1 = Except.ok c1)
    (a2 : b.SendCommand (sent ++ ["get width", "get height", "get count 1", "get count 2"])
      = (t2, none))
    (s2 : fm.Sscan1 t2 = Except.ok c2)
    (a3 : b.SendCommand (sent ++ ["get width", "get height", "get count 1", "get count 2",
      "get count 3"]) = (t3, none))
    (s3 : fm.Sscan1 t3 = Except.ok c3)
    (a4 : b.SendCommand (sent ++ ["get width", "get height", "get count 1", "get count 2",
      "get count 3", "get count 4"]) = (t4, none))
    (s4 : fm.Sscan1 t4 = Except.ok c4) :
    r.requestLoop fm confParams
      = Run.done ({ r with
          master := Player.real b (sent ++ ["get width", "get height", "get count 1",
            "get count 2", "get count 3", "get count 4"])
          conf := ⟨w, h, ⟨c1, c2, c3, c4⟩⟩ }, none) := by
  obtain ⟨m, s, mf, sf, cf⟩ := r
  simp only at hp
  subst hp
  simp [confParams, round.requestLoop, round.SendCommand, round.playerByRole, round.setPlayer,
    Player.SendCommand, aw, sw, ah, sh, a1, s1, a2, s2, a3, s3, a4, s4]


/-- An error made of a text behind one wrapping text carries no sentinel. -/
theorem errorsIs_wrap_plain (t1 t2 : String) (target : GoError)
    (hw : ∀ t c, target ≠ GoError.wrap t c) (hp : ∀ t, target ≠ GoError.plain t) :
    errorsIs (some (GoError.wrap t1 (GoError.plain t2))) target = false := by
  rw [errorsIs_wrap t1 _ target hw, errorsIs_plain t2 target hp]

/-! ## Claims about the descriptor and the frame of a shot -/

set_option maxRecDepth 100000 in
set_option maxHeartbeats 4000000 in
/-- Marking a hit bit leaves the sentinel bit as it is. -/
theorem markBit_sentinel_fin : ∀ (c : shipData) (i : Fin 4),
    (markBit c i.val).val.testBit 7 = c.val.testBit 7 := by
  decide

/-- The sentinel bit of a new descriptor is set. -/
theorem newShipData_sentinel_fin : ∀ (v : Bool) (i : Fin 4),
    (newShipData v ((i.val : Int) + 1)).val.testBit 7 = true := by
  decide

/-- The descriptor after a list of `MarkHit` calls with indices `0..3`: orientation and size
are kept and the hit bits set are the earlier ones and those of the list. -/
theorem markHits_spec : ∀ (K : List Int) (c : shipData), (∀ k ∈ K, 0 ≤ k ∧ k < 4) →
    ∃ c1, markHits c K = some c1 ∧ IsVert c1 = IsVert c ∧ Size c1 = Size c
      ∧ ∀ j : Nat, j < 4 → (c1.val.testBit j = true ↔ (c.val.testBit j = true ∨ (j : Int) ∈ K))
  | [], c, _ => ⟨c, rfl, rfl, rfl, fun j _ => by simp⟩
  | k :: K, c, h => by
    have hk := h k (List.mem_cons_self _ _)
    have hk4 : k.toNat < 4 := by omega
    obtain ⟨c1, h1, hv, hs, hb⟩ := markHits_spec K (markBit c k.toNat)
      (fun a ha => h a (List.mem_cons_of_mem _ ha))
    refine ⟨c1, ?_, ?_, ?_, ?_⟩
    · unfold markHits
      rw [MarkHit_eq hk.1]
      exact h1
    · rw [hv, markBit_IsVert c hk4]
    · rw [hs, markBit_Size c hk4]
    · intro j hj
      rw [hb j hj, markBit_testBit c hk4 hj]
      simp only [Bool.or_eq_true, decide_eq_true_eq, List.mem_cons]
      constructor
      · rintro ((h0 | h0) | h0)
        · exact Or.inl h0
        · exact Or.inr (Or.inl (by omega))
        · exact Or.inr (Or.inr h0)
      · rintro (h0 | h0 | h0)
        · exact Or.inl (Or.inl h0)
        · exact Or.inl (Or.inr (by omega))
        · exact Or.inr h0

/-- C39: for every orientation `v` and every size `s` in `1..4`, `newShipData(v, s)` has
bit 7 set, `IsVert() = v`, `Size() = s`, and hit bit `k` (for `k` in `0..3`) set exactly
when `k ≥ s`; and for every list `K` of indices below `s`, the calls `MarkHit(k)` for the
`k` of `K` return, keep orientation and size, and leave a descriptor with `IsDead()` iff
`K` holds every index `0..s-1`. -/
theorem shipData_layout (v : Bool) (s : Int) (h1 : 1 ≤ s) (h4 : s ≤ 4) :
    (newShipData v s).val.testBit 7 = true
      ∧ IsVert (newShipData v s) = v
      ∧ Size (newShipData v s) = s
      ∧ (∀ k : Nat, k < 4 → ((newShipData v s).val.testBit k = true ↔ s ≤ (k : Int)))
      ∧ ∀ K : List Int, (∀ k ∈ K, 0 ≤ k ∧ k < s) →
          ∃ c, markHits (newShipData v s) K = some c ∧ IsVert c = v ∧ Size c = s
            ∧ (IsDead c = true ↔ ∀ j : Int, 0 ≤ j → j < s → j ∈ K) := by
  refine ⟨?_, newShipData_IsVert v h1 h4, newShipData_Size v h1 h4,
    fun k hk => newShipData_testBit v h1 h4 hk, ?_⟩
  · have h := newShipData_sentinel_fin v ⟨(s - 1).toNat, by omega⟩
    have e : (((s - 1).toNat : Nat) : Int) + 1 = s := by omega
    simp only [e] at h
    exact h
  · intro K hK
    obtain ⟨c, hc, hv, hs, hb⟩ := markHits_spec K (newShipData v s)
      (fun k hk => ⟨(hK k hk).1, by have := (hK k hk).2; omega⟩)
    refine ⟨c, hc, by rw [hv, newShipData_IsVert v h1 h4],
      by rw [hs, newShipData_Size v h1 h4], ?_⟩
    rw [IsDead_iff]
    constructor
    · intro hall j hj0 hjs
      have hj4 : j.toNat < 4 := by omega
      have := (hb j.toNat hj4).1 (hall j.toNat hj4)
      rcases this with hn | hn
      · have := (newShipData_testBit v h1 h4 hj4).1 hn
        omega
      · have e : ((j.toNat : Nat) : Int) = j := by omega
        rw [e] at hn
        exact hn
    · intro hall k hk
      rw [hb k hk]
      by_cases hks : s ≤ (k : Int)
      · exact Or.inl ((newShipData_testBit v h1 h4 hk).2 hks)
      · exact Or.inr (hall k (by omega) (by omega))

/-- C39 witness: a vertical ship of size 3 hit at cells 2, 0 and 1. -/
theorem shipData_layout_witness :
    ∃ c, markHits (newShipData true 3) [2, 0, 1] = some c ∧ IsVert c = true ∧ Size c = 3
      ∧ (IsDead c = true ↔ ∀ j : Int, 0 ≤ j → j < 3 → j ∈ [2, 0, 1]) :=
  (shipData_layout true 3 (by decide) (by decide)).2.2.2.2 [2, 0, 1] (by decide)


/-- A lookup after `Put`: the new value at the key written, the old value elsewhere. -/
theorem Get_Put (m : List (Int × shipData)) (p q : Int) (v : shipData) :
    Get (Put m p v) q = if q = p then some v else Get m q := by
  induction m with
  | nil =>
    unfold Put Get
    by_cases hq : q = p
    · rw [if_pos hq.symm, if_pos hq]
    · rw [if_neg (fun hc => hq hc.symm), if_neg hq]
      rfl
  | cons e m ih =>
    obtain ⟨k, w⟩ := e
    unfold Put
    by_cases hk : k = p
    · rw [if_pos hk]
      unfold Get
      by_cases hq : q = p
      · rw [if_pos (hk.trans hq.symm), if_pos hq]
      · rw [if_neg (fun hc => hq (hc.symm.trans hk)), if_neg hq,
          if_neg (fun hc => hq (hc.symm.trans hk))]
    · rw [if_neg hk]
      unfold Get
      by_cases hkq : k = q
      · rw [if_pos hkq, if_pos hkq, if_neg (fun hc => hk (hkq.trans hc))]
      · rw [if_neg hkq, if_neg hkq]
        exact ih

/-- Overwriting the value of a stored key relates the map entry by entry to the old one. -/
theorem Put_Forall₂_self {R : Int × shipData → Int × shipData → Prop}
    (hrefl : ∀ e, R e e) {m : List (Int × shipData)} {p : Int} {d v : shipData}
    (hg : Get m p = some d) (hr : R (p, d) (p, v)) : List.Forall₂ R m (Put m p v) := by
  induction m with
  | nil => simp [Get] at hg
  | cons e m ih =>
    obtain ⟨k, w⟩ := e
    unfold Get at hg
    unfold Put
    by_cases hk : k = p
    · rw [if_pos hk] at hg
      rw [if_pos hk]
      simp only [Option.some.injEq] at hg
      subst hg
      subst hk
      exact List.Forall₂.cons hr (List.forall₂_same.2 (fun e _ => hrefl e))
    · rw [if_neg hk] at hg
      rw [if_neg hk]
      exact List.Forall₂.cons (hrefl _) (ih hg)

/-- The frame of `hitShip` on a field whose counters are in step with its map. -/
theorem hitShip_frame_effect {f f1 : ShipField} (hct : CountsTrack f) {ship : shipData}
    {pos idx : Int} {r : ShootResult} (hg : Get f.ships pos = some ship)
    (hidx : idx < Size ship) (hh : hitShip f ship pos idx = some (f1, r)) :
    (f1.ships = f.ships
        ∨ ∃ k : Nat, (k : Int) < Size ship ∧ f1.ships = Put f.ships pos (markBit ship k))
      ∧ List.Forall₂ (fun e e1 => e1.1 = e.1 ∧ IsVert e1.2 = IsVert e.2
          ∧ Size e1.2 = Size e.2 ∧ e1.2.val.testBit 7 = e.2.val.testBit 7
          ∧ ∀ k : Nat, k < 4 → e.2.val.testBit k = true → e1.2.val.testBit k = true)
          f.ships f1.ships
      ∧ f1.currConfig.W = f.currConfig.W ∧ f1.currConfig.H = f.currConfig.H
      ∧ ∀ i : Int, 0 ≤ i → i ≤ 3 →
          f1.currConfig.Sizes.get i = f.currConfig.Sizes.get i
            ∨ f1.currConfig.Sizes.get i = f.currConfig.Sizes.get i - 1 := by
  have hrefl : ∀ e : Int × shipData, e.1 = e.1 ∧ IsVert e.2 = IsVert e.2
      ∧ Size e.2 = Size e.2 ∧ e.2.val.testBit 7 = e.2.val.testBit 7
      ∧ ∀ k : Nat, k < 4 → e.2.val.testBit k = true → e.2.val.testBit k = true :=
    fun e => ⟨rfl, rfl, rfl, rfl, fun _ _ h => h⟩
  cases hd : IsDead ship with
  | true =>
    obtain ⟨rfl, _⟩ := hitShip_dead hd hh
    exact ⟨Or.inl rfl, List.forall₂_same.2 (fun e _ => hrefl e), rfl, rfl,
      fun i _ _ => Or.inl rfl⟩
  | false =>
    obtain ⟨h0, _, hs, hres⟩ := hitShip_alive hd hh
    have hk : idx.toNat < 4 := by
      have := Size_le ship
      omega
    have hkk : ((idx.toNat : Nat) : Int) < Size ship := by omega
    refine ⟨Or.inr ⟨idx.toNat, hkk, hs⟩, ?_, ?_⟩
    · rw [hs]
      refine Put_Forall₂_self hrefl hg ⟨rfl, markBit_IsVert ship hk, markBit_Size ship hk,
        markBit_sentinel_fin ship ⟨idx.toNat, hk⟩, ?_⟩
      intro k hk4 hb
      rw [markBit_testBit ship hk hk4, hb]
      rfl
    · rcases hres with ⟨hdead, _, hcc⟩ | ⟨_, _, hcc⟩
      · rw [hcc]
        refine ⟨rfl, rfl, ?_⟩
        intro i hi0 hi3
        have hsp := Size_pos (markBit ship idx.toNat)
        have hsl := Size_le (markBit ship idx.toNat)
        simp only
        rw [SizeCounts.get_set _ _ (by omega) (by omega) hi0 hi3]
        by_cases hi : i = Size (markBit ship idx.toNat) - 1
        · rw [if_pos hi]
          right
          have hlive := hct.live_pos hg hd
          rw [markBit_Size ship hk] at hi ⊢
          rw [hi]
          apply wrap64_eq_self
          unfold IsInt64
          omega
        · rw [if_neg hi]
          exact Or.inl rfl
      · rw [hcc]
        exact ⟨rfl, rfl, fun i _ _ => Or.inl rfl⟩

/-- C36: on a field loaded without error from ships of the field, after any calls, a shot
at non-negative coordinates (so at every cell of the field) returns, leaves `conf` and the
stored origins unchanged, changes at most one stored descriptor and only by setting one hit
bit with index below the size of that ship (every entry keeps its key, orientation, size
and sentinel bit, and no hit bit is cleared), leaves the dimensions of the live
configuration unchanged and each live count unchanged or decreased by one, never below
zero. -/
theorem Shoot_frame_effect (conf : Configuration) (ships : List Ship)
    (hgo : conf.IsGo) (hin : ∀ s ∈ ships, InField conf s)
    (hload : (Load NewShipField conf ships).2 = none)
    (ops : List FieldOp) (f : ShipField) (rs : List ShootResult)
    (hrun : runOps (Load NewShipField conf ships).1 ops = some (f, rs))
    (x y : Int) (hx : 0 ≤ x) (hy : 0 ≤ y) :
    ∃ f1 r, Shoot f x y = some (f1, r)
      ∧ f1.conf = f.conf
      ∧ f1.ships.map Prod.fst = f.ships.map Prod.fst
      ∧ (f1.ships = f.ships
          ∨ ∃ (pos : Int) (ship : shipData) (k : Nat), Get f.ships pos = some ship
              ∧ (k : Int) < Size ship ∧ f1.ships = Put f.ships pos (markBit ship k)
              ∧ Get f1.ships pos = some (markBit ship k)
              ∧ ∀ q : Int, q ≠ pos → Get f1.ships q = Get f.ships q)
      ∧ List.Forall₂ (fun e e1 => e1.1 = e.1 ∧ IsVert e1.2 = IsVert e.2
          ∧ Size e1.2 = Size e.2 ∧ e1.2.val.testBit 7 = e.2.val.testBit 7
          ∧ ∀ k : Nat, k < 4 → e.2.val.testBit k = true → e1.2.val.testBit k = true)
          f.ships f1.ships
      ∧ f1.currConfig.W = f.currConfig.W ∧ f1.currConfig.H = f.currConfig.H
      ∧ ∀ i : Int, 0 ≤ i → i ≤ 3 →
          (f1.currConfig.Sizes.get i = f.currConfig.Sizes.get i
            ∨ f1.currConfig.Sizes.get i = f.currConfig.Sizes.get i - 1)
          ∧ 0 ≤ f1.currConfig.Sizes.get i := by
  obtain ⟨_, _, _, hct0⟩ := Load_inField_ok hgo hin (Load_split hload)
  have hct := CountsTrack.after_runOps ops _ f rs hct0 hrun
  obtain ⟨f1, r, hs⟩ := Shoot_isSome f hx hy
  have hct1 := hct.after_Shoot hs
  obtain ⟨hconf, hkeys, _⟩ := Shoot_frame hs
  have hnn : ∀ i : Int, 0 ≤ i → i ≤ 3 → 0 ≤ f1.currConfig.Sizes.get i := by
    intro i hi0 hi3
    have h := hct1.2.2.2.2 (i + 1) (by omega) (by omega)
    rw [show i + 1 - 1 = i by omega] at h
    rw [h]
    exact liveShips_nonneg f1 (i + 1)
  refine ⟨f1, r, hs, hconf, hkeys, ?_⟩
  rcases Shoot_cases hs with ⟨rfl, _⟩ | ⟨pos, ship, idx, hg, hidx, hh⟩
  · exact ⟨Or.inl rfl, List.forall₂_same.2 (fun e _ => ⟨rfl, rfl, rfl, rfl, fun _ _ h => h⟩),
      rfl, rfl, fun i hi0 hi3 => ⟨Or.inl rfl, hnn i hi0 hi3⟩⟩
  · obtain ⟨hch, hall, hW, hH, hcnt⟩ := hitShip_frame_effect hct hg hidx hh
    refine ⟨?_, hall, hW, hH, fun i hi0 hi3 => ⟨hcnt i hi0 hi3, hnn i hi0 hi3⟩⟩
    rcases hch with hsame | ⟨k, hk, hput⟩
    · exact Or.inl hsame
    · refine Or.inr ⟨pos, ship, k, hg, hk, hput, ?_, ?_⟩
      · rw [hput, Get_Put, if_pos rfl]
      · intro q hq
        rw [hput, Get_Put, if_neg hq]

/-- C36 witness: on the 3x1 field with one horizontal ship of size 2, the shot at `(1, 0)`
after a shot at `(2, 0)` sets hit bit 1 of the ship and returns `hit`. -/
theorem Shoot_frame_effect_witness :
    ∃ f1 r, Shoot ⟨[(0, 156)], ⟨3, 1, ⟨0, 1, 0, 0⟩⟩, ⟨3, 1, ⟨0, 1, 0, 0⟩⟩⟩ 1 0 = some (f1, r)
      ∧ f1.conf = ⟨3, 1, ⟨0, 1, 0, 0⟩⟩
      ∧ f1.ships.map Prod.fst = [0] :=
  (Shoot_frame_effect ⟨3, 1, ⟨0, 1, 0, 0⟩⟩ [⟨0, 0, 2, false⟩] (by decide) (by decide)
    (by decide) [FieldOp.shoot 2 0]
    ⟨[(0, 156)], ⟨3, 1, ⟨0, 1, 0, 0⟩⟩, ⟨3, 1, ⟨0, 1, 0, 0⟩⟩⟩ [ShootResult.Miss] (by decide)
    1 0 (by decide) (by decide)).imp fun _ h => h.imp fun _ h2 => ⟨h2.1, h2.2.1, h2.2.2.1⟩

/-! ## Texts of the errors of a round -/

/-- A text with a non-empty front part is not empty. -/
theorem append_ne_empty (a b : String) (h : a ≠ "") : a ++ b ≠ "" := by
  intro hc
  apply h
  have hd : (a ++ b).data = [] := by rw [hc]
  rw [String.data_append] at hd
  exact String.ext (List.append_eq_nil.1 hd).1

/-- The text of an error behind a non-empty wrapping text is not empty. -/
theorem wrap_Error_ne (text : String) (c : GoError) (h : text ≠ "") :
    (GoError.wrap text c).Error ≠ "" := by
  show text ++ c.Error ≠ ""
  exact append_ne_empty _ _ h

/-- The error of `round.InitPlayer` has a text. -/
theorem InitPlayer_error_text {fm : Fmt} {r r1 : round} {role : Role} {e : roleError}
    (h : r.InitPlayer fm role = Run.done (r1, some e)) : e.Err.Error ≠ "" := by
  unfold round.InitPlayer at h
  repeat' split at h
  all_goals
    (cases h <;> first
      | exact wrap_Error_ne _ _ (by decide)
      | exact append_ne_empty _ _ (by decide))

/-- The error of `round.StartPlayer` has a text. -/
theorem StartPlayer_error_text {fm : Fmt} {r r1 : round} {role : Role} {e : roleError}
    (h : r.StartPlayer fm role = Run.done (r1, some e)) : e.Err.Error ≠ "" := by
  unfold round.StartPlayer at h
  repeat' split at h
  all_goals
    (cases h <;> first
      | exact wrap_Error_ne _ _ (by decide)
      | exact append_ne_empty _ _ (by decide))

/-- The error of the loop of `round.TransferConfiguration` has a text. -/
theorem transferLoop_error_text (fm : Fmt) :
    ∀ (args : List (String × (Configuration → Int → Configuration) × (Configuration → Int)))
      (r r1 : round) (e : roleError),
      r.transferLoop fm args = Run.done (r1, some e) → e.Err.Error ≠ ""
  | [], r, r1, e, h => by
    simp [round.transferLoop] at h
  | arg :: rest, r, r1, e, h => by
    unfold round.transferLoop at h
    split at h
    · cases h
    · cases h
    · simp only [Run.done.injEq, Prod.mk.injEq, Option.some.injEq] at h
      obtain ⟨_, rfl⟩ := h
      exact wrap_Error_ne _ _ (by decide)
    · split at h
      · simp only [Run.done.injEq, Prod.mk.injEq, Option.some.injEq] at h
        obtain ⟨_, rfl⟩ := h
        exact append_ne_empty _ _ (by decide)
      · exact transferLoop_error_text fm rest _ r1 e h

/-- The error of `round.Shoot` is `errPlayerWon` or has a text. -/
theorem Shoot_error_text {fm : Fmt} {r r1 : round} {role : Role} {b : Bool} {e : roleError}
    (h : r.Shoot fm role = Run.done (r1, b, some e)) :
    e.Err = GoError.errPlayerWon ∨ e.Err.Error ≠ "" := by
  unfold round.Shoot at h
  repeat' split at h
  all_goals
    (cases h <;> first
      | exact Or.inl rfl
      | exact Or.inr (wrap_Error_ne _ _ (by decide))
      | (right
         show _ ++ _ ≠ ""
         repeat apply append_ne_empty
         decide)
      | (have herr := FromString_error ‹ShootResult.FromString _ = Except.error _›
         rw [herr]
         right
         show "invalid shoot result" ≠ ""
         decide))

/-- The error of the shot loop is `errPlayerWon` or has a text. -/
theorem shootLoop_error_text (fm : Fmt) :
    ∀ (fuel : Nat) (r r1 : round) (role : Role) (e : roleError),
      r.shootLoop fm fuel role = Run.done (r1, e) →
        e.Err = GoError.errPlayerWon ∨ e.Err.Error ≠ ""
  | 0, r, r1, role, e, h => by
    simp [round.shootLoop] at h
  | fuel + 1, r, r1, role, e, h => by
    unfold round.shootLoop at h
    split at h
    · cases h
    · cases h
    · rename_i ra _ err hs
      simp only [Run.done.injEq, Prod.mk.injEq] at h
      obtain ⟨_, rfl⟩ := h
      exact Shoot_error_text hs
    · exact shootLoop_error_text fm fuel _ r1 _ e h

/-- The error `round.Judge` returns is `errPlayerWon` or has a text. -/
theorem roundJudge_error_text {fm : Fmt} {fuel : Nat} {r r1 : round} {e : roleError}
    (h : r.Judge fm fuel = Run.done (r1, e)) :
    e.Err = GoError.errPlayerWon ∨ e.Err.Error ≠ "" := by
  unfold round.Judge at h
  split at h
  · cases h
  · cases h
  · rename_i ra err ha
    simp only [Run.done.injEq, Prod.mk.injEq] at h
    obtain ⟨_, rfl⟩ := h
    exact Or.inr (InitPlayer_error_text ha)
  · split at h
    · cases h
    · cases h
    · rename_i rb err hb
      simp only [Run.done.injEq, Prod.mk.injEq] at h
      obtain ⟨_, rfl⟩ := h
      exact Or.inr (InitPlayer_error_text hb)
    · split at h
      · cases h
      · cases h
      · rename_i rc err hc
        simp only [Run.done.injEq, Prod.mk.injEq] at h
        obtain ⟨_, rfl⟩ := h
        right
        rcases ((RequestConfiguration_frame hc).2.2.2 err rfl).2 with ⟨c, hw⟩ | ⟨c, _, hw⟩
        · rw [hw]
          exact wrap_Error_ne _ _ (by decide)
        · rw [hw]
          exact wrap_Error_ne _ _ (by decide)
      · split at h
        · cases h
        · cases h
        · rename_i rd err hd
          simp only [Run.done.injEq, Prod.mk.injEq] at h
          obtain ⟨_, rfl⟩ := h
          exact Or.inr (StartPlayer_error_text hd)
        · split at h
          · cases h
          · cases h
          · rename_i re err he
            simp only [Run.done.injEq, Prod.mk.injEq] at h
            obtain ⟨_, rfl⟩ := h
            exact Or.inr (transferLoop_error_text fm _ _ _ _ he)
          · split at h
            · cases h
            · cases h
            · rename_i rf err hf
              simp only [Run.done.injEq, Prod.mk.injEq] at h
              obtain ⟨_, rfl⟩ := h
              exact Or.inr (StartPlayer_error_text hf)
            · exact shootLoop_error_text fm fuel _ r1 _ e h


/-- The function `ResultFromWinner` never returns tie. -/
theorem ResultFromWinner_ne_Tie (role : Role) : ResultFromWinner role ≠ Result.Tie := by
  cases role <;> decide

/-- What the breaker round of `judgeMatch` returns: a winner and no error, or an error with a
text. -/
theorem judgeBreaker_details {fm : Fmt} {fuel : Nat} {f : ShipField} {conf : Configuration}
    {masterFactory : PlayerFactory} {verdict : Result} {details : Option GoError}
    (h : judgeBreaker fm fuel f conf masterFactory = Run.done (verdict, details)) :
    (details = none ∧ verdict ≠ Result.Tie) ∨ ∃ e, details = some e ∧ e.Error ≠ "" := by
  unfold judgeBreaker at h
  split at h
  · cases h
  · cases h
  · split_ifs at h
    · cases h
      exact Or.inl ⟨rfl, ResultFromWinner_ne_Tie _⟩
    · cases h
      exact Or.inl ⟨rfl, ResultFromWinner_ne_Tie _⟩
    · cases h
      exact Or.inr ⟨_, rfl, wrap_Error_ne _ _ (by decide)⟩

/-- What `judgeMatch` returns: a winner and no error, or an error with a text. -/
theorem judgeMatch_details {fm : Fmt} {fuel : Nat} {masterFactory slaveFactory : PlayerFactory}
    {verdict : Result} {details : Option GoError}
    (h : judgeMatch fm fuel masterFactory slaveFactory = Run.done (verdict, details)) :
    (details = none ∧ verdict ≠ Result.Tie) ∨ ∃ e, details = some e ∧ e.Error ≠ "" := by
  unfold judgeMatch at h
  split at h
  · cases h
  · cases h
  · rename_i r result hr
    have htext := roundJudge_error_text hr
    have hne : ¬ errorsIs (some result.Err) GoError.errPlayerWon = true →
        result.Err.Error ≠ "" := by
      intro hno
      rcases htext with hw | ht
      · rw [hw] at hno
        exact absurd hno (by decide)
      · exact ht
    split_ifs at h
    all_goals first
      | (cases h
         exact Or.inl ⟨rfl, ResultFromWinner_ne_Tie _⟩)
      | (cases h
         exact Or.inr ⟨_, rfl, hne (by assumption)⟩)
      | (split at h
         · cases h
         · exact judgeBreaker_details h)

/-- C37: every verdict `Judge.Judge` returns has reason `OK` iff its details are the empty
string; if its reason is `OK` its winner is master or slave; and if its winner is tie its
reason is `RE`, `ML` or `GTL`. -/
theorem Judge_verdict_consistent (fm : Fmt) (fuel : Nat) (master slave : PlayerFactory)
    (v : Verdict) (h : Judge fm fuel master slave = Run.done v) :
    (v.Reason = Reason.Ok ↔ v.Details = "")
      ∧ (v.Reason = Reason.Ok → v.Winner = Result.MasterWon ∨ v.Winner = Result.SlaveWon)
      ∧ (v.Winner = Result.Tie →
          v.Reason = Reason.RuntimeError ∨ v.Reason = Reason.MemoryLimit
            ∨ v.Reason = Reason.GlobalTimeout) := by
  unfold Judge at h
  split at h
  · cases h
  · cases h
  · rename_i verdict details hm
    simp only [Run.done.injEq] at h
    subst h
    rcases judgeMatch_details hm with ⟨hd, hv⟩ | ⟨e, hd, he⟩
    · subst hd
      have hr : Judge.reason verdict none = (verdict, Reason.Ok) := by
        simp [Judge.reason, errorsIs]
      unfold Judge.toVerdict
      rw [hr]
      refine ⟨⟨fun _ => rfl, fun _ => rfl⟩, fun _ => ?_, fun ht => absurd ht hv⟩
      cases verdict
      · exact absurd rfl hv
      · exact Or.inl rfl
      · exact Or.inr rfl
    · subst hd
      simp only [Judge.toVerdict]
      have hnok : (Judge.reason verdict (some e)).2 ≠ Reason.Ok := by
        unfold Judge.reason
        split_ifs <;> simp_all
      refine ⟨⟨fun hc => absurd hc hnok, fun hc => absurd hc he⟩,
        fun hc => absurd hc hnok, ?_⟩
      unfold Judge.reason
      split_ifs <;> simp_all

/-- C37 witness: the match of two honest players on the 1x1 field. -/
theorem Judge_verdict_consistent_witness :
    Judge decimalFmt 5 (fun _ => honestPlayer) (fun _ => honestPlayer)
        = Run.done ⟨Result.SlaveWon, Reason.Ok, ""⟩
      ∧ ((Reason.Ok = Reason.Ok ↔ "" = "")
        ∧ (Reason.Ok = Reason.Ok → Result.SlaveWon = Result.MasterWon
            ∨ Result.SlaveWon = Result.SlaveWon)
        ∧ (Result.SlaveWon = Result.Tie →
          Reason.Ok = Reason.RuntimeError ∨ Reason.Ok = Reason.MemoryLimit
            ∨ Reason.Ok = Reason.GlobalTimeout)) :=
  ⟨by decide,
    Judge_verdict_consistent decimalFmt 5 (fun _ => honestPlayer) (fun _ => honestPlayer)
      ⟨Result.SlaveWon, Reason.Ok, ""⟩ (by decide)⟩

/-! ## Claims about the mock master -/

/-- C33 (code evaluated at the failing input): on a 2x2 configuration the mock answers `shot`
with its cursor `0 0`; `set result miss` leaves the cursor at `(0, 0)` and `set result hit`
moves it to `(1, 0)`, but `set result kill` leaves it at `(0, 0)`: the case of the source
reads `Set result kill`, and that text does move the cursor. -/
theorem mock_cursor_stays_after_kill :
    (mockPlayer.SendCommand decimalFmt
        (newMockMaster ⟨[(0, 142)], ⟨2, 2, ⟨1, 0, 0, 0⟩⟩, ⟨2, 2, ⟨1, 0, 0, 0⟩⟩⟩
          ⟨2, 2, ⟨1, 0, 0, 0⟩⟩) "shot").map (fun t => (t.1.x, t.1.y, t.2.1))
        = some (0, 0, "0 0")
      ∧ (mockPlayer.SendCommand decimalFmt
        (newMockMaster ⟨[(0, 142)], ⟨2, 2, ⟨1, 0, 0, 0⟩⟩, ⟨2, 2, ⟨1, 0, 0, 0⟩⟩⟩
          ⟨2, 2, ⟨1, 0, 0, 0⟩⟩) "set result miss").map (fun t => (t.1.x, t.1.y, t.2.1))
        = some (0, 0, "ok")
      ∧ (mockPlayer.SendCommand decimalFmt
        (newMockMaster ⟨[(0, 142)], ⟨2, 2, ⟨1, 0, 0, 0⟩⟩, ⟨2, 2, ⟨1, 0, 0, 0⟩⟩⟩
          ⟨2, 2, ⟨1, 0, 0, 0⟩⟩) "set result hit").map (fun t => (t.1.x, t.1.y, t.2.1))
        = some (1, 0, "ok")
      ∧ (mockPlayer.SendCommand decimalFmt
        (newMockMaster ⟨[(0, 142)], ⟨2, 2, ⟨1, 0, 0, 0⟩⟩, ⟨2, 2, ⟨1, 0, 0, 0⟩⟩⟩
          ⟨2, 2, ⟨1, 0, 0, 0⟩⟩) "set result kill").map (fun t => (t.1.x, t.1.y, t.2.1))
        = some (0, 0, "ok")
      ∧ (mockPlayer.SendCommand decimalFmt
        (newMockMaster ⟨[(0, 142)], ⟨2, 2, ⟨1, 0, 0, 0⟩⟩, ⟨2, 2, ⟨1, 0, 0, 0⟩⟩⟩
          ⟨2, 2, ⟨1, 0, 0, 0⟩⟩) "Set result kill").map (fun t => (t.1.x, t.1.y, t.2.1))
        = some (1, 0, "ok") := by
  decide

/-! ## The stopwatch -/

/-- The time since a reading of the clock that is not after `now`, both in `[0, 2^63)`. -/
theorem timeSince_eq {now u : Int} (h0 : 0 ≤ u) (h1 : u ≤ now)
    (h2 : now < 9223372036854775808) : timeSince now (some u) = now - u := by
  have hw : wrap64 (now - u) = now - u := wrap64_eq_self (by unfold IsInt64; omega)
  unfold timeSince
  simp only [hw]
  rw [if_neg (by omega), if_neg (by omega)]

/-- The worker of a stopwatch that waits on no timer does nothing. -/
theorem worker_of_disarmed (tie : Int → Bool) (now : Int) {s : Stopwatch}
    (h : s.armed = none) : s.worker tie now = s := by
  unfold Stopwatch.worker
  rw [h]

/-- One `Resume` and `Pause` on a paused stopwatch: both calls return, the active time is
added, and the deadline armed by `Resume` is the time-out minus the time accumulated
before. -/
theorem resume_pause_step (tie : Int → Bool) {T total t t' : Int} {s : Stopwatch}
    (hs : s.PausedAt T total) (hT0 : 0 ≤ T) (hT : T < 9223372036854775808)
    (h0 : 0 ≤ total) (h1 : total ≤ t) (h2 : t ≤ t') (h3 : t' < 9223372036854775808) :
    ∃ s1 s2, s.Resume tie t = some s1 ∧ s1.Pause tie t' = some s2
      ∧ s2.PausedAt T (total + (t' - t)) ∧ s1.lastResume = some t
      ∧ (s.closed = false → s1.armed = some (t, T - total))
      ∧ (s.closed = true → s1.armed = none) := by
  obtain ⟨tp, tmo, lr, cl, cc, ar, ex, cn⟩ := s
  obtain ⟨e1, e2, e3, e4, e5, e6, hle, hge⟩ := hs
  simp only at e1 e2 e3 e4 e5 e6 hle hge
  subst e1 e2 e3 e4 e5
  have hsince : timeSince t' (some t) = t' - t := timeSince_eq (by omega) h2 h3
  have hsum : wrap64 (tp + (t' - t)) = tp + (t' - t) :=
    wrap64_eq_self (by unfold IsInt64; omega)
  cases ex with
  | true =>
    have hge := hge rfl
    simp only [if_true] at e6
    subst e6
    refine ⟨⟨tp, tmo, some t, true, true, none, true, 1⟩,
      ⟨tp + (t' - t), tmo, some t, true, true, none, true, 1⟩, ?_, ?_, ?_, rfl, ?_, ?_⟩
    · simp [Stopwatch.Resume, Stopwatch.worker]
    · simp [Stopwatch.Pause, Stopwatch.worker, hsince, hsum]
    · refine ⟨rfl, rfl, rfl, rfl, rfl, rfl, ?_, ?_⟩
      · intro hc
        cases hc
      · intro _
        omega
    · intro hc
      cases hc
    · intro _
      rfl
  | false =>
    have hle := hle rfl
    simp only [Bool.false_eq_true, if_false] at e6
    subst e6
    have hd : wrap64 (tmo - tp) = tmo - tp := wrap64_eq_self (by unfold IsInt64; omega)
    have hres : Stopwatch.Resume tie t ⟨tp, tmo, lr, false, false, none, false, 0⟩
        = some ⟨tp, tmo, some t, false, false, some (t, tmo - tp), false, 0⟩ := by
      simp [Stopwatch.Resume, Stopwatch.worker, Stopwatch.send, hd]
    have hmax : max (tmo - tp) 0 = tmo - tp := max_eq_left (by omega)
    by_cases hfire : t + (tmo - tp) < t' ∨ (t + (tmo - tp) = t' ∧ tie t' = true)
    · refine ⟨_, ⟨tp + (t' - t), tmo, some t, true, true, none, true, 1⟩, hres, ?_, ?_, rfl,
        fun _ => rfl, ?_⟩
      · simp [Stopwatch.Pause, Stopwatch.worker, hmax, hfire, hsince, hsum]
      · refine ⟨rfl, rfl, rfl, rfl, rfl, rfl, ?_, ?_⟩
        · intro hc
          cases hc
        · intro _
          rcases hfire with hlt | ⟨heq, _⟩ <;> omega
      · intro hc
        cases hc
    · refine ⟨_, ⟨tp + (t' - t), tmo, some t, false, false, none, false, 0⟩, hres, ?_, ?_, rfl,
        fun _ => rfl, ?_⟩
      · simp [Stopwatch.Pause, Stopwatch.worker, Stopwatch.send, hmax, hfire, hsince, hsum]
      · refine ⟨rfl, rfl, rfl, rfl, rfl, rfl, ?_, ?_⟩
        · intro _
          have : ¬ t + (tmo - tp) < t' := fun hc => hfire (Or.inl hc)
          omega
        · intro hc
          cases hc
      · intro hc
        cases hc


/-- Running a sequence of calls made of two parts. -/
theorem run_append (tie : Int → Bool) :
    ∀ (a b : List StopwatchCall) (s s1 : Stopwatch), s.run tie a = some s1 →
      s.run tie (a ++ b) = s1.run tie b
  | [], b, s, s1, h => by
    simp only [Stopwatch.run, Option.some.injEq] at h
    subst h
    rfl
  | c :: a, b, s, s1, h => by
    rw [List.cons_append]
    cases c with
    | Resume now =>
      unfold Stopwatch.run at h
      conv_lhs => unfold Stopwatch.run
      cases hr : s.Resume tie now with
      | none => rw [hr] at h; cases h
      | some s2 =>
        rw [hr] at h
        exact run_append tie a b s2 s1 h
    | Pause now =>
      unfold Stopwatch.run at h
      conv_lhs => unfold Stopwatch.run
      cases hr : s.Pause tie now with
      | none => rw [hr] at h; cases h
      | some s2 =>
        rw [hr] at h
        exact run_append tie a b s2 s1 h
    | Close now =>
      unfold Stopwatch.run at h
      conv_lhs => unfold Stopwatch.run
      cases hr : s.Close tie now with
      | none => rw [hr] at h; cases h
      | some s2 =>
        rw [hr] at h
        exact run_append tie a b s2 s1 h

/-- The calls of a sequence of pairs made of two parts. -/
theorem resumePauseCalls_append (a b : List (Int × Int)) :
    resumePauseCalls (a ++ b) = resumePauseCalls a ++ resumePauseCalls b := by
  induction a with
  | nil => rfl
  | cons p a ih =>
    show StopwatchCall.Resume p.1 :: StopwatchCall.Pause p.2 :: resumePauseCalls (a ++ b) = _
    rw [ih]
    rfl

/-- The active time of a sequence of pairs made of two parts. -/
theorem activeTime_append (a b : List (Int × Int)) :
    activeTime (a ++ b) = activeTime a + activeTime b := by
  induction a with
  | nil => simp [activeTime]
  | cons p a ih =>
    show (p.2 - p.1) + activeTime (a ++ b) = ((p.2 - p.1) + activeTime a) + activeTime b
    rw [ih]
    omega

/-- The first part of a chronological sequence is chronological, and the rest starts after
the last instant of the first part and after the active time of the first part. -/
theorem Chronological_append :
    ∀ (a b : List (Int × Int)) (start : Int), 0 ≤ start → Chronological start (a ++ b) →
      Chronological start a
        ∧ ∃ mid, start ≤ mid ∧ activeTime a ≤ mid - start ∧ 0 ≤ activeTime a
            ∧ Chronological mid b
  | [], b, start, _, h => ⟨trivial, start, le_refl _, by simp [activeTime], by simp [activeTime], h⟩
  | p :: a, b, start, h0, h => by
    obtain ⟨h1, h2, h3, h4⟩ := h
    obtain ⟨ha, mid, hm1, hm2, hm3, hm4⟩ := Chronological_append a b p.2 (by omega) h4
    refine ⟨⟨h1, h2, h3, ha⟩, mid, by omega, ?_, ?_, hm4⟩
    · simp only [activeTime]
      omega
    · simp only [activeTime]
      omega

/-- A chronological sequence of `Resume` and `Pause` pairs on a paused stopwatch: all calls
return and the stopwatch is paused with the active times added. -/
theorem run_resumePause (tie : Int → Bool) {T : Int} (hT0 : 0 ≤ T)
    (hT : T < 9223372036854775808) :
    ∀ (pairs : List (Int × Int)) (s : Stopwatch) (total start : Int),
      s.PausedAt T total → 0 ≤ total → total ≤ start → Chronological start pairs →
        ∃ s1, s.run tie (resumePauseCalls pairs) = some s1
          ∧ s1.PausedAt T (total + activeTime pairs)
  | [], s, total, start, hs, _, _, _ => ⟨s, rfl, by simpa [activeTime] using hs⟩
  | p :: pairs, s, total, start, hs, h0, h1, hch => by
    obtain ⟨c1, c2, c3, c4⟩ := hch
    obtain ⟨s1, s2, hr, hp, hs2, _, _, _⟩ :=
      resume_pause_step tie hs hT0 hT h0 (by omega) c2 c3
    obtain ⟨s3, hrun, hs3⟩ := run_resumePause tie hT0 hT pairs s2 (total + (p.2 - p.1)) p.2
      hs2 (by omega) (by omega) c4
    refine ⟨s3, ?_, ?_⟩
    · simp only [resumePauseCalls, Stopwatch.run, hr, hp]
      exact hrun
    · simp only [activeTime]
      rw [← add_assoc]
      exact hs3

/-- A new stopwatch is paused with nothing accumulated. -/
theorem NewStopwatch_PausedAt {T : Int} (hT0 : 0 ≤ T) : (NewStopwatch T).PausedAt T 0 :=
  ⟨rfl, rfl, rfl, rfl, rfl, rfl, fun _ => hT0, fun hc => by cases hc⟩

/-- C31: for a stopwatch with a time-out `T` in `[0, 2^63)` and every alternating sequence
`Resume(t1), Pause(t1'), ...` whose instants are clock readings in the order of the calls
(`0 ≤ t1 ≤ t1' ≤ t2 ≤ ... < 2^63`), at every pair `next` of the sequence, `done` being the
pairs before it: all calls return; the total accumulated after the `Pause` of `next` is the
sum of the `ti' - ti` up to `next`, so the time between a `Pause` and the next `Resume` is
not charged; the `Resume` of `next` arms the deadline `T` minus the sum over `done` (when
the stopwatch has not closed itself before); and the callback has been called at most once,
never when the accumulated active time is below `T`, and once when it is above `T`, however
many pairs it is spread over. -/
theorem Stopwatch_accounting (tie : Int → Bool) (T : Int) (hT0 : 0 ≤ T)
    (hT : T < 9223372036854775808) (done : List (Int × Int)) (next : Int × Int)
    (rest : List (Int × Int)) (hch : Chronological 0 (done ++ next :: rest)) :
    ∃ s0 s1 s2, (NewStopwatch T).run tie (resumePauseCalls done) = some s0
      ∧ s0.Resume tie next.1 = some s1
      ∧ s1.Pause tie next.2 = some s2
      ∧ (NewStopwatch T).run tie (resumePauseCalls (done ++ [next])) = some s2
      ∧ s0.totalPassed = activeTime done
      ∧ s2.totalPassed = activeTime done + (next.2 - next.1)
      ∧ (s0.closed = false → s1.armed = some (next.1, T - activeTime done))
      ∧ (s0.closed = true → s1.armed = none ∧ s0.cancels = 1)
      ∧ s2.armed = none
      ∧ s2.cancels ≤ 1
      ∧ (activeTime (done ++ [next]) < T → s2.cancels = 0)
      ∧ (T < activeTime (done ++ [next]) → s2.cancels = 1) := by
  obtain ⟨hdone, mid, hm0, hmid, hact, hrest⟩ := Chronological_append done (next :: rest) 0
    (le_refl _) hch
  obtain ⟨c1, c2, c3, _⟩ := hrest
  obtain ⟨s0, hrun0, hs0⟩ := run_resumePause tie hT0 hT done (NewStopwatch T) 0 0
    (NewStopwatch_PausedAt hT0) (le_refl _) (le_refl _) hdone
  rw [zero_add] at hs0
  obtain ⟨s1, s2, hr, hp, hs2, _, harm, hnarm⟩ :=
    resume_pause_step tie hs0 hT0 hT hact (by omega) c2 c3
  have hsum : activeTime (done ++ [next]) = activeTime done + (next.2 - next.1) := by
    rw [activeTime_append]
    simp [activeTime]
  obtain ⟨_, e2, e3, _, _, e6, hle, hge⟩ := hs2
  refine ⟨s0, s1, s2, hrun0, hr, hp, ?_, hs0.2.1, e2, harm, ?_, e3, ?_, ?_, ?_⟩
  · rw [resumePauseCalls_append, run_append tie _ _ _ _ hrun0]
    simp only [resumePauseCalls, Stopwatch.run, hr, hp]
  · intro hc
    refine ⟨hnarm hc, ?_⟩
    rw [hs0.2.2.2.2.2.1, hc]
    rfl
  · rw [e6]
    split <;> omega
  · intro hlt
    rw [e6]
    cases hcl : s2.closed with
    | false => rfl
    | true =>
      have := hge hcl
      omega
  · intro hgt
    rw [e6]
    cases hcl : s2.closed with
    | true => rfl
    | false =>
      have := hle hcl
      omega

/-- C31 witness: time-out 100; the pairs `(0, 30)`, `(50, 80)` accumulate 60, the third
`Resume` at 90 arms the deadline 40, and the `Pause` at 140 comes after the callback. -/
theorem Stopwatch_accounting_witness :
    ∃ s0 s1 s2, (NewStopwatch 100).run (fun _ => false) (resumePauseCalls [(0, 30), (50, 80)])
        = some s0
      ∧ s0.Resume (fun _ => false) 90 = some s1
      ∧ s1.Pause (fun _ => false) 140 = some s2
      ∧ s0.totalPassed = 60
      ∧ s2.totalPassed = 110
      ∧ s1.armed = some (90, 40)
      ∧ s2.cancels = 1 :=
  (Stopwatch_accounting (fun _ => false) 100 (by decide) (by decide) [(0, 30), (50, 80)]
    (90, 140) [] (by simp [Chronological])).imp fun s0 h0 => h0.imp fun s1 h1 => h1.imp fun s2 h =>
      ⟨h.1, h.2.1, h.2.2.1, h.2.2.2.2.1, h.2.2.2.2.2.1,
        h.2.2.2.2.2.2.1
          (by
            have e := h.1
            have : (NewStopwatch 100).run (fun _ => false)
                (resumePauseCalls [(0, 30), (50, 80)])
                = some ⟨60, 100, some 50, false, false, none, false, 0⟩ := by decide
            rw [this] at e
            cases e
            rfl),
        h.2.2.2.2.2.2.2.2.2.2.2 (by decide)⟩


/-- The worker keeps flag, channel and its own end together, and does nothing once the
stopwatch is closed. -/
theorem worker_coherent (tie : Int → Bool) (now : Int) {s : Stopwatch} (h : s.Coherent) :
    (s.worker tie now).Coherent ∧ (s.closed = true → s.worker tie now = s) := by
  obtain ⟨tp, tmo, lr, cl, cc, ar, ex, cn⟩ := s
  obtain ⟨e1, e2, e3⟩ := h
  simp only at e1 e2 e3
  subst e1 e2
  cases ex with
  | true =>
    have := e3 rfl
    subst this
    exact ⟨⟨rfl, rfl, fun _ => rfl⟩, fun _ => rfl⟩
  | false =>
    refine ⟨?_, fun hc => by cases hc⟩
    cases ar with
    | none => exact ⟨rfl, rfl, fun hc => by cases hc⟩
    | some p =>
      obtain ⟨a, d⟩ := p
      by_cases hfire : a + max d 0 < now ∨ (a + max d 0 = now ∧ tie now = true)
      · simp [Stopwatch.worker, hfire, Stopwatch.Coherent]
      · simp [Stopwatch.worker, hfire, Stopwatch.Coherent]

/-- Every call on a stopwatch whose flag, channel and worker agree returns and keeps them in
agreement; on a closed stopwatch it leaves the stopwatch closed and calls no callback, and
`Close` changes nothing at all. -/
theorem call_coherent (tie : Int → Bool) (now : Int) {s : Stopwatch} (h : s.Coherent) :
    (∃ s1, s.Resume tie now = some s1 ∧ s1.Coherent
        ∧ (s.closed = true → s1.closed = true ∧ s1.cancels = s.cancels))
      ∧ (∃ s1, s.Pause tie now = some s1 ∧ s1.Coherent
        ∧ (s.closed = true → s1.closed = true ∧ s1.cancels = s.cancels))
      ∧ (∃ s1, s.Close tie now = some s1 ∧ s1.Coherent ∧ s1.closed = true
        ∧ (s.closed = true → s1 = s)) := by
  obtain ⟨hw, hwc⟩ := worker_coherent tie now h
  cases hcl : s.closed with
  | true =>
    have hws := hwc hcl
    obtain ⟨e1, e2, e3⟩ := h
    refine ⟨⟨{ s with lastResume := some now }, ?_, ⟨e1, e2, e3⟩, fun _ => ⟨hcl, rfl⟩⟩,
      ⟨{ s with totalPassed := wrap64 (s.totalPassed + timeSince now s.lastResume) }, ?_,
        ⟨e1, e2, e3⟩, fun _ => ⟨hcl, rfl⟩⟩,
      ⟨s, ?_, ⟨e1, e2, e3⟩, hcl, fun _ => rfl⟩⟩
    · simp [Stopwatch.Resume, hws, hcl]
    · simp [Stopwatch.Pause, hws, hcl]
    · simp [Stopwatch.Close, hws, hcl]
  | false =>
    obtain ⟨w1, w2, w3⟩ := hw
    cases hwcl : (s.worker tie now).closed with
    | true =>
      rw [hwcl] at w1 w2
      refine ⟨⟨{ s.worker tie now with lastResume := some now }, ?_,
          ⟨w1.trans hwcl.symm, w2.trans hwcl.symm, w3⟩, fun hc => by cases hc⟩,
        ⟨{ s.worker tie now with
            totalPassed := wrap64 ((s.worker tie now).totalPassed
              + timeSince now (s.worker tie now).lastResume) }, ?_,
          ⟨w1.trans hwcl.symm, w2.trans hwcl.symm, w3⟩, fun hc => by cases hc⟩,
        ⟨s.worker tie now, ?_, ⟨w1.trans hwcl.symm, w2.trans hwcl.symm, w3⟩, hwcl,
          fun hc => by cases hc⟩⟩
      · simp [Stopwatch.Resume, hwcl]
      · simp [Stopwatch.Pause, hwcl]
      · simp [Stopwatch.Close, hwcl]
    | false =>
      rw [hwcl] at w1 w2
      refine ⟨⟨{ s.worker tie now with
            lastResume := some now
            armed := some (now, wrap64 ((s.worker tie now).timeout
              - (s.worker tie now).totalPassed)) }, ?_,
          ⟨w1.trans hwcl.symm, w2.trans hwcl.symm,
            fun hc => by rw [hwcl] at hc; cases hc⟩, fun hc => by cases hc⟩,
        ⟨{ s.worker tie now with
            armed := none
            totalPassed := wrap64 ((s.worker tie now).totalPassed
              + timeSince now (s.worker tie now).lastResume) }, ?_,
          ⟨w1.trans hwcl.symm, w2.trans hwcl.symm, fun _ => rfl⟩, fun hc => by cases hc⟩,
        ⟨{ s.worker tie now with
            closed := true, chanClosed := true, armed := none, exited := true }, ?_,
          ⟨rfl, rfl, fun _ => rfl⟩, rfl, fun hc => by cases hc⟩⟩
      · simp [Stopwatch.Resume, Stopwatch.send, hwcl, w1, w2]
      · simp [Stopwatch.Pause, Stopwatch.send, hwcl, w1, w2]
      · simp [Stopwatch.Close, hwcl, w1]

/-- Every sequence of calls on a stopwatch whose flag, channel and worker agree returns; on a
closed stopwatch it calls no callback. -/
theorem run_coherent (tie : Int → Bool) :
    ∀ (calls : List StopwatchCall) (s : Stopwatch), s.Coherent →
      ∃ s1, s.run tie calls = some s1 ∧ s1.Coherent
        ∧ (s.closed = true → s1.closed = true ∧ s1.cancels = s.cancels)
  | [], s, h => ⟨s, rfl, h, fun hc => ⟨hc, rfl⟩⟩
  | c :: calls, s, h => by
    obtain ⟨⟨r1, hr, hrc, hrk⟩, ⟨p1, hp, hpc, hpk⟩, ⟨c1, hc, hcc, _, hck⟩⟩ :=
      call_coherent tie (match c with
        | StopwatchCall.Resume now => now
        | StopwatchCall.Pause now => now
        | StopwatchCall.Close now => now) h
    cases c with
    | Resume now =>
      obtain ⟨s2, hrun, hs2, hk2⟩ := run_coherent tie calls r1 hrc
      refine ⟨s2, ?_, hs2, ?_⟩
      · unfold Stopwatch.run
        simp only at hr
        rw [hr]
        exact hrun
      · intro hcl
        obtain ⟨k1, k2⟩ := hrk hcl
        obtain ⟨k3, k4⟩ := hk2 k1
        exact ⟨k3, k4.trans k2⟩
    | Pause now =>
      obtain ⟨s2, hrun, hs2, hk2⟩ := run_coherent tie calls p1 hpc
      refine ⟨s2, ?_, hs2, ?_⟩
      · unfold Stopwatch.run
        simp only at hp
        rw [hp]
        exact hrun
      · intro hcl
        obtain ⟨k1, k2⟩ := hpk hcl
        obtain ⟨k3, k4⟩ := hk2 k1
        exact ⟨k3, k4.trans k2⟩
    | Close now =>
      obtain ⟨s2, hrun, hs2, hk2⟩ := run_coherent tie calls c1 hcc
      refine ⟨s2, ?_, hs2, ?_⟩
      · unfold Stopwatch.run
        simp only at hc
        rw [hc]
        exact hrun
      · intro hcl
        have e := hck hcl
        subst e
        exact hk2 hcl

/-- C32: on a stopwatch reached from `NewStopwatch` by any sequence of calls, at any
instants, `Close` returns and leaves the stopwatch closed; a second `Close`, whenever it is
made, returns and changes nothing; and if the callback has not been called when the
stopwatch is closed, then after every later sequence of `Resume`, `Pause` and `Close` calls,
however long the stopwatch is held running, every call has returned and the callback has
still not been called, nor is it called at any later instant. -/
theorem Stopwatch_Close_final (tie : Int → Bool) (T : Int) (calls : List StopwatchCall)
    (t1 : Int) :
    ∃ s s1, (NewStopwatch T).run tie calls = some s ∧ s.Close tie t1 = some s1
      ∧ s1.closed = true
      ∧ (∀ t2 : Int, s1.Close tie t2 = some s1)
      ∧ (s1.cancels = 0 → ∀ later : List StopwatchCall,
          ∃ s2, s1.run tie later = some s2 ∧ s2.closed = true ∧ s2.cancels = 0
            ∧ ∀ now : Int, (s2.worker tie now).cancels = 0) := by
  obtain ⟨s, hrun, hs, _⟩ := run_coherent tie calls (NewStopwatch T)
    ⟨rfl, rfl, fun hc => by cases hc⟩
  obtain ⟨_, _, ⟨s1, hc, hs1, hcl, _⟩⟩ := call_coherent tie t1 hs
  refine ⟨s, s1, hrun, hc, hcl, ?_, ?_⟩
  · intro t2
    obtain ⟨_, _, ⟨s2, hc2, _, _, hsame⟩⟩ := call_coherent tie t2 hs1
    rw [hc2, hsame hcl]
  · intro hzero later
    obtain ⟨s2, hrun2, hs2, hk⟩ := run_coherent tie later s1 hs1
    obtain ⟨k1, k2⟩ := hk hcl
    refine ⟨s2, hrun2, k1, k2.trans hzero, ?_⟩
    intro now
    rw [(worker_coherent tie now hs2).2 k1, k2, hzero]

/-- C32 witness: test `TestStopwatch_Close`: a stopwatch with time-out 100 is closed at once
and then held running from 1 to 201. -/
theorem Stopwatch_Close_final_witness :
    ∃ s2, Stopwatch.run (fun _ => true)
        ⟨0, 100, none, true, true, none, true, 0⟩
        [StopwatchCall.Resume 1, StopwatchCall.Pause 201] = some s2
      ∧ s2.closed = true ∧ s2.cancels = 0
      ∧ ∀ now : Int, (s2.worker (fun _ => true) now).cancels = 0 :=
  (Stopwatch_Close_final (fun _ => true) 100 [] 0).elim fun s h => h.elim fun s1 h1 =>
    (by
      have e0 : s = NewStopwatch 100 := by
        have := h1.1
        simp only [Stopwatch.run, Option.some.injEq] at this
        exact this.symm
      have e1 : s1 = ⟨0, 100, none, true, true, none, true, 0⟩ := by
        have := h1.2.1
        rw [e0] at this
        have hc : (NewStopwatch 100).Close (fun _ => true) 0
            = some ⟨0, 100, none, true, true, none, true, 0⟩ := by decide
        rw [hc] at this
        exact (Option.some.inj this).symm
      have h2 := h1.2.2.2.2
      rw [e1] at h2
      exact h2 rfl [StopwatchCall.Resume 1, StopwatchCall.Pause 201])

/-! ## Claim about the stdout reader -/

/-- C38: two stdout frames that are available together, with payloads `ab` and `c`, read
through buffers of 4096 bytes: the reader delivers `ab` followed by the eight header bytes
of the second frame and `c`, where the payloads of the stdout frames are `abc`; the second
read is not bounded by the bytes left of the frame. -/
theorem dockerStdoutReader_delivers_header :
    (newDockerStdoutReader [encodeFrame (1, [97, 98]) ++ encodeFrame (1, [99])]).readAll
        [4096, 4096, 4096]
      = [97, 98, 1, 0, 0, 0, 0, 0, 0, 1, 99]
      ∧ stdoutPayload [(1, [97, 98]), (1, [99])] = [97, 98, 99] := by
  decide

/-! ## The same cell shot twice in a row -/

set_option maxRecDepth 100000 in
set_option maxHeartbeats 4000000 in
theorem markBit_idem_fin : ∀ (c : shipData) (i : Fin 4),
    markBit (markBit c i.val) i.val = markBit c i.val := by
  decide

theorem markBit_idem (c : shipData) {k : Nat} (hk : k < 4) :
    markBit (markBit c k) k = markBit c k :=
  markBit_idem_fin c ⟨k, hk⟩

/-- Striking a stored descriptor replaces it by one of the same orientation and size, and
striking that one at the same deck gives the same result and changes nothing. -/
theorem hitShip_again {f f1 : ShipField} {ship : shipData} {pos idx : Int} {r : ShootResult}
    (hg : Get f.ships pos = some ship) (h4 : idx < 4)
    (h : hitShip f ship pos idx = some (f1, r)) :
    ∃ d1, f1.conf = f.conf ∧ IsVert d1 = IsVert ship ∧ Size d1 = Size ship
      ∧ (∀ q, Get f1.ships q = if q = pos then some d1 else Get f.ships q)
      ∧ hitShip f1 d1 pos idx = some (f1, r) := by
  by_cases hd : IsDead ship = true
  · obtain ⟨hf, hr⟩ := hitShip_dead hd h
    subst hf
    refine ⟨ship, rfl, rfl, rfl, ?_, h⟩
    intro q
    by_cases hq : q = pos
    · rw [if_pos hq, hq, hg]
    · rw [if_neg hq]
  · have hd0 : IsDead ship = false := by simpa using hd
    obtain ⟨h0, hc, hs, hcase⟩ := hitShip_alive hd0 h
    have hk : idx.toNat < 4 := by omega
    have hget : ∀ q, Get f1.ships q
        = if q = pos then some (markBit ship idx.toNat) else Get f.ships q := by
      intro q
      rw [hs]
      exact Get_Put _ _ _ _
    refine ⟨markBit ship idx.toNat, hc, markBit_IsVert ship hk, markBit_Size ship hk, hget, ?_⟩
    rcases hcase with ⟨hdead, hr, _⟩ | ⟨halive, hr, _⟩
    · unfold hitShip
      rw [if_pos hdead, hr]
    · have hself : Get f1.ships pos = some (markBit ship idx.toNat) := by
        rw [hget pos, if_pos rfl]
      unfold hitShip
      rw [if_neg (by rw [halive]; decide), MarkHit_eq h0, markBit_idem ship hk]
      simp only
      rw [if_neg (by rw [halive]; decide), Put_self hself, hr]

/-- The scan to the left after the descriptor of one stored key has been replaced by one of
the same orientation and size. -/
theorem scanLeftLoop_Put {f g : ShipField} (hc : g.conf = f.conf) {p : Int}
    {d d1 : shipData} (hp : Get f.ships p = some d) (hv : IsVert d1 = IsVert d)
    (hs : Size d1 = Size d)
    (hg : ∀ q, Get g.ships q = if q = p then some d1 else Get f.ships q)
    (x y bound : Int) :
    ∀ (fuel : Nat) (i : Int), scanLeftLoop g x y bound fuel i
      = (scanLeftLoop f x y bound fuel i).map (Option.map (fun intr =>
          if intr.shipPos = p then ⟨intr.shipPos, d1, intr.deck⟩ else intr)) := by
  intro fuel
  induction fuel with
  | zero =>
    intro i
    rfl
  | succ fuel ih =>
    intro i
    unfold scanLeftLoop
    by_cases hi : i ≤ bound
    · rw [if_pos hi, if_pos hi]
      simp only [makePos_congr hc]
      rw [hg]
      by_cases hq : makePos f (wrap64 (x - i)) y = p
      · rw [if_pos hq, hq, hp]
        simp only [IsHor, hv, hs]
        split_ifs <;> first | exact ih _ | simp
      · rw [if_neg hq]
        cases hget : Get f.ships (makePos f (wrap64 (x - i)) y) with
        | none => exact ih _
        | some ship =>
          simp only
          split_ifs <;> first | exact ih _ | simp [hq]
    · rw [if_neg hi, if_neg hi]
      rfl

/-- The scan upwards after the descriptor of one stored key has been replaced by one of the
same orientation and size. -/
theorem scanUpLoop_Put {f g : ShipField} (hc : g.conf = f.conf) {p : Int}
    {d d1 : shipData} (hp : Get f.ships p = some d) (hv : IsVert d1 = IsVert d)
    (hs : Size d1 = Size d)
    (hg : ∀ q, Get g.ships q = if q = p then some d1 else Get f.ships q)
    (x y bound : Int) :
    ∀ (fuel : Nat) (i : Int), scanUpLoop g x y bound fuel i
      = (scanUpLoop f x y bound fuel i).map (Option.map (fun intr =>
          if intr.shipPos = p then ⟨intr.shipPos, d1, intr.deck⟩ else intr)) := by
  intro fuel
  induction fuel with
  | zero =>
    intro i
    rfl
  | succ fuel ih =>
    intro i
    unfold scanUpLoop
    by_cases hi : i ≤ bound
    · rw [if_pos hi, if_pos hi]
      simp only [makePos_congr hc]
      rw [hg]
      by_cases hq : makePos f x (wrap64 (y - i)) = p
      · rw [if_pos hq, hq, hp]
        simp only [hv, hs]
        split_ifs <;> first | exact ih _ | simp
      · rw [if_neg hq]
        cases hget : Get f.ships (makePos f x (wrap64 (y - i))) with
        | none => exact ih _
        | some ship =>
          simp only
          split_ifs <;> first | exact ih _ | simp [hq]
    · rw [if_neg hi, if_neg hi]
      rfl

/-- A shot that returns, repeated at once at the same cell, returns the same result and
leaves the field as the first shot left it. -/
theorem Shoot_again {f f1 : ShipField} {x y : Int} {r : ShootResult}
    (h : Shoot f x y = some (f1, r)) : Shoot f1 x y = some (f1, r) := by
  unfold Shoot at h
  by_cases hout : x ≥ f.conf.W ∨ y ≥ f.conf.H
  · rw [if_pos hout] at h
    cases h
    unfold Shoot
    rw [if_pos hout]
  · rw [if_neg hout] at h
    simp only at h
    cases hget : Get f.ships (makePos f x y) with
    | some ship =>
      rw [hget] at h
      simp only at h
      obtain ⟨d1, hc, _, _, hg, hit⟩ := hitShip_again hget (by decide) h
      unfold Shoot
      rw [hc, if_neg hout]
      simp only [makePos_congr hc]
      rw [hg, if_pos rfl]
      exact hit
    | none =>
      rw [hget] at h
      simp only at h
      cases hl : scanIntersectionsLeft f x y with
      | none =>
        rw [hl] at h
        cases h
      | some rl =>
        rw [hl] at h
        cases rl with
        | some intr =>
          simp only at h
          obtain ⟨h1, h2, _⟩ := scanLeftLoop_found _ _ _ hl
          obtain ⟨d1, hc, hv, hs, hg, hit⟩ :=
            hitShip_again h1 (by have := Size_le intr.shipData; omega) h
          have hne : makePos f x y ≠ intr.shipPos := by
            intro he
            rw [he, h1] at hget
            cases hget
          unfold Shoot
          rw [hc, if_neg hout]
          simp only [makePos_congr hc]
          rw [hg, if_neg hne, hget]
          simp only
          unfold scanIntersectionsLeft at hl ⊢
          rw [scanLeftLoop_Put hc h1 hv hs hg, hl]
          simp only [Option.map_some', if_true]
          exact hit
        | none =>
          simp only at h
          cases hu : scanIntersectionsUp f x y with
          | none =>
            rw [hu] at h
            cases h
          | some ru =>
            rw [hu] at h
            cases ru with
            | some intr =>
              simp only at h
              obtain ⟨h1, h2, _⟩ := scanUpLoop_found _ _ _ hu
              obtain ⟨d1, hc, hv, hs, hg, hit⟩ :=
                hitShip_again h1 (by have := Size_le intr.shipData; omega) h
              have hne : makePos f x y ≠ intr.shipPos := by
                intro he
                rw [he, h1] at hget
                cases hget
              unfold Shoot
              rw [hc, if_neg hout]
              simp only [makePos_congr hc]
              rw [hg, if_neg hne, hget]
              simp only
              unfold scanIntersectionsLeft at hl ⊢
              unfold scanIntersectionsUp at hu ⊢
              rw [scanLeftLoop_Put hc h1 hv hs hg, hl]
              simp only [Option.map_some', Option.map_none']
              rw [scanUpLoop_Put hc h1 hv hs hg, hu]
              simp only [Option.map_some', Option.map_none', if_true]
              exact hit
            | none =>
              simp only [Option.some.injEq, Prod.mk.injEq] at h
              obtain ⟨hf, hr⟩ := h
              subst hf
              subst hr
              unfold Shoot
              rw [if_neg hout]
              simp only
              rw [hget]
              simp only
              rw [hl]
              simp only
              rw [hu]

/-! ## Commands of the mock -/

theorem shot_cmd_data (a b c : String) :
    ("shot " ++ a ++ b ++ c).data
      = 's' :: 'h' :: 'o' :: 't' :: ' ' :: (a.data ++ b.data ++ c.data) := by
  simp only [String.data_append, List.append_assoc]
  rfl

theorem shot_cmd_ne (a b c lit : String) (h : lit.data.take 5 ≠ ['s', 'h', 'o', 't', ' ']) :
    "shot " ++ a ++ b ++ c ≠ lit := by
  intro he
  apply h
  rw [← he, shot_cmd_data]
  rfl

theorem shot_cmd_starts (a b c : String) :
    "shot ".data.isPrefixOf ("shot " ++ a ++ b ++ c).data = true := by
  rw [shot_cmd_data]
  have hd : "shot ".data = ['s', 'h', 'o', 't', ' '] := rfl
  rw [hd]
  simp [List.isPrefixOf]

/-- The mock answers a `shot x y` command with the result of `Shoot` on the field it holds,
at the coordinates it scans from the command. -/
theorem mock_shot_cmd (fm : Fmt) (m : mockPlayer) (a b c : String) {f1 : ShipField}
    {result : ShootResult}
    (h : Shoot m.field (fm.SscanShot ("shot " ++ a ++ b ++ c)).1
      (fm.SscanShot ("shot " ++ a ++ b ++ c)).2 = some (f1, result)) :
    m.SendCommand fm ("shot " ++ a ++ b ++ c)
      = some ({ m with field := f1 }, result.String, none) := by
  unfold mockPlayer.SendCommand
  rw [if_neg (shot_cmd_ne a b c _ (by decide)), if_neg (shot_cmd_ne a b c _ (by decide)),
    if_neg (shot_cmd_ne a b c _ (by decide)), if_neg (shot_cmd_ne a b c _ (by decide)),
    if_neg (shot_cmd_ne a b c _ (by decide)), if_neg (shot_cmd_ne a b c _ (by decide)),
    if_neg (shot_cmd_ne a b c _ (by decide)), if_neg (shot_cmd_ne a b c _ (by decide)),
    if_pos (shot_cmd_starts a b c), h]

/-- The mock answers `ok`, and stays as it is, on every command that is not a `get`, `win`,
`shot` or `set result hit` command. -/
theorem mock_plain (fm : Fmt) (m : mockPlayer) (cmd : String)
    (h : cmd ≠ "get count 1" ∧ cmd ≠ "get count 2" ∧ cmd ≠ "get count 3"
      ∧ cmd ≠ "get count 4" ∧ cmd ≠ "get width" ∧ cmd ≠ "get height" ∧ cmd ≠ "win"
      ∧ cmd ≠ "shot" ∧ "shot ".data.isPrefixOf cmd.data = false
      ∧ cmd ≠ "set result hit" ∧ cmd ≠ "Set result kill") :
    m.SendCommand fm cmd = some (m, "ok", none) := by
  obtain ⟨h1, h2, h3, h4, h5, h6, h7, h8, h9, h10, h11⟩ := h
  unfold mockPlayer.SendCommand
  rw [if_neg h1, if_neg h2, if_neg h3, if_neg h4, if_neg h5, if_neg h6, if_neg h7, if_neg h8,
    if_neg (by rw [h9]; decide)]
  by_cases hm : cmd = "set result miss"
  · rw [if_pos hm]
  · rw [if_neg hm, if_neg (by rintro (hc | hc); exact h10 hc; exact h11 hc)]

/-- The mock answers `set result hit` with `ok` and moves its cursor to the next cell in
row-major order, back to the first cell after the last one. -/
theorem mock_set_result_hit (fm : Fmt) (m : mockPlayer) :
    m.SendCommand fm "set result hit"
      = some ({ m with
            x := if wrap64 (m.x + 1) = m.conf.W then 0 else wrap64 (m.x + 1)
            y := if (if wrap64 (m.x + 1) = m.conf.W then wrap64 (m.y + 1) else m.y) = m.conf.H
              then 0 else (if wrap64 (m.x + 1) = m.conf.W then wrap64 (m.y + 1) else m.y) },
          "ok", none) := by
  unfold mockPlayer.SendCommand
  rw [if_neg (by decide), if_neg (by decide), if_neg (by decide), if_neg (by decide),
    if_neg (by decide), if_neg (by decide), if_neg (by decide), if_neg (by decide),
    if_neg (by decide), if_neg (by decide), if_pos (Or.inl rfl)]

/-- The mock answers `shot` with the text of its cursor. -/
theorem mock_shot (fm : Fmt) (m : mockPlayer) :
    m.SendCommand fm "shot" = some (m, fm.Sprint m.x ++ " " ++ fm.Sprint m.y, none) := by
  unfold mockPlayer.SendCommand
  rw [if_neg (by decide), if_neg (by decide), if_neg (by decide), if_neg (by decide),
    if_neg (by decide), if_neg (by decide), if_neg (by decide), if_pos rfl]

/-- The text of a result is read back as that result. -/
theorem FromString_String (res : ShootResult) :
    ShootResult.FromString res.String = Except.ok res := by
  cases res <;> rfl

/-- The texts `FromString` accepts. -/
theorem FromString_ok {str : String} {res : ShootResult}
    (h : ShootResult.FromString str = Except.ok res) : str = res.String := by
  unfold ShootResult.FromString at h
  split_ifs at h with h1 h2 h3
  · cases h
    exact h1
  · cases h
    exact h2
  · cases h
    exact h3


/-- The mock answers each `get` command with the text of the value of its configuration. -/
theorem mock_get (fm : Fmt) (m : mockPlayer) :
    m.SendCommand fm "get width" = some (m, fm.Sprint m.conf.W, none)
      ∧ m.SendCommand fm "get height" = some (m, fm.Sprint m.conf.H, none)
      ∧ m.SendCommand fm "get count 1" = some (m, fm.Sprint m.conf.Sizes.c0, none)
      ∧ m.SendCommand fm "get count 2" = some (m, fm.Sprint m.conf.Sizes.c1, none)
      ∧ m.SendCommand fm "get count 3" = some (m, fm.Sprint m.conf.Sizes.c2, none)
      ∧ m.SendCommand fm "get count 4" = some (m, fm.Sprint m.conf.Sizes.c3, none) := by
  refine ⟨?_, ?_, ?_, ?_, ?_, ?_⟩ <;> simp [mockPlayer.SendCommand]

/-! ## Steps of a round of the mock -/

/-- The mock goes through `InitPlayer` without error and stays as it is. -/
theorem InitPlayer_mock (fm : Fmt) (m : mockPlayer) (p : Player) (mf sf : Option FieldRef)
    (c : Configuration) :
    (⟨Player.mock m, p, mf, sf, c⟩ : round).InitPlayer fm Role.RoleMaster
      = Run.done (⟨Player.mock m, p, mf, sf, c⟩, none) := by
  have h1 := mock_plain fm m "create master" (by decide)
  have h2 := mock_plain fm m "set strategy custom" (by decide)
  simp [round.InitPlayer, round.SendCommand, round.playerByRole, round.setPlayer,
    Player.SendCommand, Role.String, h1, h2]

/-- The configuration requested from the mock is the configuration the mock holds, when it
is valid and `fmt` reads its values back. -/
theorem RequestConfiguration_mock (fm : Fmt) (m : mockPlayer) (p : Player)
    (mf sf : Option FieldRef) (c : Configuration) (hfm : fm.ReadsBack m.conf)
    (hvalid : m.conf.IsValid fm = none) :
    (⟨Player.mock m, p, mf, sf, c⟩ : round).RequestConfiguration fm
      = Run.done (⟨Player.mock m, p, mf, sf, m.conf⟩, none) := by
  obtain ⟨g1, g2, g3, g4, g5, g6⟩ := mock_get fm m
  have hs := hfm.1
  simp only [List.mem_cons, List.mem_singleton, forall_eq_or_imp, forall_eq,
    List.not_mem_nil, false_implies, implies_true, and_true] at hs
  obtain ⟨s1, s2, s3, s4, s5, s6⟩ := hs
  have hloop : (⟨Player.mock m, p, mf, sf, c⟩ : round).requestLoop fm confParams
      = Run.done (⟨Player.mock m, p, mf, sf, m.conf⟩, none) := by
    simp [confParams, round.requestLoop, round.SendCommand, round.playerByRole,
      round.setPlayer, Player.SendCommand, g1, g2, g3, g4, g5, g6, s1, s2, s3, s4, s5, s6]
  unfold round.RequestConfiguration
  rw [hloop]
  simp only [hvalid]

/-- The mock goes through `StartPlayer` without error; the master's field of the round is
then the object the mock holds. -/
theorem StartPlayer_mock (fm : Fmt) (m : mockPlayer) (p : Player) (mf sf : Option FieldRef)
    (c : Configuration) :
    (⟨Player.mock m, p, mf, sf, c⟩ : round).StartPlayer fm Role.RoleMaster
      = Run.done (⟨Player.mock m, p, some FieldRef.shared, sf, c⟩, none) := by
  have h1 := mock_plain fm m "start" (by decide)
  have h2 := mock_plain fm m "dump /tmp/field.txt" (by decide)
  simp [round.StartPlayer, round.RequestAndGetField, round.SendCommand, round.playerByRole,
    round.setPlayer, Player.SendCommand, Player.RetrieveField, h1, h2]

/-- A command to the slave given by its behaviour. -/
theorem SendCommand_slave (fm : Fmt) (q : Player) (b : Behaviour) (sent : List String)
    (mf sf : Option FieldRef) (c : Configuration) (cmd : String) :
    (⟨q, Player.real b sent, mf, sf, c⟩ : round).SendCommand fm Role.RoleSlave cmd
      = Run.done (⟨q, Player.real b (sent ++ [cmd]), mf, sf, c⟩,
          (b.SendCommand (sent ++ [cmd])).1, (b.SendCommand (sent ++ [cmd])).2) := by
  simp [round.SendCommand, round.playerByRole, round.setPlayer, Player.SendCommand]

/-- A player given by its behaviour always returns from `InitPlayer`: only its list of
commands has changed, and an error names its role. -/
theorem InitPlayer_slave (fm : Fmt) (q : Player) (b : Behaviour) (sent : List String)
    (mf sf : Option FieldRef) (c : Configuration) :
    ∃ sent1 oe, (⟨q, Player.real b sent, mf, sf, c⟩ : round).InitPlayer fm Role.RoleSlave
        = Run.done (⟨q, Player.real b sent1, mf, sf, c⟩, oe)
      ∧ ∀ e, oe = some e → e.Role = Role.RoleSlave := by
  unfold round.InitPlayer
  rw [SendCommand_slave]
  generalize b.SendCommand (sent ++ ["create " ++ Role.RoleSlave.String]) = a1
  obtain ⟨resp, err⟩ := a1
  cases err with
  | some e => exact ⟨_, _, rfl, by intro e1 he; cases he; rfl⟩
  | none =>
    simp only
    by_cases hok : resp = "ok"
    · rw [if_neg (by simpa using hok)]
      rw [SendCommand_slave]
      generalize b.SendCommand (sent ++ ["create " ++ Role.RoleSlave.String]
        ++ ["set strategy custom"]) = a2
      obtain ⟨resp2, err2⟩ := a2
      cases err2 with
      | some e => exact ⟨_, _, rfl, by intro e1 he; cases he; rfl⟩
      | none =>
        simp only
        by_cases hok2 : resp2 = "ok"
        · rw [if_neg (by simpa using hok2)]
          exact ⟨_, _, rfl, by intro e1 he; cases he⟩
        · rw [if_pos hok2]
          exact ⟨_, _, rfl, by intro e1 he; cases he; rfl⟩
    · rw [if_pos hok]
      exact ⟨_, _, rfl, by intro e1 he; cases he; rfl⟩


/-- A player given by its behaviour always returns from the transfer of the configuration:
only its list of commands has changed, and an error names the slave. -/
theorem transferLoop_slave (fm : Fmt) (q : Player) (b : Behaviour)
    (mf sf : Option FieldRef) (c : Configuration) :
    ∀ (args : List (String × (Configuration → Int → Configuration) × (Configuration → Int)))
      (sent : List String),
      ∃ sent1 oe, (⟨q, Player.real b sent, mf, sf, c⟩ : round).transferLoop fm args
          = Run.done (⟨q, Player.real b sent1, mf, sf, c⟩, oe)
        ∧ ∀ e, oe = some e → e.Role = Role.RoleSlave
  | [], sent => ⟨sent, none, rfl, by intro e he; cases he⟩
  | arg :: rest, sent => by
    unfold round.transferLoop
    rw [SendCommand_slave]
    generalize b.SendCommand (sent ++ ["set " ++ arg.1 ++ " " ++ fm.Sprint (arg.2.2 c)]) = a1
    obtain ⟨resp, err⟩ := a1
    cases err with
    | some e => exact ⟨_, _, rfl, by intro e1 he; cases he; rfl⟩
    | none =>
      simp only
      by_cases hok : resp = "ok"
      · rw [if_neg (by simpa using hok)]
        exact transferLoop_slave fm q b mf sf c rest _
      · rw [if_pos hok]
        exact ⟨_, _, rfl, by intro e1 he; cases he; rfl⟩

/-- A player given by its behaviour always returns from `StartPlayer`: its list of commands
and the slave's field of the round have changed, an error names the slave, and without an
error the slave's field is an object of its own. -/
theorem StartPlayer_slave (fm : Fmt) (q : Player) (b : Behaviour) (sent : List String)
    (mf sf : Option FieldRef) (c : Configuration) :
    ∃ sent1 sf1 oe, (⟨q, Player.real b sent, mf, sf, c⟩ : round).StartPlayer fm Role.RoleSlave
        = Run.done (⟨q, Player.real b sent1, mf, sf1, c⟩, oe)
      ∧ (∀ e, oe = some e → e.Role = Role.RoleSlave)
      ∧ (oe = none → ∃ g, sf1 = some (FieldRef.own g)) := by
  unfold round.StartPlayer
  rw [SendCommand_slave]
  generalize b.SendCommand (sent ++ ["start"]) = a1
  obtain ⟨resp, err⟩ := a1
  cases err with
  | some e => exact ⟨_, _, _, rfl, by intro e1 he; cases he; rfl, by intro he; cases he⟩
  | none =>
    simp only
    by_cases hok : resp = "ok"
    · rw [if_neg (by simpa using hok)]
      unfold round.RequestAndGetField
      rw [SendCommand_slave]
      generalize b.SendCommand (sent ++ ["start"] ++ ["dump /tmp/field.txt"]) = a2
      obtain ⟨resp2, err2⟩ := a2
      cases err2 with
      | some e =>
        exact ⟨_, _, _, rfl, by intro e1 he; cases he; rfl, by intro he; cases he⟩
      | none =>
        simp only
        by_cases hok2 : resp2 = "ok"
        · rw [if_neg (by simpa using hok2)]
          simp only [round.playerByRole, Player.RetrieveField, reduceCtorEq, if_false]
          cases b.RetrieveField (sent ++ ["start"] ++ ["dump /tmp/field.txt"]) c with
          | ok g =>
            exact ⟨_, _, _, rfl, (by intro e1 he; cases he), fun _ => ⟨g, rfl⟩⟩
          | error e =>
            exact ⟨_, _, _, rfl, by intro e1 he; cases he; rfl, by intro he; cases he⟩
        · rw [if_pos hok2]
          exact ⟨_, _, _, rfl, by intro e1 he; cases he; rfl, by intro he; cases he⟩
    · rw [if_pos hok]
      exact ⟨_, _, _, rfl, by intro e1 he; cases he; rfl, by intro he; cases he⟩

/-- A command to the mock in the master role. -/
theorem SendCommand_master_mock {fm : Fmt} {m m1 : mockPlayer} {cmd resp : String}
    {err : Option GoError} (h : m.SendCommand fm cmd = some (m1, resp, err)) (p : Player)
    (mf sf : Option FieldRef) (c : Configuration) :
    (⟨Player.mock m, p, mf, sf, c⟩ : round).SendCommand fm Role.RoleMaster cmd
      = Run.done (⟨Player.mock m1, p, mf, sf, c⟩, resp, err) := by
  simp [round.SendCommand, round.playerByRole, round.setPlayer, Player.SendCommand, h]

/-- A shot of the slave at the mock always returns: the mock answers with the result of
the field engine on the field it holds, which is the result the judge then gets from the
same field; the cursor of the mock stays, and an error names the slave. -/
theorem Shoot_at_mock (fm : Fmt) (conf : Configuration) (hfm : fm.ReadsBack conf)
    (m : mockPlayer) (b : Behaviour) (sent : List String) (sf : Option FieldRef) :
    ∃ m1 sent1 hit oe,
      (⟨Player.mock m, Player.real b sent, some FieldRef.shared, sf, conf⟩ : round).Shoot fm
          Role.RoleSlave
        = Run.done (⟨Player.mock m1, Player.real b sent1, some FieldRef.shared, sf, conf⟩,
            hit, oe)
      ∧ m1.conf = m.conf ∧ m1.x = m.x ∧ m1.y = m.y
      ∧ ∀ e, oe = some e → e.Role = Role.RoleSlave := by
  unfold round.Shoot
  rw [SendCommand_slave]
  generalize b.SendCommand (sent ++ ["shot"]) = a1
  obtain ⟨resp, err⟩ := a1
  cases err with
  | some e => exact ⟨m, _, _, _, rfl, rfl, rfl, rfl, by intro e1 he; cases he; rfl⟩
  | none =>
    simp only
    cases h2 : fm.Sscan2 resp with
    | error text => exact ⟨m, _, _, _, rfl, rfl, rfl, rfl, by intro e1 he; cases he; rfl⟩
    | ok xy =>
      obtain ⟨x, y⟩ := xy
      simp only
      by_cases h3 : (⟨Player.mock m, Player.real b (sent ++ ["shot"]), some FieldRef.shared,
          sf, conf⟩ : round).isValidShot x y = true
      · rw [if_neg (not_not.2 h3)]
        obtain ⟨hx, hxw, hy, hyh⟩ := (isValidShot_iff _ _ _).1 h3
        obtain ⟨_, hshot⟩ := hfm.2 x y hx hxw hy hyh
        obtain ⟨f1, res, hs⟩ := Shoot_isSome m.field hx hy
        have hcmd := mock_shot_cmd fm m (fm.Sprint x) " " (fm.Sprint y)
          (by rw [hshot]; exact hs)
        have hother : Role.RoleSlave.Other = Role.RoleMaster := rfl
        rw [hother, SendCommand_master_mock hcmd]
        simp only [FromString_String]
        have hfield : (⟨Player.mock { m with field := f1 }, Player.real b (sent ++ ["shot"]),
            some FieldRef.shared, sf, conf⟩ : round).fieldByRole Role.RoleMaster = some f1 := by
          simp [round.fieldByRole, round.playerByRole]
        rw [hfield]
        simp only [Shoot_again hs, ne_eq, not_true_eq_false, if_false]
        have hset : (⟨Player.mock { m with field := f1 }, Player.real b (sent ++ ["shot"]),
            some FieldRef.shared, sf, conf⟩ : round).setField Role.RoleMaster f1
            = ⟨Player.mock { m with field := f1 }, Player.real b (sent ++ ["shot"]),
                some FieldRef.shared, sf, conf⟩ := by
          simp [round.setField, round.playerByRole, round.setPlayer]
        rw [hset, SendCommand_slave]
        generalize b.SendCommand (sent ++ ["shot"] ++ ["set result " ++ res.String]) = a4
        obtain ⟨resp4, err4⟩ := a4
        cases err4 with
        | some e =>
          exact ⟨{ m with field := f1 }, _, _, _, rfl, rfl, rfl, rfl,
            by intro e1 he; cases he; rfl⟩
        | none =>
          simp only
          by_cases hok : resp4 = "ok"
          · rw [if_neg (by simpa using hok)]
            have hfield4 : (⟨Player.mock { m with field := f1 },
                Player.real b (sent ++ ["shot"] ++ ["set result " ++ res.String]),
                some FieldRef.shared, sf, conf⟩ : round).fieldByRole Role.RoleMaster
                = some f1 := by
              simp [round.fieldByRole, round.playerByRole]
            rw [hfield4]
            simp only
            by_cases hdead : AllDead f1 = true
            · rw [if_neg (not_not.2 hdead)]
              exact ⟨{ m with field := f1 }, _, _, _, rfl, rfl, rfl, rfl,
                by intro e1 he; cases he; rfl⟩
            · rw [if_pos hdead]
              exact ⟨{ m with field := f1 }, _, _, _, rfl, rfl, rfl, rfl,
                by intro e1 he; cases he⟩
          · rw [if_pos hok]
            exact ⟨{ m with field := f1 }, _, _, _, rfl, rfl, rfl, rfl,
              by intro e1 he; cases he; rfl⟩
      · rw [if_pos h3]
        exact ⟨m, _, _, _, rfl, rfl, rfl, rfl, by intro e1 he; cases he; rfl⟩


/-- The cursor of the mock after `set result hit` is again a cell of the field. -/
theorem cursor_step {conf : Configuration} (hgo : conf.IsGo) {x y : Int}
    (h : CellInField conf (x, y)) :
    CellInField conf
      (if wrap64 (x + 1) = conf.W then 0 else wrap64 (x + 1),
        if (if wrap64 (x + 1) = conf.W then wrap64 (y + 1) else y) = conf.H then 0
        else (if wrap64 (x + 1) = conf.W then wrap64 (y + 1) else y)) := by
  obtain ⟨hx, hxw, hy, hyh⟩ := h
  obtain ⟨⟨_, hw⟩, ⟨_, hh⟩, _⟩ := hgo
  simp only at hx hxw hy hyh
  have e1 : wrap64 (x + 1) = x + 1 := wrap64_eq_self ⟨by omega, by omega⟩
  have e2 : wrap64 (y + 1) = y + 1 := wrap64_eq_self ⟨by omega, by omega⟩
  rw [e1, e2]
  unfold CellInField
  simp only
  split_ifs <;> omega

/-- A shot of the mock always returns: the mock names its cursor, which the judge accepts;
the slave's answer is checked against the slave's field; the mock acknowledges the result
and its cursor is again a cell of the field. An error names the slave, or is the win of the
master. -/
theorem Shoot_by_mock (fm : Fmt) (conf : Configuration) (hgo : conf.IsGo)
    (hfm : fm.ReadsBack conf) (m : mockPlayer) (hm : m.conf = conf)
    (hcur : CellInField conf (m.x, m.y)) (b : Behaviour) (sent : List String)
    (mf : Option FieldRef) (g : ShipField) :
    ∃ m1 sent1 g1 hit oe,
      (⟨Player.mock m, Player.real b sent, mf, some (FieldRef.own g), conf⟩ : round).Shoot fm
          Role.RoleMaster
        = Run.done (⟨Player.mock m1, Player.real b sent1, mf, some (FieldRef.own g1), conf⟩,
            hit, oe)
      ∧ m1.conf = conf ∧ m1.field = m.field ∧ CellInField conf (m1.x, m1.y)
      ∧ ∀ e, oe = some e → e.Role = Role.RoleSlave ∨ e = wonAs Role.RoleMaster := by
  obtain ⟨hscan, _⟩ := hfm.2 m.x m.y hcur.1 hcur.2.1 hcur.2.2.1 hcur.2.2.2
  unfold round.Shoot
  rw [SendCommand_master_mock (mock_shot fm m)]
  simp only [hscan]
  have h3 : (⟨Player.mock m, Player.real b sent, mf, some (FieldRef.own g), conf⟩ :
      round).isValidShot m.x m.y = true := (isValidShot_iff _ _ _).2 hcur
  rw [if_neg (not_not.2 h3)]
  have hother : Role.RoleMaster.Other = Role.RoleSlave := rfl
  rw [hother, SendCommand_slave]
  generalize b.SendCommand (sent ++ ["shot " ++ fm.Sprint m.x ++ " " ++ fm.Sprint m.y]) = a2
  generalize sent ++ ["shot " ++ fm.Sprint m.x ++ " " ++ fm.Sprint m.y] = sent2
  obtain ⟨resp2, err2⟩ := a2
  cases err2 with
  | some e =>
    exact ⟨m, _, g, _, _, rfl, hm, rfl, hcur, by intro e1 he; cases he; exact Or.inl rfl⟩
  | none =>
    simp only
    cases h5 : ShootResult.FromString resp2 with
    | error e =>
      exact ⟨m, _, g, _, _, rfl, hm, rfl, hcur, by intro e1 he; cases he; exact Or.inl rfl⟩
    | ok result =>
      simp only
      have hfield : (⟨Player.mock m, Player.real b sent2, mf, some (FieldRef.own g), conf⟩ :
          round).fieldByRole Role.RoleSlave = some g := by
        simp [round.fieldByRole, round.playerByRole]
      rw [hfield]
      simp only
      obtain ⟨g1, expected, hs⟩ := Shoot_isSome g hcur.1 hcur.2.2.1
      rw [hs]
      simp only
      have hset : (⟨Player.mock m, Player.real b sent2, mf, some (FieldRef.own g), conf⟩ :
          round).setField Role.RoleSlave g1
          = ⟨Player.mock m, Player.real b sent2, mf, some (FieldRef.own g1), conf⟩ := by
        simp [round.setField, round.playerByRole]
      rw [hset]
      by_cases hres : result = expected
      · rw [if_neg (not_not.2 hres)]
        have hresp := FromString_ok h5
        subst hresp
        have hfield4 : ∀ m1 : mockPlayer, (⟨Player.mock m1, Player.real b sent2, mf,
            some (FieldRef.own g1), conf⟩ : round).fieldByRole Role.RoleSlave = some g1 := by
          intro m1
          simp [round.fieldByRole, round.playerByRole]
        have hend : ∀ m1 : mockPlayer, m1.conf = conf → m1.field = m.field →
            CellInField conf (m1.x, m1.y) →
            m.SendCommand fm ("set result " ++ result.String) = some (m1, "ok", none) →
            ∃ m1 sent1 g1' hit oe,
              (match (⟨Player.mock m, Player.real b sent2, mf, some (FieldRef.own g1), conf⟩ :
                  round).SendCommand fm Role.RoleMaster ("set result " ++ result.String) with
                | Run.crash => Run.crash
                | Run.fuelOut => Run.fuelOut
                | Run.done (r4, _, some err) =>
                  Run.done (r4, false, some (failedAs Role.RoleMaster
                    (GoError.wrap "failed to set shoot result: " err)))
                | Run.done (r4, resp4, none) =>
                  if resp4 ≠ "ok" then
                    Run.done (r4, false, some (failedAs Role.RoleMaster
                      (GoError.plain ("failed to set shoot result, returned: "
                        ++ fm.Quote resp4))))
                  else
                    match r4.fieldByRole Role.RoleSlave with
                    | none => Run.crash
                    | some victimField2 =>
                      if ¬ AllDead victimField2 then
                        Run.done (r4, decide (result ≠ ShootResult.Miss), none)
                      else Run.done (r4, true, some (wonAs Role.RoleMaster)))
                = Run.done (⟨Player.mock m1, Player.real b sent1, mf,
                    some (FieldRef.own g1'), conf⟩, hit, oe)
              ∧ m1.conf = conf ∧ m1.field = m.field ∧ CellInField conf (m1.x, m1.y)
              ∧ ∀ e, oe = some e → e.Role = Role.RoleSlave ∨ e = wonAs Role.RoleMaster := by
          intro m1 h1 h2 h3 hsend
          rw [SendCommand_master_mock hsend]
          simp only [ne_eq, not_true_eq_false, if_false, hfield4]
          by_cases hdead : AllDead g1 = true
          · rw [if_neg (not_not.2 hdead)]
            exact ⟨m1, _, g1, _, _, rfl, h1, h2, h3,
              by intro e1 he; cases he; exact Or.inr rfl⟩
          · rw [if_pos hdead]
            exact ⟨m1, _, g1, _, _, rfl, h1, h2, h3, by intro e1 he; cases he⟩
        cases result with
        | Miss => exact hend m hm rfl hcur (mock_plain fm m "set result miss" (by decide))
        | Kill => exact hend m hm rfl hcur (mock_plain fm m "set result kill" (by decide))
        | Hit =>
          subst hm
          exact hend
            { m with
              x := if wrap64 (m.x + 1) = m.conf.W then 0 else wrap64 (m.x + 1)
              y := if (if wrap64 (m.x + 1) = m.conf.W then wrap64 (m.y + 1) else m.y)
                  = m.conf.H then 0
                else (if wrap64 (m.x + 1) = m.conf.W then wrap64 (m.y + 1) else m.y) }
            rfl rfl (cursor_step hgo hcur) (mock_set_result_hit fm m)
      · rw [if_pos hres]
        exact ⟨m, _, g1, _, _, rfl, hm, rfl, hcur,
          by intro e1 he; cases he; exact Or.inl rfl⟩


/-- The shot loop of a round of the mock never panics: it is still running when the fuel is
spent, or it has returned with the mock seated, and its error names the slave or is the win
of the master. -/
theorem shootLoop_mock (fm : Fmt) (conf : Configuration) (hgo : conf.IsGo)
    (hfm : fm.ReadsBack conf) (b : Behaviour) :
    ∀ (fuel : Nat) (role : Role) (m : mockPlayer) (sent : List String) (g : ShipField),
      m.conf = conf → CellInField conf (m.x, m.y) →
      (⟨Player.mock m, Player.real b sent, some FieldRef.shared, some (FieldRef.own g),
          conf⟩ : round).shootLoop fm fuel role = Run.fuelOut
        ∨ ∃ r e, (⟨Player.mock m, Player.real b sent, some FieldRef.shared,
              some (FieldRef.own g), conf⟩ : round).shootLoop fm fuel role = Run.done (r, e)
            ∧ r.InBreaker conf b ∧ (e.Role = Role.RoleSlave ∨ e = wonAs Role.RoleMaster) := by
  intro fuel
  induction fuel with
  | zero =>
    intro role m sent g _ _
    exact Or.inl rfl
  | succ fuel ih =>
    intro role m sent g hm hcur
    unfold round.shootLoop
    cases role with
    | RoleMaster =>
      obtain ⟨m1, sent1, g1, hit, oe, hs, h1, _, h3, he⟩ :=
        Shoot_by_mock fm conf hgo hfm m hm hcur b sent (some FieldRef.shared) g
      rw [hs]
      cases oe with
      | some e =>
        exact Or.inr ⟨_, e, rfl,
          ⟨⟨m1, sent1, rfl, rfl, h1, h3.1, h3.2.1, h3.2.2.1, h3.2.2.2⟩, rfl, rfl, g1, rfl⟩,
          he e rfl⟩
      | none => exact ih _ m1 sent1 g1 h1 h3
    | RoleSlave =>
      obtain ⟨m1, sent1, hit, oe, hs, h1, hx, hy, he⟩ :=
        Shoot_at_mock fm conf hfm m b sent (some (FieldRef.own g))
      have h3 : CellInField conf (m1.x, m1.y) := by
        rw [hx, hy]
        exact hcur
      rw [hs]
      cases oe with
      | some e =>
        exact Or.inr ⟨_, e, rfl,
          ⟨⟨m1, sent1, rfl, rfl, h1.trans hm, h3.1, h3.2.1, h3.2.2.1, h3.2.2.2⟩, rfl, rfl,
            g, rfl⟩,
          Or.inl (he e rfl)⟩
      | none => exact ih _ m1 sent1 g (h1.trans hm) h3

/-- A valid configuration has a first cell. -/
theorem IsValid_first_cell {fm : Fmt} {conf : Configuration} (h : conf.IsValid fm = none) :
    CellInField conf (0, 0) := by
  unfold Configuration.IsValid at h
  split_ifs at h with h1
  unfold CellInField
  simp only
  omega

/-- A round of the mock never panics: it is still in its shot loop when the fuel is spent,
or it has returned with the mock seated, and its error names the slave or is the win of the
master. -/
theorem roundJudge_mock (fm : Fmt) (conf : Configuration) (hgo : conf.IsGo)
    (hvalid : conf.IsValid fm = none) (hfm : fm.ReadsBack conf) (field : ShipField)
    (b : Behaviour) (fuel : Nat) :
    (newRound (Player.mock (newMockMaster field conf)) (Player.real b [])).Judge fm fuel
        = Run.fuelOut
      ∨ ∃ r e, (newRound (Player.mock (newMockMaster field conf)) (Player.real b [])).Judge
            fm fuel = Run.done (r, e)
          ∧ r.MockSeated conf b ∧ (e.Role = Role.RoleSlave ∨ e = wonAs Role.RoleMaster) := by
  have hcur := IsValid_first_cell hvalid
  have seated : ∀ (sent : List String) (mf sf : Option FieldRef) (c : Configuration),
      (⟨Player.mock (newMockMaster field conf), Player.real b sent, mf, sf, c⟩ :
        round).MockSeated conf b :=
    fun sent mf sf c => ⟨_, sent, rfl, rfl, rfl, hcur.1, hcur.2.1, hcur.2.2.1, hcur.2.2.2⟩
  unfold round.Judge newRound
  rw [InitPlayer_mock]
  simp only
  obtain ⟨sent1, oe1, h1, he1⟩ := InitPlayer_slave fm (Player.mock (newMockMaster field conf))
    b [] none none ⟨0, 0, ⟨0, 0, 0, 0⟩⟩
  rw [h1]
  cases oe1 with
  | some e => exact Or.inr ⟨_, e, rfl, seated _ _ _ _, Or.inl (he1 e rfl)⟩
  | none =>
    simp only
    rw [RequestConfiguration_mock fm (newMockMaster field conf) _ _ _ _ hfm hvalid]
    simp only
    rw [StartPlayer_mock]
    simp only
    obtain ⟨sent2, oe2, h2, he2⟩ := transferLoop_slave fm
      (Player.mock (newMockMaster field conf)) b (some FieldRef.shared) none
      (newMockMaster field conf).conf confParams sent1
    unfold round.TransferConfiguration
    rw [h2]
    cases oe2 with
    | some e => exact Or.inr ⟨_, e, rfl, seated _ _ _ _, Or.inl (he2 e rfl)⟩
    | none =>
      simp only
      obtain ⟨sent3, sf3, oe3, h3, he3, hg3⟩ := StartPlayer_slave fm
        (Player.mock (newMockMaster field conf)) b sent2 (some FieldRef.shared) none
        (newMockMaster field conf).conf
      rw [h3]
      cases oe3 with
      | some e => exact Or.inr ⟨_, e, rfl, seated _ _ _ _, Or.inl (he3 e rfl)⟩
      | none =>
        simp only
        obtain ⟨g, rfl⟩ := hg3 rfl
        rcases shootLoop_mock fm conf hgo hfm b fuel Role.RoleSlave (newMockMaster field conf)
          sent3 g rfl hcur with hout | ⟨r, e, hr, hin, he⟩
        · exact Or.inl hout
        · exact Or.inr ⟨r, e, hr, hin.1, he⟩


/-! ## Claims about the breaker round -/

/-- C34: for every valid configuration `conf` of `int64` values whose texts `fmt` reads
back, every field (in particular every field loaded for `conf` and then reset), every
behaviour of the opponent and every number of shots, the round whose master is
`newMockMaster(field, conf)` never panics, and when it has returned the mock is seated with
its cursor on a cell of the field and the error names the slave or is the win of the
master; the mock answers the commands of initialisation, start and dump with `ok`; the
configuration requested from a mock holding `conf` is `conf`; and the mock answers
`shot x y` at a cell of the field with the result of the field engine on the field it
holds, which is the result the judge gets from the same field right after. -/
theorem mock_never_at_fault (fm : Fmt) (conf : Configuration) (hgo : conf.IsGo)
    (hvalid : conf.IsValid fm = none) (hfm : fm.ReadsBack conf) (field : ShipField)
    (b : Behaviour) (fuel : Nat) :
    ((newRound (Player.mock (newMockMaster field conf)) (Player.real b [])).Judge fm fuel
          = Run.fuelOut
        ∨ ∃ r e, (newRound (Player.mock (newMockMaster field conf)) (Player.real b [])).Judge
              fm fuel = Run.done (r, e)
            ∧ r.MockSeated conf b ∧ (e.Role = Role.RoleSlave ∨ e = wonAs Role.RoleMaster))
      ∧ (∀ m : mockPlayer,
          ∀ cmd ∈ ["create master", "set strategy custom", "start", "dump /tmp/field.txt"],
            m.SendCommand fm cmd = some (m, "ok", none))
      ∧ (∀ (m : mockPlayer) (p : Player) (mf sf : Option FieldRef) (c : Configuration),
          m.conf = conf →
          (⟨Player.mock m, p, mf, sf, c⟩ : round).RequestConfiguration fm
            = Run.done (⟨Player.mock m, p, mf, sf, conf⟩, none))
      ∧ ∀ (m : mockPlayer) (x y : Int), CellInField conf (x, y) →
          ∃ f1 res, m.SendCommand fm ("shot " ++ fm.Sprint x ++ " " ++ fm.Sprint y)
              = some ({ m with field := f1 }, res.String, none)
            ∧ Shoot m.field x y = some (f1, res) ∧ Shoot f1 x y = some (f1, res) := by
  refine ⟨roundJudge_mock fm conf hgo hvalid hfm field b fuel, ?_, ?_, ?_⟩
  · intro m cmd hcmd
    simp only [List.mem_cons, List.mem_singleton, List.not_mem_nil, or_false] at hcmd
    rcases hcmd with rfl | rfl | rfl | rfl
    · exact mock_plain fm m _ (by decide)
    · exact mock_plain fm m _ (by decide)
    · exact mock_plain fm m _ (by decide)
    · exact mock_plain fm m _ (by decide)
  · intro m p mf sf c hm
    subst hm
    exact RequestConfiguration_mock fm m p mf sf c hfm hvalid
  · intro m x y hc
    obtain ⟨_, hshot⟩ := hfm.2 x y hc.1 hc.2.1 hc.2.2.1 hc.2.2.2
    obtain ⟨f1, res, hs⟩ := Shoot_isSome m.field hc.1 hc.2.2.1
    exact ⟨f1, res, mock_shot_cmd fm m (fm.Sprint x) " " (fm.Sprint y)
      (by rw [hshot]; exact hs), hs, Shoot_again hs⟩

/-- C34 witness: the mock holding the 1x1 field with one ship against the honest player,
which names the only cell and wins. -/
theorem mock_never_at_fault_witness :
    (newRound (Player.mock (newMockMaster
          (ResetShots (Load NewShipField ⟨1, 1, ⟨1, 0, 0, 0⟩⟩ [⟨0, 0, 1, false⟩]).1)
          ⟨1, 1, ⟨1, 0, 0, 0⟩⟩)) (Player.real honestPlayer [])).Judge decimalFmt 5
        = Run.fuelOut
      ∨ ∃ r e, (newRound (Player.mock (newMockMaster
            (ResetShots (Load NewShipField ⟨1, 1, ⟨1, 0, 0, 0⟩⟩ [⟨0, 0, 1, false⟩]).1)
            ⟨1, 1, ⟨1, 0, 0, 0⟩⟩)) (Player.real honestPlayer [])).Judge decimalFmt 5
          = Run.done (r, e)
        ∧ r.MockSeated ⟨1, 1, ⟨1, 0, 0, 0⟩⟩ honestPlayer
        ∧ (e.Role = Role.RoleSlave ∨ e = wonAs Role.RoleMaster) :=
  (mock_never_at_fault decimalFmt ⟨1, 1, ⟨1, 0, 0, 0⟩⟩ (by decide) (by decide)
    ⟨by
      intro v hv
      simp only [List.mem_cons, List.mem_singleton, List.not_mem_nil, or_false] at hv
      rcases hv with rfl | rfl | rfl | rfl | rfl | rfl <;> rfl,
    by
      intro x y hx hxw hy hyh
      simp only at hxw hyh
      obtain rfl : x = 0 := by omega
      obtain rfl : y = 0 := by omega
      exact ⟨rfl, rfl⟩⟩
    (ResetShots (Load NewShipField ⟨1, 1, ⟨1, 0, 0, 0⟩⟩ [⟨0, 0, 1, false⟩]).1)
    honestPlayer 5).1

/-- The shot of the mock that the opponent answers `kill`, as the field engine does on the
opponent's field, on which a ship is still alive: the shot returns `true` without error,
the opponent has received the command, its field is as the engine left it, and the mock is
as it was. -/
theorem Shoot_by_mock_kill (fm : Fmt) (m : mockPlayer) (b : Behaviour) (sent : List String)
    (mf : Option FieldRef) (g g1 : ShipField) (conf : Configuration)
    (hcur : CellInField conf (m.x, m.y))
    (hscan : fm.Sscan2 (fm.Sprint m.x ++ " " ++ fm.Sprint m.y) = Except.ok (m.x, m.y))
    (hkill : Shoot g m.x m.y = some (g1, ShootResult.Kill)) (hlive : AllDead g1 = false)
    (hb : b.SendCommand (sent ++ ["shot " ++ fm.Sprint m.x ++ " " ++ fm.Sprint m.y])
      = ("kill", none)) :
    (⟨Player.mock m, Player.real b sent, mf, some (FieldRef.own g), conf⟩ : round).Shoot fm
        Role.RoleMaster
      = Run.done (⟨Player.mock m,
          Player.real b (sent ++ ["shot " ++ fm.Sprint m.x ++ " " ++ fm.Sprint m.y]), mf,
          some (FieldRef.own g1), conf⟩, true, none) := by
  have h1 := SendCommand_master_mock (mock_shot fm m) (Player.real b sent) mf
    (some (FieldRef.own g)) conf
  have h3 : (⟨Player.mock m, Player.real b sent, mf, some (FieldRef.own g), conf⟩ :
      round).isValidShot m.x m.y = true := (isValidShot_iff _ _ _).2 hcur
  have h4 : (⟨Player.mock m, Player.real b sent, mf, some (FieldRef.own g), conf⟩ :
      round).SendCommand fm Role.RoleMaster.Other
        ("shot " ++ fm.Sprint m.x ++ " " ++ fm.Sprint m.y)
      = Run.done (⟨Player.mock m,
          Player.real b (sent ++ ["shot " ++ fm.Sprint m.x ++ " " ++ fm.Sprint m.y]), mf,
          some (FieldRef.own g), conf⟩, "kill", none) := by
    have hother : Role.RoleMaster.Other = Role.RoleSlave := rfl
    rw [hother, SendCommand_slave, hb]
  have h5 : ShootResult.FromString "kill" = Except.ok ShootResult.Kill := rfl
  have h6 : (⟨Player.mock m,
      Player.real b (sent ++ ["shot " ++ fm.Sprint m.x ++ " " ++ fm.Sprint m.y]), mf,
      some (FieldRef.own g), conf⟩ : round).fieldByRole Role.RoleMaster.Other = some g := by
    simp [round.fieldByRole, round.playerByRole, Role.Other]
  rw [roundShoot_of_steps h1 hscan h3 h4 h5 h6 hkill]
  have hset : (⟨Player.mock m,
      Player.real b (sent ++ ["shot " ++ fm.Sprint m.x ++ " " ++ fm.Sprint m.y]), mf,
      some (FieldRef.own g), conf⟩ : round).setField Role.RoleMaster.Other g1
      = ⟨Player.mock m,
          Player.real b (sent ++ ["shot " ++ fm.Sprint m.x ++ " " ++ fm.Sprint m.y]), mf,
          some (FieldRef.own g1), conf⟩ := by
    simp [round.setField, round.playerByRole, Role.Other]
  have hcmd : "set result " ++ "kill" = "set result kill" := by decide
  rw [if_neg (by simp), hset, hcmd,
    SendCommand_master_mock (mock_plain fm m "set result kill" (by decide))]
  simp [hlive]

/-- Shots of the mock at a cell of a dead ship, each answered `kill`: after any number of
them nothing has changed but the list of commands the opponent has received, and it is the
turn of the mock again. -/
theorem playShots_dead_ship (fm : Fmt) (m : mockPlayer) (b : Behaviour)
    (mf : Option FieldRef) (g1 : ShipField) (conf : Configuration)
    (hcur : CellInField conf (m.x, m.y))
    (hscan : fm.Sscan2 (fm.Sprint m.x ++ " " ++ fm.Sprint m.y) = Except.ok (m.x, m.y))
    (hkill : Shoot g1 m.x m.y = some (g1, ShootResult.Kill)) (hlive : AllDead g1 = false) :
    ∀ (n : Nat) (sent : List String),
      (∀ k : Nat, k < n → b.SendCommand (sent
          ++ List.replicate (k + 1) ("shot " ++ fm.Sprint m.x ++ " " ++ fm.Sprint m.y))
        = ("kill", none)) →
      round.playShots fm n
          ⟨Player.mock m, Player.real b sent, mf, some (FieldRef.own g1), conf⟩ Role.RoleMaster
        = some (⟨Player.mock m, Player.real b (sent
              ++ List.replicate n ("shot " ++ fm.Sprint m.x ++ " " ++ fm.Sprint m.y)), mf,
            some (FieldRef.own g1), conf⟩, Role.RoleMaster, List.replicate n true) := by
  intro n
  induction n with
  | zero =>
    intro sent _
    simp [round.playShots]
  | succ n ih =>
    intro sent hb
    have hfirst := Shoot_by_mock_kill fm m b sent mf g1 g1 conf hcur hscan hkill hlive
      (hb 0 (Nat.succ_pos n))
    have hrest := ih (sent ++ ["shot " ++ fm.Sprint m.x ++ " " ++ fm.Sprint m.y]) (by
      intro k hk
      have := hb (k + 1) (Nat.succ_lt_succ hk)
      rw [List.replicate_succ] at this
      rw [List.append_assoc]
      exact this)
    unfold round.playShots
    rw [hfirst]
    simp only [if_true]
    rw [hrest, List.append_assoc]
    rfl


/-- A result of the shot loop other than running out of fuel stays with more fuel. -/
theorem shootLoop_mono_add (fm : Fmt) (fuel : Nat) (r : round) (role : Role)
    (o : Run (round × roleError)) (ho : o ≠ Run.fuelOut)
    (h : round.shootLoop fm fuel r role = o) :
    ∀ more : Nat, round.shootLoop fm (fuel + more) r role = o
  | 0 => h
  | more + 1 => round.shootLoop_mono fm (fuel + more) r role o ho
      (shootLoop_mono_add fm fuel r role o ho h more)

/-- A shot loop that reaches, after shots without error, a state from which the loop never
returns, never returns. -/
theorem shootLoop_stuck_of_playShots {fm : Fmt} {k : Nat} {r0 r : round} {first cur : Role}
    {hits : List Bool} (hplay : r0.playShots fm k first = some (r, cur, hits))
    (hstuck : ∀ fuel, r.shootLoop fm fuel cur = Run.fuelOut) (fuel : Nat) :
    r0.shootLoop fm fuel first = Run.fuelOut := by
  by_contra hne
  have h1 := shootLoop_mono_add fm fuel r0 first _ hne rfl k
  rw [Nat.add_comm, (playShots_spec fm k r0 first r cur hits hplay).2.2 fuel, hstuck] at h1
  exact hne h1.symm

/-- C35: in a round of the mock, when the mock's shot at its cursor is answered `kill`, as
the field engine does on the opponent's field, while a ship of the opponent is still alive,
and the opponent goes on answering the same shot `kill`: the shot returns `true` without
error, so the mock is asked again, and the mock, which is as it was, names the same cell;
the true answer of the engine to that shot is again `kill`, with the opponent's field
unchanged; after any number of further shots nothing has changed but the list of commands
the opponent has received, and it is the turn of the mock; the shot loop never returns,
however many shots it is given, and neither does any round that reaches this state. -/
theorem breaker_stuck_after_kill (fm : Fmt) (m : mockPlayer) (b : Behaviour)
    (sent : List String) (mf : Option FieldRef) (g g1 : ShipField) (conf : Configuration)
    (hcur : CellInField conf (m.x, m.y))
    (hscan : fm.Sscan2 (fm.Sprint m.x ++ " " ++ fm.Sprint m.y) = Except.ok (m.x, m.y))
    (hkill : Shoot g m.x m.y = some (g1, ShootResult.Kill)) (hlive : AllDead g1 = false)
    (htruth : ∀ n : Nat, b.SendCommand (sent
        ++ List.replicate (n + 1) ("shot " ++ fm.Sprint m.x ++ " " ++ fm.Sprint m.y))
      = ("kill", none)) :
    (⟨Player.mock m, Player.real b sent, mf, some (FieldRef.own g), conf⟩ : round).Shoot fm
          Role.RoleMaster
        = Run.done (⟨Player.mock m,
            Player.real b (sent ++ ["shot " ++ fm.Sprint m.x ++ " " ++ fm.Sprint m.y]), mf,
            some (FieldRef.own g1), conf⟩, true, none)
      ∧ m.SendCommand fm "shot" = some (m, fm.Sprint m.x ++ " " ++ fm.Sprint m.y, none)
      ∧ Shoot g1 m.x m.y = some (g1, ShootResult.Kill)
      ∧ (∀ n : Nat,
          round.playShots fm (n + 1)
              ⟨Player.mock m, Player.real b sent, mf, some (FieldRef.own g), conf⟩
              Role.RoleMaster
            = some (⟨Player.mock m, Player.real b (sent
                  ++ List.replicate (n + 1)
                    ("shot " ++ fm.Sprint m.x ++ " " ++ fm.Sprint m.y)), mf,
                some (FieldRef.own g1), conf⟩, Role.RoleMaster, List.replicate (n + 1) true))
      ∧ (∀ fuel : Nat,
          (⟨Player.mock m, Player.real b sent, mf, some (FieldRef.own g), conf⟩ :
            round).shootLoop fm fuel Role.RoleMaster = Run.fuelOut)
      ∧ ∀ (r0 r6 : round) (k : Nat) (hits : List Bool),
          r0.setup fm = Run.done (r6, none) →
          r6.playShots fm k Role.RoleSlave
            = some (⟨Player.mock m, Player.real b sent, mf, some (FieldRef.own g), conf⟩,
                Role.RoleMaster, hits) →
          ∀ fuel : Nat, r0.Judge fm fuel = Run.fuelOut := by
  have hfirst := Shoot_by_mock_kill fm m b sent mf g g1 conf hcur hscan hkill hlive
    (htruth 0)
  have hagain := Shoot_again hkill
  have hplay : ∀ n : Nat,
      round.playShots fm (n + 1)
          ⟨Player.mock m, Player.real b sent, mf, some (FieldRef.own g), conf⟩
          Role.RoleMaster
        = some (⟨Player.mock m, Player.real b (sent
              ++ List.replicate (n + 1)
                ("shot " ++ fm.Sprint m.x ++ " " ++ fm.Sprint m.y)), mf,
            some (FieldRef.own g1), conf⟩, Role.RoleMaster, List.replicate (n + 1) true) := by
    intro n
    have hrest := playShots_dead_ship fm m b mf g1 conf hcur hscan hagain hlive n
      (sent ++ ["shot " ++ fm.Sprint m.x ++ " " ++ fm.Sprint m.y]) (by
        intro k _
        have := htruth (k + 1)
        rw [List.replicate_succ] at this
        rw [List.append_assoc]
        exact this)
    unfold round.playShots
    rw [hfirst]
    simp only [if_true]
    rw [hrest, List.append_assoc]
    rfl
  have hloop : ∀ fuel : Nat,
      (⟨Player.mock m, Player.real b sent, mf, some (FieldRef.own g), conf⟩ :
        round).shootLoop fm fuel Role.RoleMaster = Run.fuelOut := by
    intro fuel
    have h := (playShots_spec fm (fuel + 1) _ _ _ _ _ (hplay fuel)).2.2 0
    have hmono := shootLoop_mono_add fm fuel
      ⟨Player.mock m, Player.real b sent, mf, some (FieldRef.own g), conf⟩ Role.RoleMaster
    by_contra hne
    have h1 := hmono _ hne rfl 1
    rw [Nat.add_zero] at h
    rw [h] at h1
    exact hne h1.symm
  refine ⟨hfirst, mock_shot fm m, hagain, hplay, hloop, ?_⟩
  intro r0 r6 k hits hsetup hreach fuel
  rw [roundJudge_eq_setup, hsetup]
  exact shootLoop_stuck_of_playShots hreach hloop fuel

/-- C35 witness: the mock at cell `(0, 0)` of the 3x1 field against an opponent with the
one-cell ships at `(0, 0)` and `(2, 0)` that answers `kill`: the loop has not returned
after a million shots. -/
theorem breaker_stuck_after_kill_witness :
    (⟨Player.mock (newMockMaster NewShipField ⟨3, 1, ⟨2, 0, 0, 0⟩⟩),
        Player.real ⟨fun _ => ("kill", none),
          fun _ _ => Except.error (GoError.plain "no field")⟩ [],
        some FieldRef.shared,
        some (FieldRef.own ⟨[(0, 142), (2, 142)], ⟨3, 1, ⟨2, 0, 0, 0⟩⟩,
          ⟨3, 1, ⟨2, 0, 0, 0⟩⟩⟩),
        ⟨3, 1, ⟨2, 0, 0, 0⟩⟩⟩ : round).shootLoop decimalFmt 1000000 Role.RoleMaster
      = Run.fuelOut :=
  (breaker_stuck_after_kill decimalFmt (newMockMaster NewShipField ⟨3, 1, ⟨2, 0, 0, 0⟩⟩)
    ⟨fun _ => ("kill", none), fun _ _ => Except.error (GoError.plain "no field")⟩ []
    (some FieldRef.shared)
    ⟨[(0, 142), (2, 142)], ⟨3, 1, ⟨2, 0, 0, 0⟩⟩, ⟨3, 1, ⟨2, 0, 0, 0⟩⟩⟩
    ⟨[(0, 143), (2, 142)], ⟨3, 1, ⟨2, 0, 0, 0⟩⟩, ⟨3, 1, ⟨1, 0, 0, 0⟩⟩⟩
    ⟨3, 1, ⟨2, 0, 0, 0⟩⟩ (by decide) rfl (by decide) (by decide)
    (fun _ => rfl)).2.2.2.2.1 1000000

/-! ## Live counters and the cells shot -/

/-- `ResetShots` on a field that stores a layout: the layout with no cell shot. -/
theorem Tracks.ResetShots_tracks {conf : Configuration} {f : ShipField}
    {hist : List (Int × Int)} {ships : List Ship} (h : Tracks conf f hist ships) :
    Tracks conf (ResetShots f) [] ships := by
  have hc : (ResetShots f).conf = f.conf := rfl
  refine ⟨hc.trans h.conf_eq, h.packable, h.inField, h.separated, ?_⟩
  unfold Stored
  rw [ResetShots_ships h.keys_nodup, List.forall₂_map_left_iff]
  apply Forall₂_imp_mem h.stored
  intro e s _ hs hent
  obtain ⟨h1, h2, h3, _⟩ := hent
  refine ⟨?_, ?_, ?_, ?_⟩
  · show e.1 = makePos (ResetShots f) s.X s.Y
    rw [makePos_congr hc]
    exact h1
  · show IsVert (resetData e.2) = s.IsVert
    rw [IsVert_resetData, h2]
  · show Size (resetData e.2) = s.Size
    rw [Size_resetData, h3]
  · intro k hk
    show (resetData e.2).val.testBit k = true ↔ _
    unfold resetData
    rw [newShipData_testBit _ (Size_pos _) (Size_le _) hk, h3]
    simp

/-- A shot beyond the far borders misses, changes nothing, and is a shot at no cell of a
ship. -/
theorem Tracks.Shoot_beyond {conf : Configuration} {f : ShipField} {hist : List (Int × Int)}
    {ships : List Ship} (h : Tracks conf f hist ships) {x y : Int}
    (hout : x ≥ conf.W ∨ y ≥ conf.H) :
    Shoot f x y = some (f, ShootResult.Miss) ∧ Tracks conf f ((x, y) :: hist) ships := by
  constructor
  · unfold Shoot
    rw [if_pos (by rw [h.conf_eq]; exact hout)]
  · refine ⟨h.conf_eq, h.packable, h.inField, h.separated, ?_⟩
    apply Forall₂_imp_mem h.stored
    intro e s _ hs hent
    obtain ⟨h1, h2, h3, hb⟩ := hent
    refine ⟨h1, h2, h3, ?_⟩
    intro k hk
    rw [hb k hk]
    constructor
    · rintro (hle | hm)
      · exact Or.inl hle
      · exact Or.inr (List.mem_cons_of_mem _ hm)
    · rintro (hle | hm)
      · exact Or.inl hle
      · rcases List.mem_cons.1 hm with heq | hm
        · by_cases hle : s.Size ≤ (k : Int)
          · exact Or.inl hle
          · exfalso
            have hcell := cell_inField (h.inField s hs) (Int.ofNat_nonneg k) (not_le.1 hle)
            rw [heq] at hcell
            unfold CellInField at hcell
            simp only at hcell
            omega
        · exact Or.inr hm

/-- After calls with non-negative shot coordinates on a field that stores a layout: the
calls return and the field stores the layout with the cells shot since the last reset. -/
theorem Tracks.runOps_history {conf : Configuration} {ships : List Ship} (ops : List FieldOp) :
    ∀ (f : ShipField) (hist : List (Int × Int)), Tracks conf f hist ships →
      (∀ x y, FieldOp.shoot x y ∈ ops → 0 ≤ x ∧ 0 ≤ y) →
      ∃ f1 rs, runOps f ops = some (f1, rs) ∧ Tracks conf f1 (shotsAfter hist ops) ships := by
  induction ops with
  | nil =>
    intro f hist h _
    exact ⟨f, [], rfl, h⟩
  | cons op ops ih =>
    intro f hist h hops
    have hrest : ∀ x y, FieldOp.shoot x y ∈ ops → 0 ≤ x ∧ 0 ≤ y :=
      fun x y hm => hops x y (List.mem_cons_of_mem _ hm)
    cases op with
    | reset =>
      obtain ⟨f1, rs, hr, ht⟩ := ih (ResetShots f) [] h.ResetShots_tracks hrest
      exact ⟨f1, rs, hr, ht⟩
    | shoot x y =>
      obtain ⟨hx, hy⟩ := hops x y (List.mem_cons_self _ _)
      have hstep : ∃ f2 r, Shoot f x y = some (f2, r)
          ∧ Tracks conf f2 ((x, y) :: hist) ships := by
        by_cases hout : x ≥ conf.W ∨ y ≥ conf.H
        · exact ⟨f, _, (h.Shoot_beyond hout).1, (h.Shoot_beyond hout).2⟩
        · obtain ⟨f2, r, hs⟩ := Shoot_isSome f hx hy
          have hcell : CellInField conf (x, y) := by
            unfold CellInField
            simp only
            omega
          exact ⟨f2, r, hs, h.Shoot_tracks hcell hs⟩
      obtain ⟨f2, r, hs, ht2⟩ := hstep
      obtain ⟨f1, rs, hr, ht⟩ := ih f2 _ ht2 hrest
      refine ⟨f1, r :: rs, ?_, ht⟩
      unfold runOps
      rw [hs]
      simp only [hr]

/-- A stored ship has an unshot cell exactly when a cell of the ship is not in the shot
history. -/
theorem EntryFor.unshot_iff {f : ShipField} {hist : List (Int × Int)} {e : Int × shipData}
    {s : Ship} (h : EntryFor f hist e s) (h4 : s.Size ≤ 4) :
    hasUnshotCell e.2 = s.cells.any (fun c => decide (c ∉ hist)) := by
  obtain ⟨_, _, h3, hb⟩ := h
  rw [Bool.eq_iff_iff, hasUnshotCell_iff, List.any_eq_true]
  constructor
  · rintro ⟨k, hk, hbit⟩
    rw [h3] at hk
    have hk4 : k < 4 := by omega
    refine ⟨s.cellAt (k : Int), mem_cells_iff.2 ⟨k, Int.ofNat_nonneg k, hk, rfl⟩, ?_⟩
    simp only [decide_eq_true_eq]
    intro hm
    have := (hb k hk4).2 (Or.inr hm)
    rw [hbit] at this
    cases this
  · rintro ⟨c, hc, hn⟩
    simp only [decide_eq_true_eq] at hn
    obtain ⟨j, hj0, hj, rfl⟩ := mem_cells_iff.1 hc
    refine ⟨j.toNat, by rw [h3]; omega, ?_⟩
    have hj4 : j.toNat < 4 := by omega
    have hcast : ((j.toNat : Nat) : Int) = j := by omega
    cases hbit : e.2.val.testBit j.toNat with
    | false => rfl
    | true =>
      exfalso
      rcases (hb j.toNat hj4).1 hbit with hle | hm
      · omega
      · rw [hcast] at hm
        exact hn hm

/-- Lists related entry by entry have as many entries passing two tests that agree on
related entries. -/
theorem Forall₂_filter_length {α β : Type} {R : α → β → Prop} {l1 : List α} {l2 : List β}
    (h : List.Forall₂ R l1 l2) (p : α → Bool) (q : β → Bool)
    (hpq : ∀ a b, a ∈ l1 → b ∈ l2 → R a b → p a = q b) :
    (l1.filter p).length = (l2.filter q).length := by
  induction h with
  | nil => rfl
  | cons hab _ ih =>
    have h1 := hpq _ _ (List.mem_cons_self _ _) (List.mem_cons_self _ _) hab
    have h2 := ih (fun a b ha hb hr =>
      hpq a b (List.mem_cons_of_mem _ ha) (List.mem_cons_of_mem _ hb) hr)
    simp only [List.filter_cons, h1]
    split <;> simp [h2]

/-- C8 (counterexample): two accepted layouts of ships lying within the field on which
`AllDead()` is true, and the live count of size 1 is zero, while the only cell of the only
ship has never been shot. On `W = 2^32 + 1`, `H = 2^32` with the one-cell ship at `(0, 0)`,
the shot at the cell `(2^32, 0)` of the field has the packed position of the ship's cell and
returns `Kill`. On the 3x3 field with the one-cell ship at `(0, 2)`, the shot at `(1, -1)`
has the packed position `1*3 - 1 = 2` of the ship's cell and returns `Kill`. -/
theorem AllDead_with_unshot_cell :
    (∀ s ∈ [(⟨0, 0, 1, false⟩ : Ship)], InField collidingConf s)
      ∧ (Load NewShipField collidingConf [⟨0, 0, 1, false⟩]).2 = none
      ∧ CellInField collidingConf (4294967296, 0)
      ∧ (runOps (Load NewShipField collidingConf [⟨0, 0, 1, false⟩]).1
            [FieldOp.shoot 4294967296 0]).map
              (fun p => (AllDead p.1, p.1.currConfig.Sizes.c0, p.2))
          = some (true, 0, [ShootResult.Kill])
      ∧ (⟨0, 0, 1, false⟩ : Ship).cells = [(0, 0)]
      ∧ ((0, 0) : Int × Int) ∉ shotsAfter [] [FieldOp.shoot 4294967296 0]
      ∧ aliveInLayout [⟨0, 0, 1, false⟩] (shotsAfter [] [FieldOp.shoot 4294967296 0]) 1 = 1
      ∧ (∀ s ∈ [(⟨0, 2, 1, false⟩ : Ship)], InField ⟨3, 3, ⟨1, 0, 0, 0⟩⟩ s)
      ∧ (Load NewShipField ⟨3, 3, ⟨1, 0, 0, 0⟩⟩ [⟨0, 2, 1, false⟩]).2 = none
      ∧ (runOps (Load NewShipField ⟨3, 3, ⟨1, 0, 0, 0⟩⟩ [⟨0, 2, 1, false⟩]).1
            [FieldOp.shoot 1 (-1)]).map
              (fun p => (AllDead p.1, p.1.currConfig.Sizes.c0, p.2))
          = some (true, 0, [ShootResult.Kill])
      ∧ (⟨0, 2, 1, false⟩ : Ship).cells = [(0, 2)]
      ∧ ((0, 2) : Int × Int) ∉ shotsAfter [] [FieldOp.shoot 1 (-1)]
      ∧ aliveInLayout [⟨0, 2, 1, false⟩] (shotsAfter [] [FieldOp.shoot 1 (-1)]) 1 = 1 := by
  decide

/-- C8 (amended): for a configuration with `W*H ≤ 2^64` and a field loaded successfully
from ships lying within the field, every sequence of `ResetShots` calls and `Shoot` calls
with non-negative coordinates returns, and after it the live count of each size `s` equals
the number of ships of the layout of size `s` that still have an unshot cell (a cell not
shot since the last `ResetShots`, or since `Load`), and `AllDead()` is true iff every cell
of every ship of the layout has been shot since then. -/
theorem live_counts_track_unshot_cells (conf : Configuration) (ships : List Ship)
    (hp : Packable conf) (hin : ∀ s ∈ ships, InField conf s)
    (hload : (Load NewShipField conf ships).2 = none) (ops : List FieldOp)
    (hops : ∀ x y, FieldOp.shoot x y ∈ ops → 0 ≤ x ∧ 0 ≤ y) :
    ∃ f rs, runOps (Load NewShipField conf ships).1 ops = some (f, rs)
      ∧ (∀ s : Int, 1 ≤ s → s ≤ 4 →
          f.currConfig.Sizes.get (s - 1) = aliveInLayout ships (shotsAfter [] ops) s)
      ∧ (AllDead f = true ↔ ∀ s ∈ ships, ∀ c ∈ s.cells, c ∈ shotsAfter [] ops) := by
  obtain ⟨ht0, hct0⟩ := Load_tracks hp hin (Load_split hload)
  obtain ⟨f, rs, hrun, ht⟩ := Tracks.runOps_history ops _ [] ht0 hops
  have hct : CountsTrack f := CountsTrack.after_runOps _ _ f rs hct0 hrun
  refine ⟨f, rs, hrun, ?_, ?_⟩
  · intro s h1 h4
    rw [hct.2.2.2.2 s h1 h4]
    unfold liveShips aliveInLayout
    congr 1
    apply Forall₂_filter_length ht.stored
    intro e sh _ hsh hent
    rw [hent.unshot_iff (hin sh hsh).2.1, hent.2.2.1]
  · rw [hct.AllDead_iff]
    constructor
    · intro hall sh hsh c hc
      obtain ⟨e, he, hent⟩ := Forall₂_exists_left ht.stored hsh
      have hu := hall e he
      rw [hent.unshot_iff (hin sh hsh).2.1] at hu
      by_contra hn
      have : sh.cells.any (fun c => decide (c ∉ shotsAfter [] ops)) = true :=
        List.any_eq_true.2 ⟨c, hc, by simpa using hn⟩
      rw [hu] at this
      cases this
    · intro hall e he
      obtain ⟨sh, hsh, hent⟩ := Forall₂_exists_right ht.stored he
      rw [hent.unshot_iff (hin sh hsh).2.1]
      cases hany : sh.cells.any (fun c => decide (c ∉ shotsAfter [] ops)) with
      | false => rfl
      | true =>
        obtain ⟨c, hc, hn⟩ := List.any_eq_true.1 hany
        simp only [decide_eq_true_eq] at hn
        exact absurd (hall sh hsh c hc) hn

/-- C8 witness: the 3x3 field with the two-cell vertical ship at `(0, 0)`: after the shot
at `(0, 0)`, a reset, and the shots at `(0, 1)` and `(5, 5)`, the ship is alive. -/
theorem live_counts_track_unshot_cells_witness :
    ∃ f rs, runOps (Load NewShipField ⟨3, 3, ⟨0, 1, 0, 0⟩⟩ [⟨0, 0, 2, true⟩]).1
        [FieldOp.shoot 0 0, FieldOp.reset, FieldOp.shoot 0 1, FieldOp.shoot 5 5]
          = some (f, rs)
      ∧ (∀ s : Int, 1 ≤ s → s ≤ 4 →
          f.currConfig.Sizes.get (s - 1) = aliveInLayout [⟨0, 0, 2, true⟩]
            (shotsAfter [] [FieldOp.shoot 0 0, FieldOp.reset, FieldOp.shoot 0 1,
              FieldOp.shoot 5 5]) s)
      ∧ (AllDead f = true ↔ ∀ s ∈ [(⟨0, 0, 2, true⟩ : Ship)], ∀ c ∈ s.cells,
          c ∈ shotsAfter [] [FieldOp.shoot 0 0, FieldOp.reset, FieldOp.shoot 0 1,
            FieldOp.shoot 5 5]) :=
  live_counts_track_unshot_cells ⟨3, 3, ⟨0, 1, 0, 0⟩⟩ [⟨0, 0, 2, true⟩] (by decide)
    (by decide) (by decide)
    [FieldOp.shoot 0 0, FieldOp.reset, FieldOp.shoot 0 1, FieldOp.shoot 5 5]
    (by
      intro x y h
      simp only [List.mem_cons, FieldOp.shoot.injEq, reduceCtorEq, List.mem_singleton,
        List.not_mem_nil, or_false, false_or] at h
      rcases h with ⟨rfl, rfl⟩ | ⟨rfl, rfl⟩ | ⟨rfl, rfl⟩ <;> decide)

/-! ## What the scans of `fmt` accept -/

theorem isSpace_of_digit {c : Char} (h : isDecimalDigit c = true) : isSpace c = false := by
  unfold isDecimalDigit at h
  simp only [Bool.and_eq_true, decide_eq_true_eq] at h
  unfold isSpace
  simp only [Bool.or_eq_false_iff, Bool.and_eq_false_iff, decide_eq_false_iff_not]
  omega

theorem isBlank_of_digit {c : Char} (h : isDecimalDigit c = true) : isBlank c = false := by
  unfold isBlank
  rw [isSpace_of_digit h]
  rfl

theorem isSpace_of_isBlank {c : Char} (h : isBlank c = true) : isSpace c = true := by
  unfold isBlank at h
  simp only [Bool.and_eq_true] at h
  exact h.1

theorem ne_newline_of_isBlank {c : Char} (h : isBlank c = true) : c ≠ Char.ofNat 10 := by
  unfold isBlank at h
  simp only [Bool.and_eq_true, decide_eq_true_eq] at h
  exact h.2

theorem isBlank_eq_false_iff {c : Char} :
    isBlank c = false ↔ isSpace c = false ∨ c = Char.ofNat 10 := by
  unfold isBlank
  simp only [Bool.and_eq_false_iff, decide_eq_false_iff_not, not_not]

/-- A list split into a part whose entries all pass a test and a part whose head fails
it. -/
theorem takeWhile_dropWhile_of_split {p : Char → Bool} :
    ∀ {a b : List Char}, (∀ c ∈ a, p c = true) → (∀ c, b.head? = some c → p c = false) →
      (a ++ b).takeWhile p = a ∧ (a ++ b).dropWhile p = b
  | [], [], _, _ => ⟨rfl, rfl⟩
  | [], c :: b, _, hb => by
    have := hb c rfl
    simp [List.takeWhile_cons, List.dropWhile_cons, this]
  | c :: a, b, ha, hb => by
    have hc := ha c (List.mem_cons_self _ _)
    obtain ⟨h1, h2⟩ := takeWhile_dropWhile_of_split (p := p)
      (fun d hd => ha d (List.mem_cons_of_mem _ hd)) hb
    simp only [List.cons_append, List.takeWhile_cons, List.dropWhile_cons, hc, if_true]
    exact ⟨by rw [h1], h2⟩

/-- Every list splits into the entries that pass a test and a rest whose head fails it. -/
theorem split_takeWhile_dropWhile (p : Char → Bool) (cs : List Char) :
    cs = cs.takeWhile p ++ cs.dropWhile p ∧ (∀ c ∈ cs.takeWhile p, p c = true)
      ∧ (∀ c, (cs.dropWhile p).head? = some c → p c = false) := by
  refine ⟨(List.takeWhile_append_dropWhile p cs).symm, fun c hc => (List.mem_takeWhile_imp hc),
    ?_⟩
  induction cs with
  | nil => intro c hc; cases hc
  | cons d cs ih =>
    intro c hc
    by_cases hd : p d = true
    · simp only [List.dropWhile_cons, hd, if_true] at hc
      exact ih c hc
    · have hd0 : p d = false := by simpa using hd
      simp only [List.dropWhile_cons, hd0, List.head?_cons, Option.some.injEq,
        Bool.false_eq_true, if_false] at hc
      rw [← hc]
      exact hd0

/-- `SkipSpace` drops the blanks at the head of the input and fails on a newline after
them. -/
theorem SkipSpace_eq (cs : List Char) :
    SkipSpace cs = if (cs.dropWhile isBlank).head? = some (Char.ofNat 10) then none
      else some (cs.dropWhile isBlank) := by
  induction cs with
  | nil => rfl
  | cons r input ih =>
    unfold SkipSpace
    by_cases h13 : r = Char.ofNat 13 ∧ input.head? = some (Char.ofNat 10)
    · rw [if_pos h13, ih]
      have hb : isBlank r = true := by
        rw [h13.1]
        decide
      simp only [List.dropWhile_cons, hb, if_true]
    · rw [if_neg h13]
      by_cases h10 : r = Char.ofNat 10
      · rw [if_pos h10]
        subst h10
        have hb : isBlank (Char.ofNat 10) = false := by decide
        simp only [List.dropWhile_cons, hb, Bool.false_eq_true, if_false, List.head?_cons,
          if_true]
      · rw [if_neg h10]
        by_cases hs : isSpace r = true
        · rw [if_pos hs, ih]
          have hb : isBlank r = true := by
            unfold isBlank
            simp [hs, h10]
          simp only [List.dropWhile_cons, hb, if_true]
        · rw [if_neg hs]
          have hb : isBlank r = false := by
            unfold isBlank
            simp [hs]
          simp only [List.dropWhile_cons, hb, Bool.false_eq_true, if_false, List.head?_cons,
            Option.some.injEq, h10]

/-- What `SkipSpace` returns starts with a rune that is not a space. -/
theorem SkipSpace_some {cs rest : List Char} (h : SkipSpace cs = some rest) :
    rest = cs.dropWhile isBlank ∧ ∀ c, rest.head? = some c → isSpace c = false := by
  rw [SkipSpace_eq] at h
  split_ifs at h with hn
  cases h
  refine ⟨rfl, ?_⟩
  intro c hc
  have hb := (split_takeWhile_dropWhile isBlank cs).2.2 c hc
  rcases isBlank_eq_false_iff.1 hb with hs | hs
  · exact hs
  · rw [hs] at hc
    exact absurd hc hn

/-- Input that does not start with a space is left as it is by `SkipSpace`. -/
theorem SkipSpace_of_head {cs : List Char} (h : ∀ c, cs.head? = some c → isSpace c = false) :
    SkipSpace cs = some cs := by
  cases cs with
  | nil => rfl
  | cons c cs =>
    have hc := h c rfl
    have hb : isBlank c = false := isBlank_eq_false_iff.2 (Or.inl hc)
    rw [SkipSpace_eq]
    simp only [List.dropWhile_cons, hb, Bool.false_eq_true, if_false, List.head?_cons,
      Option.some.injEq]
    rw [if_neg]
    intro h10
    rw [h10] at hc
    revert hc
    decide

/-- Skipping space before `scanInt` changes nothing: `scanInt` skips it itself. -/
theorem scanInt_SkipSpace (bits : Nat) (cs : List Char) :
    (match SkipSpace cs with
      | none => none
      | some input => scanInt bits input) = scanInt bits cs := by
  cases h : SkipSpace cs with
  | none =>
    unfold scanInt
    rw [h]
  | some input =>
    simp only
    conv_lhs => unfold scanInt
    conv_rhs => unfold scanInt
    rw [SkipSpace_of_head (SkipSpace_some h).2, h]


/-- The scan of a number from input that starts with a rune that is not a space. -/
theorem scanInt_cons (bits : Nat) {r : Char} (t : List Char) (hr : isSpace r = false) :
    scanInt bits (r :: t)
      = if (if r = '+' ∨ r = '-' then t else r :: t).takeWhile isDecimalDigit = [] then none
        else if (if r = '-' then
              -(decimalValue ((if r = '+' ∨ r = '-' then t else r :: t).takeWhile
                isDecimalDigit) : Int)
            else (decimalValue ((if r = '+' ∨ r = '-' then t else r :: t).takeWhile
                isDecimalDigit) : Int)) < -9223372036854775808
            ∨ 9223372036854775807 < (if r = '-' then
              -(decimalValue ((if r = '+' ∨ r = '-' then t else r :: t).takeWhile
                isDecimalDigit) : Int)
            else (decimalValue ((if r = '+' ∨ r = '-' then t else r :: t).takeWhile
                isDecimalDigit) : Int)) then none
        else if (if r = '-' then
              -(decimalValue ((if r = '+' ∨ r = '-' then t else r :: t).takeWhile
                isDecimalDigit) : Int)
            else (decimalValue ((if r = '+' ∨ r = '-' then t else r :: t).takeWhile
                isDecimalDigit) : Int)) < -(2 ^ (bits - 1) : Int)
            ∨ (2 ^ (bits - 1) : Int) ≤ (if r = '-' then
              -(decimalValue ((if r = '+' ∨ r = '-' then t else r :: t).takeWhile
                isDecimalDigit) : Int)
            else (decimalValue ((if r = '+' ∨ r = '-' then t else r :: t).takeWhile
                isDecimalDigit) : Int)) then none
        else some ((if r = '-' then
              -(decimalValue ((if r = '+' ∨ r = '-' then t else r :: t).takeWhile
                isDecimalDigit) : Int)
            else (decimalValue ((if r = '+' ∨ r = '-' then t else r :: t).takeWhile
                isDecimalDigit) : Int)),
          (if r = '+' ∨ r = '-' then t else r :: t).dropWhile isDecimalDigit) := by
  unfold scanInt
  rw [SkipSpace_of_head (by intro c hc; cases hc; exact hr)]

/-- The scan of a number whose sign, digits and rest are given. -/
theorem scanInt_of_parts {bits : Nat} (hbits : (2 ^ (bits - 1) : Int) ≤ 9223372036854775808)
    {sign digits rest : List Char}
    (hsign : sign = [] ∨ sign = ['+'] ∨ sign = ['-']) (hne : digits ≠ [])
    (hdig : ∀ c ∈ digits, isDecimalDigit c = true)
    (hrest : ∀ c, rest.head? = some c → isDecimalDigit c = false)
    (hlo : -(2 ^ (bits - 1) : Int)
      ≤ (if sign = ['-'] then -(decimalValue digits : Int) else (decimalValue digits : Int)))
    (hhi : (if sign = ['-'] then -(decimalValue digits : Int) else (decimalValue digits : Int))
      < (2 ^ (bits - 1) : Int)) :
    scanInt bits (sign ++ (digits ++ rest))
      = some ((if sign = ['-'] then -(decimalValue digits : Int)
          else (decimalValue digits : Int)), rest) := by
  obtain ⟨hT, hD⟩ := takeWhile_dropWhile_of_split hdig hrest
  cases digits with
  | nil => exact absurd rfl hne
  | cons d ds =>
    have hd := hdig d (List.mem_cons_self _ _)
    have hdp : d ≠ '+' := by
      intro hc
      rw [hc] at hd
      revert hd
      decide
    have hdm : d ≠ '-' := by
      intro hc
      rw [hc] at hd
      revert hd
      decide
    rcases hsign with rfl | rfl | rfl
    · simp only [List.nil_append, List.cons_append]
      rw [scanInt_cons bits _ (isSpace_of_digit hd)]
      simp only [hdp, hdm, or_self, if_false]
      simp only [List.cons_append] at hT hD
      rw [hT, hD]
      simp only [reduceCtorEq, if_false] at hlo hhi ⊢
      rw [if_neg (by omega), if_neg (by omega)]
    · simp only [List.cons_append, List.nil_append]
      rw [scanInt_cons bits _ (by decide)]
      simp only [true_or, if_true]
      simp only [List.cons_append] at hT hD
      rw [hT, hD]
      have e1 : ¬ (['+'] = ['-']) := by decide
      have e2 : ¬ ('+' = '-') := by decide
      simp only [e1, e2, reduceCtorEq, if_false] at hlo hhi ⊢
      rw [if_neg (by omega), if_neg (by omega)]
    · simp only [List.cons_append, List.nil_append]
      rw [scanInt_cons bits _ (by decide)]
      simp only [or_true, if_true]
      simp only [List.cons_append] at hT hD
      rw [hT, hD]
      simp only [reduceCtorEq, if_false, if_true] at hlo hhi ⊢
      rw [if_neg (by omega), if_neg (by omega)]


/-- A successful scan of a number: the input starts with a decimal integer of that value. -/
theorem scanInt_some {bits : Nat} {cs rest : List Char} {v : Int}
    (h : scanInt bits cs = some (v, rest)) : IntegerAt bits cs v rest := by
  cases hs : SkipSpace cs with
  | none =>
    unfold scanInt at h
    rw [hs] at h
    cases h
  | some input =>
    obtain ⟨hin, hhead⟩ := SkipSpace_some hs
    obtain ⟨hsplit, hblank, _⟩ := split_takeWhile_dropWhile isBlank cs
    cases input with
    | nil =>
      unfold scanInt at h
      rw [hs] at h
      cases h
    | cons r t =>
      have hr := hhead r rfl
      have hsk := scanInt_SkipSpace bits cs
      rw [hs] at hsk
      simp only at hsk
      rw [← hsk, scanInt_cons bits t hr] at h
      rw [← hin] at hsplit
      by_cases hsg : r = '+' ∨ r = '-'
      · simp only [hsg, if_true] at h
        obtain ⟨hb1, hb2, hb3⟩ := split_takeWhile_dropWhile isDecimalDigit t
        generalize hi : (if r = '-' then -(decimalValue (t.takeWhile isDecimalDigit) : Int)
          else (decimalValue (t.takeWhile isDecimalDigit) : Int)) = i at h
        split_ifs at h with hd h63 hbt
        simp only [Option.some.injEq, Prod.mk.injEq] at h
        obtain ⟨rfl, rfl⟩ := h
        refine ⟨cs.takeWhile isBlank, [r], t.takeWhile isDecimalDigit, ?_, hblank, ?_, hd, hb2,
          hb3, ?_, by omega, by omega⟩
        · rw [← hb1]
          exact hsplit
        · rcases hsg with rfl | rfl
          · exact Or.inr (Or.inl rfl)
          · exact Or.inr (Or.inr rfl)
        · rw [← hi]
          rcases hsg with rfl | rfl
          · have e1 : ¬ (['+'] = ['-']) := by decide
            have e2 : ¬ ('+' = '-') := by decide
            simp only [e1, e2, if_false]
          · simp only [if_true]
      · simp only [hsg, if_false] at h
        have hm : r ≠ '-' := fun hc => hsg (Or.inr hc)
        simp only [hm, if_false] at h
        obtain ⟨hb1, hb2, hb3⟩ := split_takeWhile_dropWhile isDecimalDigit (r :: t)
        split_ifs at h with hd h63 hbt
        simp only [Option.some.injEq, Prod.mk.injEq] at h
        obtain ⟨rfl, rfl⟩ := h
        refine ⟨cs.takeWhile isBlank, [], (r :: t).takeWhile isDecimalDigit, ?_, hblank,
          Or.inl rfl, hd, hb2, hb3, ?_, by omega, by omega⟩
        · rw [List.nil_append, ← hb1]
          exact hsplit
        · simp only [reduceCtorEq, if_false]

/-- The scan of a number succeeds exactly on input that starts with a decimal integer in the
range of the target. -/
theorem scanInt_iff {bits : Nat} (hbits : (2 ^ (bits - 1) : Int) ≤ 9223372036854775808)
    (cs rest : List Char) (v : Int) :
    scanInt bits cs = some (v, rest) ↔ IntegerAt bits cs v rest := by
  constructor
  · exact scanInt_some
  · rintro ⟨blanks, sign, digits, rfl, hbl, hsign, hne, hdig, hrest, rfl, hlo, hhi⟩
    have hparts := scanInt_of_parts hbits hsign hne hdig hrest hlo hhi
    have hhead : ∀ c, (sign ++ (digits ++ rest)).head? = some c → isSpace c = false := by
      intro c hc
      cases digits with
      | nil => exact absurd rfl hne
      | cons d ds =>
        rcases hsign with rfl | rfl | rfl
        · simp only [List.nil_append, List.cons_append, List.head?_cons,
            Option.some.injEq] at hc
          rw [← hc]
          exact isSpace_of_digit (hdig d (List.mem_cons_self _ _))
        · simp only [List.cons_append, List.head?_cons, Option.some.injEq] at hc
          rw [← hc]
          decide
        · simp only [List.cons_append, List.head?_cons, Option.some.injEq] at hc
          rw [← hc]
          decide
    have hdrop := (takeWhile_dropWhile_of_split hbl
      (fun c hc => isBlank_eq_false_iff.2 (Or.inl (hhead c hc)))).2
    have hskip : SkipSpace (blanks ++ (sign ++ (digits ++ rest)))
        = some (sign ++ (digits ++ rest)) := by
      rw [SkipSpace_eq, hdrop, if_neg]
      intro hc
      have := hhead _ hc
      revert this
      decide
    have hsk := scanInt_SkipSpace bits (blanks ++ (sign ++ (digits ++ rest)))
    rw [hskip] at hsk
    simp only at hsk
    rw [← hsk]
    exact hparts

/-- The blank of a format matches one or more blanks of the input, or its end. -/
theorem advance_iff (cs rest : List Char) :
    advance cs = some rest ↔ (cs = [] ∧ rest = []) ∨ BlanksThen cs rest := by
  cases cs with
  | nil =>
    constructor
    · intro h
      cases h
      exact Or.inl ⟨rfl, rfl⟩
    · rintro (⟨_, rfl⟩ | ⟨blanks, hne, hsplit, _, _⟩)
      · rfl
      · cases blanks with
        | nil => exact absurd rfl hne
        | cons b bs => cases hsplit
  | cons r t =>
    simp only [advance]
    constructor
    · intro h
      split_ifs at h with hs h10
      cases h
      obtain ⟨hb1, hb2, hb3⟩ := split_takeWhile_dropWhile isBlank t
      have hr : isBlank r = true := by
        unfold isBlank
        simp only [Bool.and_eq_true, decide_eq_true_eq]
        exact ⟨by simpa using hs, h10⟩
      refine Or.inr ⟨r :: t.takeWhile isBlank, by simp, ?_, ?_, hb3⟩
      · rw [List.cons_append, ← hb1]
      · intro c hc
        rcases List.mem_cons.1 hc with rfl | hm
        · exact hr
        · exact hb2 c hm
    · rintro (⟨hc, _⟩ | ⟨blanks, hne, hsplit, hbl, hrest⟩)
      · cases hc
      · cases blanks with
        | nil => exact absurd rfl hne
        | cons b bs =>
          simp only [List.cons_append, List.cons.injEq] at hsplit
          obtain ⟨rfl, rfl⟩ := hsplit
          have hr := hbl r (List.mem_cons_self _ _)
          rw [if_neg (by simp [isSpace_of_isBlank hr]), if_neg (ne_newline_of_isBlank hr)]
          rw [(takeWhile_dropWhile_of_split
            (fun c hc => hbl c (List.mem_cons_of_mem _ hc)) hrest).2]

/-- `fmt.Sscanf(str, "%d", &v)` succeeds exactly on a text that starts with a decimal integer
in the range of an `int64`, and stores its value. -/
theorem SscanfInt_iff (str : String) (v : Int) :
    SscanfInt str = some v ↔ ∃ rest, IntegerAt 64 str.data v rest := by
  have hsk := scanInt_SkipSpace 64 str.data
  unfold SscanfInt
  constructor
  · intro h
    cases hs : SkipSpace str.data with
    | none =>
      rw [hs] at h
      cases h
    | some input =>
      rw [hs] at h hsk
      simp only at h hsk
      cases hi : scanInt 64 input with
      | none =>
        rw [hi] at h
        cases h
      | some p =>
        obtain ⟨w, rest⟩ := p
        rw [hi] at h
        simp only [Option.some.injEq] at h
        subst h
        rw [hi] at hsk
        exact ⟨rest, scanInt_some hsk.symm⟩
  · rintro ⟨rest, hint⟩
    have hi := (scanInt_iff (by norm_num) str.data rest v).2 hint
    cases hs : SkipSpace str.data with
    | none =>
      rw [hs] at hsk
      rw [← hsk] at hi
      cases hi
    | some input =>
      rw [hs] at hsk
      simp only at hsk ⊢
      rw [hsk, hi]


/-- Skipping space before `scanInt`, without the intermediate input. -/
theorem scanInt_of_SkipSpace {bits : Nat} {cs input : List Char}
    (h : SkipSpace cs = some input) : scanInt bits input = scanInt bits cs := by
  have hsk := scanInt_SkipSpace bits cs
  rw [h] at hsk
  exact hsk

/-- A scan of a number that succeeds has skipped the space before it. -/
theorem SkipSpace_of_scanInt {bits : Nat} {cs : List Char} {p : Int × List Char}
    (h : scanInt bits cs = some p) : ∃ input, SkipSpace cs = some input := by
  cases hs : SkipSpace cs with
  | none =>
    unfold scanInt at h
    rw [hs] at h
    cases h
  | some input => exact ⟨input, rfl⟩

/-- The steps of the scan of a ship line. -/
theorem SscanfShip_steps {line : String} {size x y : Int} {d : Char} :
    SscanfShip line = some (size, d, x, y) ↔
      ∃ i1 i2 i3 i4 i6 i7 i9, scanInt 8 line.data = some (size, i1) ∧ advance i1 = some i2
        ∧ scanRune i2 = some (d, i3) ∧ advance i3 = some i4 ∧ scanInt 64 i4 = some (x, i6)
        ∧ advance i6 = some i7 ∧ scanInt 64 i7 = some (y, i9) := by
  constructor
  · intro h
    unfold SscanfShip at h
    cases h0 : SkipSpace line.data with
    | none => rw [h0] at h; cases h
    | some i0 =>
    rw [h0] at h
    simp only at h
    cases h1 : scanInt 8 i0 with
    | none => rw [h1] at h; cases h
    | some p1 =>
    obtain ⟨size1, i1⟩ := p1
    rw [h1] at h
    simp only at h
    cases h2 : advance i1 with
    | none => rw [h2] at h; cases h
    | some i2 =>
    rw [h2] at h
    simp only at h
    cases h3 : scanRune i2 with
    | none => rw [h3] at h; cases h
    | some p3 =>
    obtain ⟨d1, i3⟩ := p3
    rw [h3] at h
    simp only at h
    cases h4 : advance i3 with
    | none => rw [h4] at h; cases h
    | some i4 =>
    rw [h4] at h
    simp only at h
    cases h5 : SkipSpace i4 with
    | none => rw [h5] at h; cases h
    | some i5 =>
    rw [h5] at h
    simp only at h
    cases h6 : scanInt 64 i5 with
    | none => rw [h6] at h; cases h
    | some p6 =>
    obtain ⟨x1, i6⟩ := p6
    rw [h6] at h
    simp only at h
    cases h7 : advance i6 with
    | none => rw [h7] at h; cases h
    | some i7 =>
    rw [h7] at h
    simp only at h
    cases h8 : SkipSpace i7 with
    | none => rw [h8] at h; cases h
    | some i8 =>
    rw [h8] at h
    simp only at h
    cases h9 : scanInt 64 i8 with
    | none => rw [h9] at h; cases h
    | some p9 =>
    obtain ⟨y1, i9⟩ := p9
    rw [h9] at h
    simp only [Option.some.injEq, Prod.mk.injEq] at h
    obtain ⟨rfl, rfl, rfl, rfl⟩ := h
    rw [scanInt_of_SkipSpace h0] at h1
    rw [scanInt_of_SkipSpace h5] at h6
    rw [scanInt_of_SkipSpace h8] at h9
    exact ⟨i1, i2, i3, i4, i6, i7, i9, h1, h2, h3, h4, h6, h7, h9⟩
  · rintro ⟨i1, i2, i3, i4, i6, i7, i9, h1, h2, h3, h4, h6, h7, h9⟩
    obtain ⟨i0, h0⟩ := SkipSpace_of_scanInt h1
    obtain ⟨i5, h5⟩ := SkipSpace_of_scanInt h6
    obtain ⟨i8, h8⟩ := SkipSpace_of_scanInt h9
    rw [← scanInt_of_SkipSpace h0] at h1
    rw [← scanInt_of_SkipSpace h5] at h6
    rw [← scanInt_of_SkipSpace h8] at h9
    unfold SscanfShip
    rw [h0]
    simp only [h1, h2, h3, h4, h5, h6, h7, h8, h9]

/-- `fmt.Sscanf(line, "%d %c %d %d", ...)` succeeds exactly on a line of the form
`ShipLine`, and stores the values of that form. -/
theorem SscanfShip_iff (line : String) (size : Int) (d : Char) (x y : Int) :
    SscanfShip line = some (size, d, x, y) ↔ ShipLine line.data size d x y := by
  rw [SscanfShip_steps]
  unfold ShipLine
  constructor
  · rintro ⟨i1, i2, i3, i4, i6, i7, i9, h1, h2, h3, h4, h6, h7, h9⟩
    have e1 := (scanInt_iff (by norm_num) _ _ _).1 h1
    have e6 := (scanInt_iff (by norm_num) _ _ _).1 h6
    have e9 := (scanInt_iff (by norm_num) _ _ _).1 h9
    cases i2 with
    | nil => cases h3
    | cons c i3a =>
      simp only [scanRune, Option.some.injEq, Prod.mk.injEq] at h3
      obtain ⟨rfl, rfl⟩ := h3
      rcases (advance_iff _ _).1 h2 with ⟨_, hc⟩ | b2
      · cases hc
      rcases (advance_iff _ _).1 h4 with ⟨_, rfl⟩ | b4
      · unfold scanInt at h6
        simp [SkipSpace] at h6
      rcases (advance_iff _ _).1 h7 with ⟨_, rfl⟩ | b7
      · unfold scanInt at h9
        simp [SkipSpace] at h9
      exact ⟨i1, i3a, i4, i6, i7, i9, e1, b2, b4, e6, b7, e9⟩
  · rintro ⟨r1, r3, r4, r5, r6, r7, e1, b2, b4, e6, b7, e9⟩
    exact ⟨r1, d :: r3, r3, r4, r5, r6, r7, (scanInt_iff (by norm_num) _ _ _).2 e1,
      (advance_iff _ _).2 (Or.inr b2), rfl, (advance_iff _ _).2 (Or.inr b4),
      (scanInt_iff (by norm_num) _ _ _).2 e6, (advance_iff _ _).2 (Or.inr b7),
      (scanInt_iff (by norm_num) _ _ _).2 e9⟩

/-! ## The configuration request and the replies `fmt.Sscanf` accepts -/

/-- The scan of `scanningFmt` is `SscanfInt`. -/
theorem scanningFmt_Sscan1 (s : String) (v : Int) :
    scanningFmt.Sscan1 s = Except.ok v ↔ SscanfInt s = some v := by
  show (match SscanfInt s with
    | some v => Except.ok v
    | none => Except.error "expected integer") = Except.ok v ↔ _
  cases SscanfInt s with
  | none => simp
  | some w => simp

/-- C27 (counterexample): a master that answers `get width` with `1x`, which is not a decimal
integer, and is honest otherwise. `fmt.Sscanf` with `%d` reads the reply as 1 and ignores
the `x`: `RequestConfiguration` returns no error, with the configuration of the 1x1 field,
and `Judge` returns the verdict of a match won by the slave with reason `OK`, not `RE`. -/
theorem RequestConfiguration_accepts_trailing_text :
    SscanfInt "1x" = some 1
      ∧ ({ master := Player.real (repliesAt "get width" "1x")
              ["create master", "set strategy custom"],
            slave := Player.real honestPlayer ["create slave", "set strategy custom"],
            masterField := none, slaveField := none,
            conf := ⟨0, 0, ⟨0, 0, 0, 0⟩⟩ } : round).RequestConfiguration scanningFmt
        = Run.done (
            { master := Player.real (repliesAt "get width" "1x")
                ["create master", "set strategy custom", "get width", "get height",
                  "get count 1", "get count 2", "get count 3", "get count 4"],
              slave := Player.real honestPlayer ["create slave", "set strategy custom"],
              masterField := none, slaveField := none, conf := ⟨1, 1, ⟨1, 0, 0, 0⟩⟩ }, none)
      ∧ Judge scanningFmt 5 (fun _ => repliesAt "get width" "1x") (fun _ => honestPlayer)
        = Run.done ⟨Result.SlaveWon, Reason.Ok, ""⟩ := by
  refine ⟨by decide, by rfl, by rfl⟩


/-- C27 (amended): `round.RequestConfiguration` asks the master for the six keys `width`,
`height`, `count 1`, `count 2`, `count 3`, `count 4` in that order, as `get <key>`, and
stores the values in `W`, `H` and `Sizes[0..3]`. The scan of a reply being
`fmt.Sscanf(resp, "%d", &v)`, it succeeds with `v` exactly when the reply starts, after
optional blanks, with an optionally signed run of decimal digits of value `v` in the range
of an `int64`; the text after the digits is ignored. A master given by its behaviour whose
six replies start with an integer has received exactly the six commands, the configuration
holds the six values, and the call returns the error of `IsValid` attributed to the master
when the configuration is invalid and no error otherwise. When the replies before some key
start with an integer and the reply to that key does not, the call returns an error
`failed to get configuration` attributed to the master. When both players have answered
their initialisation with `ok` and `RequestConfiguration` fails in one of these two ways,
`Judge` returns the verdict with the slave as winner and reason `RE`. -/
theorem RequestConfiguration_scans (fm : Fmt)
    (hfm : ∀ (s : String) (v : Int), fm.Sscan1 s = Except.ok v ↔ SscanfInt s = some v) :
    confParams.map (fun p => p.1)
        = ["width", "height", "count 1", "count 2", "count 3", "count 4"]
      ∧ (∀ (c : Configuration) (v : Int),
          confParams.map (fun p => p.2.1 c v)
            = [⟨v, c.H, c.Sizes⟩, ⟨c.W, v, c.Sizes⟩,
               ⟨c.W, c.H, ⟨v, c.Sizes.c1, c.Sizes.c2, c.Sizes.c3⟩⟩,
               ⟨c.W, c.H, ⟨c.Sizes.c0, v, c.Sizes.c2, c.Sizes.c3⟩⟩,
               ⟨c.W, c.H, ⟨c.Sizes.c0, c.Sizes.c1, v, c.Sizes.c3⟩⟩,
               ⟨c.W, c.H, ⟨c.Sizes.c0, c.Sizes.c1, c.Sizes.c2, v⟩⟩])
      ∧ (∀ (s : String) (v : Int), fm.Sscan1 s = Except.ok v ↔ StartsWithInteger s v)
      ∧ (∀ (r : round) (b : Behaviour) (sent : List String) (w h c1 c2 c3 c4 : Int)
          (tw th t1 t2 t3 t4 : String),
          r.master = Player.real b sent →
          b.SendCommand (sent ++ ["get width"]) = (tw, none) →
          StartsWithInteger tw w →
          b.SendCommand (sent ++ ["get width", "get height"]) = (th, none) →
          StartsWithInteger th h →
          b.SendCommand (sent ++ ["get width", "get height", "get count 1"]) = (t1, none) →
          StartsWithInteger t1 c1 →
          b.SendCommand (sent ++ ["get width", "get height", "get count 1", "get count 2"])
            = (t2, none) →
          StartsWithInteger t2 c2 →
          b.SendCommand (sent ++ ["get width", "get height", "get count 1", "get count 2",
            "get count 3"]) = (t3, none) →
          StartsWithInteger t3 c3 →
          b.SendCommand (sent ++ ["get width", "get height", "get count 1", "get count 2",
            "get count 3", "get count 4"]) = (t4, none) →
          StartsWithInteger t4 c4 →
            ((⟨w, h, ⟨c1, c2, c3, c4⟩⟩ : Configuration).IsValid fm = none →
              r.RequestConfiguration fm
                = Run.done ({ r with
                    master := Player.real b (sent ++ ["get width", "get height",
                      "get count 1", "get count 2", "get count 3", "get count 4"])
                    conf := ⟨w, h, ⟨c1, c2, c3, c4⟩⟩ }, none))
            ∧ (∀ err, (⟨w, h, ⟨c1, c2, c3, c4⟩⟩ : Configuration).IsValid fm = some err →
              r.RequestConfiguration fm
                = Run.done ({ r with
                    master := Player.real b (sent ++ ["get width", "get height",
                      "get count 1", "get count 2", "get count 3", "get count 4"])
                    conf := ⟨w, h, ⟨c1, c2, c3, c4⟩⟩ },
                    some (failedAs Role.RoleMaster
                      (GoError.wrap "invalid configuration: " err)))))
      ∧ (∀ (pre rest : List (String × (Configuration → Int → Configuration)
            × (Configuration → Int)))
          (arg : String × (Configuration → Int → Configuration) × (Configuration → Int))
          (r r1 r2 : round) (resp : String),
          confParams = pre ++ arg :: rest →
          r.requestLoop fm pre = Run.done (r1, none) →
          r1.SendCommand fm Role.RoleMaster ("get " ++ arg.1) = Run.done (r2, resp, none) →
          (∀ v, ¬ StartsWithInteger resp v) →
            ∃ text, r.RequestConfiguration fm
              = Run.done (r2, some (failedAs Role.RoleMaster
                  (GoError.wrap "failed to get configuration: " (GoError.plain text)))))
      ∧ (∀ (fuel : Nat) (master slave : PlayerFactory) (r1 r2 r3 : round) (e : roleError),
          (newRound (Player.real (master 0) []) (Player.real (slave 0) [])).InitPlayer fm
            Role.RoleMaster = Run.done (r1, none) →
          r1.InitPlayer fm Role.RoleSlave = Run.done (r2, none) →
          r2.RequestConfiguration fm = Run.done (r3, some e) →
          ((∃ text, e.Err = GoError.wrap "failed to get configuration: " (GoError.plain text))
            ∨ (∃ err, r3.conf.IsValid fm = some err
                ∧ e.Err = GoError.wrap "invalid configuration: " err)) →
            e.Role = Role.RoleMaster
              ∧ Judge fm fuel master slave
                = Run.done ⟨Result.SlaveWon, Reason.RuntimeError, e.Err.Error⟩) := by
  have hscan : ∀ (s : String) (v : Int), fm.Sscan1 s = Except.ok v ↔ StartsWithInteger s v :=
    fun s v => (hfm s v).trans (SscanfInt_iff s v)
  refine ⟨rfl, fun _ _ => rfl, hscan, ?_, ?_, ?_⟩
  · intro r b sent w h c1 c2 c3 c4 tw th t1 t2 t3 t4 hp aw sw ah sh a1 s1 a2 s2 a3 s3 a4 s4
    have hl := requestLoop_real hp aw ((hscan _ _).2 sw) ah ((hscan _ _).2 sh)
      a1 ((hscan _ _).2 s1) a2 ((hscan _ _).2 s2) a3 ((hscan _ _).2 s3) a4 ((hscan _ _).2 s4)
    constructor
    · intro hv
      unfold round.RequestConfiguration
      rw [hl]
      simp only [hv]
    · intro err hv
      unfold round.RequestConfiguration
      rw [hl]
      simp only [hv]
  · intro pre rest arg r r1 r2 resp hc h1 h2 hno
    cases h3 : fm.Sscan1 resp with
    | ok v => exact absurd ((hscan _ _).1 h3) (hno v)
    | error text =>
      refine ⟨text, ?_⟩
      have hl : r.requestLoop fm confParams
          = Run.done (r2, some (failedAs Role.RoleMaster
              (GoError.wrap "failed to get configuration: " (GoError.plain text)))) := by
        rw [hc, requestLoop_append fm pre (arg :: rest) r r1 h1]
        unfold round.requestLoop
        rw [h2]
        simp only [h3]
      unfold round.RequestConfiguration
      rw [hl]
  · intro fuel master slave r1 r2 r3 e h1 h2 h3 hk
    have hrole : e.Role = Role.RoleMaster := ((RequestConfiguration_frame h3).2.2.2 e rfl).1
    have hj : (newRound (Player.real (master 0) []) (Player.real (slave 0) [])).Judge fm fuel
        = Run.done (r3, e) := by
      unfold round.Judge
      rw [h1]
      simp only [h2, h3]
    have hend : roundEnd ((newRound (Player.real (master 0) [])
        (Player.real (slave 0) [])).Judge fm fuel)
        = some (r3.fieldByRole Role.RoleMaster, r3.conf, ⟨e.Role, e.Err⟩) := by
      rw [hj]
      rfl
    have hsent : ∀ target : GoError, (∀ t c, target ≠ GoError.wrap t c) →
        (∀ t, target ≠ GoError.plain t) → errorsIs (some e.Err) target = false := by
      intro target hw hp
      rcases hk with ⟨text, ht⟩ | ⟨err, hv, ht⟩
      · rw [ht]
        exact errorsIs_wrap_plain _ _ target hw hp
      · obtain ⟨t, rfl⟩ := IsValid_error_plain hv
        rw [ht]
        exact errorsIs_wrap_plain _ _ target hw hp
    have hv := Judge_of_round_error hend
      (hsent _ (by intro t c hc; cases hc) (by intro t hc; cases hc))
      (hsent _ (by intro t c hc; cases hc) (by intro t hc; cases hc))
      (hsent _ (by intro t c hc; cases hc) (by intro t hc; cases hc))
      (hsent _ (by intro t c hc; cases hc) (by intro t hc; cases hc))
      (hsent _ (by intro t c hc; cases hc) (by intro t hc; cases hc))
    rw [hrole] at hv
    exact ⟨hrole, hv⟩

/-- C27 witness: scenario E1, a master that answers `get width` with `nope` against an
honest slave: the reply does not start with an integer, `RequestConfiguration` fails and
`Judge` gives the slave as winner with reason `RE`; and the six requests to an honest
master. -/
theorem RequestConfiguration_scans_witness :
    (∃ text, ({ master := Player.real (repliesAt "get width" "nope")
                  ["create master", "set strategy custom"],
                slave := Player.real honestPlayer ["create slave", "set strategy custom"],
                masterField := none, slaveField := none,
                conf := ⟨0, 0, ⟨0, 0, 0, 0⟩⟩ } : round).RequestConfiguration scanningFmt
        = Run.done (
            { master := Player.real (repliesAt "get width" "nope")
                ["create master", "set strategy custom", "get width"],
              slave := Player.real honestPlayer ["create slave", "set strategy custom"],
              masterField := none, slaveField := none, conf := ⟨0, 0, ⟨0, 0, 0, 0⟩⟩ },
            some (failedAs Role.RoleMaster
              (GoError.wrap "failed to get configuration: " (GoError.plain text)))))
      ∧ Judge scanningFmt 5 (fun _ => repliesAt "get width" "nope") (fun _ => honestPlayer)
        = Run.done ⟨Result.SlaveWon, Reason.RuntimeError,
            "failed to get configuration: expected integer"⟩
      ∧ (newRound (Player.real honestPlayer []) (Player.real honestPlayer
          [])).RequestConfiguration scanningFmt
        = Run.done (
            { master := Player.real honestPlayer ["get width", "get height", "get count 1",
                "get count 2", "get count 3", "get count 4"],
              slave := Player.real honestPlayer [],
              masterField := none, slaveField := none, conf := ⟨1, 1, ⟨1, 0, 0, 0⟩⟩ }, none) :=
  ⟨(RequestConfiguration_scans scanningFmt scanningFmt_Sscan1).2.2.2.2.1 [] _ _ _ _ _ "nope"
      rfl rfl rfl
      (fun v hv => Option.some_ne_none v
        (((SscanfInt_iff "nope" v).2 hv).symm.trans
          (show SscanfInt "nope" = none from by decide))),
    ((RequestConfiguration_scans scanningFmt scanningFmt_Sscan1).2.2.2.2.2 5
      (fun _ => repliesAt "get width" "nope")
      (fun _ => honestPlayer)
      { master := Player.real (repliesAt "get width" "nope")
          ["create master", "set strategy custom"],
        slave := Player.real honestPlayer [],
        masterField := none, slaveField := none, conf := ⟨0, 0, ⟨0, 0, 0, 0⟩⟩ }
      { master := Player.real (repliesAt "get width" "nope")
          ["create master", "set strategy custom"],
        slave := Player.real honestPlayer ["create slave", "set strategy custom"],
        masterField := none, slaveField := none, conf := ⟨0, 0, ⟨0, 0, 0, 0⟩⟩ }
      { master := Player.real (repliesAt "get width" "nope")
          ["create master", "set strategy custom", "get width"],
        slave := Player.real honestPlayer ["create slave", "set strategy custom"],
        masterField := none, slaveField := none, conf := ⟨0, 0, ⟨0, 0, 0, 0⟩⟩ }
      (failedAs Role.RoleMaster
        (GoError.wrap "failed to get configuration: " (GoError.plain "expected integer")))
      rfl rfl rfl (Or.inl ⟨"expected integer", rfl⟩)).2,
    ((RequestConfiguration_scans scanningFmt scanningFmt_Sscan1).2.2.2.1
      (newRound (Player.real honestPlayer []) (Player.real honestPlayer []))
      honestPlayer [] 1 1 1 0 0 0 "1" "1" "1" "0" "0" "0"
      rfl rfl
      (((RequestConfiguration_scans scanningFmt scanningFmt_Sscan1).2.2.1 "1" 1).1 rfl)
      rfl
      (((RequestConfiguration_scans scanningFmt scanningFmt_Sscan1).2.2.1 "1" 1).1 rfl)
      rfl
      (((RequestConfiguration_scans scanningFmt scanningFmt_Sscan1).2.2.1 "1" 1).1 rfl)
      rfl
      (((RequestConfiguration_scans scanningFmt scanningFmt_Sscan1).2.2.1 "0" 0).1 rfl)
      rfl
      (((RequestConfiguration_scans scanningFmt scanningFmt_Sscan1).2.2.1 "0" 0).1 rfl)
      rfl
      (((RequestConfiguration_scans scanningFmt scanningFmt_Sscan1).2.2.1 "0" 0).1 rfl)).1
        rfl⟩

/-! ## The ship dump and the lines `fmt.Sscanf` accepts -/

/-- C29 (counterexample): the dump `6 6`, `1 v 0 0 junk`, `1 h 2 2`. The second line is not
of the form `<size> <v|h> <x> <y>`, yet `fmt.Sscanf` reads four values from it and ignores
the rest: `ParseShips` produces a ship from it and one from the line after it. And in the
dump `6 6`, `300 v 0 0`, `1 h 2 2` the second line has that form, yet 300 does not fit the
`int8` size, the scan fails and the sequence ends there. -/
theorem ParseShips_line_with_trailing_text :
    SscanfShip "1 v 0 0 junk" = some (1, 'v', 0, 0)
      ∧ ParseShips SscanfShip ["6 6", "1 v 0 0 junk", "1 h 2 2"]
        = [⟨0, 0, 1, true⟩, ⟨2, 2, 1, false⟩]
      ∧ SscanfShip "300 v 0 0" = none
      ∧ ParseShips SscanfShip ["6 6", "300 v 0 0", "1 h 2 2"] = [] := by
  decide

/-- C29 (amended): for every source, the sequence `ParseShips` produces is the ships of the
longest run of accepted lines that starts at the second line, in order; the first line plays
no part, and nothing after the first line that is not accepted does either. A line is
accepted when `fmt.Sscanf` reads it as `%d %c %d %d` and the direction is `v` or `h`, that
is when it consists of optional blanks, an integer size within -128..127, blanks, the rune
`v` or `h`, blanks, an integer `x`, blanks and an integer `y`, both within the `int64`
range, followed by any text that does not continue the digits of `y`; its ship has that
size, `x` and `y`, and `IsVert` true for `v` and false for `h`. -/
theorem ParseShips_accepted_run (src : List String) :
    ParseShips SscanfShip src
        = ((src.drop 1).takeWhile (WellFormedLine SscanfShip)).map (shipOfLine SscanfShip)
      ∧ (∀ (first other : String) (rest : List String),
          ParseShips SscanfShip (first :: rest) = ParseShips SscanfShip (other :: rest))
      ∧ (∀ (first : String) (good : List String) (bad : String) (rest : List String),
          (∀ l ∈ good, WellFormedLine SscanfShip l = true) →
          WellFormedLine SscanfShip bad = false →
          ParseShips SscanfShip (first :: (good ++ bad :: rest))
            = good.map (shipOfLine SscanfShip))
      ∧ (∀ (first : String) (good : List String),
          (∀ l ∈ good, WellFormedLine SscanfShip l = true) →
          ParseShips SscanfShip (first :: good) = good.map (shipOfLine SscanfShip))
      ∧ (∀ line : String, WellFormedLine SscanfShip line = true ↔
          ∃ (size : Int) (d : Char) (x y : Int),
            ShipLine line.data size d x y ∧ (d = 'v' ∨ d = 'h'))
      ∧ (∀ (line : String) (size x y : Int),
          (ShipLine line.data size 'v' x y → shipOfLine SscanfShip line = ⟨x, y, size, true⟩)
          ∧ (ShipLine line.data size 'h' x y →
              shipOfLine SscanfShip line = ⟨x, y, size, false⟩)) := by
  refine ⟨parseLines_eq SscanfShip _, fun _ _ _ => rfl, ?_, ?_, ?_, ?_⟩
  · intro first good bad rest hgood hbad
    unfold ParseShips
    rw [parseLines_eq]
    simp only [List.drop_succ_cons, List.drop_zero]
    rw [List.takeWhile_append_of_pos hgood]
    simp only [List.takeWhile, hbad, List.append_nil]
  · intro first good hgood
    unfold ParseShips
    rw [parseLines_eq]
    simp only [List.drop_succ_cons, List.drop_zero]
    rw [List.takeWhile_eq_self_iff.2 hgood]
  · intro line
    constructor
    · intro h
      unfold WellFormedLine at h
      cases hs : SscanfShip line with
      | none =>
        rw [hs] at h
        cases h
      | some p =>
        obtain ⟨size, d, x, y⟩ := p
        rw [hs] at h
        simp only [Bool.or_eq_true, decide_eq_true_eq] at h
        exact ⟨size, d, x, y, (SscanfShip_iff line size d x y).1 hs, h⟩
    · rintro ⟨size, d, x, y, hl, hd⟩
      have hs := (SscanfShip_iff line size d x y).2 hl
      unfold WellFormedLine
      rw [hs]
      simp only [Bool.or_eq_true, decide_eq_true_eq]
      exact hd
  · intro line size x y
    constructor
    · intro hl
      have hs := (SscanfShip_iff line size 'v' x y).2 hl
      simp [shipOfLine, hs]
    · intro hl
      have hs := (SscanfShip_iff line size 'h' x y).2 hl
      simp [shipOfLine, hs]

/-- C29 witness: a dump with a header, two ship lines (the second with text after `y`), a
line that is not accepted and one more ship line; only the first two ships are produced. -/
theorem ParseShips_accepted_run_witness :
    ParseShips SscanfShip ["5 5", "1 v 0 0", "2 h 2 2 end", "oops", "1 v 0 0"]
      = [⟨0, 0, 1, true⟩, ⟨2, 2, 2, false⟩] :=
  ((ParseShips_accepted_run ["5 5", "1 v 0 0", "2 h 2 2 end", "oops", "1 v 0 0"]).2.2.1
    "5 5" ["1 v 0 0", "2 h 2 2 end"] "oops" ["1 v 0 0"] (by decide) (by decide)).trans
    (by decide)

end Field
